import Mathlib

/-!
# The Cogl draw-call journal (`cogl/cogl-journal.c`)

A shallow embedding of the journal: entries are logged into batches
(`_cogl_journal_log_quad`, `_cogl_journal_add_entry_to_batch`), walked with
iterators (`_cogl_journal_iterator_next`, `_cogl_journal_iterator_previous`),
grouped into runs (`batch_and_call`) and scanned backwards by the fast pixel
read (`_cogl_journal_try_read_pixel`).

Conventions of the embedding

* `float` is `ℚ`: all arithmetic is exact.  `x / 0` is `0` in `ℚ`, where the C
  code would produce an infinity or a NaN.
* `int` is `ℤ`, `gsize`/`size_t` is `ℕ`, `guint8` is `Fin 256`.
* A pointer to a journal entry is the pair (batch index, position inside the
  batch's list); `NULL` is `none`.  A function that would dereference `NULL`
  or a pointer to no live entry returns `none`.
* The pipeline and the loose region are collaborators whose code is not part of
  `cogl-journal.c`; they are type parameters `P` and `R`, and the operations
  the journal calls on them are fields of `Collaborators`.
-/

namespace Cogl

/-! ## Plain data -/

/-- Modelled from the spec: `CoglMatrix` (declared in cogl-matrix.h, absent
here), a 4x4 matrix of floats stored column by column, with the field names
used by `calculate_translation`. -/
structure CoglMatrix where
  xx : ℚ
  yx : ℚ
  zx : ℚ
  wx : ℚ
  xy : ℚ
  yy : ℚ
  zy : ℚ
  wy : ℚ
  xz : ℚ
  yz : ℚ
  zz : ℚ
  wz : ℚ
  xw : ℚ
  yw : ℚ
  zw : ℚ
  ww : ℚ
deriving DecidableEq, Repr

/-- Four floats: `float position[4]` (x0, y0, x2, y2) and `float viewport[4]`
(origin x, origin y, width, height). -/
structure Float4 where
  f0 : ℚ
  f1 : ℚ
  f2 : ℚ
  f3 : ℚ
deriving DecidableEq, Repr

/-- One vertex of `float transformed_verts[12]`: three floats. -/
structure Vertex3 where
  x : ℚ
  y : ℚ
  z : ℚ
deriving DecidableEq, Repr

/-- The array `float transformed_verts[12]`: four vertices of three floats. -/
structure Verts where
  v0 : Vertex3
  v1 : Vertex3
  v2 : Vertex3
  v3 : Vertex3
deriving DecidableEq, Repr

/-- One point of `float poly[16]`: x, y, z, w. -/
structure PolyPoint where
  x : ℚ
  y : ℚ
  z : ℚ
  w : ℚ
deriving DecidableEq, Repr

/-- The array `float poly[16]`: four points of four floats. -/
structure Poly where
  p0 : PolyPoint
  p1 : PolyPoint
  p2 : PolyPoint
  p3 : PolyPoint
deriving DecidableEq, Repr

/-- The array `guint8 color[4]`. -/
structure ColorUB where
  r : Fin 256
  g : Fin 256
  b : Fin 256
  a : Fin 256
deriving DecidableEq, Repr

/-- Modelled from the spec: `CoglLooseRegionRectangle` (its header is absent),
the box `x_1 <= x <= x_2`, `y_1 <= y <= y_2` with the field names used in
`_cogl_journal_add_entry_to_batch`. -/
structure CoglLooseRegionRectangle where
  x_1 : ℚ
  y_1 : ℚ
  x_2 : ℚ
  y_2 : ℚ
deriving DecidableEq, Repr

/-- The struct `ClipBounds` of cogl-journal.c. -/
structure ClipBounds where
  x_1 : ℚ
  y_1 : ℚ
  x_2 : ℚ
  y_2 : ℚ
deriving DecidableEq, Repr

/-- Modelled from the spec: the `type` tag of a clip-stack node (declared in
cogl-clip-stack.h, absent here): a rectangle clip, a window-rectangle clip, or
another kind of clip. -/
inductive CoglClipStackType where
  | COGL_CLIP_STACK_RECT
  | COGL_CLIP_STACK_WINDOW_RECT
  | COGL_CLIP_STACK_PATH
deriving DecidableEq, Repr

/-- Modelled from the spec: one node of the clip stack (`CoglClipStack` and its
subtype `CoglClipStackRect`, declared in cogl-clip-stack.h, absent here), with
the fields cogl-journal.c reads.  `address` is the address of the node, the
value of a `CoglClipStack *` that points to it: two pushes of equal clips make
two nodes with different addresses.  The `parent` pointer is the tail of the
list that holds the node. -/
structure CoglClipStackNode where
  address : ℕ
  type : CoglClipStackType
  bounds_x0 : ℤ
  bounds_y0 : ℤ
  bounds_x1 : ℤ
  bounds_y1 : ℤ
  x0 : ℚ
  y0 : ℚ
  x1 : ℚ
  y1 : ℚ
  matrix : CoglMatrix
  can_be_scissor : Bool
deriving DecidableEq, Repr

/-- A `CoglClipStack *`: the chain of nodes from the top of the stack to the
root; `NULL` is the empty chain. -/
abbrev CoglClipStack := List CoglClipStackNode

/-- The value of a `CoglClipStack *` as a pointer: the address of the top node
of the chain, `none` for `NULL`. -/
def clip_stack_pointer (clip_stack : CoglClipStack) : Option ℕ :=
  clip_stack.head?.map (fun node => node.address)

/-- Modelled from the spec: `CoglJournalEntry` (declared in
cogl-journal-private.h, absent here) with the fields cogl-journal.c uses.
`tex_coords` holds `4 * n_layers` floats. -/
structure CoglJournalEntry where
  position : Float4
  transformed_verts : Verts
  color : ColorUB
  n_layers : ℤ
  model_view : CoglMatrix
  clip_stack : CoglClipStack
  tex_coords : List ℚ
deriving DecidableEq, Repr

/-- Modelled from the spec: `CoglJournalBatch` (declared in
cogl-journal-private.h, absent here): the pipeline of the batch, its loose
region and the tail queue of its entries in insertion order. -/
structure CoglJournalBatch (P R : Type) where
  pipeline : P
  region : R
  entries : List CoglJournalEntry
deriving DecidableEq

/-- Modelled from the spec: `CoglJournal` (declared in cogl-journal-private.h,
absent here).  `vbo_pool` records the byte size of each pooled buffer (`none`
for a `NULL` slot). -/
structure CoglJournal (P R : Type) where
  batches : List (CoglJournalBatch P R)
  needed_vbo_len : ℕ
  fast_read_pixel_count : ℤ
  journal_len : ℕ
  vbo_pool : List (Option ℕ)
  next_vbo_in_pool : ℕ
deriving DecidableEq

/-- The struct `CoglJournalIter`: an entry pointer and a batch number. -/
structure CoglJournalIter where
  entry : Option ℕ
  batch_num : ℤ
deriving DecidableEq, Repr

/-- Modelled from the spec: `CoglPipelineFlushOptions` as filled in by
`_cogl_journal_log_quad`: the disable mask (when `COGL_PIPELINE_FLUSH_DISABLE_MASK`
is set) and whether a layer-0 override texture is given. -/
structure CoglPipelineFlushOptions where
  disable_layers : Option ℤ
  layer0_override : Bool
deriving DecidableEq, Repr

/-- The state of the draw framebuffer and of the context that a journal
function reads through `cogl_get_draw_framebuffer ()`, `cogl_get_modelview_matrix`
and `COGL_DEBUG_ENABLED`: modelview, projection, viewport, the top of the clip
stack, and the debug flag `COGL_DEBUG_DISABLE_SOFTWARE_TRANSFORM`. -/
structure DrawState where
  modelview : CoglMatrix
  projection : CoglMatrix
  viewport : Float4
  clip_stack : CoglClipStack
  disable_software_transform : Bool
deriving DecidableEq, Repr

/-- The functions of other Cogl modules that cogl-journal.c calls and whose code
is not in it, taken as parameters.

* `_cogl_pipeline_equal a b` is the call `_cogl_pipeline_equal (a, b,
  COGL_PIPELINE_STATE_ALL & ~COGL_PIPELINE_STATE_COLOR,
  COGL_PIPELINE_LAYER_STATE_ALL, 0)`.
* `rect_can_be_scissor_of_entry e` is the value read by
  `((CoglClipStackRect *) entry)->can_be_scissor` in
  `try_checking_point_hits_entry_after_clipping`, where `entry` is the journal
  entry (not the clip node): some function of the entry's memory. -/
structure Collaborators (P R : Type) where
  _cogl_pipeline_equal : P → P → Bool
  _cogl_pipeline_get_colorubv : P → ColorUB
  cogl_pipeline_get_n_layers : P → ℤ
  cogl_pipeline_get_user_program : P → Bool
  _cogl_pipeline_layer_has_user_matrix : P → ℤ → Bool
  _cogl_pipeline_apply_overrides : P → CoglPipelineFlushOptions → P
  opaque_color_pipeline : P
  _cogl_loose_region_init : R
  _cogl_loose_region_add_rectangle : R → CoglLooseRegionRectangle → R
  _cogl_loose_region_intersects : R → CoglLooseRegionRectangle → Bool
  cogl_matrix_transform_points : CoglMatrix → Verts → Verts
  cogl_matrix_project_points : CoglMatrix → Verts → Poly
  _cogl_util_point_in_screen_poly : ℚ → ℚ → Poly → Bool
  rect_can_be_scissor_of_entry : CoglJournalEntry → Bool

variable {P R : Type}

/-! ## Iterators -/

/-- The batch `g_array_index (journal->batches, CoglJournalBatch, n)`, `none`
when `n` is not an index of the array. -/
def batch_at (journal : CoglJournal P R) (n : ℤ) : Option (CoglJournalBatch P R) :=
  if n < 0 then none else journal.batches.get? n.toNat

/-- The entry `iter->entry` points to, `none` for `NULL` or a pointer to no
live entry of batch `iter->batch_num`. -/
def iter_entry (journal : CoglJournal P R) (iter : CoglJournalIter) :
    Option CoglJournalEntry :=
  match iter.entry, batch_at journal iter.batch_num with
  | some k, some batch => batch.entries.get? k
  | _, _ => none

/-- The macro `COGL_TAILQ_FIRST`: pointer to the first entry of a list, `NULL`
for the empty list. -/
def COGL_TAILQ_FIRST (entries : List CoglJournalEntry) : Option ℕ :=
  if entries.length = 0 then none else some 0

/-- The macro `COGL_TAILQ_LAST`: pointer to the last entry of a list, `NULL` for
the empty list. -/
def COGL_TAILQ_LAST (entries : List CoglJournalEntry) : Option ℕ :=
  if entries.length = 0 then none else some (entries.length - 1)

/-- The macro `COGL_TAILQ_NEXT` on the entry at position `k` of a list. -/
def COGL_TAILQ_NEXT (entries : List CoglJournalEntry) (k : ℕ) : Option ℕ :=
  if k + 1 < entries.length then some (k + 1) else none

/-- The macro `COGL_TAILQ_PREV` on the entry at position `k` of a list. -/
def COGL_TAILQ_PREV (_entries : List CoglJournalEntry) (k : ℕ) : Option ℕ :=
  if k = 0 then none else some (k - 1)

/-- The entries of the batch read by `g_array_index (journal->batches,
CoglJournalBatch, n)` in an iterator function.  Past the end of the array the C
code reads a slot that holds no live list: the model takes it as empty. -/
def batch_entries_at (journal : CoglJournal P R) (n : ℤ) : List CoglJournalEntry :=
  match batch_at journal n with
  | some batch => batch.entries
  | none => []

/-- The function `_cogl_journal_iterator_init`. -/
def _cogl_journal_iterator_init (journal : CoglJournal P R) : CoglJournalIter :=
  { batch_num := 0, entry := COGL_TAILQ_FIRST (batch_entries_at journal 0) }

/-- The function `_cogl_journal_iterator_next`; `none` when `iter->entry` cannot
be dereferenced. -/
def _cogl_journal_iterator_next (journal : CoglJournal P R) (iter : CoglJournalIter) :
    Option CoglJournalIter :=
  match iter.entry, iter_entry journal iter with
  | some k, some _ =>
    match COGL_TAILQ_NEXT (batch_entries_at journal iter.batch_num) k with
    | some k' => some { iter with entry := some k' }
    | none =>
      some { batch_num := iter.batch_num + 1,
             entry := COGL_TAILQ_FIRST (batch_entries_at journal (iter.batch_num + 1)) }
  | _, _ => none

/-- The function `_cogl_journal_iterator_init_reverse`. -/
def _cogl_journal_iterator_init_reverse (journal : CoglJournal P R) : CoglJournalIter :=
  { batch_num := (journal.batches.length : ℤ) - 1,
    entry := COGL_TAILQ_LAST (batch_entries_at journal ((journal.batches.length : ℤ) - 1)) }

/-- The function `_cogl_journal_iterator_previous`; `none` when `iter->entry`
cannot be dereferenced. -/
def _cogl_journal_iterator_previous (journal : CoglJournal P R) (iter : CoglJournalIter) :
    Option CoglJournalIter :=
  match iter.entry, iter_entry journal iter with
  | some k, some _ =>
    match COGL_TAILQ_PREV (batch_entries_at journal iter.batch_num) k with
    | some k' => some { iter with entry := some k' }
    | none =>
      if iter.batch_num - 1 < 0 then
        some { batch_num := iter.batch_num - 1, entry := none }
      else
        some { batch_num := iter.batch_num - 1,
               entry := COGL_TAILQ_LAST (batch_entries_at journal (iter.batch_num - 1)) }
  | _, _ => none

/-! ## `batch_and_call` -/

/-- The `for` loop of `batch_and_call` with `fuel = n_entries - i` iterations
left; the result is the list of `batch_callback` invocations (start iterator,
length) in call order, the one after the loop included. -/
def batch_and_call_loop (journal : CoglJournal P R)
    (can_batch_callback : CoglJournalIter → CoglJournalIter → Bool) :
    ℕ → CoglJournalIter → CoglJournalIter → ℤ → Option (List (CoglJournalIter × ℤ))
  | 0, batch_start, _, batch_len => some [(batch_start, batch_len)]
  | fuel + 1, batch_start, prev_iter, batch_len =>
    match _cogl_journal_iterator_next journal prev_iter with
    | none => none
    | some next_iter =>
      if can_batch_callback prev_iter next_iter then
        batch_and_call_loop journal can_batch_callback fuel batch_start next_iter (batch_len + 1)
      else
        (batch_and_call_loop journal can_batch_callback fuel next_iter next_iter 1).map
          (fun calls => (batch_start, batch_len) :: calls)

/-- The function `batch_and_call`: the list of `batch_callback` invocations it
makes, as (start iterator, run length) pairs in call order; `none` when the walk
dereferences an iterator that points to no entry. -/
def batch_and_call (journal : CoglJournal P R) (iter_in : CoglJournalIter) (n_entries : ℤ)
    (can_batch_callback : CoglJournalIter → CoglJournalIter → Bool) :
    Option (List (CoglJournalIter × ℤ)) :=
  if n_entries < 1 then some []
  else batch_and_call_loop journal can_batch_callback (n_entries - 1).toNat iter_in iter_in 1

/-- The function `compare_entry_pipelines`: two entries are in the same batch. -/
def compare_entry_pipelines (iter0 iter1 : CoglJournalIter) : Bool :=
  decide (iter0.batch_num = iter1.batch_num)

/-! ## Logging an entry -/

/-- The macro `VIEWPORT_TRANSFORM_X` of `entry_to_screen_polygon`. -/
def VIEWPORT_TRANSFORM_X (x vp_origin_x vp_width : ℚ) : ℚ :=
  ((x + 1) * (vp_width / 2)) + vp_origin_x

/-- The macro `VIEWPORT_TRANSFORM_Y` of `entry_to_screen_polygon`. -/
def VIEWPORT_TRANSFORM_Y (y vp_origin_y vp_height : ℚ) : ℚ :=
  (((-y) + 1) * (vp_height / 2)) + vp_origin_y

/-- The body of the last loop of `entry_to_screen_polygon` on one point:
perspective division, then the viewport transform of x and y. -/
def screen_point (viewport : Float4) (pt : PolyPoint) : PolyPoint :=
  { pt with
    x := VIEWPORT_TRANSFORM_X (pt.x / pt.w) viewport.f0 viewport.f2
    y := VIEWPORT_TRANSFORM_Y (pt.y / pt.w) viewport.f1 viewport.f3 }

/-- The function `entry_to_screen_polygon`: the projection of the draw
framebuffer applied to the transformed vertices, then `screen_point` on each of
the four points. -/
def entry_to_screen_polygon (c : Collaborators P R) (ds : DrawState)
    (entry : CoglJournalEntry) : Poly :=
  let poly := c.cogl_matrix_project_points ds.projection entry.transformed_verts
  { p0 := screen_point ds.viewport poly.p0
    p1 := screen_point ds.viewport poly.p1
    p2 := screen_point ds.viewport poly.p2
    p3 := screen_point ds.viewport poly.p3 }

/-- The function `_cogl_journal_calculate_transformed_vertices`. -/
def _cogl_journal_calculate_transformed_vertices (c : Collaborators P R)
    (entry : CoglJournalEntry) : CoglJournalEntry :=
  { entry with
    transformed_verts := c.cogl_matrix_transform_points entry.model_view
      { v0 := { x := entry.position.f0, y := entry.position.f1, z := 0 }
        v1 := { x := entry.position.f0, y := entry.position.f3, z := 0 }
        v2 := { x := entry.position.f2, y := entry.position.f3, z := 0 }
        v3 := { x := entry.position.f2, y := entry.position.f1, z := 0 } } }

/-- The body of the bounding-box loop of `_cogl_journal_add_entry_to_batch` for
one point of the polygon. -/
def bounds_add_point (bounds : CoglLooseRegionRectangle) (pt : PolyPoint) :
    CoglLooseRegionRectangle :=
  let b1 := if pt.x < bounds.x_1 then { bounds with x_1 := pt.x } else bounds
  let b2 := if pt.y < b1.y_1 then { b1 with y_1 := pt.y } else b1
  let b3 := if pt.x > b2.x_2 then { b2 with x_2 := pt.x } else b2
  if pt.y > b3.y_2 then { b3 with y_2 := pt.y } else b3

/-- The screen-space bounding box computed at the top of
`_cogl_journal_add_entry_to_batch`. -/
def entry_bounds (c : Collaborators P R) (ds : DrawState) (entry : CoglJournalEntry) :
    CoglLooseRegionRectangle :=
  let poly := entry_to_screen_polygon c ds entry
  let bounds : CoglLooseRegionRectangle :=
    { x_1 := poly.p0.x, y_1 := poly.p0.y, x_2 := poly.p0.x, y_2 := poly.p0.y }
  bounds_add_point (bounds_add_point (bounds_add_point bounds poly.p1) poly.p2) poly.p3

/-- The backward search loop of `_cogl_journal_add_entry_to_batch`, entered with
`batch_index = n - 1`: `some k` when it leaves through `goto found_list` at batch
`k`, `none` when it leaves through `break` or runs out of batches. -/
def find_batch (c : Collaborators P R) (batches : List (CoglJournalBatch P R)) (pipeline : P)
    (bounds : CoglLooseRegionRectangle) : ℕ → Option ℕ
  | 0 => none
  | batch_index + 1 =>
    match batches.get? batch_index with
    | none => none
    | some batch =>
      if c._cogl_pipeline_equal batch.pipeline pipeline then some batch_index
      else if c._cogl_loose_region_intersects batch.region bounds then none
      else find_batch c batches pipeline bounds batch_index

/-- The function `_cogl_journal_add_entry_to_batch`. -/
def _cogl_journal_add_entry_to_batch (c : Collaborators P R) (ds : DrawState)
    (journal : CoglJournal P R) (pipeline : P) (entry : CoglJournalEntry) : CoglJournal P R :=
  let bounds := entry_bounds c ds entry
  match find_batch c journal.batches pipeline bounds journal.batches.length with
  | some batch_index =>
    match journal.batches.get? batch_index with
    | some batch =>
      { journal with
        batches := journal.batches.set batch_index
          { batch with
            region := c._cogl_loose_region_add_rectangle batch.region bounds
            entries := batch.entries ++ [entry] } }
    | none => journal
  | none =>
    { journal with
      batches := journal.batches ++
        [{ pipeline := pipeline
           region := c._cogl_loose_region_add_rectangle c._cogl_loose_region_init bounds
           entries := [entry] }] }

/-- The macro `POS_STRIDE`: 3 words with software transform, 2 without. -/
def POS_STRIDE (ds : DrawState) : ℤ := if ds.disable_software_transform then 2 else 3

/-- The macro `COLOR_STRIDE`. -/
def COLOR_STRIDE : ℤ := 1

/-- The macro `TEX_STRIDE`. -/
def TEX_STRIDE : ℤ := 2

/-- The macro `MIN_LAYER_PADING`. -/
def MIN_LAYER_PADING : ℤ := 2

/-- The macro `GET_JOURNAL_VB_STRIDE_FOR_N_LAYERS`, in 32-bit words. -/
def GET_JOURNAL_VB_STRIDE_FOR_N_LAYERS (ds : DrawState) (n_layers : ℤ) : ℤ :=
  POS_STRIDE ds + COLOR_STRIDE +
    TEX_STRIDE * (if n_layers < MIN_LAYER_PADING then MIN_LAYER_PADING else n_layers)

/-- The `flush_options` that `_cogl_journal_log_quad` builds, `none` when no flag
is set.  `disable_layers` is the `guint32` value `~((1 << n_layers) - 1)`. -/
def log_quad_flush_options (c : Collaborators P R) (pipeline : P) (n_layers : ℤ)
    (layer0_override_texture : Bool) : Option CoglPipelineFlushOptions :=
  let disable : Option ℤ :=
    if c.cogl_pipeline_get_n_layers pipeline ≠ n_layers then
      some ((2 ^ 32 - 1 : ℤ) - ((2 ^ n_layers.toNat - 1 : ℤ) % 2 ^ 32))
    else none
  if disable.isSome || layer0_override_texture then
    some { disable_layers := disable, layer0_override := layer0_override_texture }
  else none

/-- The entry that `_cogl_journal_log_quad` allocates and fills in, after
`_cogl_journal_calculate_transformed_vertices`.  `ds` is the state of the draw
framebuffer at the call: the entry snapshots its modelview and its clip stack. -/
def log_quad_entry (c : Collaborators P R) (ds : DrawState) (position : Float4) (pipeline : P)
    (n_layers : ℤ) (tex_coords : List ℚ) : CoglJournalEntry :=
  _cogl_journal_calculate_transformed_vertices c
    { position := position
      transformed_verts :=
        { v0 := { x := 0, y := 0, z := 0 }, v1 := { x := 0, y := 0, z := 0 },
          v2 := { x := 0, y := 0, z := 0 }, v3 := { x := 0, y := 0, z := 0 } }
      color := c._cogl_pipeline_get_colorubv pipeline
      n_layers := n_layers
      model_view := ds.modelview
      clip_stack := ds.clip_stack
      tex_coords := tex_coords.take (4 * n_layers).toNat }

/-- The pipeline `source` that `_cogl_journal_log_quad` passes to
`_cogl_journal_add_entry_to_batch`: the given pipeline, or a copy with the
overrides applied when a flag of `flush_options` is set. -/
def log_quad_source (c : Collaborators P R) (pipeline : P) (n_layers : ℤ)
    (layer0_override_texture : Bool) : P :=
  match log_quad_flush_options c pipeline n_layers layer0_override_texture with
  | some flush_options => c._cogl_pipeline_apply_overrides pipeline flush_options
  | none => pipeline

/-- The function `_cogl_journal_log_quad`, with `COGL_DEBUG_JOURNAL` and
`COGL_DEBUG_DISABLE_BATCHING` unset.  `ds` is the state of the draw framebuffer
at the call.  The framebuffer dependencies it registers are not journal state
and are left out. -/
def _cogl_journal_log_quad (c : Collaborators P R) (ds : DrawState) (journal : CoglJournal P R)
    (position : Float4) (pipeline : P) (n_layers : ℤ) (layer0_override_texture : Bool)
    (tex_coords : List ℚ) : CoglJournal P R :=
  let journal1 := { journal with
    needed_vbo_len := journal.needed_vbo_len +
      (GET_JOURNAL_VB_STRIDE_FOR_N_LAYERS ds n_layers * 4).toNat }
  let journal2 := _cogl_journal_add_entry_to_batch c ds journal1
    (log_quad_source c pipeline n_layers layer0_override_texture)
    (log_quad_entry c ds position pipeline n_layers tex_coords)
  { journal2 with journal_len := journal2.journal_len + 1 }

/-- Modelled from the spec: the constant `COGL_JOURNAL_VBO_POOL_SIZE` (declared
in cogl-journal-private.h, absent here), the size of the "small fixed-size pool
of recycled GPU vertex buffers". -/
def COGL_JOURNAL_VBO_POOL_SIZE : ℕ := 8

/-- The function `_cogl_journal_new`: a zeroed journal with an empty batch
array. -/
def _cogl_journal_new : CoglJournal P R :=
  { batches := []
    needed_vbo_len := 0
    fast_read_pixel_count := 0
    journal_len := 0
    vbo_pool := List.replicate COGL_JOURNAL_VBO_POOL_SIZE none
    next_vbo_in_pool := 0 }

/-- The function `_cogl_journal_discard`. -/
def _cogl_journal_discard (journal : CoglJournal P R) : CoglJournal P R :=
  { journal with
    batches := []
    needed_vbo_len := 0
    fast_read_pixel_count := 0
    journal_len := 0 }

/-! ## Software clipping -/

/-- The macro `APPROX_EQUAL` of `calculate_translation`: `fabsf (a - b) < 1e-6f`. -/
def APPROX_EQUAL (a b : ℚ) : Bool := decide (|a - b| < 1 / 1000000)

/-- The function `calculate_translation`: `some (tx, ty)` when it returns `TRUE`,
`none` when it returns `FALSE`. -/
def calculate_translation (a b : CoglMatrix) : Option (ℚ × ℚ) :=
  if a.xx ≠ b.xx ∨ a.xy ≠ b.xy ∨ a.xz ≠ b.xz ∨
      a.yx ≠ b.yx ∨ a.yy ≠ b.yy ∨ a.yz ≠ b.yz ∨
      a.zx ≠ b.zx ∨ a.zy ≠ b.zy ∨ a.zz ≠ b.zz ∨
      a.wx ≠ b.wx ∨ a.wy ≠ b.wy ∨ a.wz ≠ b.wz then none
  else
    let tx := ((a.xy * b.yw - a.yw * a.xy) / a.yy + a.xw - b.xw) /
      ((a.xy * a.yx) / a.yy - a.xx)
    let ty := (b.yw - a.yx * tx - a.yw) / a.yy
    if !APPROX_EQUAL b.xw (a.xx * tx + a.xy * ty + a.xw) ||
        !APPROX_EQUAL b.yw (a.yx * tx + a.yy * ty + a.yw) ||
        !APPROX_EQUAL b.zw (a.zx * tx + a.zy * ty + a.zw) ||
        !APPROX_EQUAL b.ww (a.wx * tx + a.wy * ty + a.ww) then none
    else some (tx, ty)

/-- The constant `G_MAXFLOAT` (`FLT_MAX`). -/
def G_MAXFLOAT : ℚ := 340282346638528859811704183484516925440

/-- The GLib macro `MAX`. -/
def MAX (a b : ℚ) : ℚ := if a > b then a else b

/-- The GLib macro `MIN`. -/
def MIN (a b : ℚ) : ℚ := if a < b then a else b

/-- The GLib macro `CLAMP`. -/
def CLAMP (x low high : ℚ) : ℚ := if x > high then high else if x < low then low else x

/-- The loop of `can_software_clip_entry` over the clip chain, `none` when it
returns `FALSE`. -/
def clip_chain_bounds (journal_entry : CoglJournalEntry) :
    CoglClipStack → ClipBounds → Option ClipBounds
  | [], bounds => some bounds
  | clip_rect :: parent, bounds =>
    match calculate_translation clip_rect.matrix journal_entry.model_view with
    | none => none
    | some (tx, ty) =>
      let rect_x1 := if clip_rect.x0 < clip_rect.x1 then clip_rect.x0 else clip_rect.x1
      let rect_x2 := if clip_rect.x0 < clip_rect.x1 then clip_rect.x1 else clip_rect.x0
      let rect_y1 := if clip_rect.y0 < clip_rect.y1 then clip_rect.y0 else clip_rect.y1
      let rect_y2 := if clip_rect.y0 < clip_rect.y1 then clip_rect.y1 else clip_rect.y0
      clip_chain_bounds journal_entry parent
        { x_1 := MAX bounds.x_1 (rect_x1 - tx)
          y_1 := MAX bounds.y_1 (rect_y1 - ty)
          x_2 := MIN bounds.x_2 (rect_x2 - tx)
          y_2 := MIN bounds.y_2 (rect_y2 - ty) }

/-- The function `can_software_clip_entry`: `some clip_bounds_out` when it
returns `TRUE`, `none` when it returns `FALSE`.  `prev_pipeline` is `none` for
`NULL`; pipelines are compared as values where the C code compares the
pointers. -/
def can_software_clip_entry [DecidableEq P] (c : Collaborators P R) (entry_pipeline : P)
    (journal_entry : CoglJournalEntry) (prev_pipeline : Option P)
    (clip_stack : CoglClipStack) : Option ClipBounds :=
  let unusable : Bool :=
    if prev_pipeline = none ∨ prev_pipeline ≠ some entry_pipeline then
      c.cogl_pipeline_get_user_program entry_pipeline ||
        (List.range (c.cogl_pipeline_get_n_layers entry_pipeline).toNat).any
          (fun layer_num => c._cogl_pipeline_layer_has_user_matrix entry_pipeline layer_num)
    else false
  if unusable then none
  else
    match clip_chain_bounds journal_entry clip_stack
        { x_1 := -G_MAXFLOAT, y_1 := -G_MAXFLOAT, x_2 := G_MAXFLOAT, y_2 := G_MAXFLOAT } with
    | none => none
    | some bounds =>
      if bounds.x_2 ≤ bounds.x_1 ∨ bounds.y_2 ≤ bounds.y_1 then
        some { x_1 := 0, y_1 := 0, x_2 := 0, y_2 := 0 }
      else some bounds

/-- The body of the texture-coordinate loop of `software_clip_entry` for layer
`layer_num`, on the array `tex_coords`. -/
def clip_tex_coords_layer (rx1 ry1 rx2 ry2 : ℚ) (tex_coords : List ℚ) (layer_num : ℕ) :
    List ℚ :=
  let tx1 := tex_coords.getD (layer_num * 4) 0
  let ty1 := tex_coords.getD (layer_num * 4 + 1) 0
  let tx2 := tex_coords.getD (layer_num * 4 + 2) 0
  let ty2 := tex_coords.getD (layer_num * 4 + 3) 0
  (((tex_coords.set (layer_num * 4) (rx1 * (tx2 - tx1) + tx1)).set
    (layer_num * 4 + 1) (ry1 * (ty2 - ty1) + ty1)).set
    (layer_num * 4 + 2) (rx2 * (tx2 - tx1) + tx1)).set
    (layer_num * 4 + 3) (ry2 * (ty2 - ty1) + ty1)

/-- The function `software_clip_entry`. -/
def software_clip_entry (c : Collaborators P R) (ds : DrawState)
    (journal_entry : CoglJournalEntry) (clip_bounds : ClipBounds) : CoglJournalEntry :=
  let entry1 := { journal_entry with clip_stack := [] }
  let vx1 := journal_entry.position.f0
  let vy1 := journal_entry.position.f1
  let vx2 := journal_entry.position.f2
  let vy2 := journal_entry.position.f3
  let rx1 := CLAMP (if vx1 < vx2 then vx1 else vx2) clip_bounds.x_1 clip_bounds.x_2
  let ry1 := CLAMP (if vy1 < vy2 then vy1 else vy2) clip_bounds.y_1 clip_bounds.y_2
  let rx2 := CLAMP (if vx1 < vx2 then vx2 else vx1) clip_bounds.x_1 clip_bounds.x_2
  let ry2 := CLAMP (if vy1 < vy2 then vy2 else vy1) clip_bounds.y_1 clip_bounds.y_2
  if rx1 = rx2 ∨ ry1 = ry2 then
    if ds.disable_software_transform then
      { entry1 with position := { f0 := 0, f1 := 0, f2 := 0, f3 := 0 } }
    else
      { entry1 with
        transformed_verts :=
          { v0 := { x := 0, y := 0, z := 0 }, v1 := { x := 0, y := 0, z := 0 },
            v2 := { x := 0, y := 0, z := 0 }, v3 := { x := 0, y := 0, z := 0 } } }
  else
    let sx1 := if vx1 > vx2 then rx2 else rx1
    let sx2 := if vx1 > vx2 then rx1 else rx2
    let sy1 := if vy1 > vy2 then ry2 else ry1
    let sy2 := if vy1 > vy2 then ry1 else ry2
    let fx1 := (sx1 - vx1) / (vx2 - vx1)
    let fy1 := (sy1 - vy1) / (vy2 - vy1)
    let fx2 := (sx2 - vx1) / (vx2 - vx1)
    let fy2 := (sy2 - vy1) / (vy2 - vy1)
    let entry2 := { entry1 with
      position := { f0 := sx1, f1 := sy1, f2 := sx2, f3 := sy2 }
      tex_coords := (List.range journal_entry.n_layers.toNat).foldl
        (clip_tex_coords_layer fx1 fy1 fx2 fy2) journal_entry.tex_coords }
    if ds.disable_software_transform then entry2
    else _cogl_journal_calculate_transformed_vertices c entry2

/-! ## The fast pixel read -/

/-- The result of the clip-chain loop of
`try_checking_point_hits_entry_after_clipping`. -/
inductive ClipScan where
  | outside
  | unknown
  | inside (can_software_clip needs_software_clip : Bool)
deriving DecidableEq, Repr

/-- The clip-chain loop of `try_checking_point_hits_entry_after_clipping`:
`outside` when it leaves with `*hit = FALSE; return TRUE`, `unknown` when it
leaves with `return FALSE`, `inside` with the two flags when it runs to the end
of the chain.  The rectangle test reads `can_be_scissor` through the journal
entry, as the C code does. -/
def clip_scan (c : Collaborators P R) (entry : CoglJournalEntry) (x y : ℚ) :
    CoglClipStack → Bool → Bool → ClipScan
  | [], can_software_clip, needs_software_clip =>
    ClipScan.inside can_software_clip needs_software_clip
  | clip_entry :: parent, can_software_clip, needs_software_clip =>
    if x < clip_entry.bounds_x0 ∨ x ≥ clip_entry.bounds_x1 ∨
        y < clip_entry.bounds_y0 ∨ y ≥ clip_entry.bounds_y1 then ClipScan.outside
    else if clip_entry.type = CoglClipStackType.COGL_CLIP_STACK_WINDOW_RECT then
      clip_scan c entry x y parent false needs_software_clip
    else if clip_entry.type = CoglClipStackType.COGL_CLIP_STACK_RECT then
      if c.rect_can_be_scissor_of_entry entry = false then
        clip_scan c entry x y parent can_software_clip true
      else clip_scan c entry x y parent can_software_clip needs_software_clip
    else ClipScan.unknown

/-- The function `try_checking_point_hits_entry_after_clipping`: `none` when it
returns `FALSE`, otherwise `some (hit, entry)` with the value stored in `*hit`
and the entry as the call leaves it. -/
def try_checking_point_hits_entry_after_clipping [DecidableEq P] (c : Collaborators P R)
    (ds : DrawState) (pipeline : P) (entry : CoglJournalEntry) (x y : ℚ) :
    Option (Bool × CoglJournalEntry) :=
  match clip_scan c entry x y entry.clip_stack true false with
  | ClipScan.outside => some (false, entry)
  | ClipScan.unknown => none
  | ClipScan.inside can_software_clip needs_software_clip =>
    if needs_software_clip then
      if !can_software_clip then none
      else
        match can_software_clip_entry c pipeline entry none entry.clip_stack with
        | none => none
        | some clip_bounds =>
          let entry' := software_clip_entry c ds entry clip_bounds
          some (c._cogl_util_point_in_screen_poly x y (entry_to_screen_polygon c ds entry'),
            entry')
    else some (true, entry)

/-- Modelled from the spec: the enumeration `CoglPixelFormat` (declared in
cogl-types.h, absent here): the two "supported 8-bit RGBA variants" that
`_cogl_journal_try_read_pixel` names, and every other format by its code. -/
inductive CoglPixelFormat where
  | COGL_PIXEL_FORMAT_RGBA_8888
  | COGL_PIXEL_FORMAT_RGBA_8888_PRE
  | COGL_PIXEL_FORMAT_OTHER (code : ℕ)
deriving DecidableEq, Repr

/-- What a call of `_cogl_journal_try_read_pixel` leaves behind: the journal,
the return value (`TRUE` is "handled"), and the values stored through
`found_intersection` and `pixel` (`none` when nothing is stored). -/
structure ReadPixel (P R : Type) where
  journal : CoglJournal P R
  handled : Bool
  found_intersection : Option Bool
  pixel : Option ColorUB
deriving DecidableEq

/-- The journal with the entry that `iter` points to replaced by `entry`. -/
def set_iter_entry (journal : CoglJournal P R) (iter : CoglJournalIter)
    (entry : CoglJournalEntry) : CoglJournal P R :=
  match iter.entry, batch_at journal iter.batch_num with
  | some k, some batch =>
    { journal with
      batches := journal.batches.set iter.batch_num.toNat
        { batch with entries := batch.entries.set k entry } }
  | _, _ => journal

/-- The label `success:` of `_cogl_journal_try_read_pixel`. -/
def read_pixel_success (journal : CoglJournal P R) (found : Bool) (pixel : Option ColorUB) :
    ReadPixel P R :=
  { journal := { journal with fast_read_pixel_count := journal.fast_read_pixel_count + 1 }
    handled := true
    found_intersection := some found
    pixel := pixel }

/-- The end of the loop body of `_cogl_journal_try_read_pixel`, from
`*found_intersection = TRUE` on, for the entry that was hit. -/
def read_pixel_hit (c : Collaborators P R) (journal : CoglJournal P R) (pipeline : P)
    (entry : CoglJournalEntry) : ReadPixel P R :=
  if !c._cogl_pipeline_equal c.opaque_color_pipeline pipeline then
    { journal := journal, handled := false, found_intersection := some true, pixel := none }
  else if entry.color.a ≠ 0xff then
    { journal := journal, handled := false, found_intersection := some true, pixel := none }
  else read_pixel_success journal true (some entry.color)

/-- The `for` loop of `_cogl_journal_try_read_pixel` with `fuel = journal_len - i`
iterations left; `none` when it dereferences an iterator that points to no
entry. -/
def read_pixel_loop [DecidableEq P] (c : Collaborators P R) (ds : DrawState) (x y : ℤ) :
    ℕ → CoglJournal P R → CoglJournalIter → Option (ReadPixel P R)
  | 0, journal, _ => some (read_pixel_success journal false none)
  | fuel + 1, journal, iter =>
    match iter_entry journal iter, batch_at journal iter.batch_num with
    | some entry, some batch =>
      if !c._cogl_util_point_in_screen_poly x y (entry_to_screen_polygon c ds entry) then
        match _cogl_journal_iterator_previous journal iter with
        | some prev_iter => read_pixel_loop c ds x y fuel journal prev_iter
        | none => none
      else if entry.clip_stack ≠ [] then
        match try_checking_point_hits_entry_after_clipping c ds batch.pipeline entry x y with
        | none =>
          some { journal := journal, handled := false, found_intersection := some false,
                 pixel := none }
        | some (hit, entry') =>
          if !hit then
            match _cogl_journal_iterator_previous (set_iter_entry journal iter entry') iter with
            | some prev_iter =>
              read_pixel_loop c ds x y fuel (set_iter_entry journal iter entry') prev_iter
            | none => none
          else
            some (read_pixel_hit c (set_iter_entry journal iter entry') batch.pipeline entry')
      else some (read_pixel_hit c journal batch.pipeline entry)
    | _, _ => none

/-- The function `_cogl_journal_try_read_pixel`; `none` when it dereferences an
iterator that points to no entry. -/
def _cogl_journal_try_read_pixel [DecidableEq P] (c : Collaborators P R) (ds : DrawState)
    (journal : CoglJournal P R) (x y : ℤ) (format : CoglPixelFormat) :
    Option (ReadPixel P R) :=
  if journal.fast_read_pixel_count > 50 then
    some { journal := journal, handled := false, found_intersection := none, pixel := none }
  else if format ≠ CoglPixelFormat.COGL_PIXEL_FORMAT_RGBA_8888_PRE ∧
      format ≠ CoglPixelFormat.COGL_PIXEL_FORMAT_RGBA_8888 then
    some { journal := journal, handled := false, found_intersection := none, pixel := none }
  else if journal.journal_len ≤ 0 then
    some (read_pixel_success journal false none)
  else
    read_pixel_loop c ds x y journal.journal_len journal
      (_cogl_journal_iterator_init_reverse journal)

/-! ## Vocabulary for the statements about logging -/

/-- The arguments of one call of `_cogl_journal_log_quad`, with the state of the
draw framebuffer at that call. -/
structure LogCall (P : Type) where
  ds : DrawState
  position : Float4
  pipeline : P
  n_layers : ℤ
  layer0_override_texture : Bool
  tex_coords : List ℚ

/-- The journal after one call of `_cogl_journal_log_quad`. -/
def log_call (c : Collaborators P R) (journal : CoglJournal P R) (call : LogCall P) :
    CoglJournal P R :=
  _cogl_journal_log_quad c call.ds journal call.position call.pipeline call.n_layers
    call.layer0_override_texture call.tex_coords

/-- The journal after a sequence of calls of `_cogl_journal_log_quad`. -/
def log_calls (c : Collaborators P R) (journal : CoglJournal P R) (calls : List (LogCall P)) :
    CoglJournal P R :=
  calls.foldl (log_call c) journal

/-- The entry a call logs. -/
def call_entry (c : Collaborators P R) (call : LogCall P) : CoglJournalEntry :=
  log_quad_entry c call.ds call.position call.pipeline call.n_layers call.tex_coords

/-- The pipeline a call's entry is placed with. -/
def call_source (c : Collaborators P R) (call : LogCall P) : P :=
  log_quad_source c call.pipeline call.n_layers call.layer0_override_texture

/-- The screen-space bounding box computed for a call's entry when it is logged. -/
def call_bounds (c : Collaborators P R) (call : LogCall P) : CoglLooseRegionRectangle :=
  entry_bounds c call.ds (call_entry c call)

/-- The entries of the journal in forward iteration order: batch 0 first,
insertion order inside a batch. -/
def all_entries (journal : CoglJournal P R) : List CoglJournalEntry :=
  (journal.batches.map (fun batch => batch.entries)).flatten

/-- The loose region is sound for the relation `meets` between boxes: a region
built by adding rectangles reports an intersection with a tested box whenever
one of the added rectangles meets the tested box. -/
def region_sound (c : Collaborators P R)
    (meets : CoglLooseRegionRectangle → CoglLooseRegionRectangle → Prop) : Prop :=
  ∀ (added : List CoglLooseRegionRectangle) (tested : CoglLooseRegionRectangle),
    (∃ r ∈ added, meets r tested) →
    c._cogl_loose_region_intersects
      (added.foldl c._cogl_loose_region_add_rectangle c._cogl_loose_region_init) tested = true

/-- The batch a logged entry starts when no existing batch takes it. -/
def new_batch (c : Collaborators P R) (pipeline : P) (bounds : CoglLooseRegionRectangle)
    (entry : CoglJournalEntry) : CoglJournalBatch P R :=
  { pipeline := pipeline
    region := c._cogl_loose_region_add_rectangle c._cogl_loose_region_init bounds
    entries := [entry] }

/-- A batch after a logged entry was appended to it. -/
def batch_with (c : Collaborators P R) (batch : CoglJournalBatch P R)
    (bounds : CoglLooseRegionRectangle) (entry : CoglJournalEntry) : CoglJournalBatch P R :=
  { batch with
    region := c._cogl_loose_region_add_rectangle batch.region bounds
    entries := batch.entries ++ [entry] }

/-- During the backward search a batch is passed over: its pipeline is not
equivalent to the entry's and its region does not intersect the entry's box. -/
def passed_over (c : Collaborators P R) (pipeline : P) (bounds : CoglLooseRegionRectangle)
    (batch : CoglJournalBatch P R) : Prop :=
  c._cogl_pipeline_equal batch.pipeline pipeline = false ∧
    c._cogl_loose_region_intersects batch.region bounds = false

/-- The labelled calls `labs` (log index, call) are the calls whose entries the
batch holds, in order, and the batch's region is the region built from their
boxes. -/
def batch_holds (c : Collaborators P R) (labs : List (ℕ × LogCall P))
    (batch : CoglJournalBatch P R) : Prop :=
  batch.entries = labs.map (fun x => call_entry c x.2) ∧
    batch.region = (labs.map (fun x => call_bounds c x.2)).foldl
      c._cogl_loose_region_add_rectangle c._cogl_loose_region_init

/-- Two labelled calls may stand in this order in the journal: the first was
logged first, or the box of the one logged first does not meet the box of the one
logged second. -/
def order_ok (c : Collaborators P R)
    (meets : CoglLooseRegionRectangle → CoglLooseRegionRectangle → Prop)
    (x y : ℕ × LogCall P) : Prop :=
  x.1 < y.1 ∨ ¬ meets (call_bounds c y.2) (call_bounds c x.2)

/-- The invariant of logging: the batches hold the labelled calls logged so far,
and any two of them stand in an order that is `order_ok`. -/
def log_invariant (c : Collaborators P R)
    (meets : CoglLooseRegionRectangle → CoglLooseRegionRectangle → Prop)
    (journal : CoglJournal P R) (calls : List (LogCall P)) : Prop :=
  ∃ labs : List (List (ℕ × LogCall P)),
    List.Forall₂ (batch_holds c) labs journal.batches ∧
    labs.flatten.Perm calls.enum ∧
    labs.flatten.Pairwise (order_ok c meets)

/-- The backward search of `find_batch` as a recursion on the batches listed
from the last one to the first. -/
def find_batch_rev (c : Collaborators P R) (pipeline : P) (bounds : CoglLooseRegionRectangle) :
    List (CoglJournalBatch P R) → Option ℕ
  | [] => none
  | batch :: older =>
    if c._cogl_pipeline_equal batch.pipeline pipeline then some older.length
    else if c._cogl_loose_region_intersects batch.region bounds then none
    else find_batch_rev c pipeline bounds older

/-! ## Vocabulary for the statements about the fast pixel read -/

/-- The journal is well formed: no batch is empty and `journal_len` is the number
of entries. -/
def journal_wf (journal : CoglJournal P R) : Prop :=
  (∀ batch ∈ journal.batches, batch.entries ≠ []) ∧
    journal.journal_len = (all_entries journal).length

/-- The entries of a list of batches in forward iteration order, each with the
pipeline of its batch. -/
def pairs_of (batches : List (CoglJournalBatch P R)) : List (P × CoglJournalEntry) :=
  (batches.map (fun batch => batch.entries.map (fun e => (batch.pipeline, e)))).flatten

/-- The entries of the journal in forward iteration (draw) order, each with the
pipeline of its batch. -/
def all_pairs (journal : CoglJournal P R) : List (P × CoglJournalEntry) :=
  pairs_of journal.batches

/-- The screen polygon of the entry contains the point: the test
`_cogl_util_point_in_screen_poly (x, y, poly, ...)` of
`_cogl_journal_try_read_pixel`. -/
def entry_contains (c : Collaborators P R) (ds : DrawState) (entry : CoglJournalEntry)
    (x y : ℤ) : Bool :=
  c._cogl_util_point_in_screen_poly x y (entry_to_screen_polygon c ds entry)

/-- What the caller of `_cogl_journal_try_read_pixel` sees: the return value and
the values stored through `found_intersection` and `pixel`. -/
def read_outcome (r : ReadPixel P R) : Bool × Option Bool × Option ColorUB :=
  (r.handled, r.found_intersection, r.pixel)

/-- The outcome for an entry that is hit: not handled unless the pipeline is the
flat opaque-colour pipeline (ignoring colour) and alpha is `0xff`; then the
entry's colour. -/
def hit_outcome (c : Collaborators P R) (pipeline : P) (entry : CoglJournalEntry) :
    Bool × Option Bool × Option ColorUB :=
  if c._cogl_pipeline_equal c.opaque_color_pipeline pipeline = true ∧ entry.color.a = 0xff then
    (true, some true, some entry.color)
  else (false, some true, none)

/-- The reference scan: the entries are given from the last drawn to the first
drawn, each with its pipeline; the first one whose polygon contains the point
and that is not clipped away decides the outcome. -/
def reference_scan [DecidableEq P] (c : Collaborators P R) (ds : DrawState) (x y : ℤ) :
    List (P × CoglJournalEntry) → Bool × Option Bool × Option ColorUB
  | [] => (true, some false, none)
  | (pipeline, entry) :: older =>
    if entry_contains c ds entry x y = false then reference_scan c ds x y older
    else if entry.clip_stack = [] then hit_outcome c pipeline entry
    else
      match try_checking_point_hits_entry_after_clipping c ds pipeline entry x y with
      | none => (false, some false, none)
      | some (false, _) => reference_scan c ds x y older
      | some (true, entry') => hit_outcome c pipeline entry'

/-- The entry survives the tests of the fast read at the point: its polygon
contains the point and it has no clip stack, or the clip test reports a hit. -/
def entry_survives [DecidableEq P] (c : Collaborators P R) (ds : DrawState) (pipeline : P)
    (entry : CoglJournalEntry) (x y : ℤ) : Prop :=
  entry_contains c ds entry x y = true ∧
    (entry.clip_stack = [] ∨
      ∃ entry', try_checking_point_hits_entry_after_clipping c ds pipeline entry x y
        = some (true, entry'))

/-- A brute-force read: the colour of the first entry, in draw order, whose
polygon contains the point. -/
def brute_force_read (c : Collaborators P R) (ds : DrawState) (journal : CoglJournal P R)
    (x y : ℤ) : Option ColorUB :=
  ((all_entries journal).find? (fun e => entry_contains c ds e x y)).map (fun e => e.color)

/-- The number of entries of each batch. -/
def batch_lengths (journal : CoglJournal P R) : List ℕ :=
  journal.batches.map (fun batch => batch.entries.length)

/-- The entries that come before position `k` of batch `b` in forward iteration
order, each with its pipeline. -/
def front (batches : List (CoglJournalBatch P R)) (b k : ℕ) : List (P × CoglJournalEntry) :=
  pairs_of (batches.take b) ++
    match batches.get? b with
    | some batch => (batch.entries.take k).map (fun e => (batch.pipeline, e))
    | none => []

/-- A sequence of calls of `_cogl_journal_try_read_pixel` on a journal that is
not flushed or discarded in between: the journal after the calls and the return
value of each call; `none` when a call dereferences an iterator that points to
no entry. -/
def read_pixel_calls [DecidableEq P] (c : Collaborators P R) (ds : DrawState) :
    CoglJournal P R → List (ℤ × ℤ × CoglPixelFormat) → Option (CoglJournal P R × List Bool)
  | journal, [] => some (journal, [])
  | journal, (x, y, format) :: calls =>
    match _cogl_journal_try_read_pixel c ds journal x y format with
    | none => none
    | some r =>
      match read_pixel_calls c ds r.journal calls with
      | none => none
      | some (journal', flags) => some (journal', r.handled :: flags)

/-! ## Vocabulary for the statements about `batch_and_call` -/

/-- The iterator reached from `iter` by `k` calls of `_cogl_journal_iterator_next`. -/
def iter_advance (journal : CoglJournal P R) : ℕ → CoglJournalIter → Option CoglJournalIter
  | 0, iter => some iter
  | k + 1, iter =>
    match _cogl_journal_iterator_next journal iter with
    | none => none
    | some next_iter => iter_advance journal k next_iter

/-- The iterators of the `n` entries that start at `iter`: `iter`, its successor,
and so on (`n - 1` calls of `_cogl_journal_iterator_next`). -/
def iter_walk (journal : CoglJournal P R) : ℕ → CoglJournalIter → Option (List CoglJournalIter)
  | 0, _ => some []
  | 1, iter => some [iter]
  | n + 2, iter =>
    match _cogl_journal_iterator_next journal iter with
    | none => none
    | some next_iter => (iter_walk journal (n + 1) next_iter).map (fun l => iter :: l)

/-- The callback invocations `calls` are contiguous runs from `iter`: the first
starts at `iter`, every length is at least 1, and each next one starts exactly
the previous length of entries after the previous start. -/
def contiguous_runs (journal : CoglJournal P R) :
    CoglJournalIter → List (CoglJournalIter × ℤ) → Prop
  | _, [] => True
  | iter, (start, len) :: rest =>
    start = iter ∧ 1 ≤ len ∧
      (rest = [] ∨ ∃ iter', iter_advance journal len.toNat iter = some iter' ∧
        contiguous_runs journal iter' rest)

/-- The entries of every run of `calls`, each run walked from its start iterator
for its length. -/
def run_entries (journal : CoglJournal P R) :
    List (CoglJournalIter × ℤ) → Option (List (List CoglJournalIter))
  | [] => some []
  | c :: calls =>
    match iter_walk journal c.2.toNat c.1, run_entries journal calls with
    | some run, some runs => some (run :: runs)
    | _, _ => none

/-- The number of adjacent pairs of a sequence on which the predicate is false. -/
def false_pairs {α : Type} (p : α → α → Bool) : List α → ℕ
  | [] => 0
  | [_] => 0
  | a :: b :: l => (if p a b then 0 else 1) + false_pairs p (b :: l)

/-- Consecutive runs are separated by a failing pair: the predicate is false on
(last entry of a run, first entry of the next run). -/
def boundaries_fail {α : Type} (p : α → α → Bool) (runs : List (List α)) : Prop :=
  runs.Chain' (fun r r' => ∀ a ∈ r.getLast?, ∀ b ∈ r'.head?, p a b = false)

/-! ## Vocabulary for the statements about software clipping -/

/-- The four corners of a quad stored as (x0, y0, x2, y2), in the order
(x0,y0), (x0,y2), (x2,y2), (x2,y0), with z = 0. -/
def quad_corners (position : Float4) : Verts :=
  { v0 := { x := position.f0, y := position.f1, z := 0 }
    v1 := { x := position.f0, y := position.f3, z := 0 }
    v2 := { x := position.f2, y := position.f3, z := 0 }
    v3 := { x := position.f2, y := position.f1, z := 0 } }

/-- The entry's `transformed_verts` are in sync with its `position` and its
`model_view`: they are the transform snapshot applied to the four corners. -/
def entry_in_sync (c : Collaborators P R) (entry : CoglJournalEntry) : Prop :=
  entry.transformed_verts =
    c.cogl_matrix_transform_points entry.model_view (quad_corners entry.position)

instance (c : Collaborators P R) (entry : CoglJournalEntry) :
    Decidable (entry_in_sync c entry) := by
  unfold entry_in_sync; infer_instance

/-- The width of the overlap of the entry's quad with the bound (not positive
when they do not overlap). -/
def overlap_width (entry : CoglJournalEntry) (bounds : ClipBounds) : ℚ :=
  min (max entry.position.f0 entry.position.f2) bounds.x_2 -
    max (min entry.position.f0 entry.position.f2) bounds.x_1

/-- The height of the overlap of the entry's quad with the bound (not positive
when they do not overlap). -/
def overlap_height (entry : CoglJournalEntry) (bounds : ClipBounds) : ℚ :=
  min (max entry.position.f1 entry.position.f3) bounds.y_2 -
    max (min entry.position.f1 entry.position.f3) bounds.y_1

/-- The bound contains the entry's quad: `x_1 <=` both x corners `<= x_2` and
`y_1 <=` both y corners `<= y_2`. -/
def bound_contains (bounds : ClipBounds) (entry : CoglJournalEntry) : Prop :=
  (bounds.x_1 ≤ entry.position.f0 ∧ entry.position.f0 ≤ bounds.x_2) ∧
  (bounds.x_1 ≤ entry.position.f2 ∧ entry.position.f2 ≤ bounds.x_2) ∧
  (bounds.y_1 ≤ entry.position.f1 ∧ entry.position.f1 ≤ bounds.y_2) ∧
  (bounds.y_1 ≤ entry.position.f3 ∧ entry.position.f3 ≤ bounds.y_2)

instance (bounds : ClipBounds) (entry : CoglJournalEntry) :
    Decidable (bound_contains bounds entry) := by
  unfold bound_contains; infer_instance

/-- The unbounded box `(-G_MAXFLOAT, G_MAXFLOAT)` in x and y. -/
def unbounded_box : ClipBounds :=
  { x_1 := -G_MAXFLOAT, y_1 := -G_MAXFLOAT, x_2 := G_MAXFLOAT, y_2 := G_MAXFLOAT }

/-- The intersection of the unbounded box with the rectangles of a clip chain,
each moved back by its translation: `x_1` is the largest left edge
`min (x0, x1) - tx`, `x_2` the smallest right edge `max (x0, x1) - tx`, likewise
for y. -/
def translated_intersection : List (CoglClipStackNode × ℚ × ℚ) → ClipBounds
  | [] => unbounded_box
  | (rect, tx, ty) :: rest =>
    { x_1 := max (min rect.x0 rect.x1 - tx) (translated_intersection rest).x_1
      y_1 := max (min rect.y0 rect.y1 - ty) (translated_intersection rest).y_1
      x_2 := min (max rect.x0 rect.x1 - tx) (translated_intersection rest).x_2
      y_2 := min (max rect.y0 rect.y1 - ty) (translated_intersection rest).y_2 }

/-- The bound has positive width and height. -/
def bound_positive (bounds : ClipBounds) : Prop :=
  bounds.x_1 < bounds.x_2 ∧ bounds.y_1 < bounds.y_2

instance (bounds : ClipBounds) : Decidable (bound_positive bounds) := by
  unfold bound_positive; infer_instance

/-! ## Vocabulary for the statements about clipped entries in the fast pixel read -/

/-- The point lies inside the bounds of every clip of the chain: the bounds test
of `try_checking_point_hits_entry_after_clipping` fails for no node. -/
def inside_all_bounds (chain : CoglClipStack) (x y : ℚ) : Prop :=
  ∀ node ∈ chain, (node.bounds_x0 : ℚ) ≤ x ∧ x < node.bounds_x1 ∧
    (node.bounds_y0 : ℚ) ≤ y ∧ y < node.bounds_y1

instance (chain : CoglClipStack) (x y : ℚ) : Decidable (inside_all_bounds chain x y) := by
  unfold inside_all_bounds; infer_instance

/-- The chain has a node of the given type. -/
def chain_has (chain : CoglClipStack) (type : CoglClipStackType) : Prop :=
  ∃ node ∈ chain, node.type = type

instance (chain : CoglClipStack) (type : CoglClipStackType) :
    Decidable (chain_has chain type) := by
  unfold chain_has; infer_instance

/-! ## Vocabulary for the statements about iteration -/

/-- The positions of the entries of a list of batches whose first batch has
index `b0`, in forward order: for each batch in turn, for each position `k` of
its list, the iterator with that entry and the index of the batch. -/
def iters_of (b0 : ℕ) : List (CoglJournalBatch P R) → List CoglJournalIter
  | [] => []
  | batch :: rest =>
    (List.range batch.entries.length).map
        (fun k => ({ entry := some k, batch_num := (b0 : ℤ) } : CoglJournalIter)) ++
      iters_of (b0 + 1) rest

/-- The positions of all the entries of the journal: batch 0 first, insertion
order inside a batch. -/
def all_iters (journal : CoglJournal P R) : List CoglJournalIter :=
  iters_of 0 journal.batches

/-- The iterators of the `n` entries that end at `iter`, from `iter` backwards:
`iter`, its predecessor, and so on (`n - 1` calls of
`_cogl_journal_iterator_previous`). -/
def iter_walk_back (journal : CoglJournal P R) :
    ℕ → CoglJournalIter → Option (List CoglJournalIter)
  | 0, _ => some []
  | 1, iter => some [iter]
  | n + 2, iter =>
    match _cogl_journal_iterator_previous journal iter with
    | none => none
    | some prev_iter => (iter_walk_back journal (n + 1) prev_iter).map (fun l => iter :: l)

/-! ## Uploading the vertices -/

/-- What the flush reads from the Cogl context besides the draw framebuffer:
whether the driver is `COGL_DRIVER_GL` (with `HAVE_COGL_GL`), the result of
`cogl_features_available (COGL_FEATURE_VBOS)`, and the debug flag
`COGL_DEBUG_DISABLE_SOFTWARE_CLIP`. -/
structure CoglContext where
  driver_gl : Bool
  feature_vbos : Bool
  disable_software_clip : Bool
deriving DecidableEq, Repr

/-- A 32-bit word of the mapped vertex buffer: a float, or the four bytes of a
colour stored by `memcpy (..., iter.entry->color, 4)`. -/
inductive VboWord where
  | float (value : ℚ)
  | color (value : ColorUB)
deriving DecidableEq, Repr

/-- The float `transformed_verts[k]` of the array `float transformed_verts[12]`. -/
def transformed_verts_at (verts : Verts) (k : ℕ) : ℚ :=
  match k with
  | 0 => verts.v0.x
  | 1 => verts.v0.y
  | 2 => verts.v0.z
  | 3 => verts.v1.x
  | 4 => verts.v1.y
  | 5 => verts.v1.z
  | 6 => verts.v2.x
  | 7 => verts.v2.y
  | 8 => verts.v2.z
  | 9 => verts.v3.x
  | 10 => verts.v3.y
  | 11 => verts.v3.z
  | _ => 0

/-- The function `create_attribute_buffer`: the journal as it leaves it and the
byte size of the buffer it returns.  A pool slot outside the array is read as
`NULL`. -/
def create_attribute_buffer (ctx : CoglContext) (journal : CoglJournal P R) (n_bytes : ℕ) :
    CoglJournal P R × ℕ :=
  if !ctx.feature_vbos then (journal, n_bytes)
  else
    let pooled : Option ℕ := (journal.vbo_pool.get? journal.next_vbo_in_pool).join
    let next := (journal.next_vbo_in_pool + 1) % COGL_JOURNAL_VBO_POOL_SIZE
    match pooled with
    | none =>
      ({ journal with
         vbo_pool := journal.vbo_pool.set journal.next_vbo_in_pool (some n_bytes)
         next_vbo_in_pool := next }, n_bytes)
    | some size =>
      if size < n_bytes then
        ({ journal with
           vbo_pool := journal.vbo_pool.set journal.next_vbo_in_pool (some n_bytes)
           next_vbo_in_pool := next }, n_bytes)
      else ({ journal with next_vbo_in_pool := next }, size)

/-- The stores of one pass of the loop of `upload_vertices`, for the entry
`iter.entry` with `vout` at word `vout` of the buffer: (word index, value) in
program order. -/
def upload_entry (ds : DrawState) (vout : ℕ) (entry : CoglJournalEntry) : List (ℕ × VboWord) :=
  let vb_stride := (GET_JOURNAL_VB_STRIDE_FOR_N_LAYERS ds entry.n_layers).toNat
  let pos_stride := (POS_STRIDE ds).toNat
  (List.range 4).map (fun i => (vout + vb_stride * i + pos_stride, VboWord.color entry.color)) ++
  (if ds.disable_software_transform then
    [ (vout + vb_stride * 0 + 0, VboWord.float entry.position.f0),
      (vout + vb_stride * 0 + 1, VboWord.float entry.position.f1),
      (vout + vb_stride * 1 + 0, VboWord.float entry.position.f0),
      (vout + vb_stride * 1 + 1, VboWord.float entry.position.f3),
      (vout + vb_stride * 2 + 0, VboWord.float entry.position.f2),
      (vout + vb_stride * 2 + 1, VboWord.float entry.position.f3),
      (vout + vb_stride * 3 + 0, VboWord.float entry.position.f2),
      (vout + vb_stride * 3 + 1, VboWord.float entry.position.f1) ]
  else
    ((List.range 4).map (fun i => (List.range 3).map (fun j =>
      (vout + vb_stride * i + j,
        VboWord.float (transformed_verts_at entry.transformed_verts (i * 3 + j)))))).flatten) ++
  ((List.range entry.n_layers.toNat).map (fun i =>
    let tin := fun k => entry.tex_coords.getD (i * 4 + k) 0
    let tout := vout + pos_stride + COLOR_STRIDE.toNat
    [ (tout + vb_stride * 0 + 0 + i * 2, VboWord.float (tin 0)),
      (tout + vb_stride * 0 + 1 + i * 2, VboWord.float (tin 1)),
      (tout + vb_stride * 1 + 0 + i * 2, VboWord.float (tin 0)),
      (tout + vb_stride * 1 + 1 + i * 2, VboWord.float (tin 3)),
      (tout + vb_stride * 2 + 0 + i * 2, VboWord.float (tin 2)),
      (tout + vb_stride * 2 + 1 + i * 2, VboWord.float (tin 3)),
      (tout + vb_stride * 3 + 0 + i * 2, VboWord.float (tin 2)),
      (tout + vb_stride * 3 + 1 + i * 2, VboWord.float (tin 1)) ])).flatten

/-- The loop of `upload_vertices` with `fuel = journal_len - entry_num` passes
left and `vout` at word `vout`: the stores in program order, `none` when
`iter.entry` cannot be dereferenced. -/
def upload_vertices_loop (ds : DrawState) (journal : CoglJournal P R) :
    ℕ → CoglJournalIter → ℕ → Option (List (ℕ × VboWord))
  | 0, _, _ => some []
  | fuel + 1, iter, vout =>
    match iter_entry journal iter with
    | none => none
    | some entry =>
      match _cogl_journal_iterator_next journal iter with
      | none => none
      | some next_iter =>
        (upload_vertices_loop ds journal fuel next_iter
          (vout + (GET_JOURNAL_VB_STRIDE_FOR_N_LAYERS ds entry.n_layers).toNat * 4)).map
          (fun stores => upload_entry ds vout entry ++ stores)

/-- The function `upload_vertices`: the journal as `create_attribute_buffer`
leaves it, the byte size of the buffer returned, and the stores made through the
mapped buffer; `none` when `g_assert (journal->needed_vbo_len > 0)` fails or an
iterator cannot be dereferenced. -/
def upload_vertices (ctx : CoglContext) (ds : DrawState) (journal : CoglJournal P R) :
    Option (CoglJournal P R × ℕ × List (ℕ × VboWord)) :=
  if journal.needed_vbo_len = 0 then none
  else
    let created := create_attribute_buffer ctx journal (journal.needed_vbo_len * 4)
    match upload_vertices_loop ds created.1 created.1.journal_len
        (_cogl_journal_iterator_init created.1) 0 with
    | none => none
    | some stores => some (created.1, created.2, stores)

/-- The word that the buffer holds at `index` after the stores, `none` when no
store wrote it: the last store to the index wins. -/
def vbo_read : List (ℕ × VboWord) → ℕ → Option VboWord
  | [], _ => none
  | (i, word) :: rest, index =>
    match vbo_read rest index with
    | some later => some later
    | none => if i = index then some word else none

/-! ## Vocabulary for the statements about the upload -/

/-- The corner `v` of the rectangle with opposite corners `(a0, b0)` and
`(a2, b2)`, in the order (a0,b0), (a0,b2), (a2,b2), (a2,b0). -/
def rect_corner (a0 b0 a2 b2 : ℚ) : ℕ → ℚ × ℚ
  | 0 => (a0, b0)
  | 1 => (a0, b2)
  | 2 => (a2, b2)
  | _ => (a2, b0)

/-- The vertex `v` of four vertices. -/
def Verts.vertex (verts : Verts) : ℕ → Vertex3
  | 0 => verts.v0
  | 1 => verts.v1
  | 2 => verts.v2
  | _ => verts.v3

/-- The position words of the expanded vertex `v` of an entry: the transformed
vertex `v` (x, y, z) with software transform, the corner `v` of the stored
position (x, y) without. -/
def expanded_position (ds : DrawState) (entry : CoglJournalEntry) (v : ℕ) : List VboWord :=
  if ds.disable_software_transform then
    [VboWord.float (rect_corner entry.position.f0 entry.position.f1
        entry.position.f2 entry.position.f3 v).1,
      VboWord.float (rect_corner entry.position.f0 entry.position.f1
        entry.position.f2 entry.position.f3 v).2]
  else
    [VboWord.float (entry.transformed_verts.vertex v).x,
      VboWord.float (entry.transformed_verts.vertex v).y,
      VboWord.float (entry.transformed_verts.vertex v).z]

/-- The texture coordinates of the expanded vertex `v` for layer `i`: the corner
`v` of the texture rectangle `(s0, t0)-(s2, t2)` stored for the layer. -/
def expanded_tex_coords (entry : CoglJournalEntry) (v i : ℕ) : ℚ × ℚ :=
  rect_corner (entry.tex_coords.getD (i * 4) 0) (entry.tex_coords.getD (i * 4 + 1) 0)
    (entry.tex_coords.getD (i * 4 + 2) 0) (entry.tex_coords.getD (i * 4 + 3) 0) v

/-- The expanded vertex `v` of an entry as the vertex attributes read it: the
position words, the colour, and two floats per layer. -/
def expanded_vertex (ds : DrawState) (entry : CoglJournalEntry) (v : ℕ) : List VboWord :=
  expanded_position ds entry v ++ [VboWord.color entry.color] ++
    ((List.range entry.n_layers.toNat).map (fun i =>
      [VboWord.float (expanded_tex_coords entry v i).1,
        VboWord.float (expanded_tex_coords entry v i).2])).flatten

/-- The stride of the entry's vertices in the buffer, in 32-bit words. -/
def entry_stride (ds : DrawState) (entry : CoglJournalEntry) : ℕ :=
  (GET_JOURNAL_VB_STRIDE_FOR_N_LAYERS ds entry.n_layers).toNat

/-- The number of words that the upload of the entries takes: four vertices of
the entry's stride for each. -/
def upload_words (ds : DrawState) (entries : List CoglJournalEntry) : ℕ :=
  (entries.map (fun e => entry_stride ds e * 4)).sum

/-- The stores of the upload loop over a list of entries, the first one with
`vout` at word `vout`: each entry is expanded at the cursor, which then advances
by four vertices of the entry's stride. -/
def upload_entries (ds : DrawState) : ℕ → List CoglJournalEntry → List (ℕ × VboWord)
  | _, [] => []
  | vout, entry :: rest =>
    upload_entry ds vout entry ++ upload_entries ds (vout + entry_stride ds entry * 4) rest

/-! ## The software clipping pass of the flush -/

/-- The macro `COGL_JOURNAL_HARDWARE_CLIP_THRESHOLD`. -/
def COGL_JOURNAL_HARDWARE_CLIP_THRESHOLD : ℤ := 8

/-- The first loop of `maybe_software_clip_entries`, with `fuel = batch_len -
entry_num` passes left: `some (some bounds)` with the bounds stored in
`ctx->journal_clip_bounds` when every call of `can_software_clip_entry` returns
`TRUE`, `some none` when one returns `FALSE` (the function returns), `none` when
the batch or the entry of `iter` cannot be read.  An `iter.entry` that points to
no entry counts as unreadable also when the pipeline test of
`can_software_clip_entry` would return before the entry is looked at. -/
def software_clip_bounds_loop [DecidableEq P] (c : Collaborators P R) (journal : CoglJournal P R)
    (clip_stack : CoglClipStack) :
    ℕ → CoglJournalIter → Option P → Option (Option (List ClipBounds))
  | 0, _, _ => some (some [])
  | fuel + 1, iter, prev_pipeline =>
    match batch_at journal iter.batch_num, iter_entry journal iter with
    | some batch, some entry =>
      match can_software_clip_entry c batch.pipeline entry prev_pipeline clip_stack with
      | none => some none
      | some clip_bounds =>
        match _cogl_journal_iterator_next journal iter with
        | none => none
        | some next_iter =>
          (software_clip_bounds_loop c journal clip_stack fuel next_iter
            (some batch.pipeline)).map (fun rest => rest.map (fun l => clip_bounds :: l))
    | _, _ => none

/-- The second loop of `maybe_software_clip_entries` over the stored bounds:
each entry of the run is replaced by what `software_clip_entry` makes of it;
`none` when `iter.entry` cannot be dereferenced. -/
def software_clip_entries_loop (c : Collaborators P R) (ds : DrawState) :
    CoglJournal P R → List ClipBounds → CoglJournalIter → Option (CoglJournal P R)
  | journal, [], _ => some journal
  | journal, clip_bounds :: rest, iter =>
    match iter_entry journal iter with
    | none => none
    | some entry =>
      match _cogl_journal_iterator_next
          (set_iter_entry journal iter (software_clip_entry c ds entry clip_bounds)) iter with
      | none => none
      | some next_iter =>
        software_clip_entries_loop c ds
          (set_iter_entry journal iter (software_clip_entry c ds entry clip_bounds)) rest
          next_iter

/-- The function `maybe_software_clip_entries`: the journal as it leaves it,
`none` when it dereferences an iterator that points to no entry.  The scratch
array `ctx->journal_clip_bounds` is the list passed from the first loop to the
second. -/
def maybe_software_clip_entries [DecidableEq P] (c : Collaborators P R) (ds : DrawState)
    (journal : CoglJournal P R) (batch_start : CoglJournalIter) (batch_len : ℤ) :
    Option (CoglJournal P R) :=
  if batch_len ≥ COGL_JOURNAL_HARDWARE_CLIP_THRESHOLD then some journal
  else
    match iter_entry journal batch_start with
    | none => none
    | some entry =>
      if entry.clip_stack = [] then some journal
      else if entry.clip_stack.any
          (fun clip_entry => decide (clip_entry.type ≠ CoglClipStackType.COGL_CLIP_STACK_RECT))
        then some journal
      else
        match software_clip_bounds_loop c journal entry.clip_stack batch_len.toNat
            batch_start none with
        | none => none
        | some none => some journal
        | some (some clip_bounds) =>
          software_clip_entries_loop c ds journal clip_bounds batch_start

/-! ## Vocabulary for the statements about the software clipping pass -/

/-- The test on the pipeline at the top of `can_software_clip_entry` passes: no
user program and no layer with a user matrix. -/
def pipeline_usable (c : Collaborators P R) (pipeline : P) : Bool :=
  !(c.cogl_pipeline_get_user_program pipeline ||
    (List.range (c.cogl_pipeline_get_n_layers pipeline).toNat).any
      (fun layer_num => c._cogl_pipeline_layer_has_user_matrix pipeline layer_num))

/-- The bound that `can_software_clip_entry` computes for the entry at `iter`,
with the pipeline of its batch and no previous pipeline, against `clip_stack`;
`none` when it returns `FALSE` or `iter` points to no entry. -/
def entry_clip_bounds [DecidableEq P] (c : Collaborators P R) (journal : CoglJournal P R)
    (clip_stack : CoglClipStack) (iter : CoglJournalIter) : Option ClipBounds :=
  match batch_at journal iter.batch_num, iter_entry journal iter with
  | some batch, some entry => can_software_clip_entry c batch.pipeline entry none clip_stack
  | _, _ => none

/-- The bounds of all the entries of a run, `none` when one has none. -/
def run_bounds [DecidableEq P] (c : Collaborators P R) (journal : CoglJournal P R)
    (clip_stack : CoglClipStack) : List CoglJournalIter → Option (List ClipBounds)
  | [] => some []
  | iter :: rest =>
    match entry_clip_bounds c journal clip_stack iter with
    | none => none
    | some clip_bounds => (run_bounds c journal clip_stack rest).map (fun l => clip_bounds :: l)

/-- The run can be clipped in software: it is shorter than the threshold, the
clip stack is not `NULL`, every node of the chain is a rectangle clip, and
`can_software_clip_entry` succeeds for every entry of the run. -/
def run_clippable [DecidableEq P] (c : Collaborators P R) (journal : CoglJournal P R)
    (run : List CoglJournalIter) (clip_stack : CoglClipStack) : Prop :=
  (run.length : ℤ) < COGL_JOURNAL_HARDWARE_CLIP_THRESHOLD ∧ clip_stack ≠ [] ∧
    (∀ node ∈ clip_stack, node.type = CoglClipStackType.COGL_CLIP_STACK_RECT) ∧
    ∀ iter ∈ run, (entry_clip_bounds c journal clip_stack iter).isSome = true

instance [DecidableEq P] (c : Collaborators P R) (journal : CoglJournal P R)
    (run : List CoglJournalIter) (clip_stack : CoglClipStack) :
    Decidable (run_clippable c journal run clip_stack) := by
  unfold run_clippable; infer_instance

/-- The second journal differs from the first in the contents of entries only:
the counters and the pool are the same, and the batches have the same pipelines,
regions and numbers of entries. -/
def same_frame (journal journal' : CoglJournal P R) : Prop :=
  journal'.needed_vbo_len = journal.needed_vbo_len ∧
    journal'.fast_read_pixel_count = journal.fast_read_pixel_count ∧
    journal'.journal_len = journal.journal_len ∧
    journal'.vbo_pool = journal.vbo_pool ∧
    journal'.next_vbo_in_pool = journal.next_vbo_in_pool ∧
    List.Forall₂ (fun batch batch' : CoglJournalBatch P R =>
      batch'.pipeline = batch.pipeline ∧ batch'.region = batch.region ∧
        batch'.entries.length = batch.entries.length) journal.batches journal'.batches

/-! ## The flush -/

/-- The names of the vertex attributes that the flush creates:
`"cogl_position_in"`, `"cogl_color_in"` and `"cogl_tex_coord<i>_in"`. -/
inductive CoglAttributeName where
  | cogl_position_in
  | cogl_color_in
  | cogl_tex_coord_in (i : ℕ)
deriving DecidableEq, Repr

/-- The two values of `CoglAttributeType` that the flush uses. -/
inductive CoglAttributeType where
  | COGL_ATTRIBUTE_TYPE_FLOAT
  | COGL_ATTRIBUTE_TYPE_UNSIGNED_BYTE
deriving DecidableEq, Repr

/-- The arguments of a call of `cogl_attribute_new` on the attribute buffer of
the flush: name, stride and offset in bytes, number of components, type. -/
structure CoglAttribute where
  name : CoglAttributeName
  stride : ℕ
  offset : ℕ
  n_components : ℤ
  type : CoglAttributeType
deriving DecidableEq, Repr

/-- The draw modes that the flush passes: `GL_QUADS`,
`COGL_VERTICES_MODE_TRIANGLES` and `COGL_VERTICES_MODE_TRIANGLE_FAN`. -/
inductive CoglVerticesMode where
  | GL_QUADS
  | COGL_VERTICES_MODE_TRIANGLES
  | COGL_VERTICES_MODE_TRIANGLE_FAN
deriving DecidableEq, Repr

/-- The two matrix modes of `_cogl_matrix_stack_flush_to_gl`. -/
inductive CoglMatrixMode where
  | COGL_MATRIX_MODELVIEW
  | COGL_MATRIX_PROJECTION
deriving DecidableEq, Repr

/-- The calls that `_cogl_journal_flush` and its callbacks make to other modules,
with the arguments that depend on the journal.  `buffer_upload` stands for
`create_attribute_buffer` and the stores made between mapping and unmapping the
buffer; the attributes made by `cogl_attribute_new` are recorded in the draw call
that uses them.  Reference counting, timers, debug output and the draw flags are
left out. -/
inductive FlushCall (P : Type) where
  | _cogl_framebuffer_flush_dependency_journals
  | cogl_push_framebuffer
  | _cogl_framebuffer_flush_state
  | buffer_upload (n_bytes : ℕ) (stores : List (ℕ × VboWord))
  | _cogl_clip_stack_flush (clip_stack : CoglClipStack)
  | _cogl_matrix_stack_push
  | _cogl_matrix_stack_load_identity
  | _cogl_matrix_stack_set (matrix : CoglMatrix)
  | _cogl_matrix_stack_flush_to_gl (mode : CoglMatrixMode)
  | _cogl_matrix_stack_pop
  | cogl_get_rectangle_indices (n_rectangles : ℤ)
  | _cogl_push_source (pipeline : P)
  | _cogl_draw_attributes (mode : CoglVerticesMode) (first_vertex n_vertices : ℤ)
      (attributes : List CoglAttribute)
  | _cogl_draw_indexed_attributes (mode : CoglVerticesMode) (first_vertex n_vertices : ℤ)
      (indices : Option ℤ) (attributes : List CoglAttribute)
  | cogl_pop_source
  | cogl_pop_framebuffer
deriving DecidableEq

/-- The fields of `CoglJournalFlushState` that the callbacks read and write.
`attribute_buffer` is the byte size of the buffer, `indices` the number of
rectangles that `cogl_get_rectangle_indices` was called with, `source` is `none`
until it is set.  `current_vertex` is a `GLuint`. -/
structure CoglJournalFlushState (P : Type) where
  attribute_buffer : ℕ
  attributes : List CoglAttribute
  stride : ℕ
  array_offset : ℕ
  current_vertex : ℕ
  indices : Option ℤ
  source : Option P
deriving DecidableEq

/-- The `data` of the flush callbacks: the flush state, and the calls made to
other modules so far. -/
structure FlushData (P : Type) where
  state : CoglJournalFlushState P
  calls : List (FlushCall P)
deriving DecidableEq

/-- The `for` loop of `batch_and_call` with the callback run on `data`, with
`fuel = n_entries - i` iterations left.  `journal data` is the journal as `data`
holds it; the test dereferences its iterators and is `none` when it cannot. -/
def batch_and_call_data_loop {S : Type} (journal : S → CoglJournal P R)
    (can_batch_callback : CoglJournal P R → CoglJournalIter → CoglJournalIter → Option Bool)
    (batch_callback : S → CoglJournalIter → ℤ → Option S) :
    ℕ → S → CoglJournalIter → CoglJournalIter → ℤ → Option S
  | 0, data, batch_start, _, batch_len => batch_callback data batch_start batch_len
  | fuel + 1, data, batch_start, prev_iter, batch_len =>
    match _cogl_journal_iterator_next (journal data) prev_iter with
    | none => none
    | some next_iter =>
      match can_batch_callback (journal data) prev_iter next_iter with
      | none => none
      | some true =>
        batch_and_call_data_loop journal can_batch_callback batch_callback fuel data
          batch_start next_iter (batch_len + 1)
      | some false =>
        match batch_callback data batch_start batch_len with
        | none => none
        | some data' =>
          batch_and_call_data_loop journal can_batch_callback batch_callback fuel data'
            next_iter next_iter 1

/-- The function `batch_and_call` with the callback run on `data`: the data
after the last callback, `none` when the walk, a test or a callback dereferences
an iterator that points to no entry. -/
def batch_and_call_data {S : Type} (journal : S → CoglJournal P R)
    (can_batch_callback : CoglJournal P R → CoglJournalIter → CoglJournalIter → Option Bool)
    (batch_callback : S → CoglJournalIter → ℤ → Option S)
    (iter_in : CoglJournalIter) (n_entries : ℤ) (data : S) : Option S :=
  if n_entries < 1 then some data
  else
    batch_and_call_data_loop journal can_batch_callback batch_callback (n_entries - 1).toNat
      data iter_in iter_in 1

/-- The function `compare_entry_clip_stacks`: the two `clip_stack` pointers are
compared, not the chains they point to. -/
def compare_entry_clip_stacks (journal : CoglJournal P R) (iter0 iter1 : CoglJournalIter) :
    Option Bool :=
  match iter_entry journal iter0, iter_entry journal iter1 with
  | some entry0, some entry1 =>
    some (decide (clip_stack_pointer entry0.clip_stack = clip_stack_pointer entry1.clip_stack))
  | _, _ => none

/-- The function `compare_entry_strides`. -/
def compare_entry_strides (journal : CoglJournal P R) (iter0 iter1 : CoglJournalIter) :
    Option Bool :=
  match iter_entry journal iter0, iter_entry journal iter1 with
  | some entry0, some entry1 =>
    some (decide (entry0.n_layers = entry1.n_layers ∨
      (entry0.n_layers ≤ MIN_LAYER_PADING ∧ entry1.n_layers ≤ MIN_LAYER_PADING)))
  | _, _ => none

/-- The function `compare_entry_n_layers`. -/
def compare_entry_n_layers (journal : CoglJournal P R) (iter0 iter1 : CoglJournalIter) :
    Option Bool :=
  match iter_entry journal iter0, iter_entry journal iter1 with
  | some entry0, some entry1 => some (decide (entry0.n_layers = entry1.n_layers))
  | _, _ => none

/-- The function `compare_entry_modelviews`. -/
def compare_entry_modelviews (journal : CoglJournal P R) (iter0 iter1 : CoglJournalIter) :
    Option Bool :=
  match iter_entry journal iter0, iter_entry journal iter1 with
  | some entry0, some entry1 => some (decide (entry0.model_view = entry1.model_view))
  | _, _ => none

/-- The conversion of the `GLuint` `state->current_vertex` to the `int`
parameter `first_vertex` it is passed for. -/
def GLuint_to_int (n : ℕ) : ℤ := if n < 2 ^ 31 then (n : ℤ) else (n : ℤ) - 2 ^ 32

/-- The function `_cogl_journal_flush_modelview_and_entries`, with
`COGL_DEBUG_BATCHING` and `COGL_DEBUG_RECTANGLES` unset.  The products
`batch_len * 4` and `batch_len * 6` are taken in the integers. -/
def _cogl_journal_flush_modelview_and_entries (ctx : CoglContext) (ds : DrawState)
    (journal : CoglJournal P R) (data : FlushData P) (batch_start : CoglJournalIter)
    (batch_len : ℤ) : Option (FlushData P) :=
  let modelview_calls : Option (List (FlushCall P)) :=
    if ds.disable_software_transform then
      match iter_entry journal batch_start with
      | none => none
      | some entry =>
        some [FlushCall._cogl_matrix_stack_set entry.model_view,
          FlushCall._cogl_matrix_stack_flush_to_gl CoglMatrixMode.COGL_MATRIX_MODELVIEW]
    else some []
  match modelview_calls, data.state.source with
  | some calls, some source =>
    let draw : FlushCall P :=
      if ctx.driver_gl then
        FlushCall._cogl_draw_attributes CoglVerticesMode.GL_QUADS
          (GLuint_to_int data.state.current_vertex) (batch_len * 4) data.state.attributes
      else if batch_len > 1 then
        FlushCall._cogl_draw_indexed_attributes CoglVerticesMode.COGL_VERTICES_MODE_TRIANGLES
          (((data.state.current_vertex * 6 % 2 ^ 32 / 4 : ℕ) : ℤ)) (batch_len * 6)
          data.state.indices data.state.attributes
      else
        FlushCall._cogl_draw_attributes CoglVerticesMode.COGL_VERTICES_MODE_TRIANGLE_FAN
          (GLuint_to_int data.state.current_vertex) 4 data.state.attributes
    some
      { state := { data.state with
          current_vertex := (((data.state.current_vertex : ℤ) + 4 * batch_len) % 2 ^ 32).toNat }
        calls := data.calls ++ calls ++
          [FlushCall._cogl_push_source source, draw, FlushCall.cogl_pop_source] }
  | _, _ => none

/-- The function `_cogl_journal_flush_pipeline_and_entries`. -/
def _cogl_journal_flush_pipeline_and_entries (ctx : CoglContext) (ds : DrawState)
    (journal : CoglJournal P R) (data : FlushData P) (batch_start : CoglJournalIter)
    (batch_len : ℤ) : Option (FlushData P) :=
  match batch_at journal batch_start.batch_num with
  | none => none
  | some batch =>
    let data1 : FlushData P :=
      { data with state := { data.state with source := some batch.pipeline } }
    if ds.disable_software_transform then
      batch_and_call_data (fun _ => journal) compare_entry_modelviews
        (_cogl_journal_flush_modelview_and_entries ctx ds journal) batch_start batch_len data1
    else _cogl_journal_flush_modelview_and_entries ctx ds journal data1 batch_start batch_len

/-- The function `_cogl_journal_flush_texcoord_vbo_offsets_and_entries`: the
attributes from index 2 on are replaced by one attribute per layer of the first
entry of the run. -/
def _cogl_journal_flush_texcoord_vbo_offsets_and_entries (ctx : CoglContext) (ds : DrawState)
    (journal : CoglJournal P R) (data : FlushData P) (batch_start : CoglJournalIter)
    (batch_len : ℤ) : Option (FlushData P) :=
  match iter_entry journal batch_start with
  | none => none
  | some entry =>
    let data1 : FlushData P :=
      { data with
        state := { data.state with
          attributes := data.state.attributes.take 2 ++
            (List.range entry.n_layers.toNat).map (fun i =>
              ({ name := CoglAttributeName.cogl_tex_coord_in i
                 stride := data.state.stride
                 offset := data.state.array_offset +
                   ((POS_STRIDE ds).toNat + COLOR_STRIDE.toNat) * 4 + TEX_STRIDE.toNat * 4 * i
                 n_components := 2
                 type := CoglAttributeType.COGL_ATTRIBUTE_TYPE_FLOAT } : CoglAttribute)) } }
    batch_and_call_data (fun _ => journal)
      (fun _ iter0 iter1 => some (compare_entry_pipelines iter0 iter1))
      (_cogl_journal_flush_pipeline_and_entries ctx ds journal) batch_start batch_len data1

/-- The function `_cogl_journal_flush_vbo_offsets_and_entries`, with
`COGL_DEBUG_BATCHING` and `COGL_DEBUG_JOURNAL` unset. -/
def _cogl_journal_flush_vbo_offsets_and_entries (ctx : CoglContext) (ds : DrawState)
    (journal : CoglJournal P R) (data : FlushData P) (batch_start : CoglJournalIter)
    (batch_len : ℤ) : Option (FlushData P) :=
  match iter_entry journal batch_start with
  | none => none
  | some entry =>
    let stride := (GET_JOURNAL_VB_STRIDE_FOR_N_LAYERS ds entry.n_layers).toNat * 4
    let data1 : FlushData P :=
      { state := { data.state with
          stride := stride
          attributes :=
            [{ name := CoglAttributeName.cogl_position_in
               stride := stride
               offset := data.state.array_offset
               n_components := POS_STRIDE ds
               type := CoglAttributeType.COGL_ATTRIBUTE_TYPE_FLOAT },
             { name := CoglAttributeName.cogl_color_in
               stride := stride
               offset := data.state.array_offset + (POS_STRIDE ds).toNat * 4
               n_components := 4
               type := CoglAttributeType.COGL_ATTRIBUTE_TYPE_UNSIGNED_BYTE }]
          indices := if ctx.driver_gl then data.state.indices else some batch_len
          current_vertex := 0 }
        calls := data.calls ++
          (if ctx.driver_gl then [] else [FlushCall.cogl_get_rectangle_indices batch_len]) }
    match batch_and_call_data (fun _ => journal) compare_entry_n_layers
        (_cogl_journal_flush_texcoord_vbo_offsets_and_entries ctx ds journal)
        batch_start batch_len data1 with
    | none => none
    | some data2 =>
      some { data2 with
        state := { data2.state with
          array_offset := data2.state.array_offset + stride * 4 * batch_len.toNat } }

/-- The function `_cogl_journal_flush_clip_stacks_and_entries`, with
`COGL_DEBUG_BATCHING` unset. -/
def _cogl_journal_flush_clip_stacks_and_entries (ctx : CoglContext) (ds : DrawState)
    (journal : CoglJournal P R) (data : FlushData P) (batch_start : CoglJournalIter)
    (batch_len : ℤ) : Option (FlushData P) :=
  match iter_entry journal batch_start with
  | none => none
  | some entry =>
    let data1 : FlushData P :=
      { data with
        calls := data.calls ++
          [FlushCall._cogl_clip_stack_flush entry.clip_stack,
            FlushCall._cogl_matrix_stack_push] ++
          (if ds.disable_software_transform then []
           else [FlushCall._cogl_matrix_stack_load_identity,
             FlushCall._cogl_matrix_stack_flush_to_gl CoglMatrixMode.COGL_MATRIX_MODELVIEW]) ++
          [FlushCall._cogl_matrix_stack_flush_to_gl CoglMatrixMode.COGL_MATRIX_PROJECTION] }
    match batch_and_call_data (fun _ => journal) compare_entry_strides
        (_cogl_journal_flush_vbo_offsets_and_entries ctx ds journal)
        batch_start batch_len data1 with
    | none => none
    | some data2 =>
      some { data2 with calls := data2.calls ++ [FlushCall._cogl_matrix_stack_pop] }

/-- The function `_cogl_journal_maybe_software_clip_entries`, the callback of
the clipping pass: the `data` it changes is the journal. -/
def _cogl_journal_maybe_software_clip_entries [DecidableEq P] (c : Collaborators P R)
    (ds : DrawState) (journal : CoglJournal P R) (batch_start : CoglJournalIter)
    (batch_len : ℤ) : Option (CoglJournal P R) :=
  maybe_software_clip_entries c ds journal batch_start batch_len

/-- The function `_cogl_journal_flush`, with `COGL_DEBUG_BATCHING` unset: the
journal as the flush leaves it and the calls made to other modules, in order;
`none` when the flush aborts (`g_assert`) or dereferences an iterator that
points to no entry.  The array `ctx->journal_flush_attributes_array` is empty
when the flush starts, as every flush leaves it. -/
def _cogl_journal_flush [DecidableEq P] (c : Collaborators P R) (ctx : CoglContext)
    (ds : DrawState) (journal : CoglJournal P R) :
    Option (CoglJournal P R × List (FlushCall P)) :=
  if journal.journal_len = 0 then some (journal, [])
  else
    let first_iter := _cogl_journal_iterator_init journal
    let clipped : Option (CoglJournal P R) :=
      if ctx.disable_software_clip then some journal
      else
        batch_and_call_data (fun j => j) compare_entry_clip_stacks
          (_cogl_journal_maybe_software_clip_entries c ds) first_iter journal.journal_len journal
    match clipped with
    | none => none
    | some journal1 =>
      match upload_vertices ctx ds journal1 with
      | none => none
      | some (journal2, n_bytes, stores) =>
        let data : FlushData P :=
          { state :=
              { attribute_buffer := n_bytes
                attributes := []
                stride := 0
                array_offset := 0
                current_vertex := 0
                indices := none
                source := none }
            calls :=
              [FlushCall._cogl_framebuffer_flush_dependency_journals,
                FlushCall.cogl_push_framebuffer,
                FlushCall._cogl_framebuffer_flush_state,
                FlushCall.buffer_upload n_bytes stores] }
        match batch_and_call_data (fun _ => journal2) compare_entry_clip_stacks
            (_cogl_journal_flush_clip_stacks_and_entries ctx ds journal2)
            first_iter journal2.journal_len data with
        | none => none
        | some data' =>
          some (_cogl_journal_discard journal2, data'.calls ++ [FlushCall.cogl_pop_framebuffer])

/-! ## Vocabulary for the statements about the flush -/

/-- The maximal runs of a sequence, built from the left: `cur` is the run being
built, `prev` its last element; the next element joins the run when `p prev x`
holds and starts a new run when it does not. -/
def split_acc {α : Type} (p : α → α → Bool) : List α → α → List α → List (List α)
  | cur, _, [] => [cur]
  | cur, prev, x :: rest =>
    if p prev x then split_acc p (cur ++ [x]) x rest else cur :: split_acc p [x] x rest

/-- The maximal runs of a sequence on whose adjacent pairs `p` holds. -/
def split_runs {α : Type} (p : α → α → Bool) : List α → List (List α)
  | [] => []
  | a :: l => split_acc p [a] a l

/-- The callback invoked for each run of a list of runs in turn, with the first
iterator of the run and its length, threading the data; `none` when a callback
returns `none`. -/
def run_callbacks {S : Type} (batch_callback : S → CoglJournalIter → ℤ → Option S) :
    List (List CoglJournalIter) → S → Option S
  | [], data => some data
  | run :: rest, data =>
    match run.head? with
    | none => none
    | some batch_start =>
      match batch_callback data batch_start run.length with
      | none => none
      | some data' => run_callbacks batch_callback rest data'

/-- The list of iterators is a run of the journal: it is not empty and it is a
stretch of neighbouring positions of the journal, in iteration order. -/
def is_run (journal : CoglJournal P R) (run : List CoglJournalIter) : Prop :=
  run ≠ [] ∧ ∃ pre post, all_iters journal = pre ++ run ++ post

/-- The second journal has, behind every iterator, an entry with the same number
of layers as the first. -/
def layers_kept (journal journal' : CoglJournal P R) : Prop :=
  ∀ it, (iter_entry journal' it).map (fun e => e.n_layers) =
    (iter_entry journal it).map (fun e => e.n_layers)

/-! ## Vocabulary for the statements about the draw phase -/

/-- The test of a level of the flush as a boolean: `false` where the test cannot
read its entries. -/
def test_of
    (can_batch_callback : CoglJournal P R → CoglJournalIter → CoglJournalIter → Option Bool)
    (journal : CoglJournal P R) (iter0 iter1 : CoglJournalIter) : Bool :=
  (can_batch_callback journal iter0 iter1).getD false

/-- The runs of a list of runs, each with the elements that precede it: those
of `done` and those of the runs before it. -/
def with_done {α : Type} : List α → List (List α) → List (List α × List α)
  | _, [] => []
  | done, r :: rest => (done, r) :: with_done (done ++ r) rest

/-- The runs that a level-4 run is drawn in: the run itself, or its maximal runs
of equal modelview when the entries are not transformed in software. -/
def modelview_runs (ds : DrawState) (journal : CoglJournal P R)
    (run : List CoglJournalIter) : List (List CoglJournalIter) :=
  if ds.disable_software_transform then
    split_runs (test_of compare_entry_modelviews journal) run
  else [run]

/-- The runs that a level-3 run is drawn in: its maximal runs of one batch, each
split by modelview. -/
def pipeline_runs (ds : DrawState) (journal : CoglJournal P R)
    (run : List CoglJournalIter) : List (List CoglJournalIter) :=
  (split_runs compare_entry_pipelines run).flatMap (modelview_runs ds journal)

/-- The runs that a level-2 (stride) run is drawn in: its maximal runs of equal
layer count, each split by batch and modelview. -/
def layer_runs (ds : DrawState) (journal : CoglJournal P R)
    (run : List CoglJournalIter) : List (List CoglJournalIter) :=
  (split_runs (test_of compare_entry_n_layers journal) run).flatMap (pipeline_runs ds journal)

/-- The level-2 (stride) runs of a level-1 run. -/
def stride_runs_of (journal : CoglJournal P R) (run : List CoglJournalIter) :
    List (List CoglJournalIter) :=
  split_runs (test_of compare_entry_strides journal) run

/-- The level-2 (stride) runs of the journal: the maximal runs of one clip-stack
pointer, each split into its maximal runs of compatible stride. -/
def stride_runs (journal : CoglJournal P R) : List (List CoglJournalIter) :=
  (split_runs (test_of compare_entry_clip_stacks journal) (all_iters journal)).flatMap
    (stride_runs_of journal)

/-- A run that reaches the draw callback, with its place in the journal: `done`
are the iterators before its level-2 (stride) run, `stride_run` is that run,
`between` are the iterators of the stride run before the run, and `run` are the
iterators of the run itself. -/
structure DrawnRun where
  done : List CoglJournalIter
  stride_run : List CoglJournalIter
  between : List CoglJournalIter
  run : List CoglJournalIter
deriving DecidableEq, Repr

/-- The runs that the journal is drawn in, in order, each with its place. -/
def draw_runs (ds : DrawState) (journal : CoglJournal P R) : List DrawnRun :=
  (with_done [] (stride_runs journal)).flatMap (fun dr =>
    (with_done [] (layer_runs ds journal dr.2)).map (fun br =>
      ({ done := dr.1, stride_run := dr.2, between := br.1, run := br.2 } : DrawnRun)))

/-- The entries that a list of iterators points to. -/
def entries_of (journal : CoglJournal P R) (l : List CoglJournalIter) : List CoglJournalEntry :=
  l.filterMap (iter_entry journal)

/-- The pipeline of the batch of the first iterator of a run. -/
def source_of (journal : CoglJournal P R) (run : List CoglJournalIter) : Option P :=
  (run.head?.bind (fun it => batch_at journal it.batch_num)).map (fun batch => batch.pipeline)

/-- The layer count of the first entry of a run, 0 for a run with no first
entry. -/
def run_n_layers (journal : CoglJournal P R) (run : List CoglJournalIter) : ℤ :=
  ((run.head?.bind (iter_entry journal)).map (fun e => e.n_layers)).getD 0

/-- The stride, in 32-bit words, of the first entry of a run, 0 for a run with
no first entry. -/
def run_stride (ds : DrawState) (journal : CoglJournal P R) (run : List CoglJournalIter) : ℕ :=
  ((run.head?.bind (iter_entry journal)).map (entry_stride ds)).getD 0

/-- A call of `_cogl_draw_attributes` or `_cogl_draw_indexed_attributes`, with
all its arguments; `none` for another call. -/
def draw_call : FlushCall P → Option (FlushCall P)
  | FlushCall._cogl_draw_attributes mode first_vertex n_vertices attributes =>
    some (FlushCall._cogl_draw_attributes mode first_vertex n_vertices attributes)
  | FlushCall._cogl_draw_indexed_attributes mode first_vertex n_vertices indices attributes =>
    some (FlushCall._cogl_draw_indexed_attributes mode first_vertex n_vertices indices
      attributes)
  | _ => none

/-- The draw calls of a list of calls, in order. -/
def draw_calls (calls : List (FlushCall P)) : List (FlushCall P) :=
  calls.filterMap draw_call

/-- The pipeline of a call of `_cogl_push_source`. -/
def pushed_source : FlushCall P → Option P
  | FlushCall._cogl_push_source pipeline => some pipeline
  | _ => none

/-- The pipelines of the calls of `_cogl_push_source` of a list of calls, in
order. -/
def pushed_sources (calls : List (FlushCall P)) : List P :=
  calls.filterMap pushed_source

/-- The draw call for a run of `len` entries with `current_vertex` at `cv`, the
attributes `attributes` and the indices `indices` in the flush state, as
`_cogl_journal_flush_modelview_and_entries` makes it. -/
def run_call (ctx : CoglContext) (attributes : List CoglAttribute) (indices : Option ℤ)
    (cv : ℕ) (len : ℤ) : FlushCall P :=
  if ctx.driver_gl then
    FlushCall._cogl_draw_attributes CoglVerticesMode.GL_QUADS (GLuint_to_int cv) (len * 4)
      attributes
  else if len > 1 then
    FlushCall._cogl_draw_indexed_attributes CoglVerticesMode.COGL_VERTICES_MODE_TRIANGLES
      (((cv * 6 % 2 ^ 32 / 4 : ℕ) : ℤ)) (len * 6) indices attributes
  else
    FlushCall._cogl_draw_attributes CoglVerticesMode.COGL_VERTICES_MODE_TRIANGLE_FAN
      (GLuint_to_int cv) 4 attributes

/-- The texture-coordinate attributes for `n_layers` layers over vertices of
`stride` bytes that start at byte `array_offset`: layer `i` has two floats, after
the position, the colour and the layers before it. -/
def tex_coord_attributes (ds : DrawState) (stride array_offset : ℕ) (n_layers : ℤ) :
    List CoglAttribute :=
  (List.range n_layers.toNat).map (fun i =>
    ({ name := CoglAttributeName.cogl_tex_coord_in i
       stride := stride
       offset := array_offset + ((POS_STRIDE ds).toNat + COLOR_STRIDE.toNat) * 4 +
         TEX_STRIDE.toNat * 4 * i
       n_components := 2
       type := CoglAttributeType.COGL_ATTRIBUTE_TYPE_FLOAT } : CoglAttribute))

/-- The attributes for entries of `n_layers` layers over vertices of `stride`
bytes that start at byte `array_offset`: the position at the start of the
vertex, the colour after it, then the texture coordinates of each layer. -/
def journal_attributes (ds : DrawState) (stride array_offset : ℕ) (n_layers : ℤ) :
    List CoglAttribute :=
  [{ name := CoglAttributeName.cogl_position_in
     stride := stride
     offset := array_offset
     n_components := POS_STRIDE ds
     type := CoglAttributeType.COGL_ATTRIBUTE_TYPE_FLOAT },
   { name := CoglAttributeName.cogl_color_in
     stride := stride
     offset := array_offset + (POS_STRIDE ds).toNat * 4
     n_components := 4
     type := CoglAttributeType.COGL_ATTRIBUTE_TYPE_UNSIGNED_BYTE }] ++
  tex_coord_attributes ds stride array_offset n_layers

/-- The state after a callback of the levels 3 to 5 on the run `run`, which is
drawn in the runs `drawn`, with `between` the iterators of the stride run before
it and `attributes` the attributes that each run is drawn with: the vertex
cursor has advanced over the run, the offsets and the first two attributes are
kept, and one source was pushed and one draw call made for each run of
`drawn`. -/
def inner_post (ctx : CoglContext) (journal : CoglJournal P R) (data data' : FlushData P)
    (between run : List CoglJournalIter) (drawn : List (List CoglJournalIter))
    (attributes : List CoglJournalIter → List CoglAttribute) : Prop :=
  drawn.flatten = run ∧
  data'.state.current_vertex = 4 * (between ++ run).length % 2 ^ 32 ∧
  data'.state.array_offset = data.state.array_offset ∧
  data'.state.stride = data.state.stride ∧
  data'.state.indices = data.state.indices ∧
  data'.state.attribute_buffer = data.state.attribute_buffer ∧
  data'.state.attributes.take 2 = data.state.attributes.take 2 ∧
  draw_calls data'.calls = draw_calls data.calls ++
    (with_done between drawn).map (fun br =>
      run_call ctx (attributes br.2) data.state.indices (4 * br.1.length % 2 ^ 32)
        br.2.length) ∧
  (pushed_sources data'.calls).map some = (pushed_sources data.calls).map some ++
    drawn.map (source_of journal)

/-- The state after a callback of the levels 1 and 2, or after the draw phase,
on the run `run` with the stride runs `strides`, where `done` are the iterators
before the run: the array offset has advanced over the bytes uploaded for the
run, and each stride run was drawn in its runs, with the attributes at the bytes
uploaded for the entries before the stride run, of the stride of its first
entry, and with the rectangle indices got for its length. -/
def outer_post (ctx : CoglContext) (ds : DrawState) (journal : CoglJournal P R)
    (data data' : FlushData P) (done run : List CoglJournalIter)
    (strides : List (List CoglJournalIter)) : Prop :=
  strides.flatten = run ∧
  data'.state.array_offset = 4 * upload_words ds (entries_of journal (done ++ run)) ∧
  data'.state.attribute_buffer = data.state.attribute_buffer ∧
  draw_calls data'.calls = draw_calls data.calls ++
    (with_done done strides).flatMap (fun dr =>
      (with_done [] (layer_runs ds journal dr.2)).map (fun br =>
        run_call ctx
          (journal_attributes ds (run_stride ds journal dr.2 * 4)
            (4 * upload_words ds (entries_of journal dr.1)) (run_n_layers journal br.2))
          (some (dr.2.length : ℤ)) (4 * br.1.length % 2 ^ 32) br.2.length)) ∧
  (pushed_sources data'.calls).map some = (pushed_sources data.calls).map some ++
    (strides.flatMap (layer_runs ds journal)).map (source_of journal)

/-! ## Vocabulary for the statements about draining -/

/-- The journal is drained: no batch is left and the entry counter, the needed
vertex-buffer length and the fast-read counter are 0. -/
def drained (journal : CoglJournal P R) : Prop :=
  journal.batches = [] ∧ journal.journal_len = 0 ∧ journal.needed_vbo_len = 0 ∧
    journal.fast_read_pixel_count = 0

instance [DecidableEq P] [DecidableEq R] (journal : CoglJournal P R) :
    Decidable (drained journal) := by
  unfold drained; infer_instance

/-- The format is one of the two that `_cogl_journal_try_read_pixel` serves. -/
def format_supported (format : CoglPixelFormat) : Prop :=
  format = CoglPixelFormat.COGL_PIXEL_FORMAT_RGBA_8888_PRE ∨
    format = CoglPixelFormat.COGL_PIXEL_FORMAT_RGBA_8888

instance (format : CoglPixelFormat) : Decidable (format_supported format) := by
  unfold format_supported; infer_instance

/-- The stores of a call that uploads the vertex buffer. -/
def upload_of : FlushCall P → Option (List (ℕ × VboWord))
  | FlushCall.buffer_upload _ stores => some stores
  | _ => none

/-! ## Vocabulary for the statements about translations -/

/-- The product `a ⋅ b` of two matrices; a field `rc` is the entry in row `r`,
column `c`. -/
def matrix_multiply (a b : CoglMatrix) : CoglMatrix :=
  { xx := a.xx * b.xx + a.xy * b.yx + a.xz * b.zx + a.xw * b.wx
    yx := a.yx * b.xx + a.yy * b.yx + a.yz * b.zx + a.yw * b.wx
    zx := a.zx * b.xx + a.zy * b.yx + a.zz * b.zx + a.zw * b.wx
    wx := a.wx * b.xx + a.wy * b.yx + a.wz * b.zx + a.ww * b.wx
    xy := a.xx * b.xy + a.xy * b.yy + a.xz * b.zy + a.xw * b.wy
    yy := a.yx * b.xy + a.yy * b.yy + a.yz * b.zy + a.yw * b.wy
    zy := a.zx * b.xy + a.zy * b.yy + a.zz * b.zy + a.zw * b.wy
    wy := a.wx * b.xy + a.wy * b.yy + a.wz * b.zy + a.ww * b.wy
    xz := a.xx * b.xz + a.xy * b.yz + a.xz * b.zz + a.xw * b.wz
    yz := a.yx * b.xz + a.yy * b.yz + a.yz * b.zz + a.yw * b.wz
    zz := a.zx * b.xz + a.zy * b.yz + a.zz * b.zz + a.zw * b.wz
    wz := a.wx * b.xz + a.wy * b.yz + a.wz * b.zz + a.ww * b.wz
    xw := a.xx * b.xw + a.xy * b.yw + a.xz * b.zw + a.xw * b.ww
    yw := a.yx * b.xw + a.yy * b.yw + a.yz * b.zw + a.yw * b.ww
    zw := a.zx * b.xw + a.zy * b.yw + a.zz * b.zw + a.zw * b.ww
    ww := a.wx * b.xw + a.wy * b.yw + a.wz * b.zw + a.ww * b.ww }

/-- The matrix `T(x, y)` of the translation by `(x, y, 0)`. -/
def translation_matrix (x y : ℚ) : CoglMatrix :=
  { xx := 1, yx := 0, zx := 0, wx := 0, xy := 0, yy := 1, zy := 0, wy := 0,
    xz := 0, yz := 0, zz := 1, wz := 0, xw := x, yw := y, zw := 0, ww := 1 }

/-- The first three columns of two matrices are equal. -/
def same_first_three_columns (a b : CoglMatrix) : Prop :=
  a.xx = b.xx ∧ a.yx = b.yx ∧ a.zx = b.zx ∧ a.wx = b.wx ∧
  a.xy = b.xy ∧ a.yy = b.yy ∧ a.zy = b.zy ∧ a.wy = b.wy ∧
  a.xz = b.xz ∧ a.yz = b.yz ∧ a.zz = b.zz ∧ a.wz = b.wz

instance (a b : CoglMatrix) : Decidable (same_first_three_columns a b) := by
  unfold same_first_three_columns; infer_instance

/-! ## Vocabulary for the statements about the software clip rewrite -/

/-- The quad `position'` spans the intersection of the quad `position` with the
bound. -/
def spans_intersection (position position' : Float4) (bounds : ClipBounds) : Prop :=
  min position'.f0 position'.f2 = max (min position.f0 position.f2) bounds.x_1 ∧
  max position'.f0 position'.f2 = min (max position.f0 position.f2) bounds.x_2 ∧
  min position'.f1 position'.f3 = max (min position.f1 position.f3) bounds.y_1 ∧
  max position'.f1 position'.f3 = min (max position.f1 position.f3) bounds.y_2

instance (position position' : Float4) (bounds : ClipBounds) :
    Decidable (spans_intersection position position' bounds) := by
  unfold spans_intersection; infer_instance

/-- The quad `position'` has the corner orientation of the quad `position`. -/
def same_orientation (position position' : Float4) : Prop :=
  (position.f0 < position.f2 → position'.f0 < position'.f2) ∧
  (position.f0 > position.f2 → position'.f0 > position'.f2) ∧
  (position.f1 < position.f3 → position'.f1 < position'.f3) ∧
  (position.f1 > position.f3 → position'.f1 > position'.f3)

instance (position position' : Float4) : Decidable (same_orientation position position') := by
  unfold same_orientation; infer_instance

/-- The texture coordinates of layer `i` of `entry'` are the linear
interpolation of those of `entry` at the fractional position of the corners of
`entry'` in the quad of `entry`: `s0' = s0 + (x0' - x0) / (x2 - x0) * (s2 - s0)`
and likewise for `t0'`, `s2'`, `t2'`. -/
def layer_interpolated (entry entry' : CoglJournalEntry) (i : ℕ) : Prop :=
  entry'.tex_coords.getD (4 * i) 0 = entry.tex_coords.getD (4 * i) 0 +
    (entry'.position.f0 - entry.position.f0) / (entry.position.f2 - entry.position.f0) *
      (entry.tex_coords.getD (4 * i + 2) 0 - entry.tex_coords.getD (4 * i) 0) ∧
  entry'.tex_coords.getD (4 * i + 1) 0 = entry.tex_coords.getD (4 * i + 1) 0 +
    (entry'.position.f1 - entry.position.f1) / (entry.position.f3 - entry.position.f1) *
      (entry.tex_coords.getD (4 * i + 3) 0 - entry.tex_coords.getD (4 * i + 1) 0) ∧
  entry'.tex_coords.getD (4 * i + 2) 0 = entry.tex_coords.getD (4 * i) 0 +
    (entry'.position.f2 - entry.position.f0) / (entry.position.f2 - entry.position.f0) *
      (entry.tex_coords.getD (4 * i + 2) 0 - entry.tex_coords.getD (4 * i) 0) ∧
  entry'.tex_coords.getD (4 * i + 3) 0 = entry.tex_coords.getD (4 * i + 1) 0 +
    (entry'.position.f3 - entry.position.f1) / (entry.position.f3 - entry.position.f1) *
      (entry.tex_coords.getD (4 * i + 3) 0 - entry.tex_coords.getD (4 * i + 1) 0)

instance (entry entry' : CoglJournalEntry) (i : ℕ) :
    Decidable (layer_interpolated entry entry' i) := by
  unfold layer_interpolated; infer_instance

/-! ## The colour balance of the video sink (cogl-gst-video-sink.c) -/

/-- The colour-balance fields of `CoglGstVideoSinkPrivate`; a `gdouble` is a
rational number. -/
structure CoglGstVideoSinkPrivate where
  brightness : ℚ
  contrast : ℚ
  hue : ℚ
  saturation : ℚ
  balance_dirty : Bool
deriving DecidableEq, Repr

/-- The fields of `GstColorBalanceChannel` that the sink reads. -/
structure GstColorBalanceChannel where
  label : String
  min_value : ℤ
  max_value : ℤ
deriving DecidableEq, Repr

/-- The field of `CoglGstVideoSinkPrivate` that the pointer `*valuep` of
`cogl_gst_video_sink_get_variable` points to. -/
inductive BalanceVariable where
  | brightness
  | contrast
  | hue
  | saturation
deriving DecidableEq, Repr

/-- The value `*value` read through the pointer. -/
def BalanceVariable.read (priv : CoglGstVideoSinkPrivate) : BalanceVariable → ℚ
  | BalanceVariable.brightness => priv.brightness
  | BalanceVariable.contrast => priv.contrast
  | BalanceVariable.hue => priv.hue
  | BalanceVariable.saturation => priv.saturation

/-- The store `*value = new_value` through the pointer. -/
def BalanceVariable.write (priv : CoglGstVideoSinkPrivate) (new_value : ℚ) :
    BalanceVariable → CoglGstVideoSinkPrivate
  | BalanceVariable.brightness => { priv with brightness := new_value }
  | BalanceVariable.contrast => { priv with contrast := new_value }
  | BalanceVariable.hue => { priv with hue := new_value }
  | BalanceVariable.saturation => { priv with saturation := new_value }

/-- The function `cogl_gst_video_sink_get_variable`: `some (min, max, value)`
when it returns `TRUE`, `none` when it returns `FALSE`; `variable_name` is its
parameter `variable`. -/
def cogl_gst_video_sink_get_variable (variable_name : String) :
    Option (ℚ × ℚ × BalanceVariable) :=
  if variable_name = "BRIGHTNESS" then some (-1, 1, BalanceVariable.brightness)
  else if variable_name = "CONTRAST" then some (0, 2, BalanceVariable.contrast)
  else if variable_name = "HUE" then some (-1, 1, BalanceVariable.hue)
  else if variable_name = "SATURATION" then some (0, 2, BalanceVariable.saturation)
  else none

/-- The conversion `(gint)` of a `gdouble`: truncation towards zero. -/
def gint_of_gdouble (q : ℚ) : ℤ := if 0 ≤ q then ⌊q⌋ else ⌈q⌉

/-- The function `cogl_gst_video_sink_color_balance_set_value`; the signal
`gst_color_balance_value_changed` it emits is left out. -/
def cogl_gst_video_sink_color_balance_set_value (priv : CoglGstVideoSinkPrivate)
    (channel : GstColorBalanceChannel) (value : ℤ) : CoglGstVideoSinkPrivate :=
  match cogl_gst_video_sink_get_variable channel.label with
  | none => priv
  | some (min, max, old_value) =>
    let new_value : ℚ := (max - min) *
      (((value - channel.min_value : ℤ) : ℚ) /
        ((channel.max_value - channel.min_value : ℤ) : ℚ)) + min
    if new_value ≠ old_value.read priv then
      { old_value.write priv new_value with balance_dirty := true }
    else priv

/-- The function `cogl_gst_video_sink_color_balance_get_value`. -/
def cogl_gst_video_sink_color_balance_get_value (priv : CoglGstVideoSinkPrivate)
    (channel : GstColorBalanceChannel) : ℤ :=
  match cogl_gst_video_sink_get_variable channel.label with
  | none => 0
  | some (min, max, old_value) =>
    gint_of_gdouble (((old_value.read priv + min) / (max - min)) *
      ((channel.max_value - channel.min_value : ℤ) : ℚ)) + channel.min_value

/-- A channel that `cogl_gst_video_sink_color_balance_list_channels` makes:
the label, `min_value = -1000` and `max_value = 1000`. -/
def balance_channel (label : String) : GstColorBalanceChannel :=
  { label := label, min_value := -1000, max_value := 1000 }

/-- The colour-balance fields as `cogl_gst_video_sink_init` sets them:
`DEFAULT_BRIGHTNESS`, `DEFAULT_CONTRAST`, `DEFAULT_HUE`, `DEFAULT_SATURATION`. -/
def default_balance : CoglGstVideoSinkPrivate :=
  { brightness := 0, contrast := 1, hue := 0, saturation := 1, balance_dirty := false }

/-! ## Vocabulary for the statements about the counters -/

/-- The pointer `vout` after the loop of `upload_vertices`, as a word index
into the mapped buffer, with `fuel = journal_len - entry_num` passes left and
`vout` at word `vout`; `none` when `iter.entry` cannot be dereferenced. -/
def upload_vertices_vout (ds : DrawState) (journal : CoglJournal P R) :
    ℕ → CoglJournalIter → ℕ → Option ℕ
  | 0, _, vout => some vout
  | fuel + 1, iter, vout =>
    match iter_entry journal iter with
    | none => none
    | some entry =>
      match _cogl_journal_iterator_next journal iter with
      | none => none
      | some next_iter =>
        upload_vertices_vout ds journal fuel next_iter
          (vout + (GET_JOURNAL_VB_STRIDE_FOR_N_LAYERS ds entry.n_layers).toNat * 4)

/-- The counters invariant of the journal: `journal_len` is the number of
entries of all batches and `needed_vbo_len` is the sum over all entries of four
times the stride of the entry. -/
def counters_invariant (ds : DrawState) (journal : CoglJournal P R) : Prop :=
  journal.journal_len = (all_entries journal).length ∧
    journal.needed_vbo_len = upload_words ds (all_entries journal)

instance (ds : DrawState) (journal : CoglJournal P R) :
    Decidable (counters_invariant ds journal) := by
  unfold counters_invariant; infer_instance

/-! ## Vocabulary for the statements about sequences of operations -/

/-- An operation on the journal: a call of `_cogl_journal_log_quad`, of
`_cogl_journal_discard`, or of `_cogl_journal_flush` with the context and the
state of the draw framebuffer at the call. -/
inductive JournalOp (P : Type) where
  | log (call : LogCall P)
  | discard
  | flush (ctx : CoglContext) (ds : DrawState)

/-- The journal after an operation, `none` when the operation aborts or
dereferences an iterator that points to no entry. -/
def run_op [DecidableEq P] (c : Collaborators P R) (journal : CoglJournal P R) :
    JournalOp P → Option (CoglJournal P R)
  | JournalOp.log call => some (log_call c journal call)
  | JournalOp.discard => some (_cogl_journal_discard journal)
  | JournalOp.flush ctx ds => (_cogl_journal_flush c ctx ds journal).map (fun r => r.1)

/-- The journal after a sequence of operations. -/
def run_ops [DecidableEq P] (c : Collaborators P R) :
    CoglJournal P R → List (JournalOp P) → Option (CoglJournal P R)
  | journal, [] => some journal
  | journal, op :: rest =>
    match run_op c journal op with
    | none => none
    | some journal' => run_ops c journal' rest

/-- The value of `COGL_DEBUG_DISABLE_SOFTWARE_TRANSFORM` that an operation
runs under, `none` for a discard, which does not read the flag. -/
def op_transform_flag : JournalOp P → Option Bool
  | JournalOp.log call => some call.ds.disable_software_transform
  | JournalOp.discard => none
  | JournalOp.flush _ ds => some ds.disable_software_transform

/-! ## Vocabulary for the statements about the vertices drawn -/

/-- Modelled from the spec: the index at position `k` of the index buffer that
`cogl_get_rectangle_indices` returns (cogl.c, absent here), "an indexed triangle
list (2 triangles per quad)": the six indices of rectangle `i` are `4 * i` plus
0, 1, 2 and 0, 2, 3. -/
def rectangle_index (k : ℕ) : ℕ :=
  4 * (k / 6) + [0, 1, 2, 0, 2, 3].getD (k % 6) 0

/-- Modelled from the spec: the numbers of the vertices that a draw call
fetches, in order ("a draw-mode + vertex/index range"): the `n_vertices`
vertices from `first_vertex` on, or, for an indexed draw, the vertices named by
the `n_vertices` indices from index `first_vertex` on of the rectangle indices
got for `n_rectangles` rectangles, which hold six indices per rectangle.  It is
`none` for a range that starts below 0 or has a negative length, for an indexed
draw without indices or past the end of the indices, and for a call that does
not draw. -/
def fetched_vertices : FlushCall P → Option (List ℕ)
  | FlushCall._cogl_draw_attributes _ first_vertex n_vertices _ =>
    if first_vertex < 0 ∨ n_vertices < 0 then none
    else some ((List.range n_vertices.toNat).map (fun k => first_vertex.toNat + k))
  | FlushCall._cogl_draw_indexed_attributes _ first_vertex n_vertices indices _ =>
    match indices with
    | none => none
    | some n_rectangles =>
      if first_vertex < 0 ∨ n_vertices < 0 ∨ 6 * n_rectangles < first_vertex + n_vertices then
        none
      else
        some ((List.range n_vertices.toNat).map
          (fun k => rectangle_index (first_vertex.toNat + k)))
  | _ => none

/-- The attributes of a draw call. -/
def call_attributes : FlushCall P → List CoglAttribute
  | FlushCall._cogl_draw_attributes _ _ _ attributes => attributes
  | FlushCall._cogl_draw_indexed_attributes _ _ _ _ attributes => attributes
  | _ => []

/-- Modelled from the spec: the byte of the buffer at which an attribute of
"byte offset, stride" starts for the vertex number `v`. -/
def attribute_address (a : CoglAttribute) (v : ℕ) : ℕ :=
  a.offset + a.stride * v

/-- The word of an uploaded vertex at which the data of an attribute starts: the
position at word 0, the colour after the position, the texture coordinates of
layer `i` after the colour and two words for each layer before it. -/
def attribute_word (ds : DrawState) : CoglAttributeName → ℕ
  | CoglAttributeName.cogl_position_in => 0
  | CoglAttributeName.cogl_color_in => (POS_STRIDE ds).toNat
  | CoglAttributeName.cogl_tex_coord_in i =>
    (POS_STRIDE ds).toNat + COLOR_STRIDE.toNat + TEX_STRIDE.toNat * i

/-- The vertex numbers of a quad within the range of a draw call over `n_run`
entries: the four vertices in turn, or, for the indexed draw of a run of more
than one entry with a driver that is not GL, the two triangles 0, 1, 2 and
0, 2, 3. -/
def quad_vertices (ctx : CoglContext) (n_run : ℕ) : List ℕ :=
  if ctx.driver_gl then [0, 1, 2, 3]
  else if 1 < n_run then [0, 1, 2, 0, 2, 3]
  else [0, 1, 2, 3]

/-- The draw call for a run that reaches the draw callback: with the GL driver
`GL_QUADS` from vertex 4 times the number of entries between the start of the
stride run and the run, four vertices per entry; with another driver, for a run
of more than one entry, indexed triangles from index 6 times that number, six
indices per entry, through the rectangle indices got for the stride run, and for
a run of one entry a triangle fan of the four vertices.  The attributes are over
vertices of the stride of the stride run that start at the bytes uploaded for
the entries before the stride run, with the layers of the run. -/
def drawn_call (ctx : CoglContext) (ds : DrawState) (journal : CoglJournal P R)
    (r : DrawnRun) : FlushCall P :=
  let attributes := journal_attributes ds (run_stride ds journal r.stride_run * 4)
    (4 * upload_words ds (entries_of journal r.done)) (run_n_layers journal r.run)
  if ctx.driver_gl then
    FlushCall._cogl_draw_attributes CoglVerticesMode.GL_QUADS (4 * (r.between.length : ℤ))
      (4 * (r.run.length : ℤ)) attributes
  else if 1 < r.run.length then
    FlushCall._cogl_draw_indexed_attributes CoglVerticesMode.COGL_VERTICES_MODE_TRIANGLES
      (6 * (r.between.length : ℤ)) (6 * (r.run.length : ℤ)) (some (r.stride_run.length : ℤ))
      attributes
  else
    FlushCall._cogl_draw_attributes CoglVerticesMode.COGL_VERTICES_MODE_TRIANGLE_FAN
      (4 * (r.between.length : ℤ)) 4 attributes

/-! ## A sample scene

Concrete collaborators and the three quads A, B, C of a 40x40 window, for
evaluating the definitions. -/

/-- A sample pipeline: a number that stands for all state but the colour, and
the colour. -/
structure SamplePipeline where
  state : ℕ
  color : ColorUB
deriving DecidableEq, Repr

/-- The identity matrix. -/
def sample_identity : CoglMatrix :=
  { xx := 1, yx := 0, zx := 0, wx := 0, xy := 0, yy := 1, zy := 0, wy := 0,
    xz := 0, yz := 0, zz := 1, wz := 0, xw := 0, yw := 0, zw := 0, ww := 1 }

/-- An orthographic projection that maps the window `[0,40] x [0,40]` (y down)
to normalized device coordinates. -/
def sample_projection : CoglMatrix :=
  { xx := 1 / 20, yx := 0, zx := 0, wx := 0, xy := 0, yy := -1 / 20, zy := 0, wy := 0,
    xz := 0, yz := 0, zz := 1, wz := 0, xw := -1, yw := 1, zw := 0, ww := 1 }

/-- A matrix applied to the point `(x, y, 0, 1)`, keeping x, y, z. -/
def sample_transform_point (m : CoglMatrix) (v : Vertex3) : Vertex3 :=
  { x := m.xx * v.x + m.xy * v.y + m.xw
    y := m.yx * v.x + m.yy * v.y + m.yw
    z := m.zx * v.x + m.zy * v.y + m.zw }

/-- A matrix applied to the point `(x, y, z, 1)`. -/
def sample_project_point (m : CoglMatrix) (v : Vertex3) : PolyPoint :=
  { x := m.xx * v.x + m.xy * v.y + m.xz * v.z + m.xw
    y := m.yx * v.x + m.yy * v.y + m.yz * v.z + m.yw
    z := m.zx * v.x + m.zy * v.y + m.zz * v.z + m.zw
    w := m.wx * v.x + m.wy * v.y + m.wz * v.z + m.ww }

/-- A point-in-polygon test for the axis-aligned quads of the sample scene:
inside the box spanned by the first and the third point, upper bounds excluded. -/
def sample_point_in_poly (x y : ℚ) (poly : Poly) : Bool :=
  decide (min poly.p0.x poly.p2.x ≤ x ∧ x < max poly.p0.x poly.p2.x ∧
    min poly.p0.y poly.p2.y ≤ y ∧ y < max poly.p0.y poly.p2.y)

/-- Two boxes share interior points. -/
def sample_meets (a b : CoglLooseRegionRectangle) : Prop :=
  a.x_1 < b.x_2 ∧ b.x_1 < a.x_2 ∧ a.y_1 < b.y_2 ∧ b.y_1 < a.y_2

instance (a b : CoglLooseRegionRectangle) : Decidable (sample_meets a b) := by
  unfold sample_meets; infer_instance

/-- Sample collaborators: pipelines are equivalent when their states are equal;
the region is the list of the added rectangles and intersects a box when one of
them shares interior points with it; state 0 is the flat opaque-colour pipeline. -/
def sample_collaborators : Collaborators SamplePipeline (List CoglLooseRegionRectangle) :=
  { _cogl_pipeline_equal := fun a b => decide (a.state = b.state)
    _cogl_pipeline_get_colorubv := fun p => p.color
    cogl_pipeline_get_n_layers := fun _ => 0
    cogl_pipeline_get_user_program := fun _ => false
    _cogl_pipeline_layer_has_user_matrix := fun _ _ => false
    _cogl_pipeline_apply_overrides := fun p _ => p
    opaque_color_pipeline := { state := 0, color := { r := 255, g := 255, b := 255, a := 255 } }
    _cogl_loose_region_init := []
    _cogl_loose_region_add_rectangle := fun region rect => region ++ [rect]
    _cogl_loose_region_intersects := fun region rect =>
      region.any (fun r => decide (sample_meets r rect))
    cogl_matrix_transform_points := fun m v =>
      { v0 := sample_transform_point m v.v0, v1 := sample_transform_point m v.v1
        v2 := sample_transform_point m v.v2, v3 := sample_transform_point m v.v3 }
    cogl_matrix_project_points := fun m v =>
      { p0 := sample_project_point m v.v0, p1 := sample_project_point m v.v1
        p2 := sample_project_point m v.v2, p3 := sample_project_point m v.v3 }
    _cogl_util_point_in_screen_poly := sample_point_in_poly
    rect_can_be_scissor_of_entry := fun _ => true }

/-- The draw framebuffer of the sample scene: identity modelview, the sample
projection, a 40x40 viewport at the origin, no clip. -/
def sample_draw_state : DrawState :=
  { modelview := sample_identity
    projection := sample_projection
    viewport := { f0 := 0, f1 := 0, f2 := 40, f3 := 40 }
    clip_stack := []
    disable_software_transform := false }

/-- A call that logs the quad `[x0, y0, x2, y2]` with no layers. -/
def sample_call (x0 y0 x2 y2 : ℚ) (state : ℕ) (color : ColorUB) : LogCall SamplePipeline :=
  { ds := sample_draw_state
    position := { f0 := x0, f1 := y0, f2 := x2, f3 := y2 }
    pipeline := { state := state, color := color }
    n_layers := 0
    layer0_override_texture := false
    tex_coords := [] }

/-- Opaque red. -/
def sample_red : ColorUB := { r := 255, g := 0, b := 0, a := 255 }

/-- Opaque green. -/
def sample_green : ColorUB := { r := 0, g := 255, b := 0, a := 255 }

/-- Opaque blue. -/
def sample_blue : ColorUB := { r := 0, g := 0, b := 255, a := 255 }

/-- The quad A = [0,0,10,10], red, state `s`. -/
def sample_A (s : ℕ) : LogCall SamplePipeline := sample_call 0 0 10 10 s sample_red

/-- The quad B = [5,5,15,15], blue, state `s`. -/
def sample_B (s : ℕ) : LogCall SamplePipeline := sample_call 5 5 15 15 s sample_blue

/-- The quad C = [20,20,30,30], green, state `s`. -/
def sample_C (s : ℕ) : LogCall SamplePipeline := sample_call 20 20 30 30 s sample_green

/-- The journal after logging A (state 0), C (state 1) and B (state 0) into a
new journal. -/
def sample_journal : CoglJournal SamplePipeline (List CoglLooseRegionRectangle) :=
  log_calls sample_collaborators _cogl_journal_new [sample_A 0, sample_C 1, sample_B 0]

/-- The journal after logging A, B and C, all three with the flat-colour state 0,
into a new journal: the three quads share one batch. -/
def sample_flat_journal : CoglJournal SamplePipeline (List CoglLooseRegionRectangle) :=
  log_calls sample_collaborators _cogl_journal_new [sample_A 0, sample_B 0, sample_C 0]

/-- The journal after logging A and C, both with state 0: two quads that do not
overlap, in one batch. -/
def sample_disjoint : CoglJournal SamplePipeline (List CoglLooseRegionRectangle) :=
  log_calls sample_collaborators _cogl_journal_new [sample_A 0, sample_C 0]

/-- The supported format used in the sample reads. -/
def sample_format : CoglPixelFormat := CoglPixelFormat.COGL_PIXEL_FORMAT_RGBA_8888

/-- The sample draw state with `COGL_DEBUG_DISABLE_SOFTWARE_TRANSFORM` set. -/
def sample_debug_state : DrawState :=
  { sample_draw_state with disable_software_transform := true }

/-- The translation by `(tx, ty, 0)`. -/
def sample_translation (tx ty : ℚ) : CoglMatrix :=
  { sample_identity with xw := tx, yw := ty }

/-- A rectangle clip `[2,2]-[8,8]` set under the identity modelview, which can
be a scissor; the node is at address 1. -/
def sample_clip_rect : CoglClipStackNode :=
  { address := 1
    type := CoglClipStackType.COGL_CLIP_STACK_RECT
    bounds_x0 := 2, bounds_y0 := 2, bounds_x1 := 8, bounds_y1 := 8
    x0 := 2, y0 := 2, x1 := 8, y1 := 8
    matrix := sample_identity
    can_be_scissor := true }

/-- A window-rectangle clip that covers the whole 40x40 window; the node is at
address 2. -/
def sample_clip_window : CoglClipStackNode :=
  { address := 2
    type := CoglClipStackType.COGL_CLIP_STACK_WINDOW_RECT
    bounds_x0 := 0, bounds_y0 := 0, bounds_x1 := 40, bounds_y1 := 40
    x0 := 0, y0 := 0, x1 := 40, y1 := 40
    matrix := sample_identity
    can_be_scissor := true }

/-- The flat opaque pipeline of the sample scene (state 0) in red. -/
def sample_flat_red : SamplePipeline := { state := 0, color := sample_red }

/-- The quad `[0,0,10,10]` logged under the translation by (3, 4) with the
rectangle clip of the sample scene on the clip stack. -/
def sample_translated_entry : CoglJournalEntry :=
  log_quad_entry sample_collaborators
    { sample_draw_state with
      modelview := sample_translation 3 4, clip_stack := [sample_clip_rect] }
    { f0 := 0, f1 := 0, f2 := 10, f3 := 10 } sample_flat_red 0 []

/-- The flat quad `[5,0,5,10]` (zero width), as logged in the sample scene. -/
def sample_flat_quad : CoglJournalEntry :=
  call_entry sample_collaborators (sample_call 5 0 5 10 0 sample_red)

/-- The journal after logging the quad A (state 0, red) while the clip stack of
the draw framebuffer holds the window-rectangle clip of the sample scene. -/
def sample_window_journal : CoglJournal SamplePipeline (List CoglLooseRegionRectangle) :=
  log_calls sample_collaborators _cogl_journal_new
    [{ sample_A 0 with
       ds := { sample_draw_state with clip_stack := [sample_clip_window] } }]

/-- A sample context: a driver other than `COGL_DRIVER_GL`, vertex buffer
objects available, software clipping enabled. -/
def sample_context : CoglContext :=
  { driver_gl := false, feature_vbos := true, disable_software_clip := false }

/-- A call that logs the quad `[2,3,12,13]` (red, state 0) with one layer whose
texture coordinates are (0,0)-(1,1). -/
def sample_textured_call : LogCall SamplePipeline :=
  { sample_call 2 3 12 13 0 sample_red with n_layers := 1, tex_coords := [0, 0, 1, 1] }

/-- The journal after logging the textured quad of the sample scene. -/
def sample_textured_journal : CoglJournal SamplePipeline (List CoglLooseRegionRectangle) :=
  log_calls sample_collaborators _cogl_journal_new [sample_textured_call]

/-- The sample draw state with the rectangle clip `[2,2]-[8,8]` on the clip
stack. -/
def sample_clipped_state : DrawState :=
  { sample_draw_state with clip_stack := [sample_clip_rect] }

/-- The journal after logging A and B (state 0) under the rectangle clip of the
sample scene and then C (state 1) with no clip: the clipped run A, B and the
unclipped C. -/
def sample_clipped_journal : CoglJournal SamplePipeline (List CoglLooseRegionRectangle) :=
  log_calls sample_collaborators _cogl_journal_new
    [{ sample_A 0 with ds := sample_clipped_state },
      { sample_B 0 with ds := sample_clipped_state }, sample_C 1]

/-- The journal after logging C (state 0) under the rectangle clip `[2,2]-[8,8]`
of the sample scene, which C lies outside of. -/
def sample_eliminated_journal : CoglJournal SamplePipeline (List CoglLooseRegionRectangle) :=
  log_calls sample_collaborators _cogl_journal_new
    [{ sample_C 0 with ds := sample_clipped_state }]

/-- A call that logs the quad `[20,20,30,30]` (green, state 0) with three
layers whose texture coordinates are (0,0)-(1,1). -/
def sample_three_layer_call : LogCall SamplePipeline :=
  { sample_call 20 20 30 30 0 sample_green with
    n_layers := 3, tex_coords := [0, 0, 1, 1, 0, 0, 1, 1, 0, 0, 1, 1] }

/-- The journal after logging A (no layer), the textured quad (one layer) and
the quad with three layers, all in state 0: one batch, with the layer counts 0,
1 and 3. -/
def sample_layers_journal : CoglJournal SamplePipeline (List CoglLooseRegionRectangle) :=
  log_calls sample_collaborators _cogl_journal_new
    [sample_A 0, sample_textured_call, sample_three_layer_call]

/-- A sequence of operations on the sample scene: log A and the textured quad,
flush, log C, discard, log the quad with three layers and B. -/
def sample_ops : List (JournalOp SamplePipeline) :=
  [JournalOp.log (sample_A 0), JournalOp.log sample_textured_call,
    JournalOp.flush sample_context sample_draw_state, JournalOp.log (sample_C 1),
    JournalOp.discard, JournalOp.log sample_three_layer_call, JournalOp.log (sample_B 0)]

/-- The rectangle clip of the sample scene pushed a second time: a node equal to
the first at another address (address 3). -/
def sample_clip_rect_again : CoglClipStackNode := { sample_clip_rect with address := 3 }

/-- The journal after logging A (state 0) under the rectangle clip of the sample
scene, B (state 0) under the second push of that rectangle, and C (state 1)
with no clip. -/
def sample_reclipped_journal : CoglJournal SamplePipeline (List CoglLooseRegionRectangle) :=
  log_calls sample_collaborators _cogl_journal_new
    [{ sample_A 0 with ds := sample_clipped_state },
      { sample_B 0 with
        ds := { sample_draw_state with clip_stack := [sample_clip_rect_again] } },
      sample_C 1]

/-- The journal after logging A and B (no layer), the textured quad (one layer)
and the quad with three layers, all in state 0: one batch. -/
def sample_mixed_journal : CoglJournal SamplePipeline (List CoglLooseRegionRectangle) :=
  log_calls sample_collaborators _cogl_journal_new
    [sample_A 0, sample_B 0, sample_textured_call, sample_three_layer_call]

/-- The sample context with `COGL_DEBUG_DISABLE_SOFTWARE_CLIP` set. -/
def sample_unclipping_context : CoglContext :=
  { sample_context with disable_software_clip := true }

/-- A call that logs the quad `[2,3,12,13]` (red, state 0) with two layers whose
texture coordinates are (0,0)-(1,1). -/
def sample_two_layer_call : LogCall SamplePipeline :=
  { sample_call 2 3 12 13 0 sample_red with
    n_layers := 2, tex_coords := [0, 0, 1, 1, 0, 0, 1, 1] }

/-- The calls that log the textured quad (one layer) `n` times and then the quad
with two layers twice. -/
def sample_long_calls (n : ℕ) : List (LogCall SamplePipeline) :=
  List.replicate n sample_textured_call ++ [sample_two_layer_call, sample_two_layer_call]

/-- The journal after logging the textured quad `n` times and then the quad with
two layers twice, into a new journal. -/
def sample_long_journal (n : ℕ) : CoglJournal SamplePipeline (List CoglLooseRegionRectangle) :=
  log_calls sample_collaborators _cogl_journal_new (sample_long_calls n)

end Cogl

/-! # Theorems -/

namespace Cogl

variable {P R : Type}

/-! ## `batch_and_call`: the runs cover the entries -/

theorem iter_advance_succ (journal : CoglJournal P R) (k : ℕ) :
    ∀ (it p q : CoglJournalIter), iter_advance journal k it = some p →
      _cogl_journal_iterator_next journal p = some q →
      iter_advance journal (k + 1) it = some q := by
  induction k with
  | zero =>
    intro it p q h1 h2
    simp only [iter_advance, Option.some.injEq] at h1
    subst h1
    simp [iter_advance, h2]
  | succ k ih =>
    intro it p q h1 h2
    rw [iter_advance] at h1 ⊢
    cases hn : _cogl_journal_iterator_next journal it with
    | none => simp [hn] at h1
    | some nx =>
      simp only [hn] at h1 ⊢
      exact ih nx p q h1 h2

theorem iter_walk_head (journal : CoglJournal P R) (n : ℕ) (it : CoglJournalIter)
    (l : List CoglJournalIter) (h : iter_walk journal (n + 1) it = some l) :
    ∃ t, l = it :: t := by
  cases n with
  | zero => exact ⟨[], by simpa [iter_walk] using h.symm⟩
  | succ n =>
    rw [iter_walk] at h
    cases hn : _cogl_journal_iterator_next journal it with
    | none => simp [hn] at h
    | some nx =>
      simp only [hn, Option.map_eq_some'] at h
      obtain ⟨t, _, ht⟩ := h
      exact ⟨t, ht.symm⟩

theorem iter_walk_snoc (journal : CoglJournal P R) (n : ℕ) :
    ∀ (it last nx : CoglJournalIter) (cur : List CoglJournalIter),
      iter_walk journal (n + 1) it = some cur → cur.getLast? = some last →
      _cogl_journal_iterator_next journal last = some nx →
      iter_walk journal (n + 2) it = some (cur ++ [nx]) := by
  induction n with
  | zero =>
    intro it last nx cur h1 h2 h3
    simp only [iter_walk, Option.some.injEq] at h1
    subst h1
    simp only [List.getLast?_singleton, Option.some.injEq] at h2
    subst h2
    simp [iter_walk, h3]
  | succ n ih =>
    intro it last nx cur h1 h2 h3
    rw [iter_walk] at h1
    cases hn : _cogl_journal_iterator_next journal it with
    | none => simp [hn] at h1
    | some nx0 =>
      simp only [hn, Option.map_eq_some'] at h1
      obtain ⟨t, ht, hcur⟩ := h1
      subst hcur
      obtain ⟨t', ht'⟩ := iter_walk_head journal n nx0 t ht
      have hlast : t.getLast? = some last := by
        rw [ht'] at h2 ⊢
        simpa [List.getLast?_cons_cons] using h2
      have := ih nx0 last nx t ht hlast h3
      rw [iter_walk]
      simp [hn, this]

theorem batch_and_call_loop_defined (journal : CoglJournal P R)
    (p : CoglJournalIter → CoglJournalIter → Bool) (fuel : ℕ) :
    ∀ (bs prev : CoglJournalIter) (len : ℤ) (l : List CoglJournalIter),
      iter_walk journal (fuel + 1) prev = some l →
      ∃ calls, batch_and_call_loop journal p fuel bs prev len = some calls := by
  induction fuel with
  | zero => intro bs prev len l _; exact ⟨_, rfl⟩
  | succ fuel ih =>
    intro bs prev len l h
    rw [iter_walk] at h
    cases hn : _cogl_journal_iterator_next journal prev with
    | none => simp [hn] at h
    | some nx =>
      simp only [hn, Option.map_eq_some'] at h
      obtain ⟨t, ht, _⟩ := h
      rw [batch_and_call_loop]
      simp only [hn]
      by_cases hp : p prev nx = true
      · simp only [hp, if_true]
        exact ih bs nx (len + 1) t ht
      · simp only [hp, if_false]
        obtain ⟨calls, hc⟩ := ih nx nx 1 t ht
        exact ⟨(bs, len) :: calls, by simp [hc]⟩

theorem batch_and_call_loop_contiguous (journal : CoglJournal P R)
    (p : CoglJournalIter → CoglJournalIter → Bool) (fuel : ℕ) :
    ∀ (bs prev : CoglJournalIter) (m : ℕ) (calls : List (CoglJournalIter × ℤ)),
      iter_advance journal m bs = some prev →
      batch_and_call_loop journal p fuel bs prev ((m : ℤ) + 1) = some calls →
      contiguous_runs journal bs calls ∧
        (calls.map Prod.snd).sum = (m : ℤ) + 1 + fuel ∧ calls ≠ [] := by
  induction fuel with
  | zero =>
    intro bs prev m calls _ h
    simp only [batch_and_call_loop, Option.some.injEq] at h
    subst h
    refine ⟨⟨rfl, by omega, Or.inl rfl⟩, by simp, by simp⟩
  | succ fuel ih =>
    intro bs prev m calls hadv h
    rw [batch_and_call_loop] at h
    cases hn : _cogl_journal_iterator_next journal prev with
    | none => simp [hn] at h
    | some nx =>
      simp only [hn] at h
      have hadv' := iter_advance_succ journal m bs prev nx hadv hn
      by_cases hp : p prev nx = true
      · simp only [hp, if_true] at h
        have h' : batch_and_call_loop journal p fuel bs nx (((m + 1 : ℕ) : ℤ) + 1) = some calls := by
          rw [← h]; push_cast; rfl
        obtain ⟨h1, h2, h3⟩ := ih bs nx (m + 1) calls hadv' h'
        refine ⟨h1, ?_, h3⟩
        rw [h2]; push_cast; ring
      · simp only [hp] at h
        cases hc : batch_and_call_loop journal p fuel nx nx 1 with
        | none => simp [hc] at h
        | some calls' =>
        simp only [hc, Bool.false_eq_true, if_false, Option.map_some', Option.some.injEq] at h
        subst h
        have hc' : batch_and_call_loop journal p fuel nx nx (((0 : ℕ) : ℤ) + 1) = some calls' := by
          rw [← hc]; simp
        obtain ⟨h1, h2, h3⟩ := ih nx nx 0 calls' rfl hc'
        refine ⟨⟨rfl, by omega, Or.inr ⟨nx, ?_, h1⟩⟩, ?_, by simp⟩
        · have : ((m : ℤ) + 1).toNat = m + 1 := by omega
          rw [this]; exact hadv'
        · simp only [List.map_cons, List.sum_cons, h2]; push_cast; ring

theorem batch_and_call_loop_always (journal : CoglJournal P R)
    (p : CoglJournalIter → CoglJournalIter → Bool) (hp : ∀ a b, p a b = true) (fuel : ℕ) :
    ∀ (bs prev : CoglJournalIter) (len : ℤ) (calls : List (CoglJournalIter × ℤ)),
      batch_and_call_loop journal p fuel bs prev len = some calls →
      calls = [(bs, len + fuel)] := by
  induction fuel with
  | zero =>
    intro bs prev len calls h
    simp only [batch_and_call_loop, Option.some.injEq] at h
    subst h; simp
  | succ fuel ih =>
    intro bs prev len calls h
    rw [batch_and_call_loop] at h
    cases hn : _cogl_journal_iterator_next journal prev with
    | none => simp [hn] at h
    | some nx =>
      simp only [hn, hp, if_true] at h
      rw [ih bs nx (len + 1) calls h]
      push_cast
      simp only [List.cons.injEq, Prod.mk.injEq, true_and, and_true]
      ring

theorem false_pairs_append_le {α : Type} (p : α → α → Bool) :
    ∀ (r s : List α), false_pairs p (r ++ s) ≤ false_pairs p r + false_pairs p s + 1
  | [], s => by simp [false_pairs]
  | [a], [] => by simp [false_pairs]
  | [a], b :: s => by
    simp only [List.singleton_append, false_pairs]
    split <;> omega
  | a :: b :: r, s => by
    have ih := false_pairs_append_le p (b :: r) s
    rw [List.cons_append] at ih
    rw [List.cons_append, List.cons_append, false_pairs, false_pairs]
    omega

theorem false_pairs_of_chain {α : Type} (p : α → α → Bool) :
    ∀ (r : List α), r.Chain' (fun a b => p a b = true) → false_pairs p r = 0
  | [], _ => rfl
  | [_], _ => rfl
  | a :: b :: r, h => by
    rw [List.chain'_cons] at h
    simp [false_pairs, h.1, false_pairs_of_chain p (b :: r) h.2]

theorem false_pairs_join_lt {α : Type} (p : α → α → Bool) :
    ∀ (parts : List (List α)), (∀ r ∈ parts, r.Chain' (fun a b => p a b = true)) →
      parts ≠ [] → false_pairs p parts.flatten + 1 ≤ parts.length
  | [], _, h => absurd rfl h
  | [r], hc, _ => by
    simp [false_pairs_of_chain p r (hc r (by simp))]
  | r :: r' :: parts, hc, _ => by
    have ih := false_pairs_join_lt p (r' :: parts)
      (fun x hx => hc x (List.mem_cons_of_mem _ hx)) (by simp)
    have h1 := false_pairs_append_le p r (r' :: parts).flatten
    have h2 := false_pairs_of_chain p r (hc r (by simp))
    simp only [List.flatten_cons, List.length_cons] at ih h1 ⊢
    omega

theorem batch_and_call_loop_runs (journal : CoglJournal P R)
    (p : CoglJournalIter → CoglJournalIter → Bool) (fuel : ℕ) :
    ∀ (bs prev : CoglJournalIter) (m : ℕ) (cur rest : List CoglJournalIter)
      (calls : List (CoglJournalIter × ℤ)),
      iter_walk journal (m + 1) bs = some cur → cur.getLast? = some prev →
      cur.Chain' (fun a b => p a b = true) →
      iter_walk journal (fuel + 1) prev = some (prev :: rest) →
      batch_and_call_loop journal p fuel bs prev ((m : ℤ) + 1) = some calls →
      ∃ runs, run_entries journal calls = some runs ∧ runs.flatten = cur ++ rest ∧
        (∀ r ∈ runs, r.Chain' (fun a b => p a b = true)) ∧ boundaries_fail p runs ∧
        calls.length = 1 + false_pairs p (prev :: rest) ∧
        (∀ r ∈ runs.head?, r.head? = some bs) := by
  induction fuel with
  | zero =>
    intro bs prev m cur rest calls hcur hlast hchain hrest h
    simp only [batch_and_call_loop, Option.some.injEq] at h
    subst h
    have hm : ((m : ℤ) + 1).toNat = m + 1 := by omega
    have hr : rest = [] := by simpa [iter_walk] using hrest.symm
    obtain ⟨t, ht⟩ := iter_walk_head journal m bs cur hcur
    refine ⟨[cur], by simp [run_entries, hm, hcur], by simp [hr], by simpa using hchain,
      by simp [boundaries_fail], by simp [hr, false_pairs], by simp [ht]⟩
  | succ fuel ih =>
    intro bs prev m cur rest calls hcur hlast hchain hrest h
    rw [iter_walk] at hrest
    rw [batch_and_call_loop] at h
    cases hn : _cogl_journal_iterator_next journal prev with
    | none => simp [hn] at h
    | some nx =>
      simp only [hn] at h hrest
      cases hw : iter_walk journal (fuel + 1) nx with
      | none => simp [hw] at hrest
      | some rest0 =>
      simp only [hw, Option.map_some', Option.some.injEq, List.cons.injEq, true_and] at hrest
      subst hrest
      obtain ⟨rest', hrest'⟩ := iter_walk_head journal fuel nx rest0 hw
      subst hrest'
      by_cases hp : p prev nx = true
      · simp only [hp, if_true] at h
        have h' : batch_and_call_loop journal p fuel bs nx (((m + 1 : ℕ) : ℤ) + 1) = some calls := by
          rw [← h]; push_cast; rfl
        have hcur' := iter_walk_snoc journal m bs prev nx cur hcur hlast hn
        have hchain' : (cur ++ [nx]).Chain' (fun a b => p a b = true) := by
          rw [List.chain'_append]
          refine ⟨hchain, by simp, ?_⟩
          intro a ha b hb
          simp only [Option.mem_def] at ha hb
          rw [hlast] at ha
          simp only [List.head?_cons, Option.some.injEq] at ha hb
          subst ha; subst hb; exact hp
        obtain ⟨runs, h1, h2, h3, h4, h5, h6⟩ :=
          ih bs nx (m + 1) (cur ++ [nx]) rest' calls hcur' (by simp) hchain' hw h'
        refine ⟨runs, h1, by simpa using h2, h3, h4, ?_, h6⟩
        rw [h5]; simp [false_pairs, hp]
      · simp only [hp] at h
        cases hc : batch_and_call_loop journal p fuel nx nx 1 with
        | none => simp [hc] at h
        | some calls' =>
        simp only [hc, Bool.false_eq_true, if_false, Option.map_some', Option.some.injEq] at h
        subst h
        have hc' : batch_and_call_loop journal p fuel nx nx (((0 : ℕ) : ℤ) + 1) = some calls' := by
          rw [← hc]; simp
        obtain ⟨runs, h1, h2, h3, h4, h5, h6⟩ :=
          ih nx nx 0 [nx] rest' calls' (by simp [iter_walk]) (by simp) (by simp) hw hc'
        have hm : ((m : ℤ) + 1).toNat = m + 1 := by omega
        obtain ⟨t, ht⟩ := iter_walk_head journal m bs cur hcur
        have hpf : p prev nx = false := by simpa using hp
        refine ⟨cur :: runs, ?_, by simp [h2], ?_, ?_, ?_, by simp [ht]⟩
        · simp [run_entries, hm, hcur, h1]
        · intro r hr
          rcases List.mem_cons.1 hr with rfl | hr
          · exact hchain
          · exact h3 r hr
        · cases runs with
          | nil => simp [boundaries_fail]
          | cons r0 rs =>
            simp only [boundaries_fail, List.chain'_cons] at h4 ⊢
            refine ⟨?_, h4⟩
            intro a ha b hb
            simp only [Option.mem_def] at ha hb
            rw [hlast] at ha
            rw [h6 r0 (by simp)] at hb
            simp only [Option.some.injEq] at ha hb
            subst ha; subst hb; exact hpf
        · simp only [List.length_cons, h5, false_pairs, hpf]
          simp; omega

/-- C2 (batch_and_call completeness).  For a count `n >= 1`, any can-batch
predicate and any start iterator from which the `n` entries can be walked,
`batch_and_call` returns; its callback invocations are non-empty in number, form
contiguous runs from the start iterator (first run starts there, every length is
at least 1, each next run starts exactly the previous length of entries later),
their lengths sum to `n`, the concatenation of the runs is the walked sequence of
the `n` entries, and with an always-true predicate there is exactly one
invocation, of length `n`. -/
theorem batch_and_call_complete (journal : CoglJournal P R) (iter_in : CoglJournalIter)
    (n : ℤ) (can_batch : CoglJournalIter → CoglJournalIter → Bool)
    (entries : List CoglJournalIter) (hn : 1 ≤ n)
    (hwalk : iter_walk journal n.toNat iter_in = some entries) :
    ∃ calls runs, batch_and_call journal iter_in n can_batch = some calls ∧
      calls ≠ [] ∧ contiguous_runs journal iter_in calls ∧
      (calls.map Prod.snd).sum = n ∧
      run_entries journal calls = some runs ∧ runs.flatten = entries ∧
      ((∀ a b, can_batch a b = true) → calls = [(iter_in, n)]) := by
  obtain ⟨k, rfl⟩ : ∃ k : ℕ, n = (k : ℤ) + 1 := ⟨(n - 1).toNat, by omega⟩
  have hk : ((k : ℤ) + 1).toNat = k + 1 := by omega
  have hk' : ((k : ℤ) + 1 - 1).toNat = k := by omega
  rw [hk] at hwalk
  obtain ⟨rest, hrest⟩ := iter_walk_head journal k iter_in entries hwalk
  subst hrest
  obtain ⟨calls, hcalls⟩ :=
    batch_and_call_loop_defined journal can_batch k iter_in iter_in 1 _ hwalk
  have hloop : batch_and_call_loop journal can_batch k iter_in iter_in (((0 : ℕ) : ℤ) + 1)
      = some calls := by rw [← hcalls]; simp
  obtain ⟨h1, h2, h3⟩ :=
    batch_and_call_loop_contiguous journal can_batch k iter_in iter_in 0 calls rfl hloop
  obtain ⟨runs, r1, r2, -, -, -, -⟩ :=
    batch_and_call_loop_runs journal can_batch k iter_in iter_in 0 [iter_in] rest calls
      (by simp [iter_walk]) (by simp) (by simp) hwalk hloop
  have hbc : batch_and_call journal iter_in ((k : ℤ) + 1) can_batch = some calls := by
    have : ¬ ((k : ℤ) + 1 < 1) := by omega
    simp only [batch_and_call, this, if_false, hk']
    exact hcalls
  refine ⟨calls, runs, hbc, h3, h1, ?_, r1, by simpa using r2, ?_⟩
  · rw [h2]; push_cast; ring
  · intro hall
    rw [batch_and_call_loop_always journal can_batch hall k iter_in iter_in 1 calls hcalls]
    simp only [List.cons.injEq, Prod.mk.injEq, true_and, and_true]
    ring

/-- C3 (batch_and_call emits maximal runs).  For a count `n >= 1`, any predicate
and any start iterator from which the `n` entries can be walked, the runs
reported by `batch_and_call` partition the walked sequence; the predicate holds
on every adjacent pair inside a run and fails on the pair that straddles two
consecutive runs; the number of invocations is 1 plus the number of adjacent
pairs of the sequence on which the predicate is false; and no partition of the
sequence into runs on whose inner adjacent pairs the predicate holds has fewer
parts. -/
theorem batch_and_call_maximal_runs (journal : CoglJournal P R) (iter_in : CoglJournalIter)
    (n : ℤ) (can_batch : CoglJournalIter → CoglJournalIter → Bool)
    (entries : List CoglJournalIter) (hn : 1 ≤ n)
    (hwalk : iter_walk journal n.toNat iter_in = some entries) :
    ∃ calls runs, batch_and_call journal iter_in n can_batch = some calls ∧
      run_entries journal calls = some runs ∧ runs.flatten = entries ∧
      (∀ r ∈ runs, r.Chain' (fun a b => can_batch a b = true)) ∧
      boundaries_fail can_batch runs ∧
      calls.length = 1 + false_pairs can_batch entries ∧
      (∀ parts : List (List CoglJournalIter), parts.flatten = entries →
        (∀ r ∈ parts, r.Chain' (fun a b => can_batch a b = true)) →
        calls.length ≤ parts.length) := by
  obtain ⟨k, rfl⟩ : ∃ k : ℕ, n = (k : ℤ) + 1 := ⟨(n - 1).toNat, by omega⟩
  have hk : ((k : ℤ) + 1).toNat = k + 1 := by omega
  have hk' : ((k : ℤ) + 1 - 1).toNat = k := by omega
  rw [hk] at hwalk
  obtain ⟨rest, hrest⟩ := iter_walk_head journal k iter_in entries hwalk
  subst hrest
  obtain ⟨calls, hcalls⟩ :=
    batch_and_call_loop_defined journal can_batch k iter_in iter_in 1 _ hwalk
  have hloop : batch_and_call_loop journal can_batch k iter_in iter_in (((0 : ℕ) : ℤ) + 1)
      = some calls := by rw [← hcalls]; simp
  obtain ⟨runs, r1, r2, r3, r4, r5, -⟩ :=
    batch_and_call_loop_runs journal can_batch k iter_in iter_in 0 [iter_in] rest calls
      (by simp [iter_walk]) (by simp) (by simp) hwalk hloop
  have hbc : batch_and_call journal iter_in ((k : ℤ) + 1) can_batch = some calls := by
    have : ¬ ((k : ℤ) + 1 < 1) := by omega
    simp only [batch_and_call, this, if_false, hk']
    exact hcalls
  refine ⟨calls, runs, hbc, r1, by simpa using r2, r3, r4, r5, ?_⟩
  intro parts hparts hchain
  have hne : parts ≠ [] := by
    rintro rfl
    simp at hparts
  have := false_pairs_join_lt can_batch parts hchain hne
  rw [hparts] at this
  omega

/-! ## Batch placement -/

theorem find_batch_eq_rev (c : Collaborators P R) (batches : List (CoglJournalBatch P R))
    (pipeline : P) (bounds : CoglLooseRegionRectangle) :
    ∀ n, n ≤ batches.length →
      find_batch c batches pipeline bounds n =
        find_batch_rev c pipeline bounds (batches.take n).reverse := by
  intro n
  induction n with
  | zero => intro _; simp [find_batch, find_batch_rev]
  | succ n ih =>
    intro hn
    have hlt : n < batches.length := by omega
    have hget : batches.get? n = some (batches.get ⟨n, hlt⟩) := List.get?_eq_get hlt
    have htake : batches.take (n + 1) = batches.take n ++ [batches.get ⟨n, hlt⟩] := by
      rw [List.take_succ, List.getElem?_eq_getElem hlt]
      simp only [Option.toList, List.get_eq_getElem]
    have hmin : min n batches.length = n := by omega
    rw [find_batch, hget, htake, List.reverse_append]
    simp [find_batch_rev, ih (by omega), hmin]

theorem find_batch_rev_skip (c : Collaborators P R) (pipeline : P)
    (bounds : CoglLooseRegionRectangle) :
    ∀ (l r : List (CoglJournalBatch P R)), (∀ b ∈ l, passed_over c pipeline bounds b) →
      find_batch_rev c pipeline bounds (l ++ r) = find_batch_rev c pipeline bounds r
  | [], r, _ => rfl
  | b :: l, r, h => by
    have hb := h b (by simp)
    have ih := find_batch_rev_skip c pipeline bounds l r
      (fun x hx => h x (List.mem_cons_of_mem _ hx))
    simp only [List.cons_append, find_batch_rev, hb.1, hb.2, Bool.false_eq_true, if_false,
      List.append_eq, ih]

theorem find_batch_found (c : Collaborators P R) (pipeline : P)
    (bounds : CoglLooseRegionRectangle) (pre post : List (CoglJournalBatch P R))
    (batch : CoglJournalBatch P R)
    (heq : c._cogl_pipeline_equal batch.pipeline pipeline = true)
    (hpost : ∀ b ∈ post, passed_over c pipeline bounds b) :
    find_batch c (pre ++ batch :: post) pipeline bounds (pre ++ batch :: post).length
      = some pre.length := by
  rw [find_batch_eq_rev c _ pipeline bounds _ (le_refl _), List.take_length]
  have : (pre ++ batch :: post).reverse = post.reverse ++ batch :: pre.reverse := by simp
  rw [this, find_batch_rev_skip c pipeline bounds _ _ (by simpa using hpost)]
  simp [find_batch_rev, heq]

theorem find_batch_blocked (c : Collaborators P R) (pipeline : P)
    (bounds : CoglLooseRegionRectangle) (pre post : List (CoglJournalBatch P R))
    (batch : CoglJournalBatch P R)
    (hne : c._cogl_pipeline_equal batch.pipeline pipeline = false)
    (hint : c._cogl_loose_region_intersects batch.region bounds = true)
    (hpost : ∀ b ∈ post, passed_over c pipeline bounds b) :
    find_batch c (pre ++ batch :: post) pipeline bounds (pre ++ batch :: post).length
      = none := by
  rw [find_batch_eq_rev c _ pipeline bounds _ (le_refl _), List.take_length]
  have : (pre ++ batch :: post).reverse = post.reverse ++ batch :: pre.reverse := by simp
  rw [this, find_batch_rev_skip c pipeline bounds _ _ (by simpa using hpost)]
  simp [find_batch_rev, hne, hint]

theorem find_batch_exhausted (c : Collaborators P R) (pipeline : P)
    (bounds : CoglLooseRegionRectangle) (batches : List (CoglJournalBatch P R))
    (hall : ∀ b ∈ batches, passed_over c pipeline bounds b) :
    find_batch c batches pipeline bounds batches.length = none := by
  rw [find_batch_eq_rev c _ pipeline bounds _ (le_refl _), List.take_length]
  have := find_batch_rev_skip c pipeline bounds batches.reverse [] (by simpa using hall)
  rw [List.append_nil] at this
  rw [this]; rfl

/-- The three ways the backward search can end cover every batch array: all
batches are passed over, or the batches after some batch are passed over and
that batch either matches the pipeline or blocks the search by intersecting. -/
theorem search_cases (c : Collaborators P R) (pipeline : P)
    (bounds : CoglLooseRegionRectangle) :
    ∀ (batches : List (CoglJournalBatch P R)),
      (∀ b ∈ batches, passed_over c pipeline bounds b) ∨
      ∃ pre batch post, batches = pre ++ batch :: post ∧
        (∀ b ∈ post, passed_over c pipeline bounds b) ∧
        (c._cogl_pipeline_equal batch.pipeline pipeline = true ∨
          (c._cogl_pipeline_equal batch.pipeline pipeline = false ∧
            c._cogl_loose_region_intersects batch.region bounds = true)) := by
  intro batches
  induction batches using List.reverseRecOn with
  | nil => left; simp
  | append_singleton l b ih =>
    by_cases heq : c._cogl_pipeline_equal b.pipeline pipeline = true
    · right; exact ⟨l, b, [], by simp, by simp, Or.inl heq⟩
    · have heq' : c._cogl_pipeline_equal b.pipeline pipeline = false := by simpa using heq
      by_cases hint : c._cogl_loose_region_intersects b.region bounds = true
      · right; exact ⟨l, b, [], by simp, by simp, Or.inr ⟨heq', hint⟩⟩
      · have hint' : c._cogl_loose_region_intersects b.region bounds = false := by
          simpa using hint
        rcases ih with hall | ⟨pre, batch, post, hl, hpost, hb⟩
        · left
          intro x hx
          rcases List.mem_append.1 hx with hx | hx
          · exact hall x hx
          · simp only [List.mem_singleton] at hx
            subst hx; exact ⟨heq', hint'⟩
        · right
          refine ⟨pre, batch, post ++ [b], by simp [hl], ?_, hb⟩
          intro x hx
          rcases List.mem_append.1 hx with hx | hx
          · exact hpost x hx
          · simp only [List.mem_singleton] at hx
            subst hx; exact ⟨heq', hint'⟩

theorem add_entry_found (c : Collaborators P R) (ds : DrawState) (journal : CoglJournal P R)
    (pipeline : P) (entry : CoglJournalEntry) (pre post : List (CoglJournalBatch P R))
    (batch : CoglJournalBatch P R) (hb : journal.batches = pre ++ batch :: post)
    (heq : c._cogl_pipeline_equal batch.pipeline pipeline = true)
    (hpost : ∀ b ∈ post, passed_over c pipeline (entry_bounds c ds entry) b) :
    (_cogl_journal_add_entry_to_batch c ds journal pipeline entry).batches =
      pre ++ batch_with c batch (entry_bounds c ds entry) entry :: post := by
  have hfind := find_batch_found c pipeline (entry_bounds c ds entry) pre post batch heq hpost
  have hget : (pre ++ batch :: post).get? pre.length = some batch := by
    rw [List.get?_eq_getElem?, List.getElem?_append_right (le_refl _)]; simp
  simp only [_cogl_journal_add_entry_to_batch, hb, hfind, hget, batch_with]
  simp

theorem add_entry_new (c : Collaborators P R) (ds : DrawState) (journal : CoglJournal P R)
    (pipeline : P) (entry : CoglJournalEntry)
    (hfind : find_batch c journal.batches pipeline (entry_bounds c ds entry)
      journal.batches.length = none) :
    (_cogl_journal_add_entry_to_batch c ds journal pipeline entry).batches =
      journal.batches ++ [new_batch c pipeline (entry_bounds c ds entry) entry] := by
  simp only [_cogl_journal_add_entry_to_batch, hfind, new_batch]

theorem log_quad_batches (c : Collaborators P R) (ds : DrawState) (journal : CoglJournal P R)
    (position : Float4) (pipeline : P) (n_layers : ℤ) (layer0 : Bool) (tex_coords : List ℚ) :
    (_cogl_journal_log_quad c ds journal position pipeline n_layers layer0 tex_coords).batches
      = (_cogl_journal_add_entry_to_batch c ds journal
          (log_quad_source c pipeline n_layers layer0)
          (log_quad_entry c ds position pipeline n_layers tex_coords)).batches := by
  simp only [_cogl_journal_log_quad, _cogl_journal_add_entry_to_batch]
  split
  · split <;> rfl
  · rfl

/-- C4 (batch placement rule).  For every journal and every logged entry, with
`source` the entry's pipeline and `bounds` its screen bounding box: (a) if the
batches after some batch are all passed over (not equivalent, not intersecting)
and that batch's pipeline is equivalent to `source`, the entry is appended to
that batch; (b) if the batches after some batch are all passed over and that
batch is not equivalent but intersects `bounds`, or if every batch is passed
over, one new batch holding only the entry is appended at the end.  In each case
all other batches and entries stay where they are, and one of the cases always
applies. -/
theorem log_quad_placement (c : Collaborators P R) (ds : DrawState) (journal : CoglJournal P R)
    (position : Float4) (pipeline : P) (n_layers : ℤ) (layer0 : Bool) (tex_coords : List ℚ) :
    let entry := log_quad_entry c ds position pipeline n_layers tex_coords
    let source := log_quad_source c pipeline n_layers layer0
    let bounds := entry_bounds c ds entry
    let result :=
      (_cogl_journal_log_quad c ds journal position pipeline n_layers layer0 tex_coords).batches
    (∀ pre batch post, journal.batches = pre ++ batch :: post →
        c._cogl_pipeline_equal batch.pipeline source = true →
        (∀ b ∈ post, passed_over c source bounds b) →
        result = pre ++ batch_with c batch bounds entry :: post) ∧
    (∀ pre batch post, journal.batches = pre ++ batch :: post →
        c._cogl_pipeline_equal batch.pipeline source = false →
        c._cogl_loose_region_intersects batch.region bounds = true →
        (∀ b ∈ post, passed_over c source bounds b) →
        result = journal.batches ++ [new_batch c source bounds entry]) ∧
    ((∀ b ∈ journal.batches, passed_over c source bounds b) →
        result = journal.batches ++ [new_batch c source bounds entry]) ∧
    ((∀ b ∈ journal.batches, passed_over c source bounds b) ∨
      ∃ pre batch post, journal.batches = pre ++ batch :: post ∧
        (∀ b ∈ post, passed_over c source bounds b) ∧
        (c._cogl_pipeline_equal batch.pipeline source = true ∨
          (c._cogl_pipeline_equal batch.pipeline source = false ∧
            c._cogl_loose_region_intersects batch.region bounds = true))) := by
  intro entry source bounds result
  have hres : result = (_cogl_journal_add_entry_to_batch c ds journal source entry).batches :=
    log_quad_batches c ds journal position pipeline n_layers layer0 tex_coords
  refine ⟨?_, ?_, ?_, search_cases c source bounds journal.batches⟩
  · intro pre batch post hb heq hpost
    rw [hres]
    exact add_entry_found c ds journal source entry pre post batch hb heq hpost
  · intro pre batch post hb hne hint hpost
    rw [hres]
    apply add_entry_new
    rw [hb]
    exact find_batch_blocked c source _ pre post batch hne hint hpost
  · intro hall
    rw [hres]
    apply add_entry_new
    exact find_batch_exhausted c source _ journal.batches hall

/-! ## Order preservation -/

theorem forall₂_split_right {α β : Type} (rel : α → β → Prop) (l : List α) (r1 r2 : List β)
    (b : β) (h : List.Forall₂ rel l (r1 ++ b :: r2)) :
    ∃ l1 a l2, l = l1 ++ a :: l2 ∧ List.Forall₂ rel l1 r1 ∧ rel a b ∧ List.Forall₂ rel l2 r2 := by
  have h1 := List.forall₂_take_append l r1 (b :: r2) h
  have h2 := List.forall₂_drop_append l r1 (b :: r2) h
  rw [List.forall₂_cons_right_iff] at h2
  obtain ⟨a, l2, hab, hl2, hdrop⟩ := h2
  refine ⟨l.take r1.length, a, l2, ?_, h1, hab, hl2⟩
  rw [← hdrop, List.take_append_drop]

theorem forall₂_mem_left {α β : Type} (rel : α → β → Prop) :
    ∀ (l : List α) (r : List β), List.Forall₂ rel l r → ∀ x ∈ l, ∃ y ∈ r, rel x y := by
  intro l r h
  induction h with
  | nil => intro x hx; simp at hx
  | cons hab _ ih =>
    intro x hx
    rcases List.mem_cons.1 hx with rfl | hx
    · exact ⟨_, by simp, hab⟩
    · obtain ⟨y, hy, hxy⟩ := ih x hx
      exact ⟨y, List.mem_cons_of_mem _ hy, hxy⟩

theorem forall₂_batch_entries (c : Collaborators P R) :
    ∀ (labs : List (List (ℕ × LogCall P))) (batches : List (CoglJournalBatch P R)),
      List.Forall₂ (batch_holds c) labs batches →
      (batches.map (fun batch => batch.entries)).flatten =
        labs.flatten.map (fun x => call_entry c x.2) := by
  intro labs batches h
  induction h with
  | nil => rfl
  | cons hab _ ih =>
    simp only [List.map_cons, List.flatten_cons, List.map_append, ih, hab.1]

theorem pairwise_insert {α : Type} (rel : α → α → Prop) (l1 l2 : List α) (x : α)
    (h : (l1 ++ l2).Pairwise rel) (h1 : ∀ a ∈ l1, rel a x) (h2 : ∀ b ∈ l2, rel x b) :
    (l1 ++ x :: l2).Pairwise rel := by
  rw [List.pairwise_append] at h ⊢
  obtain ⟨p1, p2, p12⟩ := h
  refine ⟨p1, List.pairwise_cons.2 ⟨h2, p2⟩, ?_⟩
  intro a ha b hb
  rcases List.mem_cons.1 hb with rfl | hb
  · exact h1 a ha
  · exact p12 a ha b hb

theorem sublist_pair_of_mem {α : Type} (a b : α) (hab : a ≠ b) :
    ∀ (l : List α), a ∈ l → b ∈ l → [a, b].Sublist l ∨ [b, a].Sublist l
  | [], ha, _ => by simp at ha
  | x :: l, ha, hb => by
    rcases List.mem_cons.1 ha with rfl | ha'
    · rcases List.mem_cons.1 hb with rfl | hb'
      · exact absurd rfl hab
      · left
        exact List.Sublist.cons₂ _ (List.singleton_sublist.2 hb')
    · rcases List.mem_cons.1 hb with rfl | hb'
      · right
        exact List.Sublist.cons₂ _ (List.singleton_sublist.2 ha')
      · rcases sublist_pair_of_mem a b hab l ha' hb' with h | h
        · exact Or.inl (List.Sublist.cons _ h)
        · exact Or.inr (List.Sublist.cons _ h)

theorem log_invariant_new_batch (c : Collaborators P R)
    (meets : CoglLooseRegionRectangle → CoglLooseRegionRectangle → Prop)
    (journal journal' : CoglJournal P R) (calls : List (LogCall P)) (call : LogCall P)
    (hinv : log_invariant c meets journal calls)
    (hb : journal'.batches = journal.batches ++
      [new_batch c (call_source c call) (call_bounds c call) (call_entry c call)]) :
    log_invariant c meets journal' (calls ++ [call]) := by
  obtain ⟨labs, hrel, hperm, hpair⟩ := hinv
  refine ⟨labs ++ [[(calls.length, call)]], ?_, ?_, ?_⟩
  · rw [hb]
    refine List.rel_append hrel ?_
    refine List.Forall₂.cons ?_ List.Forall₂.nil
    exact ⟨rfl, rfl⟩
  · rw [List.enum_append]
    simp only [List.flatten_append, List.flatten_cons, List.flatten_nil, List.append_nil,
      List.enumFrom_singleton]
    exact List.Perm.append hperm (List.Perm.refl _)
  · simp only [List.flatten_append, List.flatten_cons, List.flatten_nil, List.append_nil]
    rw [List.pairwise_append]
    refine ⟨hpair, by simp, ?_⟩
    intro a ha b hb'
    simp only [List.mem_singleton] at hb'
    subst hb'
    left
    exact List.fst_lt_of_mem_enum (hperm.mem_iff.1 ha)

theorem log_invariant_step (c : Collaborators P R)
    (meets : CoglLooseRegionRectangle → CoglLooseRegionRectangle → Prop)
    (hsound : region_sound c meets) (journal : CoglJournal P R) (calls : List (LogCall P))
    (call : LogCall P) (hinv : log_invariant c meets journal calls) :
    log_invariant c meets (log_call c journal call) (calls ++ [call]) := by
  have hres : (log_call c journal call).batches =
      (_cogl_journal_add_entry_to_batch c call.ds journal (call_source c call)
        (call_entry c call)).batches :=
    log_quad_batches c call.ds journal call.position call.pipeline call.n_layers
      call.layer0_override_texture call.tex_coords
  rcases search_cases c (call_source c call) (call_bounds c call) journal.batches with
    hall | ⟨pre, batch, post, hb, hpost, heq | ⟨hne, hint⟩⟩
  · apply log_invariant_new_batch c meets journal _ calls call hinv
    rw [hres]
    exact add_entry_new c call.ds journal _ _
      (find_batch_exhausted c _ _ journal.batches hall)
  · obtain ⟨labs, hrel, hperm, hpair⟩ := hinv
    rw [hb] at hrel
    obtain ⟨lpre, lb, lpost, hlabs, hrpre, hrb, hrpost⟩ :=
      forall₂_split_right (batch_holds c) labs pre post batch hrel
    subst hlabs
    have hflat : (lpre ++ lb :: lpost).flatten = (lpre.flatten ++ lb) ++ lpost.flatten := by
      simp
    rw [hflat] at hperm hpair
    refine ⟨lpre ++ (lb ++ [(calls.length, call)]) :: lpost, ?_, ?_, ?_⟩
    · rw [hres, add_entry_found c call.ds journal _ _ pre post batch hb heq hpost]
      refine List.rel_append hrpre (List.Forall₂.cons ?_ hrpost)
      constructor
      · simp only [batch_with, hrb.1, List.map_append, List.map_cons, List.map_nil]
      · simp only [batch_with, hrb.2, List.map_append, List.map_cons, List.map_nil,
          List.foldl_append, List.foldl_cons, List.foldl_nil]
        rfl
    · have hflat' : (lpre ++ (lb ++ [(calls.length, call)]) :: lpost).flatten =
          (lpre.flatten ++ lb) ++ (calls.length, call) :: lpost.flatten := by simp
      rw [hflat', List.enum_append, List.enumFrom_singleton]
      refine List.perm_middle.trans ?_
      refine (List.perm_append_singleton _ _).symm.trans ?_
      exact List.Perm.append hperm (List.Perm.refl _)
    · have hflat' : (lpre ++ (lb ++ [(calls.length, call)]) :: lpost).flatten =
          (lpre.flatten ++ lb) ++ (calls.length, call) :: lpost.flatten := by simp
      rw [hflat']
      apply pairwise_insert _ _ _ _ hpair
      · intro a ha
        left
        exact List.fst_lt_of_mem_enum
          (hperm.mem_iff.1 (List.mem_append_left _ ha))
      · intro y hy
        right
        intro hmeet
        obtain ⟨l, hl, hyl⟩ := List.mem_flatten.1 hy
        obtain ⟨b, hbpost, hhold⟩ := forall₂_mem_left (batch_holds c) lpost post hrpost l hl
        have hno := (hpost b hbpost).2
        have hmem : call_bounds c y.2 ∈
            l.map (fun x : ℕ × LogCall P => call_bounds c x.2) :=
          List.mem_map_of_mem (fun x : ℕ × LogCall P => call_bounds c x.2) hyl
        have hyes : c._cogl_loose_region_intersects b.region (call_bounds c call) = true := by
          rw [hhold.2]
          exact hsound _ _ (Exists.intro (call_bounds c y.2) (And.intro hmem hmeet))
        rw [hyes] at hno
        exact Bool.noConfusion hno
  · apply log_invariant_new_batch c meets journal _ calls call hinv
    rw [hres]
    apply add_entry_new
    rw [hb]
    exact find_batch_blocked c _ _ pre post batch hne hint hpost

theorem log_calls_invariant (c : Collaborators P R)
    (meets : CoglLooseRegionRectangle → CoglLooseRegionRectangle → Prop)
    (hsound : region_sound c meets) (journal : CoglJournal P R)
    (hempty : journal.batches = []) (calls : List (LogCall P)) :
    log_invariant c meets (log_calls c journal calls) calls := by
  induction calls using List.reverseRecOn with
  | nil =>
    refine ⟨[], ?_, by simp, by simp⟩
    simp only [log_calls, List.foldl_nil, hempty]
    exact List.Forall₂.nil
  | append_singleton l call ih =>
    have : log_calls c journal (l ++ [call]) = log_call c (log_calls c journal l) call := by
      simp [log_calls, List.foldl_append]
    rw [this]
    exact log_invariant_step c meets hsound _ l call ih

/-- C1 (order preservation).  Let the loose region be sound for a relation
`meets` between boxes.  For every sequence of Log calls on a journal with no
batches, the entries of the journal in forward iteration order are the logged
entries rearranged (`order` lists the calls with their log indices in journal
order), and whenever call `i` was logged before call `j` and the box of `i`
meets the box of `j`, the entry of `i` comes before the entry of `j` in that
order. -/
theorem log_order_preserved (c : Collaborators P R)
    (meets : CoglLooseRegionRectangle → CoglLooseRegionRectangle → Prop)
    (hsound : region_sound c meets) (journal : CoglJournal P R)
    (hempty : journal.batches = []) (calls : List (LogCall P)) :
    ∃ order : List (ℕ × LogCall P),
      order.Perm calls.enum ∧
      all_entries (log_calls c journal calls) = order.map (fun x => call_entry c x.2) ∧
      ∀ i j ci cj, i < j → calls.get? i = some ci → calls.get? j = some cj →
        meets (call_bounds c ci) (call_bounds c cj) →
        [(i, ci), (j, cj)].Sublist order := by
  obtain ⟨labs, hrel, hperm, hpair⟩ := log_calls_invariant c meets hsound journal hempty calls
  refine ⟨labs.flatten, hperm, forall₂_batch_entries c labs _ hrel, ?_⟩
  intro i j ci cj hij hi hj hmeet
  have hmi : (i, ci) ∈ labs.flatten := hperm.mem_iff.2 (List.mk_mem_enum_iff_getElem?.2 (by simpa using hi))
  have hmj : (j, cj) ∈ labs.flatten := hperm.mem_iff.2 (List.mk_mem_enum_iff_getElem?.2 (by simpa using hj))
  have hne : (i, ci) ≠ (j, cj) := by
    intro h
    have := congrArg Prod.fst h
    simp only at this
    omega
  rcases sublist_pair_of_mem _ _ hne labs.flatten hmi hmj with h | h
  · exact h
  · have hp := hpair.sublist h
    rw [List.pairwise_cons] at hp
    rcases hp.1 (i, ci) (by simp) with hlt | hno
    · simp only at hlt; omega
    · exact absurd hmeet hno

/-! ## Logged journals are well formed -/

theorem log_call_batches_cases (c : Collaborators P R) (journal : CoglJournal P R)
    (call : LogCall P) :
    (∃ pre batch post, journal.batches = pre ++ batch :: post ∧
      (log_call c journal call).batches =
        pre ++ batch_with c batch (call_bounds c call) (call_entry c call) :: post) ∨
    (log_call c journal call).batches = journal.batches ++
      [new_batch c (call_source c call) (call_bounds c call) (call_entry c call)] := by
  have hres : (log_call c journal call).batches =
      (_cogl_journal_add_entry_to_batch c call.ds journal (call_source c call)
        (call_entry c call)).batches :=
    log_quad_batches c call.ds journal call.position call.pipeline call.n_layers
      call.layer0_override_texture call.tex_coords
  rcases search_cases c (call_source c call) (call_bounds c call) journal.batches with
    hall | ⟨pre, batch, post, hb, hpost, heq | ⟨hne, hint⟩⟩
  · right
    rw [hres]
    exact add_entry_new c call.ds journal _ _
      (find_batch_exhausted c _ _ journal.batches hall)
  · left
    refine ⟨pre, batch, post, hb, ?_⟩
    rw [hres]
    exact add_entry_found c call.ds journal _ _ pre post batch hb heq hpost
  · right
    rw [hres]
    apply add_entry_new
    rw [hb]
    exact find_batch_blocked c _ _ pre post batch hne hint hpost

theorem add_entry_journal_len (c : Collaborators P R) (ds : DrawState)
    (journal : CoglJournal P R) (pipeline : P) (entry : CoglJournalEntry) :
    (_cogl_journal_add_entry_to_batch c ds journal pipeline entry).journal_len =
      journal.journal_len := by
  unfold _cogl_journal_add_entry_to_batch
  simp only
  split
  · split <;> rfl
  · rfl

theorem log_call_journal_len (c : Collaborators P R) (journal : CoglJournal P R)
    (call : LogCall P) :
    (log_call c journal call).journal_len = journal.journal_len + 1 := by
  simp only [log_call, _cogl_journal_log_quad, add_entry_journal_len]

/-- Logging keeps the journal well formed: no batch is empty and `journal_len`
counts the entries. -/
theorem log_call_wf (c : Collaborators P R) (journal : CoglJournal P R) (call : LogCall P)
    (hwf : journal_wf journal) : journal_wf (log_call c journal call) := by
  obtain ⟨hne, hlen⟩ := hwf
  rw [all_entries] at hlen
  rcases log_call_batches_cases c journal call with ⟨pre, batch, post, hb, hres⟩ | hres
  · constructor
    · rw [hres]
      intro x hx
      rcases List.mem_append.1 hx with h | h
      · exact hne x (by rw [hb]; exact List.mem_append_left _ h)
      · rcases List.mem_cons.1 h with rfl | h
        · simp [batch_with]
        · exact hne x (by rw [hb]; exact List.mem_append_right _ (List.mem_cons_of_mem _ h))
    · rw [log_call_journal_len, hlen, all_entries, hres, hb]
      simp [batch_with]
      omega
  · constructor
    · rw [hres]
      intro x hx
      rcases List.mem_append.1 hx with h | h
      · exact hne x h
      · simp only [List.mem_singleton] at h
        subst h
        simp [new_batch]
    · rw [log_call_journal_len, hlen, all_entries, hres]
      simp [new_batch]

theorem journal_new_wf : journal_wf (_cogl_journal_new : CoglJournal P R) := by
  constructor
  · intro batch hb
    simp [_cogl_journal_new] at hb
  · rfl

/-- Every journal obtained from a new journal by Log calls is well formed. -/
theorem log_calls_wf (c : Collaborators P R) (calls : List (LogCall P)) :
    ∀ (journal : CoglJournal P R), journal_wf journal →
      journal_wf (log_calls c journal calls) := by
  induction calls with
  | nil => intro journal h; exact h
  | cons call calls ih =>
    intro journal h
    exact ih (log_call c journal call) (log_call_wf c journal call h)

/-! ## The fast pixel read: iterators and positions -/

theorem batch_at_nat (journal : CoglJournal P R) (b : ℕ) :
    batch_at journal (b : ℤ) = journal.batches.get? b := by
  have : ¬ ((b : ℤ) < 0) := by omega
  simp [batch_at, this]

theorem batch_entries_at_nat (journal : CoglJournal P R) (b : ℕ) (batch : CoglJournalBatch P R)
    (hb : journal.batches.get? b = some batch) :
    batch_entries_at journal (b : ℤ) = batch.entries := by
  simp only [batch_entries_at, batch_at_nat, hb]

theorem iter_entry_nat (journal : CoglJournal P R) (b k : ℕ) (batch : CoglJournalBatch P R)
    (hb : journal.batches.get? b = some batch) :
    iter_entry journal { entry := some k, batch_num := (b : ℤ) } = batch.entries.get? k := by
  simp only [iter_entry, batch_at_nat, hb]

theorem pairs_of_append (l1 l2 : List (CoglJournalBatch P R)) :
    pairs_of (l1 ++ l2) = pairs_of l1 ++ pairs_of l2 := by
  simp [pairs_of]

theorem pairs_of_singleton (batch : CoglJournalBatch P R) :
    pairs_of [batch] = batch.entries.map (fun e => (batch.pipeline, e)) := by
  simp [pairs_of]

theorem take_succ_get {α : Type} (l : List α) (n : ℕ) (a : α) (h : l.get? n = some a) :
    l.take (n + 1) = l.take n ++ [a] := by
  rw [List.take_succ]
  have : l[n]? = some a := by simpa using h
  rw [this]; rfl

theorem front_succ (batches : List (CoglJournalBatch P R)) (b k : ℕ)
    (batch : CoglJournalBatch P R) (e : CoglJournalEntry)
    (hb : batches.get? b = some batch) (he : batch.entries.get? k = some e) :
    front batches b (k + 1) = front batches b k ++ [(batch.pipeline, e)] := by
  simp only [front, hb, take_succ_get batch.entries k e he, List.map_append, List.map_cons,
    List.map_nil, List.append_assoc]

theorem front_zero_succ (batches : List (CoglJournalBatch P R)) (b : ℕ)
    (batch : CoglJournalBatch P R) (hb : batches.get? b = some batch) :
    front batches (b + 1) 0 = front batches b batch.entries.length := by
  have h0 : (match batches.get? (b + 1) with
      | some batch' => (batch'.entries.take 0).map (fun e => (batch'.pipeline, e))
      | none => ([] : List (P × CoglJournalEntry))) = [] := by
    cases batches.get? (b + 1) <;> simp
  simp only [front, h0, hb, take_succ_get batches b batch hb, pairs_of_append,
    pairs_of_singleton, List.take_length, List.append_nil]

theorem front_zero_zero (batches : List (CoglJournalBatch P R)) :
    front batches 0 0 = [] := by
  simp only [front, List.take_zero]
  cases batches.get? 0 <;> simp [pairs_of]

theorem previous_front (journal : CoglJournal P R) (b k : ℕ) (batch : CoglJournalBatch P R)
    (e : CoglJournalEntry) (hne : ∀ x ∈ journal.batches, x.entries ≠ [])
    (hb : journal.batches.get? b = some batch) (he : batch.entries.get? k = some e) :
    (front journal.batches b k = [] ∧
      ∃ prev, _cogl_journal_iterator_previous journal
        { entry := some k, batch_num := (b : ℤ) } = some prev) ∨
    (∃ (b' k' : ℕ) (batch' : CoglJournalBatch P R) (e' : CoglJournalEntry),
      _cogl_journal_iterator_previous journal { entry := some k, batch_num := (b : ℤ) }
        = some { entry := some k', batch_num := (b' : ℤ) } ∧
      journal.batches.get? b' = some batch' ∧ batch'.entries.get? k' = some e' ∧
      front journal.batches b k = front journal.batches b' k' ++ [(batch'.pipeline, e')]) := by
  have hie := iter_entry_nat journal b k batch hb
  rw [he] at hie
  cases k with
  | succ k0 =>
    right
    have hlt : k0 + 1 < batch.entries.length := by
      rcases List.get?_eq_some.1 he with ⟨h, _⟩
      exact h
    have he0 : batch.entries.get? k0 = some (batch.entries.get ⟨k0, by omega⟩) :=
      List.get?_eq_get (by omega)
    refine ⟨b, k0, batch, _, ?_, hb, he0, front_succ journal.batches b k0 batch _ hb he0⟩
    simp [_cogl_journal_iterator_previous, hie, COGL_TAILQ_PREV]
  | zero =>
    cases b with
    | zero =>
      left
      refine ⟨front_zero_zero _, ?_⟩
      simp only [_cogl_journal_iterator_previous, hie, COGL_TAILQ_PREV, if_true]
      exact ⟨_, rfl⟩
    | succ b0 =>
      right
      have hb0lt : b0 < journal.batches.length := by
        rcases List.get?_eq_some.1 hb with ⟨h, _⟩
        omega
      have hb0 : journal.batches.get? b0 = some (journal.batches.get ⟨b0, hb0lt⟩) :=
        List.get?_eq_get hb0lt
      have hne0 := hne _ (List.get_mem journal.batches b0 hb0lt)
      have hlen : 0 < (journal.batches.get ⟨b0, hb0lt⟩).entries.length :=
        List.length_pos.2 hne0
      have hk' : (journal.batches.get ⟨b0, hb0lt⟩).entries.length - 1 + 1 =
          (journal.batches.get ⟨b0, hb0lt⟩).entries.length := by omega
      have he' : (journal.batches.get ⟨b0, hb0lt⟩).entries.get?
          ((journal.batches.get ⟨b0, hb0lt⟩).entries.length - 1) =
          some ((journal.batches.get ⟨b0, hb0lt⟩).entries.get
            ⟨(journal.batches.get ⟨b0, hb0lt⟩).entries.length - 1, by omega⟩) :=
        List.get?_eq_get (by omega)
      refine ⟨b0, (journal.batches.get ⟨b0, hb0lt⟩).entries.length - 1,
        journal.batches.get ⟨b0, hb0lt⟩, _, ?_, hb0, he', ?_⟩
      · have h1 : ((b0 + 1 : ℕ) : ℤ) - 1 = (b0 : ℤ) := by push_cast; ring
        have h2 : ¬ ((b0 : ℤ) < 0) := by omega
        have h3 : (journal.batches.get ⟨b0, hb0lt⟩).entries.length ≠ 0 := by omega
        simp only [_cogl_journal_iterator_previous, hie, COGL_TAILQ_PREV, if_true, h1, h2,
          if_false, batch_entries_at_nat journal b0 _ hb0, COGL_TAILQ_LAST, h3]
      · have hfs := front_succ journal.batches b0 _ _ _ hb0 he'
        rw [front_zero_succ journal.batches b0 _ hb0, ← hfs, hk']

theorem set_iter_entry_batches (journal : CoglJournal P R) (b k : ℕ)
    (batch : CoglJournalBatch P R) (e' : CoglJournalEntry)
    (hb : journal.batches.get? b = some batch) :
    (set_iter_entry journal { entry := some k, batch_num := (b : ℤ) } e').batches =
      journal.batches.set b { batch with entries := batch.entries.set k e' } := by
  simp only [set_iter_entry, batch_at_nat, hb, Int.toNat_ofNat]

theorem set_iter_entry_get (journal : CoglJournal P R) (b k : ℕ)
    (batch : CoglJournalBatch P R) (e' : CoglJournalEntry)
    (hb : journal.batches.get? b = some batch) :
    (set_iter_entry journal { entry := some k, batch_num := (b : ℤ) } e').batches.get? b =
      some { batch with entries := batch.entries.set k e' } := by
  rw [set_iter_entry_batches journal b k batch e' hb]
  have hlt : b < journal.batches.length := (List.get?_eq_some.1 hb).1
  simp [List.getElem?_set_self, hlt]

theorem set_iter_entry_nonempty (journal : CoglJournal P R) (b k : ℕ)
    (batch : CoglJournalBatch P R) (e' : CoglJournalEntry)
    (hb : journal.batches.get? b = some batch)
    (hne : ∀ x ∈ journal.batches, x.entries ≠ []) :
    ∀ x ∈ (set_iter_entry journal { entry := some k, batch_num := (b : ℤ) } e').batches,
      x.entries ≠ [] := by
  rw [set_iter_entry_batches journal b k batch e' hb]
  intro x hx
  rcases List.mem_or_eq_of_mem_set hx with h | h
  · exact hne x h
  · subst h
    have hbm : batch ∈ journal.batches := List.get?_mem hb
    have := hne batch hbm
    intro hnil
    apply this
    have hl := congrArg List.length hnil
    simp only [List.length_set, List.length_nil] at hl
    exact List.length_eq_zero.1 hl

theorem take_set_self {α : Type} (l : List α) (n : ℕ) (a : α) :
    (l.set n a).take n = l.take n := by
  rw [List.set_take, List.set_eq_of_length_le (List.length_take_le n l)]

theorem set_iter_entry_front (journal : CoglJournal P R) (b k : ℕ)
    (batch : CoglJournalBatch P R) (e' : CoglJournalEntry)
    (hb : journal.batches.get? b = some batch) :
    front (set_iter_entry journal { entry := some k, batch_num := (b : ℤ) } e').batches b k =
      front journal.batches b k := by
  have hget := set_iter_entry_get journal b k batch e' hb
  rw [front, hget, front, hb, set_iter_entry_batches journal b k batch e' hb]
  simp only [take_set_self]

theorem read_pixel_hit_outcome (c : Collaborators P R) (journal : CoglJournal P R)
    (pipeline : P) (entry : CoglJournalEntry) :
    read_outcome (read_pixel_hit c journal pipeline entry) = hit_outcome c pipeline entry := by
  unfold read_pixel_hit hit_outcome read_outcome read_pixel_success
  by_cases h1 : c._cogl_pipeline_equal c.opaque_color_pipeline pipeline = true
  · by_cases h2 : entry.color.a = 0xff
    · simp [h1, h2]
    · simp [h1, h2]
  · simp [h1]

theorem read_pixel_loop_scan [DecidableEq P] (c : Collaborators P R) (ds : DrawState)
    (x y : ℤ) :
    ∀ (n : ℕ) (journal : CoglJournal P R) (b k : ℕ) (batch : CoglJournalBatch P R)
      (e : CoglJournalEntry),
      (∀ x ∈ journal.batches, x.entries ≠ []) →
      journal.batches.get? b = some batch → batch.entries.get? k = some e →
      (front journal.batches b k).length = n →
      ∃ r, read_pixel_loop c ds x y (n + 1) journal
          { entry := some k, batch_num := (b : ℤ) } = some r ∧
        read_outcome r = reference_scan c ds x y
          ((batch.pipeline, e) :: (front journal.batches b k).reverse) := by
  intro n
  induction n using Nat.strong_induction_on with
  | _ n ih =>
  intro journal b k batch e hne hb he hlen
  have cont : ∀ (J : CoglJournal P R) (batchJ : CoglJournalBatch P R) (eJ : CoglJournalEntry),
      (∀ x ∈ J.batches, x.entries ≠ []) → J.batches.get? b = some batchJ →
      batchJ.entries.get? k = some eJ →
      front J.batches b k = front journal.batches b k →
      ∃ r, (match _cogl_journal_iterator_previous J
              { entry := some k, batch_num := (b : ℤ) } with
            | some prev_iter => read_pixel_loop c ds x y n J prev_iter
            | none => none) = some r ∧
        read_outcome r = reference_scan c ds x y (front journal.batches b k).reverse := by
    intro J batchJ eJ hneJ hbJ heJ hfront
    rcases previous_front J b k batchJ eJ hneJ hbJ heJ with
      ⟨hnil, prev, hprev⟩ | ⟨b', k', batch', e', hprev, hb', he', hdecomp⟩
    · rw [hfront] at hnil
      have hn0 : n = 0 := by rw [← hlen, hnil]; rfl
      subst hn0
      refine ⟨read_pixel_success J false none, ?_, ?_⟩
      · rw [hprev]; rfl
      · rw [hnil]; rfl
    · rw [hfront] at hdecomp
      have hn : n = (front J.batches b' k').length + 1 := by
        rw [← hlen, hdecomp]; simp
      have hm : (front J.batches b' k').length < n := by omega
      obtain ⟨r, hr, hout⟩ := ih _ hm J b' k' batch' e' hneJ hb' he' rfl
      refine ⟨r, ?_, ?_⟩
      · rw [hprev]
        show read_pixel_loop c ds x y n J _ = some r
        rw [hn]; exact hr
      · rw [hout, hdecomp]; simp
  have hie := iter_entry_nat journal b k batch hb
  rw [he] at hie
  have hba := batch_at_nat journal b
  rw [hb] at hba
  rw [read_pixel_loop]
  simp only [hie, hba]
  by_cases hc : entry_contains c ds e x y = true
  · have hc' : c._cogl_util_point_in_screen_poly (x : ℚ) (y : ℚ)
        (entry_to_screen_polygon c ds e) = true := hc
    simp only [hc', Bool.not_true, Bool.false_eq_true, if_false]
    by_cases hclip : e.clip_stack = []
    · simp only [hclip, ne_eq, not_true_eq_false, if_false]
      refine ⟨_, rfl, ?_⟩
      rw [read_pixel_hit_outcome]
      simp [reference_scan, hc, hclip]
    · simp only [ne_eq, hclip, not_false_eq_true, if_true]
      cases htry : try_checking_point_hits_entry_after_clipping c ds batch.pipeline e x y with
      | none =>
        refine ⟨_, rfl, ?_⟩
        simp [reference_scan, hc, hclip, htry, read_outcome]
      | some res =>
        obtain ⟨hit, e'⟩ := res
        cases hit with
        | false =>
          simp only [Bool.not_false, if_true]
          obtain ⟨r, hr, hout⟩ := cont
            (set_iter_entry journal { entry := some k, batch_num := (b : ℤ) } e')
            { batch with entries := batch.entries.set k e' } e'
            (set_iter_entry_nonempty journal b k batch e' hb hne)
            (set_iter_entry_get journal b k batch e' hb)
            (by
              have hlt : k < batch.entries.length := (List.get?_eq_some.1 he).1
              simp [List.getElem?_set_self, hlt])
            (set_iter_entry_front journal b k batch e' hb)
          refine ⟨r, hr, ?_⟩
          rw [hout]
          simp [reference_scan, hc, hclip, htry]
        | true =>
          simp only [Bool.not_true, Bool.false_eq_true, if_false]
          refine ⟨_, rfl, ?_⟩
          rw [read_pixel_hit_outcome]
          simp [reference_scan, hc, hclip, htry]
  · have hc0 : entry_contains c ds e x y = false := by simpa using hc
    have hc' : c._cogl_util_point_in_screen_poly (x : ℚ) (y : ℚ)
        (entry_to_screen_polygon c ds e) = false := hc0
    simp only [hc', Bool.not_false, if_true]
    obtain ⟨r, hr, hout⟩ := cont journal batch e hne hb he rfl
    refine ⟨r, hr, ?_⟩
    rw [hout]
    simp [reference_scan, hc0]

theorem set_same {α : Type} : ∀ (l : List α) (n : ℕ) (a : α), l.get? n = some a → l.set n a = l
  | [], _, _, h => by simp at h
  | x :: l, 0, a, h => by
    simp only [List.get?_cons_zero, Option.some.injEq] at h
    subst h; rfl
  | x :: l, n + 1, a, h => by
    simp only [List.get?_cons_succ] at h
    simp only [List.set_cons_succ, set_same l n a h]

theorem set_iter_entry_shape (journal : CoglJournal P R) (iter : CoglJournalIter)
    (e' : CoglJournalEntry) :
    batch_lengths (set_iter_entry journal iter e') = batch_lengths journal ∧
      (set_iter_entry journal iter e').fast_read_pixel_count = journal.fast_read_pixel_count ∧
      (set_iter_entry journal iter e').journal_len = journal.journal_len := by
  unfold set_iter_entry
  cases hk : iter.entry with
  | none => exact ⟨rfl, rfl, rfl⟩
  | some k =>
    cases hb : batch_at journal iter.batch_num with
    | none => exact ⟨rfl, rfl, rfl⟩
    | some batch =>
      refine ⟨?_, rfl, rfl⟩
      simp only [batch_lengths, List.map_set, List.length_set]
      apply set_same
      unfold batch_at at hb
      split at hb
      · exact absurd hb (by simp)
      · rw [List.get?_eq_getElem?, List.getElem?_map]
        rw [List.get?_eq_getElem?] at hb
        rw [hb]; rfl

theorem read_pixel_hit_counter (c : Collaborators P R) (journal : CoglJournal P R)
    (pipeline : P) (entry : CoglJournalEntry) :
    batch_lengths (read_pixel_hit c journal pipeline entry).journal = batch_lengths journal ∧
      (read_pixel_hit c journal pipeline entry).journal.fast_read_pixel_count =
        journal.fast_read_pixel_count +
          (if (read_pixel_hit c journal pipeline entry).handled = true then 1 else 0) ∧
      (read_pixel_hit c journal pipeline entry).journal.journal_len = journal.journal_len := by
  unfold read_pixel_hit read_pixel_success
  by_cases h1 : c._cogl_pipeline_equal c.opaque_color_pipeline pipeline = true
  · by_cases h2 : entry.color.a = 0xff
    · simp [h1, h2, batch_lengths]
    · simp [h1, h2]
  · simp [h1]

theorem read_pixel_loop_counter [DecidableEq P] (c : Collaborators P R) (ds : DrawState)
    (x y : ℤ) :
    ∀ (fuel : ℕ) (journal : CoglJournal P R) (iter : CoglJournalIter) (r : ReadPixel P R),
      read_pixel_loop c ds x y fuel journal iter = some r →
      batch_lengths r.journal = batch_lengths journal ∧
        r.journal.fast_read_pixel_count =
          journal.fast_read_pixel_count + (if r.handled = true then 1 else 0) ∧
        r.journal.journal_len = journal.journal_len := by
  intro fuel
  induction fuel with
  | zero =>
    intro journal iter r h
    simp only [read_pixel_loop, Option.some.injEq] at h
    subst h
    simp [read_pixel_success, batch_lengths]
  | succ fuel ih =>
    intro journal iter r h
    rw [read_pixel_loop] at h
    cases hie : iter_entry journal iter with
    | none => simp [hie] at h
    | some entry =>
      cases hba : batch_at journal iter.batch_num with
      | none => simp [hie, hba] at h
      | some batch =>
        simp only [hie, hba] at h
        split at h
        · cases hprev : _cogl_journal_iterator_previous journal iter with
          | none => simp [hprev] at h
          | some prev =>
            simp only [hprev] at h
            exact ih journal prev r h
        · split at h
          · cases htry : try_checking_point_hits_entry_after_clipping c ds batch.pipeline
                entry x y with
            | none =>
              simp only [htry, Option.some.injEq] at h
              subst h
              simp
            | some res =>
              obtain ⟨hit, e'⟩ := res
              simp only [htry] at h
              obtain ⟨s1, s2, s3⟩ := set_iter_entry_shape journal iter e'
              cases hit with
              | false =>
                simp only [Bool.not_false, if_true] at h
                cases hprev : _cogl_journal_iterator_previous
                    (set_iter_entry journal iter e') iter with
                | none => simp [hprev] at h
                | some prev =>
                  simp only [hprev] at h
                  obtain ⟨i1, i2, i3⟩ := ih _ prev r h
                  exact ⟨i1.trans s1, by rw [i2, s2], i3.trans s3⟩
              | true =>
                simp only [Bool.not_true, Bool.false_eq_true, if_false,
                  Option.some.injEq] at h
                subst h
                obtain ⟨i1, i2, i3⟩ :=
                  read_pixel_hit_counter c (set_iter_entry journal iter e') batch.pipeline e'
                exact ⟨i1.trans s1, by rw [i2, s2], i3.trans s3⟩
          · simp only [Option.some.injEq] at h
            subst h
            exact read_pixel_hit_counter c journal batch.pipeline entry

/-- The counter of the fast read: a call that returns adds one to
`fast_read_pixel_count` exactly when it returns handled, and changes neither the
number of entries of any batch nor `journal_len`. -/
theorem try_read_pixel_counter [DecidableEq P] (c : Collaborators P R) (ds : DrawState)
    (journal : CoglJournal P R) (x y : ℤ) (format : CoglPixelFormat) (r : ReadPixel P R)
    (h : _cogl_journal_try_read_pixel c ds journal x y format = some r) :
    batch_lengths r.journal = batch_lengths journal ∧
      r.journal.fast_read_pixel_count =
        journal.fast_read_pixel_count + (if r.handled = true then 1 else 0) ∧
      r.journal.journal_len = journal.journal_len := by
  unfold _cogl_journal_try_read_pixel at h
  split at h
  · simp only [Option.some.injEq] at h
    subst h; simp
  · split at h
    · simp only [Option.some.injEq] at h
      subst h; simp
    · split at h
      · simp only [Option.some.injEq] at h
        subst h; simp [read_pixel_success, batch_lengths]
      · exact read_pixel_loop_counter c ds x y _ journal _ r h

theorem all_entries_eq_pairs (journal : CoglJournal P R) :
    all_entries journal = (all_pairs journal).map Prod.snd := by
  simp only [all_entries, all_pairs, pairs_of, List.map_flatten, List.map_map]
  congr 1
  apply List.map_congr_left
  intro batch _
  simp [Function.comp_def]

theorem all_entries_length (journal : CoglJournal P R) :
    (all_entries journal).length = (batch_lengths journal).sum := by
  simp [all_entries, batch_lengths, List.length_flatten, List.map_map, Function.comp_def]

theorem journal_wf_of_shape (journal journal' : CoglJournal P R)
    (h1 : batch_lengths journal' = batch_lengths journal)
    (h2 : journal'.journal_len = journal.journal_len) (hwf : journal_wf journal) :
    journal_wf journal' := by
  constructor
  · intro batch hb hnil
    have hmem : batch.entries.length ∈ batch_lengths journal' :=
      List.mem_map_of_mem (fun b : CoglJournalBatch P R => b.entries.length) hb
    rw [h1] at hmem
    obtain ⟨b0, hb0, hlen⟩ := List.mem_map.1 hmem
    apply hwf.1 b0 hb0
    apply List.length_eq_zero.1
    rw [hlen, hnil]; rfl
  · rw [h2, hwf.2, all_entries_length, all_entries_length, h1]

theorem all_pairs_last (journal : CoglJournal P R)
    (hne : ∀ x ∈ journal.batches, x.entries ≠ []) (hpos : journal.batches ≠ []) :
    ∃ (b k : ℕ) (batch : CoglJournalBatch P R) (e : CoglJournalEntry),
      journal.batches.get? b = some batch ∧ batch.entries.get? k = some e ∧
      _cogl_journal_iterator_init_reverse journal =
        { entry := some k, batch_num := (b : ℤ) } ∧
      all_pairs journal = front journal.batches b k ++ [(batch.pipeline, e)] := by
  have hL : 0 < journal.batches.length := List.length_pos.2 hpos
  have hblt : journal.batches.length - 1 < journal.batches.length := by omega
  have hb : journal.batches.get? (journal.batches.length - 1) =
      some (journal.batches.get ⟨journal.batches.length - 1, hblt⟩) := List.get?_eq_get hblt
  generalize hB : journal.batches.get ⟨journal.batches.length - 1, hblt⟩ = batch at hb
  have hbne : batch.entries ≠ [] := hne batch (List.get?_mem hb)
  have hK : 0 < batch.entries.length := List.length_pos.2 hbne
  have hklt : batch.entries.length - 1 < batch.entries.length := by omega
  have he : batch.entries.get? (batch.entries.length - 1) =
      some (batch.entries.get ⟨batch.entries.length - 1, hklt⟩) := List.get?_eq_get hklt
  refine ⟨journal.batches.length - 1, batch.entries.length - 1, batch, _, hb, he, ?_, ?_⟩
  · have h1 : (journal.batches.length : ℤ) - 1 = ((journal.batches.length - 1 : ℕ) : ℤ) := by
      omega
    have h3 : batch.entries.length ≠ 0 := by omega
    simp only [_cogl_journal_iterator_init_reverse, h1,
      batch_entries_at_nat journal _ batch hb, COGL_TAILQ_LAST, h3, if_false]
  · rw [← front_succ journal.batches _ _ batch _ hb he]
    have h2 : batch.entries.length - 1 + 1 = batch.entries.length := by omega
    rw [h2]
    have h4 : journal.batches.length - 1 + 1 = journal.batches.length := by omega
    have htake := take_succ_get journal.batches _ batch hb
    rw [h4, List.take_length] at htake
    simp only [front, hb, List.take_length, all_pairs]
    rw [← pairs_of_singleton, ← pairs_of_append, ← htake]

/-- The fast read refines the reference scan: on a well-formed journal, with
the counter at most 50 and a supported format, `_cogl_journal_try_read_pixel`
returns, and what the caller sees is the reference scan of the entries from the
last drawn to the first drawn. -/
theorem try_read_pixel_scan [DecidableEq P] (c : Collaborators P R) (ds : DrawState)
    (journal : CoglJournal P R) (x y : ℤ) (format : CoglPixelFormat)
    (hwf : journal_wf journal) (hcount : journal.fast_read_pixel_count ≤ 50)
    (hformat : format = CoglPixelFormat.COGL_PIXEL_FORMAT_RGBA_8888_PRE ∨
      format = CoglPixelFormat.COGL_PIXEL_FORMAT_RGBA_8888) :
    ∃ r, _cogl_journal_try_read_pixel c ds journal x y format = some r ∧
      read_outcome r = reference_scan c ds x y (all_pairs journal).reverse := by
  have h1 : ¬ journal.fast_read_pixel_count > 50 := by omega
  have h2 : ¬ (format ≠ CoglPixelFormat.COGL_PIXEL_FORMAT_RGBA_8888_PRE ∧
      format ≠ CoglPixelFormat.COGL_PIXEL_FORMAT_RGBA_8888) := by
    rcases hformat with h | h <;> simp [h]
  unfold _cogl_journal_try_read_pixel
  simp only [h1, h2, if_false]
  by_cases hlen : journal.journal_len ≤ 0
  · simp only [hlen, if_true]
    refine ⟨_, rfl, ?_⟩
    have h0 : (all_entries journal).length = 0 := by rw [← hwf.2]; omega
    have hnil : all_pairs journal = [] := by
      rw [all_entries_eq_pairs, List.length_map] at h0
      exact List.length_eq_zero.1 h0
    rw [hnil]; rfl
  · simp only [hlen, if_false]
    have hpos : journal.batches ≠ [] := by
      intro hnil
      apply hlen
      rw [hwf.2]
      simp [all_entries, hnil]
    obtain ⟨b, k, batch, e, hb, he, hinit, hall⟩ := all_pairs_last journal hwf.1 hpos
    have hfuel : journal.journal_len = (front journal.batches b k).length + 1 := by
      rw [hwf.2, all_entries_eq_pairs, List.length_map, hall]; simp
    obtain ⟨r, hr, hout⟩ :=
      read_pixel_loop_scan c ds x y _ journal b k batch e hwf.1 hb he rfl
    refine ⟨r, ?_, ?_⟩
    · rw [hfuel, hinit]; exact hr
    · rw [hout, hall]; simp

/-- On a well-formed journal `_cogl_journal_try_read_pixel` always returns. -/
theorem try_read_pixel_defined [DecidableEq P] (c : Collaborators P R) (ds : DrawState)
    (journal : CoglJournal P R) (x y : ℤ) (format : CoglPixelFormat)
    (hwf : journal_wf journal) :
    ∃ r, _cogl_journal_try_read_pixel c ds journal x y format = some r := by
  by_cases h1 : journal.fast_read_pixel_count > 50
  · refine ⟨ReadPixel.mk journal false none none, ?_⟩
    simp only [_cogl_journal_try_read_pixel, h1, if_true]
  · by_cases h2 : format ≠ CoglPixelFormat.COGL_PIXEL_FORMAT_RGBA_8888_PRE ∧
        format ≠ CoglPixelFormat.COGL_PIXEL_FORMAT_RGBA_8888
    · refine ⟨ReadPixel.mk journal false none none, ?_⟩
      unfold _cogl_journal_try_read_pixel
      rw [if_neg h1, if_pos h2]
    · have hformat : format = CoglPixelFormat.COGL_PIXEL_FORMAT_RGBA_8888_PRE ∨
          format = CoglPixelFormat.COGL_PIXEL_FORMAT_RGBA_8888 := by
        by_cases h : format = CoglPixelFormat.COGL_PIXEL_FORMAT_RGBA_8888_PRE
        · exact Or.inl h
        · right
          by_contra h'
          exact h2 ⟨h, h'⟩
      obtain ⟨r, hr, _⟩ := try_read_pixel_scan c ds journal x y format hwf (by omega) hformat
      exact ⟨r, hr⟩

/-! ## The fast pixel read: outcomes -/

theorem reference_scan_skip [DecidableEq P] (c : Collaborators P R) (ds : DrawState)
    (x y : ℤ) :
    ∀ (l1 l2 : List (P × CoglJournalEntry)),
      (∀ pe ∈ l1, entry_contains c ds pe.2 x y = false) →
      reference_scan c ds x y (l1 ++ l2) = reference_scan c ds x y l2
  | [], _, _ => rfl
  | (p, e) :: l1, l2, h => by
    have he : entry_contains c ds e x y = false := h (p, e) (by simp)
    have ih := reference_scan_skip c ds x y l1 l2
      (fun pe hpe => h pe (List.mem_cons_of_mem _ hpe))
    simp only [List.cons_append, reference_scan, he, if_true, List.append_eq, ih]

theorem reference_scan_not_survive [DecidableEq P] (c : Collaborators P R) (ds : DrawState)
    (x y : ℤ) :
    ∀ (l1 l2 : List (P × CoglJournalEntry)),
      (∀ pe ∈ l1, ¬ entry_survives c ds pe.1 pe.2 x y) →
      reference_scan c ds x y (l1 ++ l2) = reference_scan c ds x y l2 ∨
        reference_scan c ds x y (l1 ++ l2) = (false, some false, none)
  | [], _, _ => Or.inl rfl
  | (p, e) :: l1, l2, h => by
    have hns : ¬ entry_survives c ds p e x y := h (p, e) (by simp)
    have ih := reference_scan_not_survive c ds x y l1 l2
      (fun pe hpe => h pe (List.mem_cons_of_mem _ hpe))
    by_cases hc : entry_contains c ds e x y = true
    · by_cases hclip : e.clip_stack = []
      · exact absurd ⟨hc, Or.inl hclip⟩ hns
      · cases htry : try_checking_point_hits_entry_after_clipping c ds p e x y with
        | none =>
          right
          simp [reference_scan, hc, hclip, htry]
        | some res =>
          obtain ⟨hit, e'⟩ := res
          cases hit with
          | false =>
            simp only [List.cons_append, reference_scan, hc, Bool.true_eq_false, if_false,
              hclip, htry]
            exact ih
          | true => exact absurd ⟨hc, Or.inr ⟨e', htry⟩⟩ hns
    · have hc0 : entry_contains c ds e x y = false := by simpa using hc
      simp only [List.cons_append, reference_scan, hc0, if_true]
      exact ih

theorem software_clip_entry_color (c : Collaborators P R) (ds : DrawState)
    (entry : CoglJournalEntry) (bounds : ClipBounds) :
    (software_clip_entry c ds entry bounds).color = entry.color := by
  unfold software_clip_entry
  simp only
  split_ifs <;> rfl

theorem try_checking_color [DecidableEq P] (c : Collaborators P R) (ds : DrawState)
    (pipeline : P) (entry entry' : CoglJournalEntry) (x y : ℚ) (hit : Bool)
    (h : try_checking_point_hits_entry_after_clipping c ds pipeline entry x y
      = some (hit, entry')) :
    entry'.color = entry.color := by
  unfold try_checking_point_hits_entry_after_clipping at h
  split at h
  · simp only [Option.some.injEq, Prod.mk.injEq] at h
    rw [← h.2]
  · exact absurd h (by simp)
  · split at h
    · split at h
      · exact absurd h (by simp)
      · split at h
        · exact absurd h (by simp)
        · simp only [Option.some.injEq, Prod.mk.injEq] at h
          rw [← h.2]
          exact software_clip_entry_color c ds entry _
    · simp only [Option.some.injEq, Prod.mk.injEq] at h
      rw [← h.2]

theorem exists_last_satisfying {α : Type} (q : α → Prop) :
    ∀ (l : List α), (∃ a ∈ l, q a) →
      ∃ pre a post, l = pre ++ a :: post ∧ q a ∧ ∀ b ∈ post, ¬ q b := by
  intro l
  induction l using List.reverseRecOn with
  | nil => intro h; obtain ⟨a, ha, _⟩ := h; simp at ha
  | append_singleton l a ih =>
    intro h
    by_cases hq : q a
    · exact ⟨l, a, [], rfl, hq, by simp⟩
    · obtain ⟨a', ha', hqa'⟩ := h
      rcases List.mem_append.1 ha' with hin | hin
      · obtain ⟨pre, a0, post, hl, hq0, hpost⟩ := ih ⟨a', hin, hqa'⟩
        refine ⟨pre, a0, post ++ [a], by simp [hl], hq0, ?_⟩
        intro b hb
        rcases List.mem_append.1 hb with hb | hb
        · exact hpost b hb
        · simp only [List.mem_singleton] at hb
          subst hb; exact hq
      · simp only [List.mem_singleton] at hin
        subst hin
        exact absurd hqa' hq

theorem read_outcome_fields (r : ReadPixel P R) (h : Bool) (f : Option Bool)
    (px : Option ColorUB) (hr : read_outcome r = (h, f, px)) :
    r.handled = h ∧ r.found_intersection = f ∧ r.pixel = px := by
  simp only [read_outcome, Prod.mk.injEq] at hr
  exact hr

/-- The core of the "topmost hit wins" statements: if the entries drawn after
an unclipped entry with a flat pipeline and opaque colour do not contain the
point and that entry does, the read returns its colour. -/
theorem try_read_pixel_topmost [DecidableEq P] (c : Collaborators P R) (ds : DrawState)
    (journal : CoglJournal P R) (x y : ℤ) (format : CoglPixelFormat)
    (pre post : List (P × CoglJournalEntry)) (pipeline : P) (entry : CoglJournalEntry)
    (hwf : journal_wf journal) (hcount : journal.fast_read_pixel_count ≤ 50)
    (hformat : format = CoglPixelFormat.COGL_PIXEL_FORMAT_RGBA_8888_PRE ∨
      format = CoglPixelFormat.COGL_PIXEL_FORMAT_RGBA_8888)
    (hsplit : all_pairs journal = pre ++ (pipeline, entry) :: post)
    (hflat : c._cogl_pipeline_equal c.opaque_color_pipeline pipeline = true)
    (hclip : entry.clip_stack = []) (halpha : entry.color.a = 0xff)
    (hcontains : entry_contains c ds entry x y = true)
    (hlater : ∀ pe ∈ post, entry_contains c ds pe.2 x y = false) :
    ∃ r, _cogl_journal_try_read_pixel c ds journal x y format = some r ∧
      r.handled = true ∧ r.found_intersection = some true ∧ r.pixel = some entry.color := by
  obtain ⟨r, hr, hout⟩ := try_read_pixel_scan c ds journal x y format hwf hcount hformat
  refine ⟨r, hr, ?_⟩
  apply read_outcome_fields
  rw [hout, hsplit]
  have hrev : (pre ++ (pipeline, entry) :: post).reverse =
      post.reverse ++ ((pipeline, entry) :: pre.reverse) := by simp
  rw [hrev, reference_scan_skip c ds x y _ _ (by simpa using hlater)]
  simp [reference_scan, hcontains, hclip, hit_outcome, hflat, halpha]

theorem try_read_pixel_miss [DecidableEq P] (c : Collaborators P R) (ds : DrawState)
    (journal : CoglJournal P R) (x y : ℤ) (format : CoglPixelFormat)
    (hwf : journal_wf journal) (hcount : journal.fast_read_pixel_count ≤ 50)
    (hformat : format = CoglPixelFormat.COGL_PIXEL_FORMAT_RGBA_8888_PRE ∨
      format = CoglPixelFormat.COGL_PIXEL_FORMAT_RGBA_8888)
    (hno : ∀ e ∈ all_entries journal, entry_contains c ds e x y = false) :
    ∃ r, _cogl_journal_try_read_pixel c ds journal x y format = some r ∧
      r.handled = true ∧ r.found_intersection = some false ∧ r.pixel = none := by
  obtain ⟨r, hr, hout⟩ := try_read_pixel_scan c ds journal x y format hwf hcount hformat
  refine ⟨r, hr, ?_⟩
  apply read_outcome_fields
  rw [hout]
  have hall : ∀ pe ∈ (all_pairs journal).reverse, entry_contains c ds pe.2 x y = false := by
    intro pe hpe
    apply hno
    rw [all_entries_eq_pairs]
    exact List.mem_map_of_mem Prod.snd (List.mem_reverse.1 hpe)
  have := reference_scan_skip c ds x y (all_pairs journal).reverse [] hall
  rw [List.append_nil] at this
  rw [this]; rfl

/-- C6 (amended: topmost opaque hit wins when the read is not refused).  For
every well-formed journal whose entries are all unclipped, opaque and drawn with
a flat-colour pipeline (overlaps allowed), with the counter at most 50 and a
supported format: if `entry` is the last entry in draw order whose polygon
contains (x, y), the read returns handled, found, and the colour of `entry`. -/
theorem topmost_opaque_hit_wins [DecidableEq P] (c : Collaborators P R) (ds : DrawState)
    (journal : CoglJournal P R) (x y : ℤ) (format : CoglPixelFormat)
    (pre post : List (P × CoglJournalEntry)) (pipeline : P) (entry : CoglJournalEntry)
    (hwf : journal_wf journal) (hcount : journal.fast_read_pixel_count ≤ 50)
    (hformat : format = CoglPixelFormat.COGL_PIXEL_FORMAT_RGBA_8888_PRE ∨
      format = CoglPixelFormat.COGL_PIXEL_FORMAT_RGBA_8888)
    (hflat : ∀ pe ∈ all_pairs journal,
      c._cogl_pipeline_equal c.opaque_color_pipeline pe.1 = true ∧
        pe.2.clip_stack = [] ∧ pe.2.color.a = 0xff)
    (hsplit : all_pairs journal = pre ++ (pipeline, entry) :: post)
    (hcontains : entry_contains c ds entry x y = true)
    (hlater : ∀ pe ∈ post, entry_contains c ds pe.2 x y = false) :
    ∃ r, _cogl_journal_try_read_pixel c ds journal x y format = some r ∧
      r.handled = true ∧ r.found_intersection = some true ∧ r.pixel = some entry.color := by
  have hmem : (pipeline, entry) ∈ all_pairs journal := by rw [hsplit]; simp
  obtain ⟨h1, h2, h3⟩ := hflat _ hmem
  exact try_read_pixel_topmost c ds journal x y format pre post pipeline entry hwf hcount
    hformat hsplit h1 h2 h3 hcontains hlater

/-- C9 (a miss is handled).  With a supported format and the counter at most 50,
if the journal is empty (`journal_len` is 0), or it is well formed and no
entry's screen polygon contains (x, y), the read returns handled with
`found_intersection` false and stores no pixel. -/
theorem miss_is_handled [DecidableEq P] (c : Collaborators P R) (ds : DrawState)
    (journal : CoglJournal P R) (x y : ℤ) (format : CoglPixelFormat)
    (hcount : journal.fast_read_pixel_count ≤ 50)
    (hformat : format = CoglPixelFormat.COGL_PIXEL_FORMAT_RGBA_8888_PRE ∨
      format = CoglPixelFormat.COGL_PIXEL_FORMAT_RGBA_8888)
    (hmiss : journal.journal_len = 0 ∨
      (journal_wf journal ∧ ∀ e ∈ all_entries journal, entry_contains c ds e x y = false)) :
    ∃ r, _cogl_journal_try_read_pixel c ds journal x y format = some r ∧
      r.handled = true ∧ r.found_intersection = some false ∧ r.pixel = none := by
  rcases hmiss with hlen | ⟨hwf, hno⟩
  · have h1 : ¬ journal.fast_read_pixel_count > 50 := by omega
    have h2 : ¬ (format ≠ CoglPixelFormat.COGL_PIXEL_FORMAT_RGBA_8888_PRE ∧
        format ≠ CoglPixelFormat.COGL_PIXEL_FORMAT_RGBA_8888) := by
      rcases hformat with h | h <;> simp [h]
    have h3 : journal.journal_len ≤ 0 := by omega
    refine ⟨read_pixel_success journal false none, ?_, rfl, rfl, rfl⟩
    unfold _cogl_journal_try_read_pixel
    rw [if_neg h1, if_neg h2, if_pos h3]
  · exact try_read_pixel_miss c ds journal x y format hwf hcount hformat hno

theorem try_read_pixel_refused [DecidableEq P] (c : Collaborators P R) (ds : DrawState)
    (journal : CoglJournal P R) (x y : ℤ) (format : CoglPixelFormat)
    (h : journal.fast_read_pixel_count > 50 ∨
      ¬ (format = CoglPixelFormat.COGL_PIXEL_FORMAT_RGBA_8888_PRE ∨
        format = CoglPixelFormat.COGL_PIXEL_FORMAT_RGBA_8888)) :
    _cogl_journal_try_read_pixel c ds journal x y format =
      some (ReadPixel.mk journal false none none) := by
  unfold _cogl_journal_try_read_pixel
  by_cases h1 : journal.fast_read_pixel_count > 50
  · rw [if_pos h1]
  · rcases h with h | h
    · exact absurd h h1
    · rw [if_neg h1, if_pos]
      constructor
      · intro hf; exact h (Or.inl hf)
      · intro hf; exact h (Or.inr hf)

/-- C10 (abort instead of falling through).  On a well-formed journal, if
`entry` is the last entry in draw order that survives the tests at (x, y) (its
polygon contains the point and it is unclipped or its clip test reports a hit),
and its pipeline is not equivalent (ignoring colour) to the flat opaque-colour
pipeline or its alpha is not `0xff`, the read returns not-handled and stores no
pixel: the colour of no older entry is returned. -/
theorem abort_instead_of_falling_through [DecidableEq P] (c : Collaborators P R)
    (ds : DrawState) (journal : CoglJournal P R) (x y : ℤ) (format : CoglPixelFormat)
    (pre post : List (P × CoglJournalEntry)) (pipeline : P) (entry : CoglJournalEntry)
    (hwf : journal_wf journal)
    (hsplit : all_pairs journal = pre ++ (pipeline, entry) :: post)
    (hlater : ∀ pe ∈ post, ¬ entry_survives c ds pe.1 pe.2 x y)
    (hsurvives : entry_survives c ds pipeline entry x y)
    (hbad : c._cogl_pipeline_equal c.opaque_color_pipeline pipeline = false ∨
      entry.color.a ≠ 0xff) :
    ∃ r, _cogl_journal_try_read_pixel c ds journal x y format = some r ∧
      r.handled = false ∧ r.pixel = none := by
  by_cases hgate : journal.fast_read_pixel_count > 50 ∨
      ¬ (format = CoglPixelFormat.COGL_PIXEL_FORMAT_RGBA_8888_PRE ∨
        format = CoglPixelFormat.COGL_PIXEL_FORMAT_RGBA_8888)
  · exact ⟨_, try_read_pixel_refused c ds journal x y format hgate, rfl, rfl⟩
  have hcount : journal.fast_read_pixel_count ≤ 50 := by
    by_contra hc
    exact hgate (Or.inl (by omega))
  have hformat : format = CoglPixelFormat.COGL_PIXEL_FORMAT_RGBA_8888_PRE ∨
      format = CoglPixelFormat.COGL_PIXEL_FORMAT_RGBA_8888 := by
    by_contra hf
    exact hgate (Or.inr hf)
  obtain ⟨r, hr, hout⟩ := try_read_pixel_scan c ds journal x y format hwf hcount hformat
  refine ⟨r, hr, ?_⟩
  have hrev : (pre ++ (pipeline, entry) :: post).reverse =
      post.reverse ++ ((pipeline, entry) :: pre.reverse) := by simp
  rw [hsplit, hrev] at hout
  have hgoal : ∀ o : Bool × Option Bool × Option ColorUB, read_outcome r = o →
      o.1 = false → o.2.2 = none → r.handled = false ∧ r.pixel = none := by
    intro o ho h1 h2
    simp only [read_outcome] at ho
    rw [← ho] at h1 h2
    exact ⟨h1, h2⟩
  have hbad' : ∀ e' : CoglJournalEntry, e'.color = entry.color →
      hit_outcome c pipeline e' = (false, some true, none) := by
    intro e' hcol
    unfold hit_outcome
    rcases hbad with hb | hb
    · simp [hb]
    · simp [hcol, hb]
  rcases reference_scan_not_survive c ds x y post.reverse ((pipeline, entry) :: pre.reverse)
      (by simpa using hlater) with h | h
  · rw [h] at hout
    obtain ⟨hc, hs⟩ := hsurvives
    by_cases hclip : entry.clip_stack = []
    · apply hgoal _ hout
      · simp [reference_scan, hc, hclip, hbad' entry rfl]
      · simp [reference_scan, hc, hclip, hbad' entry rfl]
    · rcases hs with hs | ⟨e', he'⟩
      · exact absurd hs hclip
      · have hcol := try_checking_color c ds pipeline entry e' x y true he'
        apply hgoal _ hout
        · simp [reference_scan, hc, hclip, he', hbad' e' hcol]
        · simp [reference_scan, hc, hclip, he', hbad' e' hcol]
  · rw [h] at hout
    exact hgoal _ hout rfl rfl

/-- C5 (fast pixel read correctness).  For every well-formed journal whose
entries are all unclipped, opaque and drawn with a flat-colour pipeline and whose
screen polygons do not overlap (it is enough that no two of them both contain
the point read), with the counter at most 50 and a supported format, the read
returns handled and agrees with the brute-force scan: it reports found with the
colour of the entry whose polygon contains (x, y) if there is one, and not found
with no pixel otherwise. -/
theorem fast_read_agrees_with_brute_force [DecidableEq P] (c : Collaborators P R)
    (ds : DrawState) (journal : CoglJournal P R) (x y : ℤ) (format : CoglPixelFormat)
    (hwf : journal_wf journal) (hcount : journal.fast_read_pixel_count ≤ 50)
    (hformat : format = CoglPixelFormat.COGL_PIXEL_FORMAT_RGBA_8888_PRE ∨
      format = CoglPixelFormat.COGL_PIXEL_FORMAT_RGBA_8888)
    (hflat : ∀ pe ∈ all_pairs journal,
      c._cogl_pipeline_equal c.opaque_color_pipeline pe.1 = true ∧
        pe.2.clip_stack = [] ∧ pe.2.color.a = 0xff)
    (hdisjoint : (all_entries journal).Pairwise (fun e1 e2 =>
      ¬ (entry_contains c ds e1 x y = true ∧ entry_contains c ds e2 x y = true))) :
    ∃ r, _cogl_journal_try_read_pixel c ds journal x y format = some r ∧
      r.handled = true ∧
      r.pixel = brute_force_read c ds journal x y ∧
      r.found_intersection = some (brute_force_read c ds journal x y).isSome ∧
      (∀ e ∈ all_entries journal, entry_contains c ds e x y = true →
        r.found_intersection = some true ∧ r.pixel = some e.color) ∧
      ((∀ e ∈ all_entries journal, entry_contains c ds e x y = false) →
        r.found_intersection = some false ∧ r.pixel = none) := by
  by_cases hex : ∃ pe ∈ all_pairs journal, entry_contains c ds pe.2 x y = true
  · obtain ⟨pre, pe, post, hsplit, hc, hpost⟩ :=
      exists_last_satisfying (fun pe : P × CoglJournalEntry =>
        entry_contains c ds pe.2 x y = true) (all_pairs journal) hex
    obtain ⟨pipeline, entry⟩ := pe
    have hpost' : ∀ pe ∈ post, entry_contains c ds pe.2 x y = false := by
      intro pe hpe
      simpa using hpost pe hpe
    have hmem : (pipeline, entry) ∈ all_pairs journal := by rw [hsplit]; simp
    obtain ⟨f1, f2, f3⟩ := hflat _ hmem
    obtain ⟨r, hr, h1, h2, h3⟩ := try_read_pixel_topmost c ds journal x y format pre post
      pipeline entry hwf hcount hformat hsplit f1 f2 f3 hc hpost'
    have hents : all_entries journal =
        pre.map Prod.snd ++ entry :: post.map Prod.snd := by
      rw [all_entries_eq_pairs, hsplit]; simp
    rw [hents, List.pairwise_append] at hdisjoint
    have hpre : ∀ e ∈ pre.map Prod.snd, entry_contains c ds e x y = false := by
      intro e he
      have := hdisjoint.2.2 e he entry (by simp)
      by_contra hne
      exact this ⟨by simpa using hne, hc⟩
    have hbf : brute_force_read c ds journal x y = some entry.color := by
      unfold brute_force_read
      rw [hents, List.find?_append]
      have hnone : (pre.map Prod.snd).find? (fun e => entry_contains c ds e x y) = none := by
        rw [List.find?_eq_none]
        intro e he
        simp [hpre e he]
      rw [hnone]
      simp [List.find?_cons, hc]
    refine ⟨r, hr, h1, by rw [h3, hbf], by rw [h2, hbf]; rfl, ?_, ?_⟩
    · intro e he hce
      rw [hents] at he
      rcases List.mem_append.1 he with hin | hin
      · rw [hpre e hin] at hce
        exact absurd hce (by simp)
      · rcases List.mem_cons.1 hin with rfl | hin
        · exact ⟨h2, h3⟩
        · obtain ⟨pe, hpe, rfl⟩ := List.mem_map.1 hin
          rw [hpost' pe hpe] at hce
          exact absurd hce (by simp)
    · intro hall
      have := hall entry (by rw [hents]; simp)
      rw [this] at hc
      exact absurd hc (by simp)
  · have hno : ∀ e ∈ all_entries journal, entry_contains c ds e x y = false := by
      intro e he
      rw [all_entries_eq_pairs] at he
      obtain ⟨pe, hpe, rfl⟩ := List.mem_map.1 he
      by_contra hne
      exact hex ⟨pe, hpe, by simpa using hne⟩
    obtain ⟨r, hr, h1, h2, h3⟩ :=
      try_read_pixel_miss c ds journal x y format hwf hcount hformat hno
    have hbf : brute_force_read c ds journal x y = none := by
      unfold brute_force_read
      have hnone : (all_entries journal).find? (fun e => entry_contains c ds e x y) = none := by
        rw [List.find?_eq_none]
        intro e he
        simp [hno e he]
      rw [hnone]; rfl
    refine ⟨r, hr, h1, by rw [h3, hbf], by rw [h2, hbf]; rfl, ?_, ?_⟩
    · intro e he hce
      rw [hno e he] at hce
      exact absurd hce (by simp)
    · intro _
      exact ⟨h2, h3⟩

/-! ## The circuit breaker -/

theorem try_read_pixel_tripped [DecidableEq P] (c : Collaborators P R) (ds : DrawState)
    (journal : CoglJournal P R) (x y : ℤ) (format : CoglPixelFormat)
    (h : journal.fast_read_pixel_count > 50) :
    _cogl_journal_try_read_pixel c ds journal x y format =
      some (ReadPixel.mk journal false none none) := by
  unfold _cogl_journal_try_read_pixel
  rw [if_pos h]

theorem read_pixel_calls_breaker [DecidableEq P] (c : Collaborators P R) (ds : DrawState) :
    ∀ (calls : List (ℤ × ℤ × CoglPixelFormat)) (journal : CoglJournal P R),
      journal_wf journal →
      ∃ journal' flags, read_pixel_calls c ds journal calls = some (journal', flags) ∧
        flags.length = calls.length ∧
        ∀ pre h post, flags = pre ++ h :: post →
          50 < journal.fast_read_pixel_count + (pre.count true : ℤ) → h = false := by
  intro calls
  induction calls with
  | nil =>
    intro journal _
    refine ⟨journal, [], rfl, rfl, ?_⟩
    intro pre h post hflags
    simp at hflags
  | cons call calls ih =>
    intro journal hwf
    obtain ⟨x, y, format⟩ := call
    obtain ⟨r, hr⟩ := try_read_pixel_defined c ds journal x y format hwf
    obtain ⟨s1, s2, s3⟩ := try_read_pixel_counter c ds journal x y format r hr
    have hwf' : journal_wf r.journal := journal_wf_of_shape journal r.journal s1 s3 hwf
    obtain ⟨journal', flags, hcalls, hlen, hprop⟩ := ih r.journal hwf'
    refine ⟨journal', r.handled :: flags, ?_, by simp [hlen], ?_⟩
    · simp only [read_pixel_calls, hr, hcalls]
    · intro pre h post hflags hcount
      cases pre with
      | nil =>
        simp only [List.nil_append, List.cons.injEq] at hflags
        simp only [List.count_nil, Nat.cast_zero, add_zero] at hcount
        have htrip := try_read_pixel_tripped c ds journal x y format hcount
        rw [hr] at htrip
        simp only [Option.some.injEq] at htrip
        rw [← hflags.1, htrip]
      | cons p0 pre' =>
        simp only [List.cons_append, List.cons.injEq] at hflags
        apply hprop pre' h post hflags.2
        rw [s2, hflags.1]
        rw [List.count_cons] at hcount
        by_cases hp : p0 = true
        · simp only [hp, beq_self_eq_true, if_true] at hcount ⊢
          push_cast at hcount
          omega
        · have hp' : p0 = false := by simpa using hp
          simp only [hp', Bool.false_eq_true, if_false] at hcount ⊢
          simp only [show ((false == true) = false) from rfl, Bool.false_eq_true, if_false,
            add_zero] at hcount
          omega

theorem read_pixel_hit_outcome_count (c : Collaborators P R) (journal : CoglJournal P R)
    (k : ℤ) (pipeline : P) (entry : CoglJournalEntry) :
    read_outcome (read_pixel_hit c { journal with fast_read_pixel_count := k } pipeline entry) =
      read_outcome (read_pixel_hit c journal pipeline entry) := by
  unfold read_pixel_hit read_outcome read_pixel_success
  split_ifs <;> rfl

theorem set_iter_entry_count (journal : CoglJournal P R) (k : ℤ) (iter : CoglJournalIter)
    (entry : CoglJournalEntry) :
    set_iter_entry { journal with fast_read_pixel_count := k } iter entry =
      { set_iter_entry journal iter entry with fast_read_pixel_count := k } := by
  have hb : batch_at { journal with fast_read_pixel_count := k } iter.batch_num =
      batch_at journal iter.batch_num := rfl
  unfold set_iter_entry
  rw [hb]
  cases iter.entry with
  | none => rfl
  | some n =>
    cases batch_at journal iter.batch_num with
    | none => rfl
    | some batch => rfl

/-- The loop of the fast read does not look at the fast-read counter: with
another value of the counter it returns the same flag, the same
`found_intersection` and the same pixel. -/
theorem read_pixel_loop_count [DecidableEq P] (c : Collaborators P R) (ds : DrawState)
    (x y : ℤ) (k : ℤ) :
    ∀ (fuel : ℕ) (journal : CoglJournal P R) (iter : CoglJournalIter),
      (read_pixel_loop c ds x y fuel { journal with fast_read_pixel_count := k } iter).map
          read_outcome =
        (read_pixel_loop c ds x y fuel journal iter).map read_outcome := by
  intro fuel
  induction fuel with
  | zero =>
    intro journal iter
    rfl
  | succ fuel ih =>
    intro journal iter
    have he : iter_entry { journal with fast_read_pixel_count := k } iter =
        iter_entry journal iter := rfl
    have hb : batch_at { journal with fast_read_pixel_count := k } iter.batch_num =
        batch_at journal iter.batch_num := rfl
    have hp : ∀ j : CoglJournal P R,
        _cogl_journal_iterator_previous { j with fast_read_pixel_count := k } iter =
          _cogl_journal_iterator_previous j iter := fun _ => rfl
    rw [read_pixel_loop, read_pixel_loop, he, hb]
    cases iter_entry journal iter with
    | none => rfl
    | some entry =>
      cases batch_at journal iter.batch_num with
      | none => rfl
      | some batch =>
        simp only
        split_ifs with h1 h2
        · rw [hp]
          cases _cogl_journal_iterator_previous journal iter with
          | none => rfl
          | some prev => exact ih journal prev
        · cases try_checking_point_hits_entry_after_clipping c ds batch.pipeline entry x y with
          | none => rfl
          | some res =>
            obtain ⟨hit, entry'⟩ := res
            simp only
            rw [set_iter_entry_count, hp]
            split_ifs
            · cases _cogl_journal_iterator_previous (set_iter_entry journal iter entry') iter with
              | none => rfl
              | some prev => exact ih _ prev
            · simp only [Option.map_some']
              rw [read_pixel_hit_outcome_count]
        · simp only [Option.map_some']
          rw [read_pixel_hit_outcome_count]

/-- A call of the fast read made with the counter at most 50 is served: it
returns what it returns with the counter at 0. -/
theorem try_read_pixel_served [DecidableEq P] (c : Collaborators P R) (ds : DrawState)
    (journal : CoglJournal P R) (x y : ℤ) (format : CoglPixelFormat)
    (h : journal.fast_read_pixel_count ≤ 50) :
    (_cogl_journal_try_read_pixel c ds { journal with fast_read_pixel_count := 0 } x y
        format).map read_outcome =
      (_cogl_journal_try_read_pixel c ds journal x y format).map read_outcome := by
  have h1 : ¬ journal.fast_read_pixel_count > 50 := by omega
  unfold _cogl_journal_try_read_pixel
  rw [if_neg h1, if_neg (by norm_num)]
  split_ifs
  · rfl
  · rfl
  · exact read_pixel_loop_count c ds x y 0 _ journal _

theorem read_pixel_calls_append [DecidableEq P] (c : Collaborators P R) (ds : DrawState) :
    ∀ (cs1 cs2 : List (ℤ × ℤ × CoglPixelFormat)) (journal journal1 journal2 : CoglJournal P R)
      (flags1 flags2 : List Bool),
      read_pixel_calls c ds journal cs1 = some (journal1, flags1) →
      read_pixel_calls c ds journal1 cs2 = some (journal2, flags2) →
      read_pixel_calls c ds journal (cs1 ++ cs2) = some (journal2, flags1 ++ flags2)
  | [], cs2, journal, journal1, journal2, flags1, flags2, h1, h2 => by
    simp only [read_pixel_calls, Option.some.injEq, Prod.mk.injEq] at h1
    rw [h1.1, ← h1.2]
    exact h2
  | (x, y, format) :: cs1, cs2, journal, journal1, journal2, flags1, flags2, h1, h2 => by
    rw [read_pixel_calls] at h1
    rw [List.cons_append, read_pixel_calls]
    cases hr : _cogl_journal_try_read_pixel c ds journal x y format with
    | none => simp [hr] at h1
    | some r =>
      simp only [hr] at h1 ⊢
      cases hc : read_pixel_calls c ds r.journal cs1 with
      | none => simp [hc] at h1
      | some res =>
        obtain ⟨j', f'⟩ := res
        simp only [hc, Option.some.injEq, Prod.mk.injEq] at h1
        rw [← h1.1] at h2
        rw [read_pixel_calls_append c ds cs1 cs2 r.journal j' journal2 f' flags2 hc h2, ← h1.2]
        rfl

/-- A sequence of calls of the fast read on a well-formed journal returns, and
the counter ends at its value before plus the number of calls that returned
handled. -/
theorem read_pixel_calls_defined [DecidableEq P] (c : Collaborators P R) (ds : DrawState) :
    ∀ (calls : List (ℤ × ℤ × CoglPixelFormat)) (journal : CoglJournal P R),
      journal_wf journal →
      ∃ journal' flags, read_pixel_calls c ds journal calls = some (journal', flags) ∧
        flags.length = calls.length ∧ journal_wf journal' ∧
        journal'.fast_read_pixel_count =
          journal.fast_read_pixel_count + (flags.count true : ℤ)
  | [], journal, hwf => ⟨journal, [], rfl, rfl, hwf, by simp⟩
  | (x, y, format) :: calls, journal, hwf => by
    obtain ⟨r, hr⟩ := try_read_pixel_defined c ds journal x y format hwf
    obtain ⟨s1, s2, s3⟩ := try_read_pixel_counter c ds journal x y format r hr
    have hwf' : journal_wf r.journal := journal_wf_of_shape journal r.journal s1 s3 hwf
    obtain ⟨journal', flags, hcalls, hlen, hwf'', hcount⟩ :=
      read_pixel_calls_defined c ds calls r.journal hwf'
    refine ⟨journal', r.handled :: flags, ?_, by simp [hlen], hwf'', ?_⟩
    · simp only [read_pixel_calls, hr, hcalls]
    · rw [hcount, s2, List.count_cons]
      cases r.handled
      · simp
      · simp; ring

/-- C7 (amended: the breaker counts handled reads).  On a well-formed journal
whose counter is not negative and that is not flushed or discarded in between,
every sequence of calls of the fast read returns, and the counter ends at its
value before plus the number of calls that returned handled.  A call made after
51 earlier calls of the sequence returned handled returns not-handled.  When a
call is made, the counter stands at its first value plus the number of earlier
calls that returned handled, calls that returned not-handled not counted, and
while that is at most 50 the call is served: it returns what it would return
with the counter at 0. -/
theorem breaker_trips_after_51_handled [DecidableEq P] (c : Collaborators P R)
    (ds : DrawState) (journal : CoglJournal P R) (calls : List (ℤ × ℤ × CoglPixelFormat))
    (hwf : journal_wf journal) (hcount : 0 ≤ journal.fast_read_pixel_count) :
    ∃ journal' flags, read_pixel_calls c ds journal calls = some (journal', flags) ∧
      flags.length = calls.length ∧
      journal'.fast_read_pixel_count = journal.fast_read_pixel_count + (flags.count true : ℤ) ∧
      (∀ pre h post, flags = pre ++ h :: post → 51 ≤ pre.count true → h = false) ∧
      (∀ cs1 x y format cs2, calls = cs1 ++ (x, y, format) :: cs2 →
        ∃ journal1 flags1 r,
          read_pixel_calls c ds journal cs1 = some (journal1, flags1) ∧
          journal1.fast_read_pixel_count =
            journal.fast_read_pixel_count + (flags1.count true : ℤ) ∧
          _cogl_journal_try_read_pixel c ds journal1 x y format = some r ∧
          flags.get? cs1.length = some r.handled ∧
          (journal1.fast_read_pixel_count ≤ 50 →
            (_cogl_journal_try_read_pixel c ds { journal1 with fast_read_pixel_count := 0 }
              x y format).map read_outcome = some (read_outcome r))) := by
  obtain ⟨journal', flags, h1, h2, h3⟩ := read_pixel_calls_breaker c ds calls journal hwf
  obtain ⟨journal'', flags'', g1, _, _, g4⟩ := read_pixel_calls_defined c ds calls journal hwf
  rw [h1] at g1
  simp only [Option.some.injEq, Prod.mk.injEq] at g1
  refine ⟨journal', flags, h1, h2, ?_, ?_, ?_⟩
  · rw [g1.1, g1.2]; exact g4
  · intro pre h post hflags h51
    apply h3 pre h post hflags
    have : (51 : ℤ) ≤ (pre.count true : ℤ) := by exact_mod_cast h51
    omega
  · intro cs1 x y format cs2 hsplit
    obtain ⟨journal1, flags1, k1, k2, k3, k4⟩ := read_pixel_calls_defined c ds cs1 journal hwf
    obtain ⟨r, hr⟩ := try_read_pixel_defined c ds journal1 x y format k3
    obtain ⟨s1, s2, s3⟩ := try_read_pixel_counter c ds journal1 x y format r hr
    have hwf' : journal_wf r.journal := journal_wf_of_shape journal1 r.journal s1 s3 k3
    obtain ⟨journal2, flags2, m1, _, _, _⟩ := read_pixel_calls_defined c ds cs2 r.journal hwf'
    have hone : read_pixel_calls c ds journal1 ((x, y, format) :: cs2) =
        some (journal2, r.handled :: flags2) := by
      simp only [read_pixel_calls, hr, m1]
    have hall := read_pixel_calls_append c ds cs1 ((x, y, format) :: cs2) journal journal1
      journal2 flags1 (r.handled :: flags2) k1 hone
    rw [← hsplit, h1] at hall
    simp only [Option.some.injEq, Prod.mk.injEq] at hall
    refine ⟨journal1, flags1, r, k1, k4, hr, ?_, ?_⟩
    · rw [hall.2, ← k2]
      simp only [List.get?_eq_getElem?, List.getElem?_append_right (le_refl _), Nat.sub_self,
        List.getElem?_cons_zero]
    · intro hle
      rw [try_read_pixel_served c ds journal1 x y format hle, hr]
      rfl

/-- C8 (amended: the counter counts handled reads).  On a well-formed journal a
call of the fast read returns, and `fast_read_pixel_count` afterwards is the
count before plus one if the call returned handled, and the count before if it
returned not-handled. -/
theorem counter_counts_handled_reads [DecidableEq P] (c : Collaborators P R)
    (ds : DrawState) (journal : CoglJournal P R) (x y : ℤ) (format : CoglPixelFormat)
    (hwf : journal_wf journal) :
    ∃ r, _cogl_journal_try_read_pixel c ds journal x y format = some r ∧
      r.journal.fast_read_pixel_count =
        journal.fast_read_pixel_count + (if r.handled = true then 1 else 0) := by
  obtain ⟨r, hr⟩ := try_read_pixel_defined c ds journal x y format hwf
  exact ⟨r, hr, (try_read_pixel_counter c ds journal x y format r hr).2.1⟩

/-! ## Software clipping -/

theorem CLAMP_inside (x low high : ℚ) (h1 : low ≤ x) (h2 : x ≤ high) : CLAMP x low high = x := by
  unfold CLAMP
  rw [if_neg (not_lt.2 h2), if_neg (not_lt.2 h1)]

theorem set_getD_self {α : Type} (d : α) : ∀ (l : List α) (n : ℕ), l.set n (l.getD n d) = l
  | [], _ => rfl
  | x :: l, 0 => rfl
  | x :: l, n + 1 => by
    simp only [List.getD_cons_succ, List.set_cons_succ, set_getD_self d l n]

theorem clip_tex_coords_layer_unit (tex_coords : List ℚ) (layer_num : ℕ) :
    clip_tex_coords_layer 0 0 1 1 tex_coords layer_num = tex_coords := by
  unfold clip_tex_coords_layer
  simp only [zero_mul, zero_add, one_mul, sub_add_cancel]
  rw [set_getD_self, set_getD_self, set_getD_self, set_getD_self]

theorem clip_tex_coords_unit (tex_coords : List ℚ) (n : ℕ) :
    (List.range n).foldl (clip_tex_coords_layer 0 0 1 1) tex_coords = tex_coords := by
  induction n with
  | zero => rfl
  | succ n ih => rw [List.range_succ, List.foldl_append, ih]; exact clip_tex_coords_layer_unit _ _

theorem clamp_eq_iff_le (a b low high : ℚ) (hab : a ≤ b) (h : low ≤ high) :
    CLAMP a low high = CLAMP b low high ↔ min b high - max a low ≤ 0 := by
  unfold CLAMP
  by_cases h1 : a > high <;> by_cases h2 : b > high <;> by_cases h3 : a < low <;>
    by_cases h4 : b < low <;> simp only [h1, h2, h3, h4, if_true, if_false] <;>
    simp only [gt_iff_lt, not_lt] at h1 h2 h3 h4 <;>
    constructor <;> intro hh <;>
    simp only [min_def, max_def] at * <;> split_ifs at * <;> linarith

/-- The clamped corners of `software_clip_entry` (`rx1`, `rx2` or `ry1`, `ry2`
after `CLAMP`) are equal exactly when the overlap is not positive, for a bound
with `low <= high`. -/
theorem clamp_eq_iff (v1 v2 low high : ℚ) (h : low ≤ high) :
    CLAMP (if v1 < v2 then v1 else v2) low high = CLAMP (if v1 < v2 then v2 else v1) low high ↔
      min (max v1 v2) high - max (min v1 v2) low ≤ 0 := by
  by_cases h12 : v1 < v2
  · rw [if_pos h12, if_pos h12, max_eq_right h12.le, min_eq_left h12.le]
    exact clamp_eq_iff_le v1 v2 low high h12.le h
  · rw [if_neg h12, if_neg h12, max_eq_left (not_lt.1 h12), min_eq_right (not_lt.1 h12)]
    exact clamp_eq_iff_le v2 v1 low high (not_lt.1 h12) h

theorem software_clip_contained (c : Collaborators P R) (ds : DrawState)
    (entry : CoglJournalEntry) (bounds : ClipBounds) (hin : bound_contains bounds entry)
    (hmode : ds.disable_software_transform = false ∨
      (entry.position.f0 ≠ entry.position.f2 ∧ entry.position.f1 ≠ entry.position.f3)) :
    (software_clip_entry c ds entry bounds).position = entry.position ∧
      (software_clip_entry c ds entry bounds).tex_coords = entry.tex_coords := by
  obtain ⟨⟨a1, a2⟩, ⟨b1, b2⟩, ⟨c1, c2⟩, ⟨d1, d2⟩⟩ := hin
  have hx1 : CLAMP (if entry.position.f0 < entry.position.f2 then entry.position.f0
      else entry.position.f2) bounds.x_1 bounds.x_2 =
      (if entry.position.f0 < entry.position.f2 then entry.position.f0
        else entry.position.f2) := by
    split_ifs <;> apply CLAMP_inside <;> assumption
  have hx2 : CLAMP (if entry.position.f0 < entry.position.f2 then entry.position.f2
      else entry.position.f0) bounds.x_1 bounds.x_2 =
      (if entry.position.f0 < entry.position.f2 then entry.position.f2
        else entry.position.f0) := by
    split_ifs <;> apply CLAMP_inside <;> assumption
  have hy1 : CLAMP (if entry.position.f1 < entry.position.f3 then entry.position.f1
      else entry.position.f3) bounds.y_1 bounds.y_2 =
      (if entry.position.f1 < entry.position.f3 then entry.position.f1
        else entry.position.f3) := by
    split_ifs <;> apply CLAMP_inside <;> assumption
  have hy2 : CLAMP (if entry.position.f1 < entry.position.f3 then entry.position.f3
      else entry.position.f1) bounds.y_1 bounds.y_2 =
      (if entry.position.f1 < entry.position.f3 then entry.position.f3
        else entry.position.f1) := by
    split_ifs <;> apply CLAMP_inside <;> assumption
  unfold software_clip_entry
  simp only [hx1, hx2, hy1, hy2]
  by_cases hdeg : (if entry.position.f0 < entry.position.f2 then entry.position.f0
        else entry.position.f2) =
      (if entry.position.f0 < entry.position.f2 then entry.position.f2
        else entry.position.f0) ∨
      (if entry.position.f1 < entry.position.f3 then entry.position.f1
        else entry.position.f3) =
      (if entry.position.f1 < entry.position.f3 then entry.position.f3
        else entry.position.f1)
  · rw [if_pos hdeg]
    rcases hmode with hm | ⟨hx, hy⟩
    · simp only [hm, Bool.false_eq_true, if_false, and_self]
    · exfalso
      rcases hdeg with h | h
      · split_ifs at h
        · exact hx h
        · exact hx h.symm
      · split_ifs at h
        · exact hy h
        · exact hy h.symm
  · rw [if_neg hdeg]
    have hx : entry.position.f0 ≠ entry.position.f2 := by
      intro h; apply hdeg; left; simp [h]
    have hy : entry.position.f1 ≠ entry.position.f3 := by
      intro h; apply hdeg; right; simp [h]
    have hsx1 : (if entry.position.f0 > entry.position.f2 then
        (if entry.position.f0 < entry.position.f2 then entry.position.f2
          else entry.position.f0)
        else (if entry.position.f0 < entry.position.f2 then entry.position.f0
          else entry.position.f2)) = entry.position.f0 := by
      rcases lt_or_gt_of_ne hx with h | h
      · rw [if_neg (not_lt.2 h.le), if_pos h]
      · rw [if_pos h, if_neg (not_lt.2 h.le)]
    have hsx2 : (if entry.position.f0 > entry.position.f2 then
        (if entry.position.f0 < entry.position.f2 then entry.position.f0
          else entry.position.f2)
        else (if entry.position.f0 < entry.position.f2 then entry.position.f2
          else entry.position.f0)) = entry.position.f2 := by
      rcases lt_or_gt_of_ne hx with h | h
      · rw [if_neg (not_lt.2 h.le), if_pos h]
      · rw [if_pos h, if_neg (not_lt.2 h.le)]
    have hsy1 : (if entry.position.f1 > entry.position.f3 then
        (if entry.position.f1 < entry.position.f3 then entry.position.f3
          else entry.position.f1)
        else (if entry.position.f1 < entry.position.f3 then entry.position.f1
          else entry.position.f3)) = entry.position.f1 := by
      rcases lt_or_gt_of_ne hy with h | h
      · rw [if_neg (not_lt.2 h.le), if_pos h]
      · rw [if_pos h, if_neg (not_lt.2 h.le)]
    have hsy2 : (if entry.position.f1 > entry.position.f3 then
        (if entry.position.f1 < entry.position.f3 then entry.position.f1
          else entry.position.f3)
        else (if entry.position.f1 < entry.position.f3 then entry.position.f3
          else entry.position.f1)) = entry.position.f3 := by
      rcases lt_or_gt_of_ne hy with h | h
      · rw [if_neg (not_lt.2 h.le), if_pos h]
      · rw [if_pos h, if_neg (not_lt.2 h.le)]
    have hdx : entry.position.f2 - entry.position.f0 ≠ 0 := sub_ne_zero.2 (Ne.symm hx)
    have hdy : entry.position.f3 - entry.position.f1 ≠ 0 := sub_ne_zero.2 (Ne.symm hy)
    simp only [hsx1, hsx2, hsy1, hsy2, sub_self, zero_div, div_self hdx, div_self hdy,
      clip_tex_coords_unit]
    split_ifs <;> exact ⟨rfl, rfl⟩

/-- The entry after a software clip that eliminates it: the clip stack is
cleared and `transformed_verts` (or `position`, without software transform) is
zeroed. -/
theorem software_clip_eliminated (c : Collaborators P R) (ds : DrawState)
    (entry : CoglJournalEntry) (bounds : ClipBounds)
    (hx : bounds.x_1 ≤ bounds.x_2) (hy : bounds.y_1 ≤ bounds.y_2)
    (h : overlap_width entry bounds ≤ 0 ∨ overlap_height entry bounds ≤ 0) :
    software_clip_entry c ds entry bounds =
      if ds.disable_software_transform then
        { entry with clip_stack := [], position := { f0 := 0, f1 := 0, f2 := 0, f3 := 0 } }
      else
        { entry with
          clip_stack := []
          transformed_verts :=
            { v0 := { x := 0, y := 0, z := 0 }, v1 := { x := 0, y := 0, z := 0 },
              v2 := { x := 0, y := 0, z := 0 }, v3 := { x := 0, y := 0, z := 0 } } } := by
  unfold overlap_width overlap_height at h
  rw [← clamp_eq_iff _ _ _ _ hx, ← clamp_eq_iff _ _ _ _ hy] at h
  unfold software_clip_entry
  simp only [h, if_true]

/-- In the default mode a software clip that does not eliminate the entry ends
with `_cogl_journal_calculate_transformed_vertices`. -/
theorem software_clip_kept_in_sync (c : Collaborators P R) (ds : DrawState)
    (entry : CoglJournalEntry) (bounds : ClipBounds)
    (hmode : ds.disable_software_transform = false)
    (hw : 0 < overlap_width entry bounds) (hh : 0 < overlap_height entry bounds) :
    entry_in_sync c (software_clip_entry c ds entry bounds) := by
  have hx : bounds.x_1 ≤ bounds.x_2 := by
    unfold overlap_width at hw
    have h1 := min_le_right (max entry.position.f0 entry.position.f2) bounds.x_2
    have h2 := le_max_right (min entry.position.f0 entry.position.f2) bounds.x_1
    linarith
  have hy : bounds.y_1 ≤ bounds.y_2 := by
    unfold overlap_height at hh
    have h1 := min_le_right (max entry.position.f1 entry.position.f3) bounds.y_2
    have h2 := le_max_right (min entry.position.f1 entry.position.f3) bounds.y_1
    linarith
  have h : ¬ (CLAMP (if entry.position.f0 < entry.position.f2 then entry.position.f0
        else entry.position.f2) bounds.x_1 bounds.x_2 =
      CLAMP (if entry.position.f0 < entry.position.f2 then entry.position.f2
        else entry.position.f0) bounds.x_1 bounds.x_2 ∨
      CLAMP (if entry.position.f1 < entry.position.f3 then entry.position.f1
        else entry.position.f3) bounds.y_1 bounds.y_2 =
      CLAMP (if entry.position.f1 < entry.position.f3 then entry.position.f3
        else entry.position.f1) bounds.y_1 bounds.y_2) := by
    rw [clamp_eq_iff _ _ _ _ hx, clamp_eq_iff _ _ _ _ hy]
    unfold overlap_width at hw
    unfold overlap_height at hh
    intro h
    rcases h with h | h <;> linarith
  unfold software_clip_entry
  simp only [h, if_false, hmode, Bool.false_eq_true]
  rfl

theorem log_quad_entry_in_sync (c : Collaborators P R) (ds : DrawState) (position : Float4)
    (pipeline : P) (n_layers : ℤ) (tex_coords : List ℚ) :
    entry_in_sync c (log_quad_entry c ds position pipeline n_layers tex_coords) := rfl

theorem MAX_eq_max (a b : ℚ) : MAX a b = max a b := by
  unfold MAX
  by_cases h : a > b
  · rw [if_pos h, max_eq_left h.le]
  · rw [if_neg h, max_eq_right (not_lt.1 h)]

theorem MIN_eq_min (a b : ℚ) : MIN a b = min a b := by
  unfold MIN
  by_cases h : a < b
  · rw [if_pos h, min_eq_left h.le]
  · rw [if_neg h, min_eq_right (not_lt.1 h)]

theorem le_MAX_of_le (a b x : ℚ) (h : x ≤ a) : x ≤ MAX a b := by
  rw [MAX_eq_max]; exact le_trans h (le_max_left _ _)

theorem MIN_le_of_le (a b x : ℚ) (h : a ≤ x) : MIN a b ≤ x := by
  rw [MIN_eq_min]; exact le_trans (min_le_left _ _) h

theorem ite_lt_eq_min (a b : ℚ) : (if a < b then a else b) = min a b := by
  by_cases h : a < b
  · rw [if_pos h, min_eq_left h.le]
  · rw [if_neg h, min_eq_right (not_lt.1 h)]

theorem ite_lt_eq_max (a b : ℚ) : (if a < b then b else a) = max a b := by
  by_cases h : a < b
  · rw [if_pos h, max_eq_right h.le]
  · rw [if_neg h, max_eq_left (not_lt.1 h)]

theorem translated_intersection_ge (l : List (CoglClipStackNode × ℚ × ℚ)) :
    -G_MAXFLOAT ≤ (translated_intersection l).x_1 ∧
      -G_MAXFLOAT ≤ (translated_intersection l).y_1 ∧
      (translated_intersection l).x_2 ≤ G_MAXFLOAT ∧
      (translated_intersection l).y_2 ≤ G_MAXFLOAT := by
  induction l with
  | nil => exact ⟨le_refl _, le_refl _, le_refl _, le_refl _⟩
  | cons x l ih =>
    obtain ⟨rect, tx, ty⟩ := x
    obtain ⟨h1, h2, h3, h4⟩ := ih
    refine ⟨?_, ?_, ?_, ?_⟩
    · exact le_trans h1 (le_max_right _ _)
    · exact le_trans h2 (le_max_right _ _)
    · exact le_trans (min_le_right _ _) h3
    · exact le_trans (min_le_right _ _) h4

/-- The loop of `can_software_clip_entry` from a starting bound inside the
unbounded box: the result is the starting bound met with the intersection of
the translated rectangles. -/
theorem clip_chain_bounds_eq (entry : CoglJournalEntry) :
    ∀ (chain : CoglClipStack) (b0 b : ClipBounds),
      clip_chain_bounds entry chain b0 = some b →
      -G_MAXFLOAT ≤ b0.x_1 → -G_MAXFLOAT ≤ b0.y_1 → b0.x_2 ≤ G_MAXFLOAT → b0.y_2 ≤ G_MAXFLOAT →
      ∃ ts : List (ℚ × ℚ),
        List.Forall₂ (fun (node : CoglClipStackNode) (t : ℚ × ℚ) =>
          calculate_translation node.matrix entry.model_view = some t) chain ts ∧
        b = { x_1 := max b0.x_1 (translated_intersection (chain.zip ts)).x_1
              y_1 := max b0.y_1 (translated_intersection (chain.zip ts)).y_1
              x_2 := min b0.x_2 (translated_intersection (chain.zip ts)).x_2
              y_2 := min b0.y_2 (translated_intersection (chain.zip ts)).y_2 } := by
  intro chain
  induction chain with
  | nil =>
    intro b0 b h h1 h2 h3 h4
    simp only [clip_chain_bounds, Option.some.injEq] at h
    refine ⟨[], List.Forall₂.nil, ?_⟩
    subst h
    simp only [List.zip_nil_right, translated_intersection, unbounded_box, max_eq_left h1,
      max_eq_left h2, min_eq_left h3, min_eq_left h4]
  | cons node parent ih =>
    intro b0 b h h1 h2 h3 h4
    rw [clip_chain_bounds] at h
    cases hc : calculate_translation node.matrix entry.model_view with
    | none => simp [hc] at h
    | some t =>
      obtain ⟨tx, ty⟩ := t
      simp only [hc] at h
      obtain ⟨ts, hts, hb⟩ := ih _ _ h (by dsimp only; exact le_MAX_of_le _ _ _ h1)
        (by dsimp only; exact le_MAX_of_le _ _ _ h2)
        (by dsimp only; exact MIN_le_of_le _ _ _ h3)
        (by dsimp only; exact MIN_le_of_le _ _ _ h4)
      refine ⟨(tx, ty) :: ts, List.Forall₂.cons hc hts, ?_⟩
      rw [hb]
      simp only [List.zip_cons_cons, translated_intersection, MAX_eq_max, MIN_eq_min,
        ite_lt_eq_min, ite_lt_eq_max, max_assoc, min_assoc]
      rfl

theorem can_software_clip_entry_some [DecidableEq P] (c : Collaborators P R)
    (entry_pipeline : P) (journal_entry : CoglJournalEntry) (prev_pipeline : Option P)
    (clip_stack : CoglClipStack) (bounds : ClipBounds)
    (h : can_software_clip_entry c entry_pipeline journal_entry prev_pipeline clip_stack
      = some bounds) :
    ∃ b, clip_chain_bounds journal_entry clip_stack unbounded_box = some b ∧
      bounds = if b.x_2 ≤ b.x_1 ∨ b.y_2 ≤ b.y_1 then { x_1 := 0, y_1 := 0, x_2 := 0, y_2 := 0 }
        else b := by
  unfold can_software_clip_entry at h
  simp only at h
  cases hc : clip_chain_bounds journal_entry clip_stack unbounded_box with
  | none =>
    rw [unbounded_box] at hc
    simp only [hc, ite_self] at h
    exact absurd h (by simp)
  | some b =>
    refine ⟨b, rfl, ?_⟩
    rw [unbounded_box] at hc
    simp only [hc] at h
    split_ifs at h with h1 h2 h3 h4 h5
    · rw [if_pos h3]; exact (Option.some.inj h).symm
    · rw [if_neg h3]; exact (Option.some.inj h).symm
    · rw [if_pos ‹_›]; exact (Option.some.inj h).symm
    · rw [if_neg ‹_›]; exact (Option.some.inj h).symm

theorem can_software_clip_entry_bound [DecidableEq P] (c : Collaborators P R)
    (entry_pipeline : P) (journal_entry : CoglJournalEntry) (prev_pipeline : Option P)
    (clip_stack : CoglClipStack) (bounds : ClipBounds)
    (h : can_software_clip_entry c entry_pipeline journal_entry prev_pipeline clip_stack
      = some bounds) :
    ∃ ts : List (ℚ × ℚ),
      List.Forall₂ (fun (node : CoglClipStackNode) (t : ℚ × ℚ) =>
        calculate_translation node.matrix journal_entry.model_view = some t) clip_stack ts ∧
      bounds = (if bound_positive (translated_intersection (clip_stack.zip ts)) then
          translated_intersection (clip_stack.zip ts)
        else { x_1 := 0, y_1 := 0, x_2 := 0, y_2 := 0 }) ∧
      bounds.x_1 ≤ bounds.x_2 ∧ bounds.y_1 ≤ bounds.y_2 ∧
      (clip_stack = [] → bounds = unbounded_box) := by
  have hG : -G_MAXFLOAT < G_MAXFLOAT := by unfold G_MAXFLOAT; norm_num
  obtain ⟨b, hc, hbounds⟩ := can_software_clip_entry_some c entry_pipeline journal_entry
    prev_pipeline clip_stack bounds h
  obtain ⟨ts, hts, hb⟩ := clip_chain_bounds_eq journal_entry clip_stack _ b hc
    (le_refl _) (le_refl _) (le_refl _) (le_refl _)
  clear h
  have h := hbounds.symm
  obtain ⟨g1, g2, g3, g4⟩ := translated_intersection_ge (clip_stack.zip ts)
  · 
      have hb' : b = translated_intersection (clip_stack.zip ts) := by
        rw [hb]
        have e1 : unbounded_box.x_1 = -G_MAXFLOAT := rfl
        have e2 : unbounded_box.y_1 = -G_MAXFLOAT := rfl
        have e3 : unbounded_box.x_2 = G_MAXFLOAT := rfl
        have e4 : unbounded_box.y_2 = G_MAXFLOAT := rfl
        rw [e1, e2, e3, e4, max_eq_right g1, max_eq_right g2, min_eq_right g3, min_eq_right g4]
      rw [hb'] at h
      refine ⟨ts, hts, ?_⟩
      by_cases hp : bound_positive (translated_intersection (clip_stack.zip ts))
      · have hn : ¬ ((translated_intersection (clip_stack.zip ts)).x_2 ≤
            (translated_intersection (clip_stack.zip ts)).x_1 ∨
            (translated_intersection (clip_stack.zip ts)).y_2 ≤
            (translated_intersection (clip_stack.zip ts)).y_1) := by
          intro hh
          rcases hh with hh | hh
          · exact absurd hp.1 (not_lt.2 hh)
          · exact absurd hp.2 (not_lt.2 hh)
        rw [if_neg hn] at h
        rw [if_pos hp, ← h]
        refine ⟨rfl, hp.1.le, hp.2.le, ?_⟩
        intro hnil
        rw [hnil]; rfl
      · have hn : ((translated_intersection (clip_stack.zip ts)).x_2 ≤
            (translated_intersection (clip_stack.zip ts)).x_1 ∨
            (translated_intersection (clip_stack.zip ts)).y_2 ≤
            (translated_intersection (clip_stack.zip ts)).y_1) := by
          unfold bound_positive at hp
          by_cases hx : (translated_intersection (clip_stack.zip ts)).x_1 <
              (translated_intersection (clip_stack.zip ts)).x_2
          · right
            exact not_lt.1 (fun hy => hp ⟨hx, hy⟩)
          · left
            exact not_lt.1 hx
        rw [if_pos hn] at h
        rw [if_neg hp, ← h]
        refine ⟨rfl, le_refl _, le_refl _, ?_⟩
        intro hnil
        exfalso
        apply hp
        rw [hnil]
        exact ⟨hG, hG⟩

/-- C13 (amended: software clip no-op).  For every entry (either corner
orientation, any number of layers) and every clip bound that contains the
entry's quad, `software_clip_entry` leaves the entry's position and all of its
texture coordinates unchanged, provided software transform is enabled or the
quad has non-zero width and height. -/
theorem software_clip_noop_in_containing_bound (c : Collaborators P R) (ds : DrawState)
    (entry : CoglJournalEntry) (bounds : ClipBounds) (hin : bound_contains bounds entry)
    (hmode : ds.disable_software_transform = false ∨
      (entry.position.f0 ≠ entry.position.f2 ∧ entry.position.f1 ≠ entry.position.f3)) :
    (software_clip_entry c ds entry bounds).position = entry.position ∧
      (software_clip_entry c ds entry bounds).tex_coords = entry.tex_coords :=
  software_clip_contained c ds entry bounds hin hmode

/-- C15 (amended: entry consistency).  After Log the entry's transformed
vertices are the transform snapshot applied to the four corners (x0,y0),
(x0,y2), (x2,y2), (x2,y0) of its position, and so they are after every software
clip, with software transform enabled, whose bound overlaps the quad with
positive width and height. -/
theorem entry_in_sync_after_log_and_overlapping_clip (c : Collaborators P R) (ds : DrawState)
    (position : Float4) (pipeline : P) (n_layers : ℤ) (tex_coords : List ℚ)
    (entry : CoglJournalEntry) (bounds : ClipBounds)
    (hmode : ds.disable_software_transform = false)
    (hw : 0 < overlap_width entry bounds) (hh : 0 < overlap_height entry bounds) :
    entry_in_sync c (log_quad_entry c ds position pipeline n_layers tex_coords) ∧
      entry_in_sync c (software_clip_entry c ds entry bounds) :=
  ⟨log_quad_entry_in_sync c ds position pipeline n_layers tex_coords,
    software_clip_kept_in_sync c ds entry bounds hmode hw hh⟩

/-- C17 (clip bound is the intersection of the translated rectangles).  When
`can_software_clip_entry` succeeds, every clip of the chain has a translation
`(tx, ty)` to the entry's modelview, and the bound returned is the intersection
of the rectangles moved back by their translations (`x_1` the largest
`min (x0, x1) - tx`, `x_2` the smallest `max (x0, x1) - tx`, likewise for y,
inside the unbounded box) if that has positive width and height, and the
all-zero bound otherwise; so `x_1 <= x_2` and `y_1 <= y_2`, and an empty chain
gives the unbounded box. -/
theorem clip_bound_is_translated_intersection [DecidableEq P] (c : Collaborators P R)
    (entry_pipeline : P) (journal_entry : CoglJournalEntry) (prev_pipeline : Option P)
    (clip_stack : CoglClipStack) (bounds : ClipBounds)
    (h : can_software_clip_entry c entry_pipeline journal_entry prev_pipeline clip_stack
      = some bounds) :
    ∃ ts : List (ℚ × ℚ),
      List.Forall₂ (fun (node : CoglClipStackNode) (t : ℚ × ℚ) =>
        calculate_translation node.matrix journal_entry.model_view = some t) clip_stack ts ∧
      bounds = (if bound_positive (translated_intersection (clip_stack.zip ts)) then
          translated_intersection (clip_stack.zip ts)
        else { x_1 := 0, y_1 := 0, x_2 := 0, y_2 := 0 }) ∧
      bounds.x_1 ≤ bounds.x_2 ∧ bounds.y_1 ≤ bounds.y_2 ∧
      (clip_stack = [] → bounds = unbounded_box) :=
  can_software_clip_entry_bound c entry_pipeline journal_entry prev_pipeline clip_stack bounds h

/-! ## The fast pixel read: clipped entries -/

theorem chain_has_cons (node : CoglClipStackNode) (parent : CoglClipStack)
    (type : CoglClipStackType) :
    chain_has (node :: parent) type ↔ node.type = type ∨ chain_has parent type := by
  simp [chain_has]

/-- The clip-chain loop on a point inside every bound: it stops at a node that is
neither a rectangle nor a window rectangle; otherwise a window rectangle clears
`can_software_clip` and a rectangle sets `needs_software_clip` when the scissor
flag read through the entry is false. -/
theorem clip_scan_inside (c : Collaborators P R) (entry : CoglJournalEntry) (x y : ℚ) :
    ∀ (chain : CoglClipStack) (can needs : Bool), inside_all_bounds chain x y →
      clip_scan c entry x y chain can needs =
        if chain_has chain CoglClipStackType.COGL_CLIP_STACK_PATH then ClipScan.unknown
        else ClipScan.inside
          (can && !decide (chain_has chain CoglClipStackType.COGL_CLIP_STACK_WINDOW_RECT))
          (needs || (decide (chain_has chain CoglClipStackType.COGL_CLIP_STACK_RECT) &&
            !c.rect_can_be_scissor_of_entry entry)) := by
  intro chain
  induction chain with
  | nil =>
    intro can needs _
    simp [clip_scan, chain_has]
  | cons node parent ih =>
    intro can needs hin
    have hnode := hin node (List.mem_cons_self _ _)
    have hparent : inside_all_bounds parent x y :=
      fun n hn => hin n (List.mem_cons_of_mem _ hn)
    have hout : ¬ (x < node.bounds_x0 ∨ x ≥ node.bounds_x1 ∨
        y < node.bounds_y0 ∨ y ≥ node.bounds_y1) := by
      obtain ⟨h1, h2, h3, h4⟩ := hnode
      intro h
      rcases h with h | h | h | h
      · exact absurd h (not_lt.2 h1)
      · exact absurd h2 (not_lt.2 h)
      · exact absurd h (not_lt.2 h3)
      · exact absurd h4 (not_lt.2 h)
    rw [clip_scan, if_neg hout]
    simp only [chain_has_cons]
    cases ht : node.type with
    | COGL_CLIP_STACK_WINDOW_RECT =>
      simp only [if_true, ih false needs hparent]
      by_cases hp : chain_has parent CoglClipStackType.COGL_CLIP_STACK_PATH
      · simp [hp]
      · simp [hp]
    | COGL_CLIP_STACK_RECT =>
      by_cases hf : c.rect_can_be_scissor_of_entry entry = false
      · simp only [reduceCtorEq, if_false, if_true, hf, ih can true hparent]
        by_cases hp : chain_has parent CoglClipStackType.COGL_CLIP_STACK_PATH
        · simp [hp]
        · simp [hp]
      · simp only [reduceCtorEq, if_false, if_true, hf, ih can needs hparent]
        have hf' : c.rect_can_be_scissor_of_entry entry = true := by simpa using hf
        by_cases hp : chain_has parent CoglClipStackType.COGL_CLIP_STACK_PATH
        · simp [hp]
        · simp [hp, hf']
    | COGL_CLIP_STACK_PATH =>
      simp

/-- The clip test on a point inside every bound of a chain that holds a window
rectangle: it gives up when the chain also holds a node that is neither a
rectangle nor a window rectangle, or a rectangle while the scissor flag read
through the entry is false; otherwise it reports a hit and leaves the entry as
it is. -/
theorem try_checking_window_chain [DecidableEq P] (c : Collaborators P R) (ds : DrawState)
    (pipeline : P) (entry : CoglJournalEntry) (x y : ℚ)
    (hin : inside_all_bounds entry.clip_stack x y)
    (hwin : chain_has entry.clip_stack CoglClipStackType.COGL_CLIP_STACK_WINDOW_RECT) :
    try_checking_point_hits_entry_after_clipping c ds pipeline entry x y =
      if chain_has entry.clip_stack CoglClipStackType.COGL_CLIP_STACK_PATH ∨
          (chain_has entry.clip_stack CoglClipStackType.COGL_CLIP_STACK_RECT ∧
            c.rect_can_be_scissor_of_entry entry = false) then none
      else some (true, entry) := by
  unfold try_checking_point_hits_entry_after_clipping
  rw [clip_scan_inside c entry x y entry.clip_stack true false hin]
  by_cases hp : chain_has entry.clip_stack CoglClipStackType.COGL_CLIP_STACK_PATH
  · simp [hp]
  · by_cases hr : chain_has entry.clip_stack CoglClipStackType.COGL_CLIP_STACK_RECT
    · by_cases hf : c.rect_can_be_scissor_of_entry entry = false
      · simp [hp, hr, hf, hwin]
      · have hf' : c.rect_can_be_scissor_of_entry entry = true := by simpa using hf
        simp [hp, hr, hf', hwin]
    · simp [hp, hr, hwin]

/-- C11 (amended: a window clip alone does not abort the fast path).  On a
well-formed journal, let `entry` be the last entry in draw order whose polygon
contains (x, y), let its clip chain hold a window-rectangle clip and let the
point lie inside the bounds of every clip of the chain.  Then the read returns
not-handled if and only if the counter is above 50, or the format is not
supported, or the chain also holds a node that is neither a rectangle nor a
window rectangle, or it holds a rectangle while the scissor flag read through
the entry is false, or the pipeline is not the flat opaque-colour pipeline, or
alpha is not `0xff`; in every other case it returns handled, found, with the
colour of `entry`. -/
theorem window_clip_aborts_only_with_unresolved_clip [DecidableEq P] (c : Collaborators P R)
    (ds : DrawState) (journal : CoglJournal P R) (x y : ℤ) (format : CoglPixelFormat)
    (pre post : List (P × CoglJournalEntry)) (pipeline : P) (entry : CoglJournalEntry)
    (hwf : journal_wf journal)
    (hsplit : all_pairs journal = pre ++ (pipeline, entry) :: post)
    (hcontains : entry_contains c ds entry x y = true)
    (hlater : ∀ pe ∈ post, entry_contains c ds pe.2 x y = false)
    (hwin : chain_has entry.clip_stack CoglClipStackType.COGL_CLIP_STACK_WINDOW_RECT)
    (hin : inside_all_bounds entry.clip_stack x y) :
    ∃ r, _cogl_journal_try_read_pixel c ds journal x y format = some r ∧
      (r.handled = false ↔
        (journal.fast_read_pixel_count > 50 ∨
          ¬ (format = CoglPixelFormat.COGL_PIXEL_FORMAT_RGBA_8888_PRE ∨
            format = CoglPixelFormat.COGL_PIXEL_FORMAT_RGBA_8888) ∨
          chain_has entry.clip_stack CoglClipStackType.COGL_CLIP_STACK_PATH ∨
          (chain_has entry.clip_stack CoglClipStackType.COGL_CLIP_STACK_RECT ∧
            c.rect_can_be_scissor_of_entry entry = false) ∨
          c._cogl_pipeline_equal c.opaque_color_pipeline pipeline = false ∨
          entry.color.a ≠ 0xff)) ∧
      (r.handled = true → r.found_intersection = some true ∧ r.pixel = some entry.color) := by
  by_cases hgate : journal.fast_read_pixel_count > 50 ∨
      ¬ (format = CoglPixelFormat.COGL_PIXEL_FORMAT_RGBA_8888_PRE ∨
        format = CoglPixelFormat.COGL_PIXEL_FORMAT_RGBA_8888)
  · refine ⟨_, try_read_pixel_refused c ds journal x y format hgate, ?_, ?_⟩
    · constructor
      · intro _
        rcases hgate with h | h
        · exact Or.inl h
        · exact Or.inr (Or.inl h)
      · intro _; rfl
    · intro h; exact absurd h (by simp)
  have hcount : journal.fast_read_pixel_count ≤ 50 := by
    by_contra hc
    exact hgate (Or.inl (by omega))
  have hformat : format = CoglPixelFormat.COGL_PIXEL_FORMAT_RGBA_8888_PRE ∨
      format = CoglPixelFormat.COGL_PIXEL_FORMAT_RGBA_8888 := by
    by_contra hf
    exact hgate (Or.inr hf)
  obtain ⟨r, hr, hout⟩ := try_read_pixel_scan c ds journal x y format hwf hcount hformat
  refine ⟨r, hr, ?_⟩
  have hrev : (pre ++ (pipeline, entry) :: post).reverse =
      post.reverse ++ ((pipeline, entry) :: pre.reverse) := by simp
  have hclip : entry.clip_stack ≠ [] := by
    intro hnil
    obtain ⟨n, hn, _⟩ := hwin
    rw [hnil] at hn
    simp at hn
  rw [hsplit, hrev, reference_scan_skip c ds x y _ _ (by simpa using hlater)] at hout
  simp only [reference_scan, hcontains, Bool.true_eq_false, if_false, hclip,
    try_checking_window_chain c ds pipeline entry x y hin hwin] at hout
  by_cases hbad : chain_has entry.clip_stack CoglClipStackType.COGL_CLIP_STACK_PATH ∨
      (chain_has entry.clip_stack CoglClipStackType.COGL_CLIP_STACK_RECT ∧
        c.rect_can_be_scissor_of_entry entry = false)
  · rw [if_pos hbad] at hout
    obtain ⟨h1, _, _⟩ := read_outcome_fields r _ _ _ hout
    refine ⟨⟨fun _ => Or.inr (Or.inr ?_), fun _ => h1⟩, fun h => ?_⟩
    · rcases hbad with h | h
      · exact Or.inl h
      · exact Or.inr (Or.inl h)
    · rw [h1] at h; exact absurd h (by simp)
  · rw [if_neg hbad] at hout
    simp only at hout
    by_cases hflat : c._cogl_pipeline_equal c.opaque_color_pipeline pipeline = true ∧
        entry.color.a = 0xff
    · rw [hit_outcome, if_pos hflat] at hout
      obtain ⟨h1, h2, h3⟩ := read_outcome_fields r _ _ _ hout
      refine ⟨⟨fun h => ?_, fun h => ?_⟩, fun _ => ⟨h2, h3⟩⟩
      · rw [h1] at h; exact absurd h (by simp)
      · exfalso
        rcases h with h | h | h | h | h | h
        · exact hgate (Or.inl h)
        · exact hgate (Or.inr h)
        · exact hbad (Or.inl h)
        · exact hbad (Or.inr h)
        · rw [hflat.1] at h; exact absurd h (by simp)
        · exact h hflat.2
    · rw [hit_outcome, if_neg hflat] at hout
      obtain ⟨h1, _, _⟩ := read_outcome_fields r _ _ _ hout
      refine ⟨⟨fun _ => ?_, fun _ => h1⟩, fun h => ?_⟩
      · by_cases hp : c._cogl_pipeline_equal c.opaque_color_pipeline pipeline = true
        · right; right; right; right; right
          intro ha
          exact hflat ⟨hp, ha⟩
        · right; right; right; right; left
          simpa using hp
      · rw [h1] at h; exact absurd h (by simp)

/-! ## Iteration order -/

theorem iterator_next_inside (journal : CoglJournal P R) (b k : ℕ)
    (batch : CoglJournalBatch P R) (hb : journal.batches.get? b = some batch)
    (hk : k + 1 < batch.entries.length) :
    _cogl_journal_iterator_next journal { entry := some k, batch_num := (b : ℤ) } =
      some { entry := some (k + 1), batch_num := (b : ℤ) } := by
  have hlt : k < batch.entries.length := by omega
  have he : iter_entry journal { entry := some k, batch_num := (b : ℤ) } =
      some (batch.entries.get ⟨k, hlt⟩) := by
    rw [iter_entry_nat journal b k batch hb]; exact List.get?_eq_get hlt
  simp only [_cogl_journal_iterator_next, he, batch_entries_at_nat journal b batch hb,
    COGL_TAILQ_NEXT, hk, if_true]

theorem iterator_next_boundary (journal : CoglJournal P R) (b k : ℕ)
    (batch batch' : CoglJournalBatch P R) (hb : journal.batches.get? b = some batch)
    (hk : k + 1 = batch.entries.length) (hb' : journal.batches.get? (b + 1) = some batch')
    (hne : batch'.entries ≠ []) :
    _cogl_journal_iterator_next journal { entry := some k, batch_num := (b : ℤ) } =
      some { entry := some 0, batch_num := ((b + 1 : ℕ) : ℤ) } := by
  have hlt : k < batch.entries.length := by omega
  have he : iter_entry journal { entry := some k, batch_num := (b : ℤ) } =
      some (batch.entries.get ⟨k, hlt⟩) := by
    rw [iter_entry_nat journal b k batch hb]; exact List.get?_eq_get hlt
  have hk' : ¬ (k + 1 < batch.entries.length) := by omega
  have hcast : (b : ℤ) + 1 = ((b + 1 : ℕ) : ℤ) := by omega
  have hlen : batch'.entries.length ≠ 0 := fun h => hne (List.length_eq_zero.1 h)
  simp only [_cogl_journal_iterator_next, he, batch_entries_at_nat journal b batch hb,
    COGL_TAILQ_NEXT, hk', if_false, hcast, batch_entries_at_nat journal (b + 1) batch' hb',
    COGL_TAILQ_FIRST, hlen]

theorem iterator_previous_inside (journal : CoglJournal P R) (b k : ℕ)
    (batch : CoglJournalBatch P R) (hb : journal.batches.get? b = some batch)
    (hk : k + 1 < batch.entries.length) :
    _cogl_journal_iterator_previous journal { entry := some (k + 1), batch_num := (b : ℤ) } =
      some { entry := some k, batch_num := (b : ℤ) } := by
  have he : iter_entry journal { entry := some (k + 1), batch_num := (b : ℤ) } =
      some (batch.entries.get ⟨k + 1, hk⟩) := by
    rw [iter_entry_nat journal b (k + 1) batch hb]; exact List.get?_eq_get hk
  simp [_cogl_journal_iterator_previous, he, COGL_TAILQ_PREV]

theorem iterator_previous_boundary (journal : CoglJournal P R) (b k : ℕ)
    (batch batch' : CoglJournalBatch P R) (hb : journal.batches.get? b = some batch)
    (hk : k + 1 = batch.entries.length) (hb' : journal.batches.get? (b + 1) = some batch')
    (hne : batch'.entries ≠ []) :
    _cogl_journal_iterator_previous journal
        { entry := some 0, batch_num := ((b + 1 : ℕ) : ℤ) } =
      some { entry := some k, batch_num := (b : ℤ) } := by
  have hlt : 0 < batch'.entries.length := List.length_pos.2 hne
  have he : iter_entry journal { entry := some 0, batch_num := ((b + 1 : ℕ) : ℤ) } =
      some (batch'.entries.get ⟨0, hlt⟩) := by
    rw [iter_entry_nat journal (b + 1) 0 batch' hb']; exact List.get?_eq_get hlt
  have hcast : ((b + 1 : ℕ) : ℤ) - 1 = (b : ℤ) := by omega
  have hnn : ¬ ((b : ℤ) < 0) := by omega
  have hlen : batch.entries.length ≠ 0 := by omega
  have hk2 : batch.entries.length - 1 = k := by omega
  simp only [_cogl_journal_iterator_previous, he, COGL_TAILQ_PREV, if_true, hcast, hnn,
    if_false, batch_entries_at_nat journal b batch hb, COGL_TAILQ_LAST, hlen, hk2]

/-- Two iterators are neighbours in the journal: `Next` of the first is the
second and `Previous` of the second is the first. -/
theorem iters_of_chain (journal : CoglJournal P R) :
    ∀ (rest pre : List (CoglJournalBatch P R)), journal.batches = pre ++ rest →
      (∀ batch ∈ rest, batch.entries ≠ []) →
      List.Chain' (fun a b : CoglJournalIter =>
        _cogl_journal_iterator_next journal a = some b ∧
          _cogl_journal_iterator_previous journal b = some a) (iters_of pre.length rest) := by
  intro rest
  induction rest with
  | nil => intro pre _ _; exact List.chain'_nil
  | cons batch rest ih =>
    intro pre hsplit hne
    have hb : journal.batches.get? pre.length = some batch := by
      rw [hsplit, List.get?_eq_getElem?, List.getElem?_append_right (le_refl _)]
      simp
    have hsplit' : journal.batches = (pre ++ [batch]) ++ rest := by
      rw [hsplit]; simp
    have ih' := ih (pre ++ [batch]) hsplit' (fun x hx => hne x (List.mem_cons_of_mem _ hx))
    have hlen : (pre ++ [batch]).length = pre.length + 1 := by simp
    rw [hlen] at ih'
    rw [iters_of, List.chain'_append]
    refine ⟨?_, ih', ?_⟩
    · rw [List.chain'_map]
      have hgen : ∀ n, n ≤ batch.entries.length →
          List.Chain' (fun a b : ℕ =>
            _cogl_journal_iterator_next journal
                { entry := some a, batch_num := (pre.length : ℤ) } =
              some { entry := some b, batch_num := (pre.length : ℤ) } ∧
            _cogl_journal_iterator_previous journal
                { entry := some b, batch_num := (pre.length : ℤ) } =
              some { entry := some a, batch_num := (pre.length : ℤ) }) (List.range n) := by
        intro n hn
        cases n with
        | zero => exact List.chain'_nil
        | succ n =>
          rw [List.chain'_range_succ]
          intro m hm
          exact ⟨iterator_next_inside journal _ m batch hb (by omega),
            iterator_previous_inside journal _ m batch hb (by omega)⟩
      exact hgen _ (le_refl _)
    · intro x hx y hy
      have hpos : 0 < batch.entries.length :=
        List.length_pos.2 (hne batch (List.mem_cons_self _ _))
      have hx' : x = CoglJournalIter.mk (some (batch.entries.length - 1)) (pre.length : ℤ) := by
        have hr : List.range batch.entries.length =
            List.range (batch.entries.length - 1) ++ [batch.entries.length - 1] := by
          rw [← List.range_succ]; congr 1; omega
        rw [hr] at hx
        simp only [List.map_append, List.map_cons, List.map_nil,
          List.getLast?_append_of_ne_nil _ (List.cons_ne_nil _ _), List.getLast?_singleton,
          Option.mem_def, Option.some.injEq] at hx
        exact hx.symm
      cases rest with
      | nil => simp [iters_of] at hy
      | cons batch' rest' =>
        have hne' : batch'.entries ≠ [] := hne batch' (by simp)
        have hpos' : 0 < batch'.entries.length := List.length_pos.2 hne'
        have hb' : journal.batches.get? (pre.length + 1) = some batch' := by
          rw [hsplit', List.get?_eq_getElem?,
            List.getElem?_append_right (by simp)]
          simp
        have hy' : y = { entry := some 0, batch_num := ((pre.length + 1 : ℕ) : ℤ) } := by
          have hr : List.range batch'.entries.length =
              0 :: (List.range (batch'.entries.length - 1)).map Nat.succ := by
            rw [← List.range_succ_eq_map]; congr 1; omega
          rw [iters_of, hr] at hy
          simp only [List.map_cons, List.cons_append, List.head?_cons, Option.mem_def,
            Option.some.injEq] at hy
          exact hy.symm
        rw [hx', hy']
        exact ⟨iterator_next_boundary journal _ _ batch batch' hb (by omega) hb' hne',
          iterator_previous_boundary journal _ _ batch batch' hb (by omega) hb' hne'⟩

theorem iter_walk_of_chain (journal : CoglJournal P R) :
    ∀ (l : List CoglJournalIter) (a : CoglJournalIter),
      List.Chain' (fun a b : CoglJournalIter =>
        _cogl_journal_iterator_next journal a = some b) (a :: l) →
      iter_walk journal (l.length + 1) a = some (a :: l)
  | [], _, _ => rfl
  | b :: t, a, h => by
    rw [List.chain'_cons] at h
    have ih := iter_walk_of_chain journal t b h.2
    simp only [List.length_cons, iter_walk, h.1, ih, Option.map_some']

theorem iter_walk_back_of_chain (journal : CoglJournal P R) :
    ∀ (l : List CoglJournalIter) (a : CoglJournalIter),
      List.Chain' (fun a b : CoglJournalIter =>
        _cogl_journal_iterator_previous journal a = some b) (a :: l) →
      iter_walk_back journal (l.length + 1) a = some (a :: l)
  | [], _, _ => rfl
  | b :: t, a, h => by
    rw [List.chain'_cons] at h
    have ih := iter_walk_back_of_chain journal t b h.2
    simp only [List.length_cons, iter_walk_back, h.1, ih, Option.map_some']

theorem iters_of_append (l1 : List (CoglJournalBatch P R)) :
    ∀ (b0 : ℕ) (l2 : List (CoglJournalBatch P R)),
      iters_of b0 (l1 ++ l2) = iters_of b0 l1 ++ iters_of (b0 + l1.length) l2 := by
  induction l1 with
  | nil => intro b0 l2; simp [iters_of]
  | cons batch l1 ih =>
    intro b0 l2
    have h : b0 + 1 + l1.length = b0 + (l1.length + 1) := by omega
    simp only [List.cons_append, iters_of, List.append_eq, ih, List.append_assoc,
      List.length_cons, h]

theorem iters_of_length (l : List (CoglJournalBatch P R)) :
    ∀ b0 : ℕ, (iters_of b0 l).length = (l.map (fun batch => batch.entries.length)).sum := by
  induction l with
  | nil => intro b0; rfl
  | cons batch l ih =>
    intro b0
    simp [iters_of, ih]

theorem all_iters_length (journal : CoglJournal P R) :
    (all_iters journal).length = (all_entries journal).length := by
  rw [all_iters, iters_of_length, all_entries_length, batch_lengths]

theorem mem_iters_of (l : List (CoglJournalBatch P R)) :
    ∀ (b0 : ℕ) (it : CoglJournalIter),
      it ∈ iters_of b0 l ↔
        ∃ (i k : ℕ) (batch : CoglJournalBatch P R), l.get? i = some batch ∧
          k < batch.entries.length ∧ it = { entry := some k, batch_num := ((b0 + i : ℕ) : ℤ) } := by
  induction l with
  | nil => intro b0 it; simp [iters_of]
  | cons batch l ih =>
    intro b0 it
    rw [iters_of, List.mem_append, ih]
    constructor
    · intro h
      rcases h with h | ⟨i, k, batch', hi, hk, hit⟩
      · obtain ⟨k, hk, hit⟩ := List.mem_map.1 h
        exact ⟨0, k, batch, rfl, List.mem_range.1 hk, by rw [← hit]; rfl⟩
      · refine ⟨i + 1, k, batch', hi, hk, ?_⟩
        rw [hit]
        congr 2
        omega
    · intro h
      obtain ⟨i, k, batch', hi, hk, hit⟩ := h
      cases i with
      | zero =>
        left
        simp only [List.get?_cons_zero, Option.some.injEq] at hi
        subst hi
        exact List.mem_map.2 ⟨k, List.mem_range.2 hk, by rw [hit]; rfl⟩
      | succ i =>
        right
        refine ⟨i, k, batch', hi, hk, ?_⟩
        rw [hit]
        congr 2
        omega

theorem iters_of_nodup (l : List (CoglJournalBatch P R)) :
    ∀ b0 : ℕ, (iters_of b0 l).Nodup := by
  induction l with
  | nil => intro b0; exact List.nodup_nil
  | cons batch l ih =>
    intro b0
    rw [iters_of, List.nodup_append]
    refine ⟨?_, ih (b0 + 1), ?_⟩
    · apply List.Nodup.map _ (List.nodup_range _)
      intro a b hab
      simp only [CoglJournalIter.mk.injEq, Option.some.injEq, and_true] at hab
      exact hab
    · intro it h1 h2
      obtain ⟨k, _, hit⟩ := List.mem_map.1 h1
      obtain ⟨i, k', batch', _, _, hit'⟩ := (mem_iters_of l (b0 + 1) it).1 h2
      rw [← hit] at hit'
      simp only [CoglJournalIter.mk.injEq, Option.some.injEq] at hit'
      omega

theorem iters_of_entries (journal : CoglJournal P R) :
    ∀ (rest pre : List (CoglJournalBatch P R)), journal.batches = pre ++ rest →
      (iters_of pre.length rest).map (iter_entry journal) =
        ((rest.map (fun batch => batch.entries)).flatten).map some := by
  intro rest
  induction rest with
  | nil => intro pre _; rfl
  | cons batch rest ih =>
    intro pre hsplit
    have hb : journal.batches.get? pre.length = some batch := by
      rw [hsplit, List.get?_eq_getElem?, List.getElem?_append_right (le_refl _)]
      simp
    have hsplit' : journal.batches = (pre ++ [batch]) ++ rest := by
      rw [hsplit]; simp
    have ih' := ih (pre ++ [batch]) hsplit'
    have hlen : (pre ++ [batch]).length = pre.length + 1 := by simp
    rw [hlen] at ih'
    rw [iters_of, List.map_append, ih', List.map_cons, List.flatten_cons, List.map_append]
    congr 1
    rw [List.map_map]
    apply List.ext_getElem
    · simp
    · intro n h1 h2
      simp only [List.getElem_map, List.getElem_range, Function.comp_apply]
      rw [iter_entry_nat journal _ n batch hb, List.get?_eq_getElem?]
      simp only [List.length_map] at h2
      exact List.getElem?_eq_getElem h2

theorem all_iters_head (journal : CoglJournal P R)
    (hne : ∀ batch ∈ journal.batches, batch.entries ≠ []) (hpos : journal.batches ≠ []) :
    ∃ l, all_iters journal = _cogl_journal_iterator_init journal :: l := by
  cases hb : journal.batches with
  | nil => exact absurd hb hpos
  | cons batch rest =>
    have hbne : batch.entries ≠ [] := hne batch (by rw [hb]; simp)
    have hlen : batch.entries.length ≠ 0 := fun h => hbne (List.length_eq_zero.1 h)
    have hget : journal.batches.get? 0 = some batch := by rw [hb]; rfl
    have hinit : _cogl_journal_iterator_init journal =
        { entry := some 0, batch_num := ((0 : ℕ) : ℤ) } := by
      have h0 := batch_entries_at_nat journal 0 batch hget
      simp only [Nat.cast_zero] at h0
      simp only [_cogl_journal_iterator_init, h0, COGL_TAILQ_FIRST, hlen, if_false,
        Nat.cast_zero]
    have hr : List.range batch.entries.length =
        0 :: (List.range (batch.entries.length - 1)).map Nat.succ := by
      rw [← List.range_succ_eq_map]; congr 1; omega
    rw [all_iters, hb, iters_of, hr, hinit]
    exact ⟨_, rfl⟩

theorem all_iters_last (journal : CoglJournal P R)
    (hne : ∀ batch ∈ journal.batches, batch.entries ≠ []) (hpos : journal.batches ≠ []) :
    ∃ l, all_iters journal = l ++ [_cogl_journal_iterator_init_reverse journal] := by
  have hsplit := (List.dropLast_append_getLast hpos).symm
  generalize journal.batches.dropLast = init at hsplit
  generalize journal.batches.getLast hpos = batch at hsplit
  have hbne : batch.entries ≠ [] := hne batch (by rw [hsplit]; simp)
  have hlen : batch.entries.length ≠ 0 := fun h => hbne (List.length_eq_zero.1 h)
  have hget : journal.batches.get? init.length = some batch := by
    rw [hsplit, List.get?_eq_getElem?, List.getElem?_append_right (le_refl _)]
    simp
  have hL : (journal.batches.length : ℤ) - 1 = ((init.length : ℕ) : ℤ) := by
    rw [hsplit]; simp
  have hinit : _cogl_journal_iterator_init_reverse journal =
      { entry := some (batch.entries.length - 1), batch_num := ((init.length : ℕ) : ℤ) } := by
    simp only [_cogl_journal_iterator_init_reverse, hL,
      batch_entries_at_nat journal init.length batch hget, COGL_TAILQ_LAST, hlen, if_false]
  have hr : List.range batch.entries.length =
      List.range (batch.entries.length - 1) ++ [batch.entries.length - 1] := by
    rw [← List.range_succ]; congr 1; omega
  rw [all_iters, hsplit, iters_of_append, iters_of, iters_of, hr, hinit]
  simp only [List.map_append, List.map_cons, List.map_nil, List.append_nil, zero_add,
    ← List.append_assoc]
  exact ⟨_, rfl⟩

/-- C20 (iteration order).  On a well-formed journal that is not empty, the
forward initial iterator followed by `journal_len - 1` calls of `Next` visits
exactly the positions of the entries batch by batch (batch 0 first, insertion
order inside a batch), each once, and the reverse initial iterator followed by
`journal_len - 1` calls of `Previous` visits the same positions in reverse;
the entries at these positions are the concatenation of the batches' entry
lists, and every `batch_num` is the index of the batch that holds the entry. -/
theorem iteration_order (journal : CoglJournal P R) (hwf : journal_wf journal)
    (hlen : journal.journal_len ≠ 0) :
    iter_walk journal journal.journal_len (_cogl_journal_iterator_init journal) =
      some (all_iters journal) ∧
    iter_walk_back journal journal.journal_len (_cogl_journal_iterator_init_reverse journal) =
      some (all_iters journal).reverse ∧
    (all_iters journal).map (iter_entry journal) = (all_entries journal).map some ∧
    (all_iters journal).Nodup ∧
    (∀ it ∈ all_iters journal, ∃ (b k : ℕ) (batch : CoglJournalBatch P R),
      journal.batches.get? b = some batch ∧ k < batch.entries.length ∧
      it = { entry := some k, batch_num := (b : ℤ) }) := by
  have hpos : journal.batches ≠ [] := by
    intro hnil
    apply hlen
    rw [hwf.2]
    simp [all_entries, hnil]
  have hchain := iters_of_chain journal journal.batches [] rfl hwf.1
  have hcount : (all_iters journal).length = journal.journal_len := by
    rw [all_iters_length, hwf.2]
  refine ⟨?_, ?_, ?_, iters_of_nodup _ 0, ?_⟩
  · obtain ⟨l, hl⟩ := all_iters_head journal hwf.1 hpos
    have hc : List.Chain' (fun a b : CoglJournalIter =>
        _cogl_journal_iterator_next journal a = some b) (all_iters journal) :=
      List.Chain'.imp (fun a b h => h.1) hchain
    rw [hl] at hc hcount ⊢
    rw [← hcount]
    exact iter_walk_of_chain journal l _ hc
  · obtain ⟨l, hl⟩ := all_iters_last journal hwf.1 hpos
    have hc : List.Chain' (fun a b : CoglJournalIter =>
        _cogl_journal_iterator_previous journal a = some b) (all_iters journal).reverse := by
      rw [List.chain'_reverse]
      exact List.Chain'.imp (fun a b h => h.2) hchain
    rw [hl] at hc hcount ⊢
    rw [List.reverse_append, List.reverse_singleton, List.singleton_append] at hc ⊢
    have hcount' : l.reverse.length + 1 = journal.journal_len := by
      rw [← hcount]; simp
    rw [← hcount']
    exact iter_walk_back_of_chain journal l.reverse _ hc
  · exact iters_of_entries journal journal.batches [] rfl
  · intro it hit
    obtain ⟨i, k, batch, hi, hk, heq⟩ := (mem_iters_of journal.batches 0 it).1 hit
    exact ⟨i, k, batch, hi, hk, by rw [heq, zero_add]⟩

/-! ## The upload -/

theorem vbo_read_of_unique : ∀ (stores : List (ℕ × VboWord)) (index : ℕ) (word : VboWord),
    (index, word) ∈ stores → (∀ p ∈ stores, p.1 = index → p.2 = word) →
    vbo_read stores index = some word
  | [], _, _, h, _ => by simp at h
  | (i, w) :: rest, index, word, hmem, huniq => by
    rw [vbo_read]
    by_cases hrest : (index, word) ∈ rest
    · rw [vbo_read_of_unique rest index word hrest
        (fun p hp => huniq p (List.mem_cons_of_mem _ hp))]
    · have hhead : (index, word) = (i, w) := by
        rcases List.mem_cons.1 hmem with h | h
        · exact h
        · exact absurd h hrest
      simp only [Prod.mk.injEq] at hhead
      cases hr : vbo_read rest index with
      | none => simp [hhead.1, hhead.2]
      | some later =>
        have : ∀ (l : List (ℕ × VboWord)) (x : VboWord), vbo_read l index = some x →
            (index, x) ∈ l := by
          intro l
          induction l with
          | nil => intro x hx; simp [vbo_read] at hx
          | cons q l ih =>
            intro x hx
            obtain ⟨qi, qw⟩ := q
            rw [vbo_read] at hx
            cases hl : vbo_read l index with
            | some y =>
              simp only [hl, Option.some.injEq] at hx
              subst hx
              exact List.mem_cons_of_mem _ (ih y hl)
            | none =>
              simp only [hl] at hx
              split_ifs at hx with hq
              simp only [Option.some.injEq] at hx
              subst hx; subst hq
              exact List.mem_cons_self _ _
        have hin := this rest later hr
        have := huniq (index, later) (List.mem_cons_of_mem _ hin) rfl
        simp only at this
        rw [this]

theorem vbo_read_none : ∀ (stores : List (ℕ × VboWord)) (index : ℕ),
    (∀ p ∈ stores, p.1 ≠ index) → vbo_read stores index = none
  | [], _, _ => rfl
  | (i, w) :: rest, index, h => by
    rw [vbo_read, vbo_read_none rest index (fun p hp => h p (List.mem_cons_of_mem _ hp))]
    have : i ≠ index := h (i, w) (List.mem_cons_self _ _)
    simp [this]

theorem pairs_getElem? {α : Type} (f g : ℕ → α) (n : ℕ) :
    ∀ m : ℕ, ((List.range n).map (fun i => [f i, g i])).flatten[m]? =
      if m < 2 * n then some (if m % 2 = 0 then f (m / 2) else g (m / 2)) else none := by
  induction n with
  | zero => intro m; simp
  | succ n ih =>
    intro m
    have hlen : ((List.range n).map (fun i => [f i, g i])).flatten.length = 2 * n := by
      simp [List.length_flatten, List.map_map, Function.comp_def, mul_comm]
    rw [List.range_succ, List.map_append, List.flatten_append]
    by_cases hm : m < 2 * n
    · rw [List.getElem?_append_left (by rw [hlen]; exact hm), ih]
      have : m < 2 * (n + 1) := by omega
      simp [hm, this]
    · rw [List.getElem?_append_right (by rw [hlen]; omega), hlen]
      simp only [List.map_cons, List.map_nil, List.flatten_cons, List.flatten_nil,
        List.append_nil]
      by_cases h0 : m = 2 * n
      · subst h0
        simp
      · by_cases h1 : m = 2 * n + 1
        · subst h1
          have e1 : 2 * n + 1 - 2 * n = 1 := by omega
          have e2 : (2 * n + 1) % 2 = 1 := by omega
          have e3 : (2 * n + 1) / 2 = n := by omega
          have e4 : 2 * n + 1 < 2 * (n + 1) := by omega
          simp [e1, e2, e3, e4]
        · have e1 : ¬ m < 2 * (n + 1) := by omega
          have e2 : 2 ≤ m - 2 * n := by omega
          rw [if_neg e1]
          exact List.getElem?_eq_none (by simpa using e2)

theorem expanded_position_length (ds : DrawState) (entry : CoglJournalEntry) (v : ℕ) :
    (expanded_position ds entry v).length = (POS_STRIDE ds).toNat := by
  unfold expanded_position POS_STRIDE
  cases ds.disable_software_transform <;> rfl

theorem expanded_vertex_getElem? (ds : DrawState) (entry : CoglJournalEntry) (v r : ℕ) :
    (expanded_vertex ds entry v)[r]? =
      if r < (POS_STRIDE ds).toNat then (expanded_position ds entry v)[r]?
      else if r = (POS_STRIDE ds).toNat then some (VboWord.color entry.color)
      else if r - ((POS_STRIDE ds).toNat + 1) < 2 * entry.n_layers.toNat then
        some (if (r - ((POS_STRIDE ds).toNat + 1)) % 2 = 0 then
          VboWord.float (expanded_tex_coords entry v ((r - ((POS_STRIDE ds).toNat + 1)) / 2)).1
        else
          VboWord.float (expanded_tex_coords entry v ((r - ((POS_STRIDE ds).toNat + 1)) / 2)).2)
      else none := by
  have hlen := expanded_position_length ds entry v
  unfold expanded_vertex
  by_cases h1 : r < (POS_STRIDE ds).toNat
  · rw [if_pos h1, List.append_assoc, List.getElem?_append_left (by rw [hlen]; exact h1)]
  · rw [if_neg h1, List.append_assoc, List.getElem?_append_right (by rw [hlen]; omega), hlen]
    by_cases h2 : r = (POS_STRIDE ds).toNat
    · rw [if_pos h2, h2]; simp
    · rw [if_neg h2]
      have h3 : r - (POS_STRIDE ds).toNat = (r - ((POS_STRIDE ds).toNat + 1)) + 1 := by omega
      rw [h3, List.singleton_append, List.getElem?_cons_succ,
        pairs_getElem? (fun i => VboWord.float (expanded_tex_coords entry v i).1)
          (fun i => VboWord.float (expanded_tex_coords entry v i).2)]

theorem expanded_vertex_length (ds : DrawState) (entry : CoglJournalEntry) (v : ℕ) :
    (expanded_vertex ds entry v).length =
      (POS_STRIDE ds).toNat + 1 + 2 * entry.n_layers.toNat := by
  unfold expanded_vertex
  simp [expanded_position_length, List.length_flatten, List.map_map, Function.comp_def,
    mul_comm]
  omega

theorem entry_stride_eq (ds : DrawState) (entry : CoglJournalEntry) :
    entry_stride ds entry =
      (POS_STRIDE ds).toNat + 1 + 2 * max entry.n_layers.toNat 2 := by
  unfold entry_stride GET_JOURNAL_VB_STRIDE_FOR_N_LAYERS POS_STRIDE COLOR_STRIDE TEX_STRIDE
    MIN_LAYER_PADING
  split_ifs <;> omega

/-- Every store of one pass of the upload loop writes a word of an expanded
vertex at its place: word `r` of vertex `v` goes to `vout + stride * v + r`. -/
theorem upload_entry_sound (ds : DrawState) (vout : ℕ) (entry : CoglJournalEntry)
    (p : ℕ × VboWord) (hp : p ∈ upload_entry ds vout entry) :
    ∃ v r : ℕ, v < 4 ∧ (expanded_vertex ds entry v)[r]? = some p.2 ∧
      p.1 = vout + entry_stride ds entry * v + r := by
  unfold upload_entry at hp
  simp only [List.mem_append] at hp
  rcases hp with (hp | hp) | hp
  · obtain ⟨i, hi, hpi⟩ := List.mem_map.1 hp
    refine ⟨i, (POS_STRIDE ds).toNat, List.mem_range.1 hi, ?_, ?_⟩
    · rw [expanded_vertex_getElem?, ← hpi]; simp
    · rw [← hpi]; rfl
  · by_cases hds : ds.disable_software_transform = true
    · have hpos : (POS_STRIDE ds).toNat = 2 := by simp [POS_STRIDE, hds]
      simp only [hds, if_true, List.mem_cons, List.mem_singleton, List.not_mem_nil,
        or_false] at hp
      rcases hp with h | h | h | h | h | h | h | h <;> subst h
      · exact ⟨0, 0, by omega, by simp [expanded_vertex_getElem?, hpos, expanded_position, hds,
          rect_corner], rfl⟩
      · exact ⟨0, 1, by omega, by simp [expanded_vertex_getElem?, hpos, expanded_position, hds,
          rect_corner], rfl⟩
      · exact ⟨1, 0, by omega, by simp [expanded_vertex_getElem?, hpos, expanded_position, hds,
          rect_corner], rfl⟩
      · exact ⟨1, 1, by omega, by simp [expanded_vertex_getElem?, hpos, expanded_position, hds,
          rect_corner], rfl⟩
      · exact ⟨2, 0, by omega, by simp [expanded_vertex_getElem?, hpos, expanded_position, hds,
          rect_corner], rfl⟩
      · exact ⟨2, 1, by omega, by simp [expanded_vertex_getElem?, hpos, expanded_position, hds,
          rect_corner], rfl⟩
      · exact ⟨3, 0, by omega, by simp [expanded_vertex_getElem?, hpos, expanded_position, hds,
          rect_corner], rfl⟩
      · exact ⟨3, 1, by omega, by simp [expanded_vertex_getElem?, hpos, expanded_position, hds,
          rect_corner], rfl⟩
    · have hds' : ds.disable_software_transform = false := by simpa using hds
      have hpos : (POS_STRIDE ds).toNat = 3 := by simp [POS_STRIDE, hds']
      simp only [hds', Bool.false_eq_true, if_false, List.mem_flatten, List.mem_map,
        List.mem_range] at hp
      obtain ⟨l, ⟨i, hi, hl⟩, hpl⟩ := hp
      subst hl
      obtain ⟨j, hj, hpj⟩ := List.mem_map.1 hpl
      have hj' := List.mem_range.1 hj
      refine ⟨i, j, hi, ?_, by rw [← hpj]; rfl⟩
      rw [← hpj]
      interval_cases i <;> interval_cases j <;>
        simp [expanded_vertex_getElem?, hpos, expanded_position, hds', Verts.vertex,
          transformed_verts_at]
  · simp only [List.mem_flatten, List.mem_map, List.mem_range] at hp
    obtain ⟨l, ⟨i, hi, hl⟩, hpl⟩ := hp
    subst hl
    have hc : COLOR_STRIDE.toNat = 1 := rfl
    have key : ∀ (v k : ℕ), k < 2 → (expanded_vertex ds entry v)[(POS_STRIDE ds).toNat + 1 +
        (2 * i + k)]? = some (if k = 0 then VboWord.float (expanded_tex_coords entry v i).1
          else VboWord.float (expanded_tex_coords entry v i).2) := by
      intro v k hk
      rw [expanded_vertex_getElem?]
      have e1 : ¬ ((POS_STRIDE ds).toNat + 1 + (2 * i + k) < (POS_STRIDE ds).toNat) := by omega
      have e2 : ¬ ((POS_STRIDE ds).toNat + 1 + (2 * i + k) = (POS_STRIDE ds).toNat) := by omega
      have e3 : (POS_STRIDE ds).toNat + 1 + (2 * i + k) - ((POS_STRIDE ds).toNat + 1) =
          2 * i + k := by omega
      have e4 : 2 * i + k < 2 * entry.n_layers.toNat := by omega
      have e5 : (2 * i + k) / 2 = i := by omega
      have e6 : (2 * i + k) % 2 = k := by omega
      rw [if_neg e1, if_neg e2, e3, if_pos e4, e5, e6]
    simp only [List.mem_cons, List.mem_singleton, List.not_mem_nil, or_false] at hpl
    rcases hpl with h | h | h | h | h | h | h | h <;> subst h
    · exact ⟨0, _, by omega, by rw [key 0 0 (by omega)]; simp [expanded_tex_coords, rect_corner],
        by simp only [entry_stride, hc]; omega⟩
    · exact ⟨0, _, by omega, by rw [key 0 1 (by omega)]; simp [expanded_tex_coords, rect_corner],
        by simp only [entry_stride, hc]; omega⟩
    · exact ⟨1, _, by omega, by rw [key 1 0 (by omega)]; simp [expanded_tex_coords, rect_corner],
        by simp only [entry_stride, hc]; omega⟩
    · exact ⟨1, _, by omega, by rw [key 1 1 (by omega)]; simp [expanded_tex_coords, rect_corner],
        by simp only [entry_stride, hc]; omega⟩
    · exact ⟨2, _, by omega, by rw [key 2 0 (by omega)]; simp [expanded_tex_coords, rect_corner],
        by simp only [entry_stride, hc]; omega⟩
    · exact ⟨2, _, by omega, by rw [key 2 1 (by omega)]; simp [expanded_tex_coords, rect_corner],
        by simp only [entry_stride, hc]; omega⟩
    · exact ⟨3, _, by omega, by rw [key 3 0 (by omega)]; simp [expanded_tex_coords, rect_corner],
        by simp only [entry_stride, hc]; omega⟩
    · exact ⟨3, _, by omega, by rw [key 3 1 (by omega)]; simp [expanded_tex_coords, rect_corner],
        by simp only [entry_stride, hc]; omega⟩

/-- Every word of the four expanded vertices is stored by one pass of the upload
loop, at `vout + stride * v + r`. -/
theorem upload_entry_complete (ds : DrawState) (vout : ℕ) (entry : CoglJournalEntry)
    (v r : ℕ) (word : VboWord) (hv : v < 4)
    (hw : (expanded_vertex ds entry v)[r]? = some word) :
    (vout + entry_stride ds entry * v + r, word) ∈ upload_entry ds vout entry := by
  rw [expanded_vertex_getElem?] at hw
  unfold upload_entry
  simp only [List.mem_append]
  by_cases h1 : r < (POS_STRIDE ds).toNat
  · rw [if_pos h1] at hw
    left; right
    by_cases hds : ds.disable_software_transform = true
    · have hpos : (POS_STRIDE ds).toNat = 2 := by simp [POS_STRIDE, hds]
      rw [hpos] at h1
      simp only [hds, if_true, entry_stride]
      interval_cases v <;> interval_cases r <;>
        simp [expanded_position, hds, rect_corner] at hw <;> subst hw <;> simp
    · have hds' : ds.disable_software_transform = false := by simpa using hds
      have hpos : (POS_STRIDE ds).toNat = 3 := by simp [POS_STRIDE, hds']
      rw [hpos] at h1
      simp only [hds', Bool.false_eq_true, if_false, List.mem_flatten, List.mem_map,
        List.mem_range]
      refine ⟨_, ⟨v, hv, rfl⟩, ?_⟩
      apply List.mem_map.2
      refine ⟨r, List.mem_range.2 h1, ?_⟩
      interval_cases v <;> interval_cases r <;>
        simp [expanded_position, hds', Verts.vertex] at hw <;> subst hw <;>
        simp [entry_stride, transformed_verts_at]
  · rw [if_neg h1] at hw
    by_cases h2 : r = (POS_STRIDE ds).toNat
    · rw [if_pos h2, Option.some.injEq] at hw
      left; left
      apply List.mem_map.2
      exact ⟨v, List.mem_range.2 hv, by rw [h2, ← hw]; rfl⟩
    · rw [if_neg h2] at hw
      right
      split_ifs at hw with h3 h4
      · simp only [Option.some.injEq] at hw
        simp only [List.mem_flatten, List.mem_map, List.mem_range]
        refine ⟨_, ⟨(r - ((POS_STRIDE ds).toNat + 1)) / 2, by omega, rfl⟩, ?_⟩
        have hc : COLOR_STRIDE.toNat = 1 := rfl
        have hr : r = (POS_STRIDE ds).toNat + 1 +
            2 * ((r - ((POS_STRIDE ds).toNat + 1)) / 2) := by omega
        generalize (r - ((POS_STRIDE ds).toNat + 1)) / 2 = i at hw hr ⊢
        subst hw
        simp only [List.mem_cons, List.mem_singleton, List.not_mem_nil, or_false,
          Prod.mk.injEq, VboWord.float.injEq, hc, entry_stride]
        interval_cases v
        · left; exact ⟨by omega, by simp [expanded_tex_coords, rect_corner]⟩
        · right; right; left; exact ⟨by omega, by simp [expanded_tex_coords, rect_corner]⟩
        · right; right; right; right; left
          exact ⟨by omega, by simp [expanded_tex_coords, rect_corner]⟩
        · right; right; right; right; right; right; left
          exact ⟨by omega, by simp [expanded_tex_coords, rect_corner]⟩
      · simp only [Option.some.injEq] at hw
        simp only [List.mem_flatten, List.mem_map, List.mem_range]
        refine ⟨_, ⟨(r - ((POS_STRIDE ds).toNat + 1)) / 2, by omega, rfl⟩, ?_⟩
        have hc : COLOR_STRIDE.toNat = 1 := rfl
        have hr : r = (POS_STRIDE ds).toNat + 1 +
            2 * ((r - ((POS_STRIDE ds).toNat + 1)) / 2) + 1 := by omega
        generalize (r - ((POS_STRIDE ds).toNat + 1)) / 2 = i at hw hr ⊢
        subst hw
        simp only [List.mem_cons, List.mem_singleton, List.not_mem_nil, or_false,
          Prod.mk.injEq, VboWord.float.injEq, hc, entry_stride]
        interval_cases v
        · right; left; exact ⟨by omega, by simp [expanded_tex_coords, rect_corner]⟩
        · right; right; right; left
          exact ⟨by omega, by simp [expanded_tex_coords, rect_corner]⟩
        · right; right; right; right; right; left
          exact ⟨by omega, by simp [expanded_tex_coords, rect_corner]⟩
        · right; right; right; right; right; right; right
          exact ⟨by omega, by simp [expanded_tex_coords, rect_corner]⟩

theorem stride_index_inj (s v r v' r' : ℕ) (hr : r < s) (hr' : r' < s)
    (h : s * v + r = s * v' + r') : v = v' ∧ r = r' := by
  have hv : v = v' := by
    rcases lt_trichotomy v v' with hlt | heq | hgt
    · exfalso
      have : s * (v + 1) ≤ s * v' := Nat.mul_le_mul_left s hlt
      rw [Nat.mul_succ] at this
      omega
    · exact heq
    · exfalso
      have : s * (v' + 1) ≤ s * v := Nat.mul_le_mul_left s hgt
      rw [Nat.mul_succ] at this
      omega
  subst hv
  exact ⟨rfl, by omega⟩

theorem expanded_vertex_length_le (ds : DrawState) (entry : CoglJournalEntry) (v : ℕ) :
    (expanded_vertex ds entry v).length ≤ entry_stride ds entry := by
  rw [expanded_vertex_length, entry_stride_eq]
  have := le_max_left entry.n_layers.toNat 2
  omega

/-- After one pass of the upload loop the buffer holds, for each of the four
vertices, the words of the expanded vertex at the start of the vertex's stride
and nothing in the padding. -/
theorem upload_entry_read (ds : DrawState) (vout : ℕ) (entry : CoglJournalEntry)
    (v r : ℕ) (hv : v < 4) (hr : r < entry_stride ds entry) :
    vbo_read (upload_entry ds vout entry) (vout + entry_stride ds entry * v + r) =
      (expanded_vertex ds entry v)[r]? := by
  have hle := expanded_vertex_length_le ds entry
  cases hw : (expanded_vertex ds entry v)[r]? with
  | some word =>
    apply vbo_read_of_unique _ _ _ (upload_entry_complete ds vout entry v r word hv hw)
    intro p hp hidx
    obtain ⟨v', r', _, hw', hp1⟩ := upload_entry_sound ds vout entry p hp
    have hr' : r' < entry_stride ds entry := by
      have := (List.getElem?_eq_some.1 hw').1
      have := hle v'
      omega
    have := stride_index_inj _ v' r' v r hr' hr (by omega)
    rw [this.1, this.2, hw] at hw'
    exact (Option.some.inj hw').symm
  | none =>
    apply vbo_read_none
    intro p hp hidx
    obtain ⟨v', r', _, hw', hp1⟩ := upload_entry_sound ds vout entry p hp
    have hr' : r' < entry_stride ds entry := by
      have := (List.getElem?_eq_some.1 hw').1
      have := hle v'
      omega
    have := stride_index_inj _ v' r' v r hr' hr (by omega)
    rw [this.1, this.2, hw] at hw'
    exact absurd hw' (by simp)

theorem upload_entry_range (ds : DrawState) (vout : ℕ) (entry : CoglJournalEntry)
    (p : ℕ × VboWord) (hp : p ∈ upload_entry ds vout entry) :
    vout ≤ p.1 ∧ p.1 < vout + entry_stride ds entry * 4 := by
  obtain ⟨v, r, hv, hw, hp1⟩ := upload_entry_sound ds vout entry p hp
  have hr : r < entry_stride ds entry := by
    have := (List.getElem?_eq_some.1 hw).1
    have := expanded_vertex_length_le ds entry v
    omega
  have : entry_stride ds entry * (v + 1) ≤ entry_stride ds entry * 4 :=
    Nat.mul_le_mul_left _ hv
  rw [Nat.mul_succ] at this
  omega

theorem upload_entries_range (ds : DrawState) :
    ∀ (entries : List CoglJournalEntry) (vout : ℕ) (p : ℕ × VboWord),
      p ∈ upload_entries ds vout entries →
      vout ≤ p.1 ∧ p.1 < vout + upload_words ds entries
  | [], _, _, h => by simp [upload_entries] at h
  | entry :: rest, vout, p, h => by
    rw [upload_entries, List.mem_append] at h
    have hw : upload_words ds (entry :: rest) =
        entry_stride ds entry * 4 + upload_words ds rest := by
      simp [upload_words]
    rcases h with h | h
    · have := upload_entry_range ds vout entry p h
      omega
    · have := upload_entries_range ds rest _ p h
      omega

theorem upload_entries_append (ds : DrawState) :
    ∀ (l1 l2 : List CoglJournalEntry) (vout : ℕ),
      upload_entries ds vout (l1 ++ l2) =
        upload_entries ds vout l1 ++ upload_entries ds (vout + upload_words ds l1) l2
  | [], l2, vout => by simp [upload_entries, upload_words]
  | entry :: l1, l2, vout => by
    have hw : upload_words ds (entry :: l1) =
        entry_stride ds entry * 4 + upload_words ds l1 := by
      simp [upload_words]
    rw [List.cons_append, upload_entries, upload_entries, upload_entries_append ds l1 l2,
      List.append_assoc, hw, Nat.add_assoc]

theorem vbo_read_append_left : ∀ (a b : List (ℕ × VboWord)) (index : ℕ),
    (∀ p ∈ b, p.1 ≠ index) → vbo_read (a ++ b) index = vbo_read a index
  | [], b, index, h => by rw [List.nil_append, vbo_read_none b index h]; rfl
  | (i, w) :: a, b, index, h => by
    rw [List.cons_append, vbo_read, vbo_read, vbo_read_append_left a b index h]

theorem vbo_read_append_right : ∀ (a b : List (ℕ × VboWord)) (index : ℕ),
    (∀ p ∈ a, p.1 ≠ index) → vbo_read (a ++ b) index = vbo_read b index
  | [], _, _, _ => rfl
  | (i, w) :: a, b, index, h => by
    rw [List.cons_append, vbo_read,
      vbo_read_append_right a b index (fun p hp => h p (List.mem_cons_of_mem _ hp))]
    have hi : i ≠ index := h (i, w) (List.mem_cons_self _ _)
    cases vbo_read b index with
    | none => simp [hi]
    | some x => rfl

/-- In the stores of the upload of a list of entries, the words of each entry
are the four expanded vertices at the entry's place. -/
theorem upload_entries_read (ds : DrawState) (pre post : List CoglJournalEntry)
    (entry : CoglJournalEntry) (v r : ℕ) (hv : v < 4) (hr : r < entry_stride ds entry) :
    vbo_read (upload_entries ds 0 (pre ++ entry :: post))
        (upload_words ds pre + entry_stride ds entry * v + r) =
      (expanded_vertex ds entry v)[r]? := by
  have hlt : entry_stride ds entry * (v + 1) ≤ entry_stride ds entry * 4 :=
    Nat.mul_le_mul_left _ hv
  rw [Nat.mul_succ] at hlt
  rw [upload_entries_append, upload_entries, Nat.zero_add, ← List.append_assoc,
    vbo_read_append_left, vbo_read_append_right]
  · exact upload_entry_read ds _ entry v r hv hr
  · intro p hp
    have := upload_entries_range ds pre 0 p hp
    omega
  · intro p hp
    have := upload_entries_range ds post _ p hp
    omega

theorem iterator_next_defined (journal : CoglJournal P R) (iter : CoglJournalIter)
    (entry : CoglJournalEntry) (h : iter_entry journal iter = some entry) :
    ∃ next_iter, _cogl_journal_iterator_next journal iter = some next_iter := by
  unfold _cogl_journal_iterator_next
  cases hk : iter.entry with
  | none => simp [iter_entry, hk] at h
  | some k =>
    rw [h]
    simp only
    cases COGL_TAILQ_NEXT (batch_entries_at journal iter.batch_num) k with
    | none => exact ⟨_, rfl⟩
    | some k' => exact ⟨_, rfl⟩

/-- The upload loop over a run of neighbouring iterators that point to
`entries` makes the stores of `upload_entries`. -/
theorem upload_vertices_loop_chain (ds : DrawState) (journal : CoglJournal P R) :
    ∀ (l : List CoglJournalIter) (a : CoglJournalIter) (entries : List CoglJournalEntry)
      (vout : ℕ),
      List.Chain' (fun a b : CoglJournalIter =>
        _cogl_journal_iterator_next journal a = some b) (a :: l) →
      (a :: l).map (iter_entry journal) = entries.map some →
      upload_vertices_loop ds journal (l.length + 1) a vout =
        some (upload_entries ds vout entries)
  | [], a, entries, vout, _, hentries => by
    cases entries with
    | nil => simp at hentries
    | cons e es =>
      simp only [List.map_cons, List.map_nil, List.cons.injEq, List.nil_eq,
        List.map_eq_nil_iff] at hentries
      obtain ⟨he, hes⟩ := hentries
      subst hes
      obtain ⟨nx, hnx⟩ := iterator_next_defined journal a e he
      simp [upload_vertices_loop, he, hnx, upload_entries]
  | b :: t, a, entries, vout, hchain, hentries => by
    cases entries with
    | nil => simp at hentries
    | cons e es =>
      have he : iter_entry journal a = some e := by
        have := congrArg List.head? hentries
        simpa using this
      have hes : (b :: t).map (iter_entry journal) = es.map some := by
        have := congrArg List.tail hentries
        simpa using this
      rw [List.chain'_cons] at hchain
      have ih := upload_vertices_loop_chain ds journal t b es
        (vout + entry_stride ds e * 4) hchain.2 hes
      rw [List.length_cons, upload_vertices_loop]
      simp only [he, hchain.1]
      rw [entry_stride] at ih
      rw [ih]
      rfl

theorem create_attribute_buffer_shape (ctx : CoglContext) (journal : CoglJournal P R)
    (n_bytes : ℕ) :
    (create_attribute_buffer ctx journal n_bytes).1.batches = journal.batches ∧
      (create_attribute_buffer ctx journal n_bytes).1.journal_len = journal.journal_len ∧
      (create_attribute_buffer ctx journal n_bytes).1.needed_vbo_len = journal.needed_vbo_len ∧
      (create_attribute_buffer ctx journal n_bytes).1.fast_read_pixel_count =
        journal.fast_read_pixel_count := by
  unfold create_attribute_buffer
  split_ifs
  · exact ⟨rfl, rfl, rfl, rfl⟩
  · simp only
    split
    · exact ⟨rfl, rfl, rfl, rfl⟩
    · split_ifs <;> exact ⟨rfl, rfl, rfl, rfl⟩

/-- The upload loop over a whole journal makes the stores of `upload_entries`
for the entries in draw order. -/
theorem upload_vertices_loop_all (ds : DrawState) (journal : CoglJournal P R)
    (hwf : journal_wf journal) :
    upload_vertices_loop ds journal journal.journal_len (_cogl_journal_iterator_init journal) 0 =
      some (upload_entries ds 0 (all_entries journal)) := by
  by_cases hlen : journal.journal_len = 0
  · have h0 : all_entries journal = [] := by
      apply List.length_eq_zero.1
      rw [← hwf.2, hlen]
    rw [hlen, h0]
    rfl
  · have hpos : journal.batches ≠ [] := by
      intro hnil
      apply hlen
      rw [hwf.2]
      simp [all_entries, hnil]
    obtain ⟨l, hl⟩ := all_iters_head journal hwf.1 hpos
    have hchain := iters_of_chain journal journal.batches [] rfl hwf.1
    have hc : List.Chain' (fun a b : CoglJournalIter =>
        _cogl_journal_iterator_next journal a = some b) (all_iters journal) :=
      List.Chain'.imp (fun a b h => h.1) hchain
    have hentries : (all_iters journal).map (iter_entry journal) =
        (all_entries journal).map some := iters_of_entries journal journal.batches [] rfl
    have hcount : (all_iters journal).length = journal.journal_len := by
      rw [all_iters_length, hwf.2]
    rw [hl] at hc hentries hcount
    rw [← hcount]
    exact upload_vertices_loop_chain ds journal l _ _ 0 hc hentries

/-- On a well-formed journal with `needed_vbo_len > 0`, `upload_vertices`
returns, and its stores are those of `upload_entries` for the entries in draw
order. -/
theorem upload_vertices_stores (ctx : CoglContext) (ds : DrawState)
    (journal : CoglJournal P R) (hwf : journal_wf journal)
    (hvbo : 0 < journal.needed_vbo_len) :
    upload_vertices ctx ds journal =
      some ((create_attribute_buffer ctx journal (journal.needed_vbo_len * 4)).1,
        (create_attribute_buffer ctx journal (journal.needed_vbo_len * 4)).2,
        upload_entries ds 0 (all_entries journal)) := by
  obtain ⟨hb, hl, _, _⟩ :=
    create_attribute_buffer_shape ctx journal (journal.needed_vbo_len * 4)
  have hwf' : journal_wf (create_attribute_buffer ctx journal (journal.needed_vbo_len * 4)).1 :=
    journal_wf_of_shape journal _ (by rw [batch_lengths, batch_lengths, hb]) hl hwf
  have hall : all_entries (create_attribute_buffer ctx journal (journal.needed_vbo_len * 4)).1 =
      all_entries journal := by
    rw [all_entries, all_entries, hb]
  have hne : journal.needed_vbo_len ≠ 0 := by omega
  unfold upload_vertices
  simp only [hne, if_false, upload_vertices_loop_all ds _ hwf', hall]

theorem expanded_position_zero (ds : DrawState) (entry : CoglJournalEntry) (v : ℕ)
    (hz : (ds.disable_software_transform = true ∧
        entry.position = { f0 := 0, f1 := 0, f2 := 0, f3 := 0 }) ∨
      (ds.disable_software_transform = false ∧ entry.transformed_verts =
        { v0 := { x := 0, y := 0, z := 0 }, v1 := { x := 0, y := 0, z := 0 },
          v2 := { x := 0, y := 0, z := 0 }, v3 := { x := 0, y := 0, z := 0 } })) :
    expanded_position ds entry v = List.replicate (POS_STRIDE ds).toNat (VboWord.float 0) := by
  unfold expanded_position POS_STRIDE
  rcases hz with ⟨hd, hp⟩ | ⟨hd, hp⟩
  · rw [hd, hp]
    match v with
    | 0 => rfl
    | 1 => rfl
    | 2 => rfl
    | _ + 3 => rfl
  · rw [hd, hp]
    match v with
    | 0 => rfl
    | 1 => rfl
    | 2 => rfl
    | _ + 3 => rfl

/-- C12 (amended: vertex expansion).  On a well-formed journal with
`needed_vbo_len > 0`, `upload_vertices` returns, and for every entry, whose
words start after those of the entries before it, it leaves in the buffer four
vertices one stride apart: vertex `v` holds the position words, the entry's
colour and, for each layer, the corner `v` of the layer's texture rectangle in
the order (s0,t0), (s0,t2), (s2,t2), (s2,t0), and nothing in the padding.  The
position words are the entry's transformed vertex `v`, which is the corner `v`
of (x0,y0), (x0,y2), (x2,y2), (x2,y0) under the transform snapshot when the
entry is in sync; without software transform they are the corner itself. -/
theorem upload_expands_quads (c : Collaborators P R) (ctx : CoglContext) (ds : DrawState)
    (journal : CoglJournal P R) (hwf : journal_wf journal)
    (hvbo : 0 < journal.needed_vbo_len) :
    ∃ journal' size stores, upload_vertices ctx ds journal = some (journal', size, stores) ∧
      ∀ pre entry post, all_entries journal = pre ++ entry :: post →
        ∀ v, v < 4 →
          (∀ r, r < entry_stride ds entry →
            vbo_read stores (upload_words ds pre + entry_stride ds entry * v + r) =
              (expanded_vertex ds entry v)[r]?) ∧
          (ds.disable_software_transform = false → entry_in_sync c entry →
            expanded_position ds entry v =
              [VboWord.float ((c.cogl_matrix_transform_points entry.model_view
                  (quad_corners entry.position)).vertex v).x,
                VboWord.float ((c.cogl_matrix_transform_points entry.model_view
                  (quad_corners entry.position)).vertex v).y,
                VboWord.float ((c.cogl_matrix_transform_points entry.model_view
                  (quad_corners entry.position)).vertex v).z]) ∧
          (ds.disable_software_transform = true →
            expanded_position ds entry v =
              [VboWord.float ((quad_corners entry.position).vertex v).x,
                VboWord.float ((quad_corners entry.position).vertex v).y]) := by
  refine ⟨_, _, _, upload_vertices_stores ctx ds journal hwf hvbo, ?_⟩
  intro pre entry post hsplit v hv
  refine ⟨?_, ?_, ?_⟩
  · intro r hr
    rw [hsplit]
    exact upload_entries_read ds pre post entry v r hv hr
  · intro hds hsync
    unfold entry_in_sync at hsync
    rw [← hsync]
    simp [expanded_position, hds]
  · intro hds
    simp only [expanded_position, hds, if_true]
    match v with
    | 0 => rfl
    | 1 => rfl
    | 2 => rfl
    | _ + 3 => rfl

/-- C14 (software clip elimination).  For every entry and every bound with
`x_1 <= x_2` and `y_1 <= y_2` (the all-zero bound included) whose overlap with
the entry's quad has no width or no height, `software_clip_entry` returns an
entry without clip stack whose four uploaded vertices all have the position
words 0: they coincide, and the quad drawn has zero area. -/
theorem software_clip_elimination (c : Collaborators P R) (ds : DrawState)
    (entry : CoglJournalEntry) (bounds : ClipBounds) (vout : ℕ)
    (hx : bounds.x_1 ≤ bounds.x_2) (hy : bounds.y_1 ≤ bounds.y_2)
    (h : overlap_width entry bounds ≤ 0 ∨ overlap_height entry bounds ≤ 0) :
    (software_clip_entry c ds entry bounds).clip_stack = [] ∧
      ∀ v, v < 4 → ∀ r, r < (POS_STRIDE ds).toNat →
        vbo_read (upload_entry ds vout (software_clip_entry c ds entry bounds))
          (vout + entry_stride ds (software_clip_entry c ds entry bounds) * v + r) =
            some (VboWord.float 0) := by
  have hel := software_clip_eliminated c ds entry bounds hx hy h
  have hzero : ∀ v, expanded_position ds (software_clip_entry c ds entry bounds) v =
      List.replicate (POS_STRIDE ds).toNat (VboWord.float 0) := by
    intro v
    apply expanded_position_zero
    rw [hel]
    by_cases hd : ds.disable_software_transform = true
    · left; rw [if_pos hd]; exact ⟨hd, rfl⟩
    · right
      rw [if_neg hd]
      exact ⟨by simpa using hd, rfl⟩
  constructor
  · rw [hel]; split_ifs <;> rfl
  · intro v hv r hr
    have hstride : r < entry_stride ds (software_clip_entry c ds entry bounds) := by
      rw [entry_stride_eq]; omega
    rw [upload_entry_read ds vout _ v r hv hstride, expanded_vertex_getElem?, if_pos hr, hzero v]
    simp [hr]

/-! ## The software clipping pass -/

/-- The shortcut on the previous pipeline does not change the result of
`can_software_clip_entry` when the previous pipeline has passed the test. -/
theorem can_software_clip_entry_prev [DecidableEq P] (c : Collaborators P R)
    (entry_pipeline : P) (journal_entry : CoglJournalEntry) (prev_pipeline : Option P)
    (clip_stack : CoglClipStack)
    (hprev : ∀ p, prev_pipeline = some p → pipeline_usable c p = true) :
    can_software_clip_entry c entry_pipeline journal_entry prev_pipeline clip_stack =
      can_software_clip_entry c entry_pipeline journal_entry none clip_stack := by
  by_cases hcond : prev_pipeline = none ∨ prev_pipeline ≠ some entry_pipeline
  · unfold can_software_clip_entry
    simp only [hcond, if_true, true_or]
  · have hsame : prev_pipeline = some entry_pipeline := by
      by_contra h
      exact hcond (Or.inr h)
    have hus := hprev entry_pipeline hsame
    unfold pipeline_usable at hus
    have hexpr : (c.cogl_pipeline_get_user_program entry_pipeline ||
        (List.range (c.cogl_pipeline_get_n_layers entry_pipeline).toNat).any
          (fun layer_num => c._cogl_pipeline_layer_has_user_matrix entry_pipeline layer_num)) =
        false := by
      simpa using hus
    unfold can_software_clip_entry
    simp only [hcond, if_false, true_or, if_true, hexpr]

theorem can_software_clip_entry_usable [DecidableEq P] (c : Collaborators P R)
    (entry_pipeline : P) (journal_entry : CoglJournalEntry) (clip_stack : CoglClipStack)
    (bounds : ClipBounds)
    (h : can_software_clip_entry c entry_pipeline journal_entry none clip_stack = some bounds) :
    pipeline_usable c entry_pipeline = true := by
  unfold can_software_clip_entry at h
  simp only [true_or, if_true] at h
  unfold pipeline_usable
  split_ifs at h with hu
  simp only [Bool.not_eq_true] at hu
  simp only [hu, Bool.not_false]

/-- The first loop of `maybe_software_clip_entries` over a run of neighbouring
iterators that point to entries computes the bounds of the run. -/
theorem software_clip_bounds_loop_run [DecidableEq P] (c : Collaborators P R)
    (journal : CoglJournal P R) (clip_stack : CoglClipStack) :
    ∀ (l : List CoglJournalIter) (a : CoglJournalIter) (prev_pipeline : Option P),
      List.Chain' (fun a b : CoglJournalIter =>
        _cogl_journal_iterator_next journal a = some b) (a :: l) →
      (∀ it ∈ a :: l, ∃ e, iter_entry journal it = some e) →
      (∀ p, prev_pipeline = some p → pipeline_usable c p = true) →
      software_clip_bounds_loop c journal clip_stack (l.length + 1) a prev_pipeline =
        some (run_bounds c journal clip_stack (a :: l)) := by
  intro l
  induction l with
  | nil =>
    intro a prev _ hvalid hprev
    obtain ⟨e, he⟩ := hvalid a (List.mem_cons_self _ _)
    have hb : ∃ batch, batch_at journal a.batch_num = some batch := by
      unfold iter_entry at he
      cases hk : a.entry with
      | none => simp [hk] at he
      | some k =>
        cases hbb : batch_at journal a.batch_num with
        | none => simp [hk, hbb] at he
        | some batch => exact ⟨batch, rfl⟩
    obtain ⟨batch, hbatch⟩ := hb
    obtain ⟨nx, hnx⟩ := iterator_next_defined journal a e he
    simp only [List.length_nil, Nat.zero_add, software_clip_bounds_loop, hbatch, he,
      can_software_clip_entry_prev c batch.pipeline e prev clip_stack hprev, hnx, run_bounds,
      entry_clip_bounds]
    cases can_software_clip_entry c batch.pipeline e none clip_stack with
    | none => rfl
    | some b => rfl
  | cons a2 t ih =>
    intro a prev hchain hvalid hprev
    obtain ⟨e, he⟩ := hvalid a (List.mem_cons_self _ _)
    have hb : ∃ batch, batch_at journal a.batch_num = some batch := by
      unfold iter_entry at he
      cases hk : a.entry with
      | none => simp [hk] at he
      | some k =>
        cases hbb : batch_at journal a.batch_num with
        | none => simp [hk, hbb] at he
        | some batch => exact ⟨batch, rfl⟩
    obtain ⟨batch, hbatch⟩ := hb
    rw [List.chain'_cons] at hchain
    rw [List.length_cons, software_clip_bounds_loop]
    simp only [hbatch, he, can_software_clip_entry_prev c batch.pipeline e prev clip_stack hprev,
      hchain.1]
    rw [run_bounds, entry_clip_bounds]
    simp only [hbatch, he]
    cases hcan : can_software_clip_entry c batch.pipeline e none clip_stack with
    | none => rfl
    | some b =>
      have hus := can_software_clip_entry_usable c batch.pipeline e clip_stack b hcan
      have := ih a2 (some batch.pipeline) hchain.2
        (fun it hit => hvalid it (List.mem_cons_of_mem _ hit))
        (fun p hp => by
          simp only [Option.some.injEq] at hp
          rw [← hp]; exact hus)
      simp only [this, Option.map_some']

theorem same_frame_refl (journal : CoglJournal P R) : same_frame journal journal :=
  ⟨rfl, rfl, rfl, rfl, rfl, List.forall₂_same.2 (fun _ _ => ⟨rfl, rfl, rfl⟩)⟩

theorem forall₂_trans_same {α : Type} (rel : α → α → Prop)
    (htrans : ∀ a b c, rel a b → rel b c → rel a c) :
    ∀ (l1 l2 l3 : List α), List.Forall₂ rel l1 l2 → List.Forall₂ rel l2 l3 →
      List.Forall₂ rel l1 l3
  | [], _, _, h12, h23 => by
    cases h12
    cases h23
    exact List.Forall₂.nil
  | x :: l1, _, _, h12, h23 => by
    cases h12 with
    | cons hxy h12' =>
      cases h23 with
      | cons hyz h23' =>
        exact List.Forall₂.cons (htrans _ _ _ hxy hyz)
          (forall₂_trans_same rel htrans l1 _ _ h12' h23')

theorem same_frame_trans (j1 j2 j3 : CoglJournal P R) (h12 : same_frame j1 j2)
    (h23 : same_frame j2 j3) : same_frame j1 j3 := by
  obtain ⟨a1, a2, a3, a4, a5, a6⟩ := h12
  obtain ⟨b1, b2, b3, b4, b5, b6⟩ := h23
  refine ⟨by rw [b1, a1], by rw [b2, a2], by rw [b3, a3], by rw [b4, a4], by rw [b5, a5], ?_⟩
  exact forall₂_trans_same _ (fun x y z hxy hyz => ⟨by rw [hyz.1, hxy.1],
    by rw [hyz.2.1, hxy.2.1], by rw [hyz.2.2, hxy.2.2]⟩) _ _ _ a6 b6

theorem forall₂_set_right {α : Type} (rel : α → α → Prop) (hrefl : ∀ a, rel a a) :
    ∀ (l : List α) (n : ℕ) (a a' : α), l.get? n = some a → rel a a' →
      List.Forall₂ rel l (l.set n a')
  | [], _, _, _, h, _ => by simp at h
  | x :: l, 0, a, a', h, hr => by
    simp only [List.get?_cons_zero, Option.some.injEq] at h
    subst h
    exact List.Forall₂.cons hr (List.forall₂_same.2 (fun _ _ => hrefl _))
  | x :: l, n + 1, a, a', h, hr => by
    simp only [List.get?_cons_succ] at h
    exact List.Forall₂.cons (hrefl x) (forall₂_set_right rel hrefl l n a a' h hr)

theorem same_frame_set_iter_entry (journal : CoglJournal P R) (iter : CoglJournalIter)
    (e' : CoglJournalEntry) : same_frame journal (set_iter_entry journal iter e') := by
  unfold set_iter_entry
  cases hk : iter.entry with
  | none => exact same_frame_refl journal
  | some k =>
    cases hb : batch_at journal iter.batch_num with
    | none => exact same_frame_refl journal
    | some batch =>
      refine ⟨rfl, rfl, rfl, rfl, rfl, ?_⟩
      simp only
      apply forall₂_set_right _ (fun _ => ⟨rfl, rfl, rfl⟩) _ _ batch
      · unfold batch_at at hb
        split at hb
        · exact absurd hb (by simp)
        · exact hb
      · exact ⟨rfl, rfl, by simp⟩

theorem same_frame_lengths (journal journal' : CoglJournal P R)
    (h : same_frame journal journal') : batch_lengths journal' = batch_lengths journal := by
  obtain ⟨_, _, _, _, _, h6⟩ := h
  unfold batch_lengths
  generalize journal.batches = l at h6
  generalize journal'.batches = l' at h6
  induction h6 with
  | nil => rfl
  | cons hab _ ih => simp only [List.map_cons, hab.2.2, ih]

theorem iters_of_congr : ∀ (l l' : List (CoglJournalBatch P R)) (b0 : ℕ),
    l.map (fun batch => batch.entries.length) = l'.map (fun batch => batch.entries.length) →
    iters_of b0 l = iters_of b0 l'
  | [], [], _, _ => rfl
  | [], _ :: _, _, h => by simp at h
  | _ :: _, [], _, h => by simp at h
  | x :: l, y :: l', b0, h => by
    simp only [List.map_cons, List.cons.injEq] at h
    rw [iters_of, iters_of, h.1, iters_of_congr l l' (b0 + 1) h.2]

theorem same_frame_all_iters (journal journal' : CoglJournal P R)
    (h : same_frame journal journal') : all_iters journal' = all_iters journal :=
  iters_of_congr _ _ 0 (same_frame_lengths journal journal' h)

theorem same_frame_nonempty (journal journal' : CoglJournal P R)
    (h : same_frame journal journal') (hne : ∀ batch ∈ journal.batches, batch.entries ≠ []) :
    ∀ batch ∈ journal'.batches, batch.entries ≠ [] := by
  obtain ⟨_, _, _, _, _, h6⟩ := h
  intro batch' hb'
  obtain ⟨batch, hb, hrel⟩ := forall₂_mem_left (fun (x y : CoglJournalBatch P R) =>
    x.pipeline = y.pipeline ∧ x.region = y.region ∧ x.entries.length = y.entries.length)
    _ _ (List.Forall₂.flip h6) batch' hb'
  intro hnil
  apply hne batch hb
  apply List.length_eq_zero.1
  rw [← hrel.2.2, hnil]; rfl

/-- The entry behind an iterator after `set_iter_entry` at a position of the
journal. -/
theorem iter_entry_set_iter_entry (journal : CoglJournal P R) (b k : ℕ)
    (batch : CoglJournalBatch P R) (e' : CoglJournalEntry)
    (hb : journal.batches.get? b = some batch) (hk : k < batch.entries.length)
    (it : CoglJournalIter) :
    iter_entry (set_iter_entry journal { entry := some k, batch_num := (b : ℤ) } e') it =
      if it = { entry := some k, batch_num := (b : ℤ) } then some e'
      else iter_entry journal it := by
  have hblt : b < journal.batches.length := (List.get?_eq_some.1 hb).1
  obtain ⟨entry, bn⟩ := it
  cases entry with
  | none => simp [iter_entry]
  | some k' =>
    by_cases hneg : bn < 0
    · have hne : ¬ (k' = k ∧ bn = (b : ℤ)) := fun h => by omega
      simp [iter_entry, batch_at, hneg, hne]
    · obtain ⟨n, hn⟩ := Int.eq_ofNat_of_zero_le (not_lt.1 hneg)
      subst hn
      unfold iter_entry
      simp only [batch_at_nat, set_iter_entry_batches journal b k batch e' hb,
        List.get?_eq_getElem?, List.getElem?_set, CoglJournalIter.mk.injEq, Option.some.injEq,
        Nat.cast_inj]
      rw [List.get?_eq_getElem?] at hb
      by_cases hnb : b = n
      · subst hnb
        simp only [if_true, hblt, hb, List.getElem?_set, and_true]
        by_cases hkk : k = k'
        · subst hkk
          simp [hk]
        · have : ¬ k' = k := fun h => hkk h.symm
          simp [hkk, this]
      · have : ¬ n = b := fun h => hnb h.symm
        simp [hnb, this]

theorem all_iters_valid (journal : CoglJournal P R) (it : CoglJournalIter)
    (hit : it ∈ all_iters journal) :
    ∃ (b k : ℕ) (batch : CoglJournalBatch P R) (e : CoglJournalEntry),
      it = { entry := some k, batch_num := (b : ℤ) } ∧ journal.batches.get? b = some batch ∧
      batch.entries.get? k = some e ∧ batch_at journal it.batch_num = some batch ∧
      iter_entry journal it = some e := by
  obtain ⟨i, k, batch, hi, hk, heq⟩ := (mem_iters_of journal.batches 0 it).1 hit
  rw [zero_add] at heq
  refine ⟨i, k, batch, batch.entries.get ⟨k, hk⟩, heq, hi, List.get?_eq_get hk, ?_, ?_⟩
  · rw [heq, batch_at_nat, hi]
  · rw [heq, iter_entry_nat journal i k batch hi]; exact List.get?_eq_get hk

theorem all_iters_next (journal : CoglJournal P R)
    (hne : ∀ batch ∈ journal.batches, batch.entries ≠ [])
    (pre rest : List CoglJournalIter) (a a2 : CoglJournalIter)
    (hsplit : all_iters journal = pre ++ a :: a2 :: rest) :
    _cogl_journal_iterator_next journal a = some a2 := by
  have hchain := iters_of_chain journal journal.batches [] rfl hne
  have h : List.Chain' (fun a b : CoglJournalIter =>
      _cogl_journal_iterator_next journal a = some b ∧
        _cogl_journal_iterator_previous journal b = some a) (all_iters journal) := hchain
  rw [hsplit, List.chain'_split, List.chain'_cons] at h
  exact h.2.1.1

/-- The second loop of `maybe_software_clip_entries` over a run of the journal:
it returns, every entry of the run is replaced by what `software_clip_entry`
makes of it with its bound, and nothing else changes. -/
theorem software_clip_entries_loop_run (c : Collaborators P R) (ds : DrawState)
    (f : CoglJournalIter → ClipBounds) :
    ∀ (t : List CoglJournalIter) (a : CoglJournalIter) (journal : CoglJournal P R)
      (pre post : List CoglJournalIter),
      all_iters journal = pre ++ (a :: t) ++ post →
      (∀ batch ∈ journal.batches, batch.entries ≠ []) →
      ∃ journal', software_clip_entries_loop c ds journal ((a :: t).map f) a = some journal' ∧
        same_frame journal journal' ∧
        (∀ it, it ∉ a :: t → iter_entry journal' it = iter_entry journal it) ∧
        (∀ it ∈ a :: t, iter_entry journal' it =
          (iter_entry journal it).map (fun e => software_clip_entry c ds e (f it))) := by
  intro t
  induction t with
  | nil =>
    intro a journal pre post hsplit hne
    have ha : a ∈ all_iters journal := by rw [hsplit]; simp
    obtain ⟨b, k, batch, e, heq, hb, hk, _, he⟩ := all_iters_valid journal a ha
    have hklt : k < batch.entries.length := (List.get?_eq_some.1 hk).1
    have hset := iter_entry_set_iter_entry journal b k batch
      (software_clip_entry c ds e (f a)) hb hklt
    rw [← heq] at hset
    have hself := hset a
    rw [if_pos rfl] at hself
    obtain ⟨nx, hnx⟩ := iterator_next_defined _ a _ hself
    refine ⟨set_iter_entry journal a (software_clip_entry c ds e (f a)), ?_,
      same_frame_set_iter_entry journal a _, ?_, ?_⟩
    · simp only [List.map_cons, List.map_nil, software_clip_entries_loop, he, hnx]
    · intro it hit
      have hne' : it ≠ a := fun h => hit (by rw [h]; simp)
      rw [hset it, if_neg hne']
    · intro it hit
      simp only [List.mem_singleton] at hit
      subst hit
      rw [hself, he]; rfl
  | cons a2 t ih =>
    intro a journal pre post hsplit hne
    have ha : a ∈ all_iters journal := by rw [hsplit]; simp
    obtain ⟨b, k, batch, e, heq, hb, hk, _, he⟩ := all_iters_valid journal a ha
    have hklt : k < batch.entries.length := (List.get?_eq_some.1 hk).1
    have hset := iter_entry_set_iter_entry journal b k batch
      (software_clip_entry c ds e (f a)) hb hklt
    rw [← heq] at hset
    have hself := hset a
    rw [if_pos rfl] at hself
    have hframe := same_frame_set_iter_entry journal a (software_clip_entry c ds e (f a))
    have hne1 := same_frame_nonempty journal _ hframe hne
    have hall1 := same_frame_all_iters journal _ hframe
    have hsplit1 : all_iters (set_iter_entry journal a (software_clip_entry c ds e (f a))) =
        (pre ++ [a]) ++ (a2 :: t) ++ post := by
      rw [hall1, hsplit]; simp
    have hnext : _cogl_journal_iterator_next
        (set_iter_entry journal a (software_clip_entry c ds e (f a))) a = some a2 := by
      apply all_iters_next _ hne1 pre (t ++ post) a a2
      rw [hall1, hsplit]; simp
    obtain ⟨journal', hloop, hframe', hother, hrun⟩ := ih a2 _ (pre ++ [a]) post hsplit1 hne1
    have hnodup : (all_iters journal).Nodup := iters_of_nodup _ 0
    have hanot : a ∉ a2 :: t := by
      rw [hsplit] at hnodup
      have h1 := (List.nodup_append.1 hnodup).1
      have h2 := (List.nodup_append.1 h1).2.1
      exact (List.nodup_cons.1 h2).1
    refine ⟨journal', ?_, same_frame_trans _ _ _ hframe hframe', ?_, ?_⟩
    · simp only [List.map_cons, software_clip_entries_loop, he, hnext]
      simpa using hloop
    · intro it hit
      have hne' : it ≠ a := fun h => hit (by rw [h]; simp)
      have hit' : it ∉ a2 :: t := fun h => hit (List.mem_cons_of_mem _ h)
      rw [hother it hit', hset it, if_neg hne']
    · intro it hit
      rcases List.mem_cons.1 hit with h | h
      · subst h
        rw [hother it hanot, hself, he]; rfl
      · have hne' : it ≠ a := fun heq' => hanot (by rw [← heq']; exact h)
        rw [hrun it h, hset it, if_neg hne']

theorem run_bounds_some [DecidableEq P] (c : Collaborators P R) (journal : CoglJournal P R)
    (clip_stack : CoglClipStack) :
    ∀ (run : List CoglJournalIter),
      (∀ it ∈ run, (entry_clip_bounds c journal clip_stack it).isSome = true) →
      run_bounds c journal clip_stack run =
        some (run.map (fun it =>
          (entry_clip_bounds c journal clip_stack it).getD
            { x_1 := 0, y_1 := 0, x_2 := 0, y_2 := 0 }))
  | [], _ => rfl
  | it :: rest, h => by
    have hit := h it (List.mem_cons_self _ _)
    obtain ⟨b, hb⟩ := Option.isSome_iff_exists.1 hit
    rw [run_bounds, hb, run_bounds_some c journal clip_stack rest
      (fun x hx => h x (List.mem_cons_of_mem _ hx))]
    simp [hb]

theorem run_bounds_none [DecidableEq P] (c : Collaborators P R) (journal : CoglJournal P R)
    (clip_stack : CoglClipStack) :
    ∀ (run : List CoglJournalIter),
      ¬ (∀ it ∈ run, (entry_clip_bounds c journal clip_stack it).isSome = true) →
      run_bounds c journal clip_stack run = none
  | [], h => absurd (fun _ hx => by simp at hx) h
  | it :: rest, h => by
    rw [run_bounds]
    cases hb : entry_clip_bounds c journal clip_stack it with
    | none => rfl
    | some b =>
      have : ¬ (∀ x ∈ rest, (entry_clip_bounds c journal clip_stack x).isSome = true) := by
        intro hall
        apply h
        intro x hx
        rcases List.mem_cons.1 hx with hx | hx
        · rw [hx, hb]; rfl
        · exact hall x hx
      simp only [run_bounds_none c journal clip_stack rest this, Option.map_none']

theorem software_clip_entry_clip_stack (c : Collaborators P R) (ds : DrawState)
    (entry : CoglJournalEntry) (bounds : ClipBounds) :
    (software_clip_entry c ds entry bounds).clip_stack = [] := by
  unfold software_clip_entry
  simp only
  split_ifs <;> rfl

/-- The software clipping pass on one run: the statement behind the
all-or-nothing property. -/
theorem maybe_software_clip_entries_run [DecidableEq P] (c : Collaborators P R) (ds : DrawState)
    (journal : CoglJournal P R) (pre run post : List CoglJournalIter)
    (start : CoglJournalIter) (first : CoglJournalEntry)
    (hne : ∀ batch ∈ journal.batches, batch.entries ≠ [])
    (hsplit : all_iters journal = pre ++ run ++ post)
    (hstart : run.head? = some start)
    (hfirst : iter_entry journal start = some first) :
    ∃ journal', maybe_software_clip_entries c ds journal start run.length = some journal' ∧
      same_frame journal journal' ∧
      (run_clippable c journal run first.clip_stack →
        (∀ it ∈ run, ∃ e bounds, iter_entry journal it = some e ∧
          entry_clip_bounds c journal first.clip_stack it = some bounds ∧
          iter_entry journal' it = some (software_clip_entry c ds e bounds) ∧
          (software_clip_entry c ds e bounds).clip_stack = []) ∧
        (∀ it, it ∉ run → iter_entry journal' it = iter_entry journal it)) ∧
      (¬ run_clippable c journal run first.clip_stack → journal' = journal) := by
  cases run with
  | nil => simp at hstart
  | cons a t =>
    simp only [List.head?_cons, Option.some.injEq] at hstart
    subst hstart
    have hsame : ∀ (hnot : ¬ run_clippable c journal (a :: t) first.clip_stack),
        maybe_software_clip_entries c ds journal a ((a :: t).length : ℕ) = some journal →
        ∃ journal', maybe_software_clip_entries c ds journal a ((a :: t).length : ℕ) =
            some journal' ∧
          same_frame journal journal' ∧
          (run_clippable c journal (a :: t) first.clip_stack →
            (∀ it ∈ a :: t, ∃ e bounds, iter_entry journal it = some e ∧
              entry_clip_bounds c journal first.clip_stack it = some bounds ∧
              iter_entry journal' it = some (software_clip_entry c ds e bounds) ∧
              (software_clip_entry c ds e bounds).clip_stack = []) ∧
            (∀ it, it ∉ a :: t → iter_entry journal' it = iter_entry journal it)) ∧
          (¬ run_clippable c journal (a :: t) first.clip_stack → journal' = journal) :=
      fun hnot h => ⟨journal, h, same_frame_refl journal, fun hc => absurd hc hnot, fun _ => rfl⟩
    by_cases hlen : ((a :: t).length : ℤ) ≥ COGL_JOURNAL_HARDWARE_CLIP_THRESHOLD
    · apply hsame
      · intro hc; exact absurd hc.1 (not_lt.2 hlen)
      · unfold maybe_software_clip_entries
        rw [if_pos hlen]
    by_cases hnil : first.clip_stack = []
    · apply hsame
      · intro hc; exact hc.2.1 hnil
      · unfold maybe_software_clip_entries
        rw [if_neg hlen]
        simp only [hfirst, hnil, if_true]
    by_cases hany : first.clip_stack.any
        (fun clip_entry => decide (clip_entry.type ≠ CoglClipStackType.COGL_CLIP_STACK_RECT)) = true
    · apply hsame
      · intro hc
        obtain ⟨node, hnode, hty⟩ := List.any_eq_true.1 hany
        have := hc.2.2.1 node hnode
        simp [this] at hty
      · unfold maybe_software_clip_entries
        rw [if_neg hlen]
        simp only [hfirst, hnil, if_false, hany, if_true]
    have hrect : ∀ node ∈ first.clip_stack,
        node.type = CoglClipStackType.COGL_CLIP_STACK_RECT := by
      intro node hnode
      by_contra hty
      apply hany
      exact List.any_eq_true.2 ⟨node, hnode, by simpa using hty⟩
    have hchainall : List.Chain' (fun a b : CoglJournalIter =>
        _cogl_journal_iterator_next journal a = some b) (all_iters journal) :=
      List.Chain'.imp (fun a b h => h.1) (iters_of_chain journal journal.batches [] rfl hne)
    have hchain : List.Chain' (fun a b : CoglJournalIter =>
        _cogl_journal_iterator_next journal a = some b) (a :: t) := by
      rw [hsplit] at hchainall
      exact (List.chain'_append.1 (List.chain'_append.1 hchainall).1).2.1
    have hvalid : ∀ it ∈ a :: t, ∃ e, iter_entry journal it = some e := by
      intro it hit
      obtain ⟨_, _, _, e, _, _, _, _, he⟩ := all_iters_valid journal it
        (by rw [hsplit]; simp only [List.mem_append]; exact Or.inl (Or.inr hit))
      exact ⟨e, he⟩
    have hloop1 := software_clip_bounds_loop_run c journal first.clip_stack t a none hchain
      hvalid (fun p hp => by simp at hp)
    have htoNat : (((a :: t).length : ℕ) : ℤ).toNat = t.length + 1 := by simp
    by_cases hall : ∀ it ∈ a :: t,
        (entry_clip_bounds c journal first.clip_stack it).isSome = true
    · have hclip : run_clippable c journal (a :: t) first.clip_stack :=
        ⟨not_le.1 hlen, hnil, hrect, hall⟩
      obtain ⟨journal', hloop2, hframe, hother, hrun⟩ :=
        software_clip_entries_loop_run c ds
          (fun it => (entry_clip_bounds c journal first.clip_stack it).getD
            { x_1 := 0, y_1 := 0, x_2 := 0, y_2 := 0 }) t a journal pre post hsplit hne
      refine ⟨journal', ?_, hframe, fun _ => ⟨?_, hother⟩, fun hnot => absurd hclip hnot⟩
      · unfold maybe_software_clip_entries
        rw [if_neg hlen]
        simp only [hfirst, hnil, if_false, hany, Bool.false_eq_true, htoNat, hloop1,
          run_bounds_some c journal first.clip_stack (a :: t) hall]
        exact hloop2
      · intro it hit
        obtain ⟨e, he⟩ := hvalid it hit
        obtain ⟨b, hb⟩ := Option.isSome_iff_exists.1 (hall it hit)
        refine ⟨e, b, he, hb, ?_, software_clip_entry_clip_stack c ds e b⟩
        rw [hrun it hit, he, hb]
        rfl
    · apply hsame
      · intro hc; exact hall hc.2.2.2
      · unfold maybe_software_clip_entries
        rw [if_neg hlen]
        simp only [hfirst, hnil, if_false, hany, Bool.false_eq_true, htoNat, hloop1,
          run_bounds_none c journal first.clip_stack (a :: t) hall]

/-- C16 (software-clip analysis is all-or-nothing per run).  For a run of
neighbouring entries of a journal without empty batch, starting at `start`,
`maybe_software_clip_entries` returns and changes nothing but the contents of
entries.  If the run is shorter than 8, the clip stack of its first entry is not
`NULL`, every node of that chain is a rectangle clip and
`can_software_clip_entry` succeeds for every entry of the run, then every entry
of the run is replaced by what `software_clip_entry` makes of it with its bound
(its clip stack is cleared) and no other entry changes; in every other case the
journal is left as it was. -/
theorem software_clip_all_or_nothing [DecidableEq P] (c : Collaborators P R) (ds : DrawState)
    (journal : CoglJournal P R) (pre run post : List CoglJournalIter)
    (start : CoglJournalIter) (first : CoglJournalEntry)
    (hne : ∀ batch ∈ journal.batches, batch.entries ≠ [])
    (hsplit : all_iters journal = pre ++ run ++ post)
    (hstart : run.head? = some start)
    (hfirst : iter_entry journal start = some first) :
    ∃ journal', maybe_software_clip_entries c ds journal start run.length = some journal' ∧
      same_frame journal journal' ∧
      (run_clippable c journal run first.clip_stack →
        (∀ it ∈ run, ∃ e bounds, iter_entry journal it = some e ∧
          entry_clip_bounds c journal first.clip_stack it = some bounds ∧
          iter_entry journal' it = some (software_clip_entry c ds e bounds) ∧
          (software_clip_entry c ds e bounds).clip_stack = []) ∧
        (∀ it, it ∉ run → iter_entry journal' it = iter_entry journal it)) ∧
      (¬ run_clippable c journal run first.clip_stack → journal' = journal) :=
  maybe_software_clip_entries_run c ds journal pre run post start first hne hsplit hstart hfirst

/-! ## `batch_and_call` with data: the runs -/

theorem split_acc_flatten {α : Type} (p : α → α → Bool) :
    ∀ (rest cur : List α) (prev : α), (split_acc p cur prev rest).flatten = cur ++ rest
  | [], cur, _ => by simp [split_acc]
  | x :: rest, cur, prev => by
    rw [split_acc]
    split_ifs
    · rw [split_acc_flatten p rest]; simp
    · rw [List.flatten_cons, split_acc_flatten p rest]; simp

theorem split_acc_nonempty {α : Type} (p : α → α → Bool) :
    ∀ (rest cur : List α) (prev : α), cur ≠ [] → ∀ r ∈ split_acc p cur prev rest, r ≠ []
  | [], cur, _, hcur, r, hr => by
    simp only [split_acc, List.mem_singleton] at hr
    rw [hr]; exact hcur
  | x :: rest, cur, prev, hcur, r, hr => by
    rw [split_acc] at hr
    split_ifs at hr
    · exact split_acc_nonempty p rest _ x (by simp) r hr
    · rcases List.mem_cons.1 hr with h | h
      · rw [h]; exact hcur
      · exact split_acc_nonempty p rest _ x (by simp) r h

theorem split_acc_chain {α : Type} (p : α → α → Bool) :
    ∀ (rest cur : List α) (prev : α), cur.getLast? = some prev →
      cur.Chain' (fun a b => p a b = true) →
      ∀ r ∈ split_acc p cur prev rest, r.Chain' (fun a b => p a b = true)
  | [], cur, _, _, hc, r, hr => by
    simp only [split_acc, List.mem_singleton] at hr
    rw [hr]; exact hc
  | x :: rest, cur, prev, hlast, hc, r, hr => by
    rw [split_acc] at hr
    split_ifs at hr with hp
    · apply split_acc_chain p rest (cur ++ [x]) x (by simp) _ r hr
      rw [List.chain'_append]
      refine ⟨hc, List.chain'_singleton _, ?_⟩
      intro a ha b hb
      rw [hlast] at ha
      simp only [Option.mem_def, Option.some.injEq, List.head?_cons] at ha hb
      rw [← ha, ← hb]; exact hp
    · rcases List.mem_cons.1 hr with h | h
      · rw [h]; exact hc
      · exact split_acc_chain p rest [x] x (by simp) (List.chain'_singleton _) r h

theorem split_runs_flatten {α : Type} (p : α → α → Bool) (l : List α) :
    (split_runs p l).flatten = l := by
  cases l with
  | nil => rfl
  | cons a l => rw [split_runs, split_acc_flatten]; rfl

theorem split_runs_nonempty {α : Type} (p : α → α → Bool) (l : List α) :
    ∀ r ∈ split_runs p l, r ≠ [] := by
  cases l with
  | nil => intro r hr; simp [split_runs] at hr
  | cons a l => exact split_acc_nonempty p l [a] a (by simp)

theorem split_runs_chain {α : Type} (p : α → α → Bool) (l : List α) :
    ∀ r ∈ split_runs p l, r.Chain' (fun a b => p a b = true) := by
  cases l with
  | nil => intro r hr; simp [split_runs] at hr
  | cons a l => exact split_acc_chain p l [a] a (by simp) (List.chain'_singleton _)

/-- The loop of `batch_and_call` on a fixed journal, over neighbouring
iterators on whose adjacent pairs the test is defined and equal to `p`: the
callback is invoked for the maximal runs in turn. -/
theorem batch_and_call_data_loop_runs {S : Type} (journal : CoglJournal P R)
    (can_batch_callback : CoglJournal P R → CoglJournalIter → CoglJournalIter → Option Bool)
    (batch_callback : S → CoglJournalIter → ℤ → Option S)
    (p : CoglJournalIter → CoglJournalIter → Bool) :
    ∀ (rest cur : List CoglJournalIter) (batch_start prev : CoglJournalIter) (data : S),
      cur.head? = some batch_start →
      List.Chain' (fun a b : CoglJournalIter =>
        _cogl_journal_iterator_next journal a = some b ∧
          can_batch_callback journal a b = some (p a b)) (prev :: rest) →
      batch_and_call_data_loop (fun _ => journal) can_batch_callback batch_callback
          rest.length data batch_start prev cur.length =
        run_callbacks batch_callback (split_acc p cur prev rest) data
  | [], cur, batch_start, prev, data, hhead, _ => by
    simp only [List.length_nil, batch_and_call_data_loop, split_acc, run_callbacks, hhead]
    cases batch_callback data batch_start cur.length <;> rfl
  | x :: rest, cur, batch_start, prev, data, hhead, hchain => by
    rw [List.chain'_cons] at hchain
    obtain ⟨⟨hnext, hcmp⟩, hchain'⟩ := hchain
    rw [List.length_cons, batch_and_call_data_loop, split_acc]
    simp only [hnext, hcmp]
    by_cases hp : p prev x = true
    · simp only [hp, if_true]
      have := batch_and_call_data_loop_runs journal can_batch_callback batch_callback p rest
        (cur ++ [x]) batch_start x data (by
          cases cur with
          | nil => simp at hhead
          | cons c cs => simpa using hhead) hchain'
      rw [← this]
      simp
    · have hp' : p prev x = false := by simpa using hp
      simp only [hp', Bool.false_eq_true, if_false, run_callbacks, hhead]
      cases hcb : batch_callback data batch_start cur.length with
      | none => rfl
      | some data' =>
        simp only
        have := batch_and_call_data_loop_runs journal can_batch_callback batch_callback p rest
          [x] x x data' rfl hchain'
        simpa using this

/-- The function `batch_and_call` on a fixed journal over a run of neighbouring
iterators: the callback is invoked for the maximal runs in turn. -/
theorem batch_and_call_data_runs {S : Type} (journal : CoglJournal P R)
    (can_batch_callback : CoglJournal P R → CoglJournalIter → CoglJournalIter → Option Bool)
    (batch_callback : S → CoglJournalIter → ℤ → Option S)
    (p : CoglJournalIter → CoglJournalIter → Bool)
    (a : CoglJournalIter) (t : List CoglJournalIter) (data : S)
    (hchain : List.Chain' (fun a b : CoglJournalIter =>
      _cogl_journal_iterator_next journal a = some b ∧
        can_batch_callback journal a b = some (p a b)) (a :: t)) :
    batch_and_call_data (fun _ => journal) can_batch_callback batch_callback a
        ((a :: t).length : ℕ) data =
      run_callbacks batch_callback (split_runs p (a :: t)) data := by
  have h1 : ¬ ((((a :: t).length : ℕ) : ℤ) < 1) := by simp
  have h2 : ((((a :: t).length : ℕ) : ℤ) - 1).toNat = t.length := by simp
  rw [batch_and_call_data, if_neg h1, h2, split_runs]
  exact batch_and_call_data_loop_runs journal can_batch_callback batch_callback p t [a] a a data
    rfl hchain

/-! ## The flush: the clipping pass -/

theorem software_clip_entry_n_layers (c : Collaborators P R) (ds : DrawState)
    (entry : CoglJournalEntry) (bounds : ClipBounds) :
    (software_clip_entry c ds entry bounds).n_layers = entry.n_layers := by
  unfold software_clip_entry
  simp only
  split_ifs <;> rfl

theorem layers_kept_refl (journal : CoglJournal P R) : layers_kept journal journal :=
  fun _ => rfl

theorem layers_kept_trans (j1 j2 j3 : CoglJournal P R) (h12 : layers_kept j1 j2)
    (h23 : layers_kept j2 j3) : layers_kept j1 j3 :=
  fun it => by rw [h23 it, h12 it]

/-- The software clipping pass on one run returns, keeps the frame of the
journal and the number of layers of every entry. -/
theorem maybe_software_clip_entries_kept [DecidableEq P] (c : Collaborators P R)
    (ds : DrawState) (journal : CoglJournal P R) (pre run post : List CoglJournalIter)
    (start : CoglJournalIter)
    (hne : ∀ batch ∈ journal.batches, batch.entries ≠ [])
    (hsplit : all_iters journal = pre ++ run ++ post)
    (hstart : run.head? = some start) :
    ∃ journal', maybe_software_clip_entries c ds journal start run.length = some journal' ∧
      same_frame journal journal' ∧ layers_kept journal journal' := by
  have hmem : start ∈ all_iters journal := by
    rw [hsplit]
    have : start ∈ run := List.mem_of_mem_head? hstart
    simp [this]
  obtain ⟨_, _, _, first, _, _, _, _, hfirst⟩ := all_iters_valid journal start hmem
  obtain ⟨journal', h1, h2, h3, h4⟩ := maybe_software_clip_entries_run c ds journal pre run post
    start first hne hsplit hstart hfirst
  refine ⟨journal', h1, h2, ?_⟩
  by_cases hc : run_clippable c journal run first.clip_stack
  · obtain ⟨hin, hout⟩ := h3 hc
    intro it
    by_cases hit : it ∈ run
    · obtain ⟨e, b, he, _, he', _⟩ := hin it hit
      rw [he, he']
      simp [software_clip_entry_n_layers]
    · rw [hout it hit]
  · rw [h4 hc]
    exact layers_kept_refl journal

theorem compare_entry_clip_stacks_defined (journal : CoglJournal P R)
    (a b : CoglJournalIter) (ha : a ∈ all_iters journal) (hb : b ∈ all_iters journal) :
    ∃ v, compare_entry_clip_stacks journal a b = some v := by
  obtain ⟨_, _, _, ea, _, _, _, _, hea⟩ := all_iters_valid journal a ha
  obtain ⟨_, _, _, eb, _, _, _, _, heb⟩ := all_iters_valid journal b hb
  simp only [compare_entry_clip_stacks, hea, heb]
  exact ⟨_, rfl⟩

/-- The loop of `batch_and_call` of the clipping pass, with the run `cur` under
way and the iterators `rest` still to come: it returns, and keeps the frame of
the journal and the number of layers of every entry. -/
theorem clip_pass_loop [DecidableEq P] (c : Collaborators P R) (ds : DrawState) :
    ∀ (rest cur pre post : List CoglJournalIter) (batch_start prev : CoglJournalIter)
      (journal : CoglJournal P R),
      all_iters journal = pre ++ cur ++ rest ++ post →
      (∀ batch ∈ journal.batches, batch.entries ≠ []) →
      cur.head? = some batch_start → cur.getLast? = some prev →
      ∃ journal', batch_and_call_data_loop (fun j => j) compare_entry_clip_stacks
          (_cogl_journal_maybe_software_clip_entries c ds) rest.length journal batch_start prev
          cur.length = some journal' ∧
        same_frame journal journal' ∧ layers_kept journal journal' := by
  intro rest
  induction rest with
  | nil =>
    intro cur pre post batch_start prev journal hsplit hne hhead _
    rw [List.append_nil] at hsplit
    simp only [List.length_nil, batch_and_call_data_loop,
      _cogl_journal_maybe_software_clip_entries]
    exact maybe_software_clip_entries_kept c ds journal pre cur post batch_start hne hsplit hhead
  | cons x rest ih =>
    intro cur pre post batch_start prev journal hsplit hne hhead hlast
    have hcur : cur = cur.dropLast ++ [prev] := by
      have hne' : cur ≠ [] := by
        intro h; rw [h] at hlast; simp at hlast
      have := List.dropLast_append_getLast hne'
      rw [List.getLast?_eq_getLast _ hne', Option.some.injEq] at hlast
      rw [hlast] at this
      exact this.symm
    have hnext : _cogl_journal_iterator_next journal prev = some x := by
      apply all_iters_next journal hne (pre ++ cur.dropLast) (rest ++ post) prev x
      rw [hsplit]
      conv_lhs => rw [hcur]
      simp
    have hprev_mem : prev ∈ all_iters journal := by
      rw [hsplit, hcur]; simp
    have hx_mem : x ∈ all_iters journal := by
      rw [hsplit]; simp
    obtain ⟨v, hv⟩ := compare_entry_clip_stacks_defined journal prev x hprev_mem hx_mem
    rw [List.length_cons, batch_and_call_data_loop]
    simp only [hnext, hv]
    cases v with
    | true =>
      simp only
      have hsplit' : all_iters journal = pre ++ (cur ++ [x]) ++ rest ++ post := by
        rw [hsplit]; simp
      have := ih (cur ++ [x]) pre post batch_start x journal hsplit' hne
        (by
          cases cur with
          | nil => simp at hhead
          | cons c0 cs => simpa using hhead) (by simp)
      simpa using this
    | false =>
      simp only
      obtain ⟨j1, hcb, hf1, hl1⟩ := maybe_software_clip_entries_kept c ds journal pre cur
        (x :: rest ++ post) batch_start hne (by rw [hsplit]; simp) hhead
      rw [_cogl_journal_maybe_software_clip_entries, hcb]
      simp only
      have hsplit1 : all_iters j1 = (pre ++ cur) ++ [x] ++ rest ++ post := by
        rw [same_frame_all_iters journal j1 hf1, hsplit]; simp
      obtain ⟨j', hloop, hf2, hl2⟩ := ih [x] (pre ++ cur) post x x j1 hsplit1
        (same_frame_nonempty journal j1 hf1 hne) rfl rfl
      exact ⟨j', by simpa using hloop, same_frame_trans _ _ _ hf1 hf2,
        layers_kept_trans _ _ _ hl1 hl2⟩

/-- The clipping pass of the flush over a well-formed journal that is not empty
returns, and keeps the frame of the journal and the number of layers of every
entry. -/
theorem clip_pass_kept [DecidableEq P] (c : Collaborators P R) (ds : DrawState)
    (journal : CoglJournal P R) (hwf : journal_wf journal) (hlen : journal.journal_len ≠ 0) :
    ∃ journal', batch_and_call_data (fun j => j) compare_entry_clip_stacks
        (_cogl_journal_maybe_software_clip_entries c ds) (_cogl_journal_iterator_init journal)
        journal.journal_len journal = some journal' ∧
      same_frame journal journal' ∧ layers_kept journal journal' := by
  have hpos : journal.batches ≠ [] := by
    intro hnil
    apply hlen
    rw [hwf.2]
    simp [all_entries, hnil]
  obtain ⟨l, hl⟩ := all_iters_head journal hwf.1 hpos
  have hcount : l.length + 1 = journal.journal_len := by
    have := all_iters_length journal
    rw [hl, ← hwf.2] at this
    simpa using this
  have h1 : ¬ ((journal.journal_len : ℤ) < 1) := by omega
  have h2 : ((journal.journal_len : ℤ) - 1).toNat = l.length := by omega
  rw [batch_and_call_data, if_neg h1, h2]
  have := clip_pass_loop c ds l [_cogl_journal_iterator_init journal] [] []
    (_cogl_journal_iterator_init journal) (_cogl_journal_iterator_init journal) journal
    (by rw [hl]; simp) hwf.1 rfl rfl
  simpa using this

/-! ## The flush: the draw phase -/

theorem with_done_append {α : Type} :
    ∀ (A B : List (List α)) (done : List α),
      with_done done (A ++ B) = with_done done A ++ with_done (done ++ A.flatten) B
  | [], B, done => by simp [with_done]
  | r :: A, B, done => by
    have h := with_done_append A B (done ++ r)
    simp only [List.cons_append, with_done, List.flatten_cons, List.append_assoc,
      List.append_eq] at h ⊢
    rw [h]

theorem with_done_map_snd {α : Type} :
    ∀ (A : List (List α)) (done : List α), (with_done done A).map (fun br => br.2) = A
  | [], _ => rfl
  | r :: A, done => by simp [with_done, with_done_map_snd A]

theorem split_runs_stretch {α : Type} (p : α → α → Bool) (l : List α) (A B : List (List α))
    (r : List α) (h : split_runs p l = A ++ r :: B) : l = A.flatten ++ r ++ B.flatten := by
  have := split_runs_flatten p l
  rw [h] at this
  rw [← this]
  simp

theorem mem_split_runs_stretch {α : Type} (p : α → α → Bool) (l : List α) (r : List α)
    (h : r ∈ split_runs p l) : ∃ A B : List α, l = A ++ r ++ B := by
  obtain ⟨A, B, hAB⟩ := List.append_of_mem h
  exact ⟨A.flatten, B.flatten, split_runs_stretch p l A B r hAB⟩

/-- The iterators of a stretch of the journal are neighbours, and a test that
reads the entries of both is defined on them. -/
theorem run_chain (journal : CoglJournal P R)
    (hne : ∀ batch ∈ journal.batches, batch.entries ≠ [])
    (cmp : CoglJournal P R → CoglJournalIter → CoglJournalIter → Option Bool)
    (p : CoglJournalIter → CoglJournalIter → Bool)
    (hcmp : ∀ x y, x ∈ all_iters journal → y ∈ all_iters journal →
      cmp journal x y = some (p x y)) :
    ∀ (run pre post : List CoglJournalIter), all_iters journal = pre ++ run ++ post →
      List.Chain' (fun a b : CoglJournalIter =>
        _cogl_journal_iterator_next journal a = some b ∧ cmp journal a b = some (p a b)) run
  | [], _, _, _ => List.chain'_nil
  | [_], _, _, _ => List.chain'_singleton _
  | a :: b :: t, pre, post, hsplit => by
    rw [List.chain'_cons]
    refine ⟨⟨?_, ?_⟩, ?_⟩
    · exact all_iters_next journal hne pre (t ++ post) a b (by rw [hsplit]; simp)
    · apply hcmp <;> rw [hsplit] <;> simp
    · exact run_chain journal hne cmp p hcmp (b :: t) (pre ++ [a]) post (by rw [hsplit]; simp)

/-- The function `batch_and_call` on a fixed journal over a stretch of it: the
callback is invoked for the maximal runs of the stretch in turn. -/
theorem batch_and_call_data_fixed {S : Type} (journal : CoglJournal P R)
    (hne : ∀ batch ∈ journal.batches, batch.entries ≠ [])
    (cmp : CoglJournal P R → CoglJournalIter → CoglJournalIter → Option Bool)
    (batch_callback : S → CoglJournalIter → ℤ → Option S)
    (p : CoglJournalIter → CoglJournalIter → Bool)
    (hcmp : ∀ x y, x ∈ all_iters journal → y ∈ all_iters journal →
      cmp journal x y = some (p x y))
    (pre run post : List CoglJournalIter) (start : CoglJournalIter) (data : S)
    (hsplit : all_iters journal = pre ++ run ++ post) (hstart : run.head? = some start) :
    batch_and_call_data (fun _ => journal) cmp batch_callback start (run.length : ℕ) data =
      run_callbacks batch_callback (split_runs p run) data := by
  cases run with
  | nil => simp at hstart
  | cons a t =>
    simp only [List.head?_cons, Option.some.injEq] at hstart
    rw [← hstart]
    exact batch_and_call_data_runs journal cmp batch_callback p a t data
      (run_chain journal hne cmp p hcmp (a :: t) pre post hsplit)

theorem compare_entry_clip_stacks_test (journal : CoglJournal P R) (x y : CoglJournalIter)
    (hx : x ∈ all_iters journal) (hy : y ∈ all_iters journal) :
    compare_entry_clip_stacks journal x y =
      some (test_of compare_entry_clip_stacks journal x y) := by
  obtain ⟨_, _, _, ex, _, _, _, _, hex⟩ := all_iters_valid journal x hx
  obtain ⟨_, _, _, ey, _, _, _, _, hey⟩ := all_iters_valid journal y hy
  simp only [test_of, compare_entry_clip_stacks, hex, hey, Option.getD_some]

theorem compare_entry_strides_test (journal : CoglJournal P R) (x y : CoglJournalIter)
    (hx : x ∈ all_iters journal) (hy : y ∈ all_iters journal) :
    compare_entry_strides journal x y = some (test_of compare_entry_strides journal x y) := by
  obtain ⟨_, _, _, ex, _, _, _, _, hex⟩ := all_iters_valid journal x hx
  obtain ⟨_, _, _, ey, _, _, _, _, hey⟩ := all_iters_valid journal y hy
  simp only [test_of, compare_entry_strides, hex, hey, Option.getD_some]

theorem compare_entry_n_layers_test (journal : CoglJournal P R) (x y : CoglJournalIter)
    (hx : x ∈ all_iters journal) (hy : y ∈ all_iters journal) :
    compare_entry_n_layers journal x y = some (test_of compare_entry_n_layers journal x y) := by
  obtain ⟨_, _, _, ex, _, _, _, _, hex⟩ := all_iters_valid journal x hx
  obtain ⟨_, _, _, ey, _, _, _, _, hey⟩ := all_iters_valid journal y hy
  simp only [test_of, compare_entry_n_layers, hex, hey, Option.getD_some]

theorem compare_entry_modelviews_test (journal : CoglJournal P R) (x y : CoglJournalIter)
    (hx : x ∈ all_iters journal) (hy : y ∈ all_iters journal) :
    compare_entry_modelviews journal x y =
      some (test_of compare_entry_modelviews journal x y) := by
  obtain ⟨_, _, _, ex, _, _, _, _, hex⟩ := all_iters_valid journal x hx
  obtain ⟨_, _, _, ey, _, _, _, _, hey⟩ := all_iters_valid journal y hy
  simp only [test_of, compare_entry_modelviews, hex, hey, Option.getD_some]

/-- The elements of a list on whose adjacent pairs a key is equal all have the
key of the first. -/
theorem chain_key_eq {α β : Type} (key : α → β) :
    ∀ (l : List α) (a : α), l.head? = some a → l.Chain' (fun x y => key x = key y) →
      ∀ x ∈ l, key x = key a
  | [], _, h, _, _, _ => by simp at h
  | [b], a, h, _, x, hx => by
    simp only [List.head?_cons, Option.some.injEq] at h
    simp only [List.mem_singleton] at hx
    rw [hx, h]
  | b :: c :: t, a, h, hc, x, hx => by
    simp only [List.head?_cons, Option.some.injEq] at h
    rw [List.chain'_cons] at hc
    rcases List.mem_cons.1 hx with hx | hx
    · rw [hx, h]
    · rw [chain_key_eq key (c :: t) c rfl hc.2 x hx, ← hc.1, h]

theorem mod_add_mod_pow (a b : ℕ) :
    (((4 * a % 2 ^ 32 : ℕ) : ℤ) + 4 * (b : ℤ)) % 2 ^ 32 = ((4 * (a + b) % 2 ^ 32 : ℕ) : ℤ) := by
  push_cast
  omega

theorem inner_post_nil (ctx : CoglContext) (journal : CoglJournal P R) (data : FlushData P)
    (between : List CoglJournalIter) (attributes : List CoglJournalIter → List CoglAttribute)
    (hcv : data.state.current_vertex = 4 * between.length % 2 ^ 32) :
    inner_post ctx journal data data between [] [] attributes := by
  refine ⟨rfl, ?_, rfl, rfl, rfl, rfl, rfl, ?_, ?_⟩
  · simpa using hcv
  · simp [with_done]
  · simp

theorem inner_post_append (ctx : CoglContext) (journal : CoglJournal P R)
    (d0 d1 d2 : FlushData P) (between r1 r2 : List CoglJournalIter)
    (s1 s2 : List (List CoglJournalIter))
    (attributes : List CoglJournalIter → List CoglAttribute)
    (h1 : inner_post ctx journal d0 d1 between r1 s1 attributes)
    (h2 : inner_post ctx journal d1 d2 (between ++ r1) r2 s2 attributes) :
    inner_post ctx journal d0 d2 between (r1 ++ r2) (s1 ++ s2) attributes := by
  obtain ⟨a1, a2, a3, a4, a5, a6, a7, a8, a9⟩ := h1
  obtain ⟨b1, b2, b3, b4, b5, b6, b7, b8, b9⟩ := h2
  refine ⟨?_, ?_, ?_, ?_, ?_, ?_, ?_, ?_, ?_⟩
  · rw [List.flatten_append, a1, b1]
  · rw [b2, List.append_assoc]
  · rw [b3, a3]
  · rw [b4, a4]
  · rw [b5, a5]
  · rw [b6, a6]
  · rw [b7, a7]
  · rw [b8, a8, with_done_append, a1, List.map_append, List.append_assoc, a5]
  · rw [b9, a9, List.map_append, List.append_assoc]

/-- The callbacks of a level from 3 to 5 over a list of runs in turn, each of
them drawn as `sub` says. -/
theorem inner_thread (ctx : CoglContext) (journal : CoglJournal P R)
    (cb : FlushData P → CoglJournalIter → ℤ → Option (FlushData P))
    (sub : List CoglJournalIter → List (List CoglJournalIter))
    (attributes : List CoglJournalIter → List CoglAttribute)
    (Pre : FlushData P → Prop) (Good : List CoglJournalIter → Prop)
    (hcb : ∀ (d : FlushData P) (between r : List CoglJournalIter) (start : CoglJournalIter),
      Pre d → Good r → r.head? = some start →
      d.state.current_vertex = 4 * between.length % 2 ^ 32 →
      ∃ d', cb d start r.length = some d' ∧ Pre d' ∧
        inner_post ctx journal d d' between r (sub r) attributes) :
    ∀ (runs : List (List CoglJournalIter)) (data : FlushData P)
      (between : List CoglJournalIter),
      (∀ r ∈ runs, Good r ∧ r ≠ []) → Pre data →
      data.state.current_vertex = 4 * between.length % 2 ^ 32 →
      ∃ data', run_callbacks cb runs data = some data' ∧ Pre data' ∧
        inner_post ctx journal data data' between runs.flatten (runs.flatMap sub) attributes
  | [], data, between, _, hpre, hcv =>
    ⟨data, rfl, hpre, inner_post_nil ctx journal data between attributes hcv⟩
  | r :: runs, data, between, hgood, hpre, hcv => by
    obtain ⟨hg, hne⟩ := hgood r (by simp)
    obtain ⟨start, hstart⟩ : ∃ start, r.head? = some start := by
      cases r with
      | nil => exact absurd rfl hne
      | cons a t => exact ⟨a, rfl⟩
    obtain ⟨d1, hd1, hpre1, hpost1⟩ := hcb data between r start hpre hg hstart hcv
    obtain ⟨d2, hd2, hpre2, hpost2⟩ := inner_thread ctx journal cb sub attributes Pre Good hcb
      runs d1 (between ++ r) (fun r' hr' => hgood r' (by simp [hr'])) hpre1 hpost1.2.1
    refine ⟨d2, ?_, hpre2, ?_⟩
    · simp only [run_callbacks, hstart, hd1, hd2]
    · rw [List.flatten_cons, List.flatMap_cons]
      exact inner_post_append ctx journal data d1 d2 between r runs.flatten (sub r)
        (runs.flatMap sub) attributes hpost1 hpost2

theorem with_done_singleton {α : Type} (done r : List α) :
    with_done done [r] = [(done, r)] := rfl

/-- The callback of level 5 on a run whose first entry can be read, with the
source set: it returns, having pushed the source and made one draw call with the
attributes of the flush state. -/
theorem flush_modelview_post (ctx : CoglContext) (ds : DrawState) (journal : CoglJournal P R)
    (data : FlushData P) (between r : List CoglJournalIter) (start : CoglJournalIter) (s : P)
    (e : CoglJournalEntry)
    (he : iter_entry journal start = some e) (hs : data.state.source = some s)
    (hsrc : source_of journal r = some s)
    (hcv : data.state.current_vertex = 4 * between.length % 2 ^ 32) :
    ∃ data', _cogl_journal_flush_modelview_and_entries ctx ds journal data start r.length =
        some data' ∧
      data'.state.source = some s ∧ data'.state.attributes = data.state.attributes ∧
      inner_post ctx journal data data' between r [r] (fun _ => data.state.attributes) := by
  have hcv' : ((((data.state.current_vertex : ℕ) : ℤ) + 4 * (r.length : ℤ)) % 2 ^ 32).toNat =
      4 * (between ++ r).length % 2 ^ 32 := by
    rw [hcv, mod_add_mod_pow, List.length_append]
    omega
  unfold _cogl_journal_flush_modelview_and_entries
  simp only [he, hs]
  by_cases hd : ds.disable_software_transform = true
  · simp only [hd, if_true]
    refine ⟨_, rfl, rfl, rfl, ?_, hcv', rfl, rfl, rfl, rfl, rfl, ?_, ?_⟩
    · simp
    · simp only [draw_calls, List.filterMap_append, with_done_singleton, List.map_cons,
        List.map_nil, run_call, ← hcv]
      split_ifs <;> simp [draw_call]
    · simp only [pushed_sources, List.filterMap_append, List.map_append]
      split_ifs <;> simp [pushed_source, hsrc]
  · simp only [hd, if_false]
    refine ⟨_, rfl, rfl, rfl, ?_, hcv', rfl, rfl, rfl, rfl, rfl, ?_, ?_⟩
    · simp
    · simp only [draw_calls, List.filterMap_append, with_done_singleton, List.map_cons,
        List.map_nil, run_call, ← hcv]
      split_ifs <;> simp [draw_call]
    · simp only [pushed_sources, List.filterMap_append, List.map_append]
      split_ifs <;> simp [pushed_source, hsrc]

theorem source_of_head (journal : CoglJournal P R) (r : List CoglJournalIter)
    (start : CoglJournalIter) (batch : CoglJournalBatch P R) (hstart : r.head? = some start)
    (hb : batch_at journal start.batch_num = some batch) :
    source_of journal r = some batch.pipeline := by
  simp [source_of, hstart, hb]

theorem head_mem_of_head? {α : Type} (l : List α) (a : α) (h : l.head? = some a) : a ∈ l :=
  List.mem_of_mem_head? h

theorem stretch_of_stretch {α : Type} (l pre r post A r' B : List α) (h : l = pre ++ r ++ post)
    (h' : r = A ++ r' ++ B) : l = (pre ++ A) ++ r' ++ (B ++ post) := by
  rw [h, h']; simp

/-- The callback of level 4 on a stretch of the journal that lies in one batch:
it returns, having drawn the stretch in its runs of equal modelview. -/
theorem flush_pipeline_post (ctx : CoglContext) (ds : DrawState) (journal : CoglJournal P R)
    (hne : ∀ batch ∈ journal.batches, batch.entries ≠ [])
    (data : FlushData P) (between r pre post : List CoglJournalIter) (start : CoglJournalIter)
    (hsplit : all_iters journal = pre ++ r ++ post) (hstart : r.head? = some start)
    (hbatch : ∀ x ∈ r, x.batch_num = start.batch_num)
    (hcv : data.state.current_vertex = 4 * between.length % 2 ^ 32) :
    ∃ data', _cogl_journal_flush_pipeline_and_entries ctx ds journal data start r.length =
        some data' ∧
      data'.state.attributes = data.state.attributes ∧
      inner_post ctx journal data data' between r (modelview_runs ds journal r)
        (fun _ => data.state.attributes) := by
  have hsub : ∀ x ∈ r, x ∈ all_iters journal := by
    intro x hx; rw [hsplit]; simp [hx]
  have hmem : start ∈ all_iters journal := hsub start (head_mem_of_head? r start hstart)
  obtain ⟨_, _, batch, e, _, _, _, hb, he⟩ := all_iters_valid journal start hmem
  unfold _cogl_journal_flush_pipeline_and_entries
  simp only [hb]
  by_cases hd : ds.disable_software_transform = true
  · simp only [hd, if_true, modelview_runs]
    rw [batch_and_call_data_fixed journal hne compare_entry_modelviews _
      (test_of compare_entry_modelviews journal) (compare_entry_modelviews_test journal)
      pre r post start _ hsplit hstart]
    obtain ⟨data', h1, h2, h3⟩ := inner_thread ctx journal
      (_cogl_journal_flush_modelview_and_entries ctx ds journal) (fun r5 => [r5])
      (fun _ => data.state.attributes)
      (fun d => d.state.source = some batch.pipeline ∧
        d.state.attributes = data.state.attributes)
      (fun r5 => source_of journal r5 = some batch.pipeline ∧
        ∃ st e5, r5.head? = some st ∧ iter_entry journal st = some e5)
      (by
        intro d between' r5 st hpre hgood hst hcv'
        obtain ⟨hsrc, st', e5, hst', he5⟩ := hgood
        rw [hst] at hst'
        simp only [Option.some.injEq] at hst'
        rw [← hst'] at he5
        obtain ⟨d', hd1, hd2, hd3, hd4⟩ := flush_modelview_post ctx ds journal d between' r5
          st batch.pipeline e5 he5 hpre.1 hsrc hcv'
        rw [hpre.2] at hd4
        exact ⟨d', hd1, ⟨hd2, by rw [hd3, hpre.2]⟩, hd4⟩)
      (split_runs (test_of compare_entry_modelviews journal) r)
      { data with state := { data.state with source := some batch.pipeline } } between
      (by
        intro r5 hr5
        have hne5 := split_runs_nonempty _ r r5 hr5
        obtain ⟨A, B, hAB⟩ := mem_split_runs_stretch _ r r5 hr5
        refine ⟨?_, hne5⟩
        cases r5 with
        | nil => exact absurd rfl hne5
        | cons st t =>
          have hst : st ∈ r := by rw [hAB]; simp
          obtain ⟨_, _, batch5, e5, _, _, _, hb5, he5⟩ := all_iters_valid journal st (hsub st hst)
          rw [hbatch st hst, hb] at hb5
          simp only [Option.some.injEq] at hb5
          refine ⟨?_, st, e5, rfl, he5⟩
          exact source_of_head journal (st :: t) st batch rfl (by rw [hbatch st hst, hb]))
      ⟨rfl, rfl⟩ hcv
    refine ⟨data', h1, h2.2, ?_⟩
    rw [split_runs_flatten] at h3
    simpa using h3
  · simp only [hd, if_false, modelview_runs, Bool.false_eq_true]
    obtain ⟨d', hd1, _, hd3, hd4⟩ := flush_modelview_post ctx ds journal
      { data with state := { data.state with source := some batch.pipeline } } between r
      start batch.pipeline e he rfl (source_of_head journal r start batch hstart hb) hcv
    exact ⟨d', hd1, hd3, hd4⟩

theorem inner_post_congr (ctx : CoglContext) (journal : CoglJournal P R)
    (d0 d0' d1 : FlushData P) (between r : List CoglJournalIter)
    (s : List (List CoglJournalIter)) (attributes : List CoglJournalIter → List CoglAttribute)
    (h : inner_post ctx journal d0' d1 between r s attributes)
    (h1 : d0'.state.array_offset = d0.state.array_offset)
    (h2 : d0'.state.stride = d0.state.stride)
    (h3 : d0'.state.indices = d0.state.indices)
    (h4 : d0'.state.attribute_buffer = d0.state.attribute_buffer)
    (h5 : d0'.state.attributes.take 2 = d0.state.attributes.take 2)
    (h6 : draw_calls d0'.calls = draw_calls d0.calls)
    (h7 : pushed_sources d0'.calls = pushed_sources d0.calls) :
    inner_post ctx journal d0 d1 between r s attributes := by
  unfold inner_post at h ⊢
  rw [h1, h2, h3, h4, h5, h6, h7] at h
  exact h

theorem mem_of_mem_split_runs {α : Type} (p : α → α → Bool) (l r : List α)
    (hr : r ∈ split_runs p l) (x : α) (hx : x ∈ r) : x ∈ l := by
  obtain ⟨A, B, h⟩ := mem_split_runs_stretch p l r hr
  rw [h]
  simp [hx]

theorem n_layers_test_key (journal : CoglJournal P R) (a b : CoglJournalIter)
    (h : test_of compare_entry_n_layers journal a b = true) :
    (iter_entry journal a).map (fun e => e.n_layers) =
      (iter_entry journal b).map (fun e => e.n_layers) := by
  unfold test_of compare_entry_n_layers at h
  cases ha : iter_entry journal a with
  | none => rw [ha] at h; simp at h
  | some ea =>
    cases hb : iter_entry journal b with
    | none => rw [ha, hb] at h; simp at h
    | some eb =>
      rw [ha, hb] at h
      simp only [Option.getD_some, decide_eq_true_eq] at h
      simp only [Option.map_some', h]

theorem mem_with_done_snd {α : Type} :
    ∀ (runs : List (List α)) (done : List α) (br : List α × List α),
      br ∈ with_done done runs → br.2 ∈ runs
  | [], _, _, h => by simp [with_done] at h
  | r :: runs, done, br, h => by
    rw [with_done, List.mem_cons] at h
    rcases h with h | h
    · rw [h]; simp
    · exact List.mem_cons_of_mem _ (mem_with_done_snd runs (done ++ r) br h)

/-- The attributes of a post-condition of the levels 3 to 5 may be replaced by
others that agree with them on the runs drawn. -/
theorem inner_post_attributes_congr (ctx : CoglContext) (journal : CoglJournal P R)
    (d0 d1 : FlushData P) (between r : List CoglJournalIter) (s : List (List CoglJournalIter))
    (attributes attributes' : List CoglJournalIter → List CoglAttribute)
    (h : inner_post ctx journal d0 d1 between r s attributes)
    (heq : ∀ run ∈ s, attributes run = attributes' run) :
    inner_post ctx journal d0 d1 between r s attributes' := by
  obtain ⟨a1, a2, a3, a4, a5, a6, a7, a8, a9⟩ := h
  refine ⟨a1, a2, a3, a4, a5, a6, a7, ?_, a9⟩
  rw [a8]
  congr 1
  apply List.map_congr_left
  intro br hbr
  rw [heq br.2 (mem_with_done_snd s between br hbr)]

theorem take_two_append {α : Type} (l m : List α) (h : 2 ≤ l.length) :
    (l.take 2 ++ m).take 2 = l.take 2 := by
  rw [List.take_append_of_le_length (by simp; omega)]
  simp

theorem two_le_of_take_two {α : Type} (l : List α) (a b : α) (h : l.take 2 = [a, b]) :
    2 ≤ l.length := by
  have := congrArg List.length h
  simp at this
  omega

theorem mem_modelview_runs (ds : DrawState) (journal : CoglJournal P R)
    (r run : List CoglJournalIter) (hr : r ≠ []) (h : run ∈ modelview_runs ds journal r) :
    run ≠ [] ∧ ∀ x ∈ run, x ∈ r := by
  unfold modelview_runs at h
  split_ifs at h
  · exact ⟨split_runs_nonempty _ r run h, mem_of_mem_split_runs _ r run h⟩
  · simp only [List.mem_singleton] at h
    rw [h]
    exact ⟨hr, fun _ hx => hx⟩

theorem mem_pipeline_runs (ds : DrawState) (journal : CoglJournal P R)
    (r run : List CoglJournalIter) (h : run ∈ pipeline_runs ds journal r) :
    run ≠ [] ∧ ∀ x ∈ run, x ∈ r := by
  unfold pipeline_runs at h
  obtain ⟨r4, hr4, h4⟩ := List.mem_flatMap.1 h
  obtain ⟨m1, m2⟩ := mem_modelview_runs ds journal r4 run (split_runs_nonempty _ r r4 hr4) h4
  exact ⟨m1, fun x hx => mem_of_mem_split_runs _ r r4 hr4 x (m2 x hx)⟩

theorem run_n_layers_of_mem (journal : CoglJournal P R) (run : List CoglJournalIter) (n : ℤ)
    (hne : run ≠ [])
    (h : ∀ x ∈ run, (iter_entry journal x).map (fun e => e.n_layers) = some n) :
    run_n_layers journal run = n := by
  cases run with
  | nil => exact absurd rfl hne
  | cons a t =>
    have ha := h a (by simp)
    cases he : iter_entry journal a with
    | none => rw [he] at ha; simp at ha
    | some e =>
      rw [he] at ha
      simp only [Option.map_some', Option.some.injEq] at ha
      simp [run_n_layers, he, ha]

theorem run_call_indices (ctx : CoglContext) (attributes : List CoglAttribute)
    (i i' : Option ℤ) (cv : ℕ) (len : ℤ) (h : ctx.driver_gl = true ∨ i = i') :
    (run_call ctx attributes i cv len : FlushCall P) = run_call ctx attributes i' cv len := by
  rcases h with h | h
  · simp [run_call, h]
  · rw [h]

/-- The callback of level 3 on a stretch of the journal whose entries have the
layer count of the first: it returns, having drawn the stretch in its runs of
one batch and modelview, each with the first two attributes it was called with
and the texture-coordinate attributes of the layers. -/
theorem flush_texcoord_post (ctx : CoglContext) (ds : DrawState) (journal : CoglJournal P R)
    (hne : ∀ batch ∈ journal.batches, batch.entries ≠ [])
    (data : FlushData P) (between r pre post : List CoglJournalIter) (start : CoglJournalIter)
    (e : CoglJournalEntry)
    (hsplit : all_iters journal = pre ++ r ++ post) (hstart : r.head? = some start)
    (he : iter_entry journal start = some e)
    (hlayers : ∀ x ∈ r, (iter_entry journal x).map (fun e' => e'.n_layers) = some e.n_layers)
    (hattr : 2 ≤ data.state.attributes.length)
    (hcv : data.state.current_vertex = 4 * between.length % 2 ^ 32) :
    ∃ data', _cogl_journal_flush_texcoord_vbo_offsets_and_entries ctx ds journal data start
        r.length = some data' ∧
      inner_post ctx journal data data' between r (pipeline_runs ds journal r)
        (fun run => data.state.attributes.take 2 ++
          tex_coord_attributes ds data.state.stride data.state.array_offset
            (run_n_layers journal run)) := by
  unfold _cogl_journal_flush_texcoord_vbo_offsets_and_entries
  simp only [he]
  rw [batch_and_call_data_fixed journal hne
    (fun _ iter0 iter1 => some (compare_entry_pipelines iter0 iter1)) _
    compare_entry_pipelines (fun _ _ _ _ => rfl) pre r post start _ hsplit hstart]
  obtain ⟨data', h1, _, h3⟩ := inner_thread ctx journal
    (_cogl_journal_flush_pipeline_and_entries ctx ds journal) (modelview_runs ds journal)
    (fun _ => data.state.attributes.take 2 ++
      tex_coord_attributes ds data.state.stride data.state.array_offset e.n_layers)
    (fun d => d.state.attributes = data.state.attributes.take 2 ++
      tex_coord_attributes ds data.state.stride data.state.array_offset e.n_layers)
    (fun r4 => (∃ pre4 post4, all_iters journal = pre4 ++ r4 ++ post4) ∧
      ∀ st, r4.head? = some st → ∀ x ∈ r4, x.batch_num = st.batch_num)
    (by
      intro d between' r4 st hpre hgood hst hcv'
      obtain ⟨⟨pre4, post4, hsplit4⟩, hb4⟩ := hgood
      obtain ⟨d', hd1, hd2, hd3⟩ := flush_pipeline_post ctx ds journal hne d between' r4 pre4
        post4 st hsplit4 hst (hb4 st hst) hcv'
      rw [hpre] at hd3
      exact ⟨d', hd1, by show d'.state.attributes = _; rw [hd2, hpre], hd3⟩)
    (split_runs compare_entry_pipelines r)
    { data with
      state := { data.state with
        attributes := data.state.attributes.take 2 ++
          (List.range e.n_layers.toNat).map (fun i =>
            ({ name := CoglAttributeName.cogl_tex_coord_in i
               stride := data.state.stride
               offset := data.state.array_offset +
                 ((POS_STRIDE ds).toNat + COLOR_STRIDE.toNat) * 4 + TEX_STRIDE.toNat * 4 * i
               n_components := 2
               type := CoglAttributeType.COGL_ATTRIBUTE_TYPE_FLOAT } : CoglAttribute)) } }
    between
    (by
      intro r4 hr4
      have hne4 := split_runs_nonempty _ r r4 hr4
      obtain ⟨A, B, hAB⟩ := mem_split_runs_stretch _ r r4 hr4
      refine ⟨⟨⟨pre ++ A, B ++ post, stretch_of_stretch _ _ _ _ _ _ _ hsplit hAB⟩, ?_⟩, hne4⟩
      intro st hst x hx
      have hchain := split_runs_chain compare_entry_pipelines r r4 hr4
      exact chain_key_eq (fun it : CoglJournalIter => it.batch_num) r4 st hst
        (List.Chain'.imp (fun a b hab => by simpa [compare_entry_pipelines] using hab) hchain)
        x hx)
    rfl
    hcv
  refine ⟨data', h1, ?_⟩
  rw [split_runs_flatten] at h3
  have h4 := inner_post_congr ctx journal data _ data' between r _ _ h3 rfl rfl rfl rfl
    (take_two_append _ _ hattr) rfl rfl
  refine inner_post_attributes_congr ctx journal data data' between r _ _ _ h4 ?_
  intro run hrun
  obtain ⟨m1, m2⟩ := mem_pipeline_runs ds journal r run hrun
  show _ = data.state.attributes.take 2 ++
    tex_coord_attributes ds data.state.stride data.state.array_offset (run_n_layers journal run)
  rw [run_n_layers_of_mem journal run e.n_layers m1 (fun x hx => hlayers x (m2 x hx))]

theorem entries_of_append (journal : CoglJournal P R) (a b : List CoglJournalIter) :
    entries_of journal (a ++ b) = entries_of journal a ++ entries_of journal b := by
  simp [entries_of, List.filterMap_append]

theorem upload_words_append (ds : DrawState) (a b : List CoglJournalEntry) :
    upload_words ds (a ++ b) = upload_words ds a + upload_words ds b := by
  simp [upload_words]

theorem upload_words_of_stride (ds : DrawState) (journal : CoglJournal P R) (stride : ℕ) :
    ∀ (r : List CoglJournalIter),
      (∀ x ∈ r, (iter_entry journal x).map (entry_stride ds) = some stride) →
      upload_words ds (entries_of journal r) = r.length * (stride * 4)
  | [], _ => by simp [entries_of, upload_words]
  | x :: r, h => by
    have hx := h x (by simp)
    have ih := upload_words_of_stride ds journal stride r (fun y hy => h y (by simp [hy]))
    cases he : iter_entry journal x with
    | none => rw [he] at hx; simp at hx
    | some e =>
      rw [he] at hx
      simp only [Option.map_some', Option.some.injEq] at hx
      simp only [entries_of, upload_words] at ih ⊢
      simp only [List.filterMap_cons, he, List.map_cons, List.sum_cons, ih, hx,
        List.length_cons]
      ring

/-- The test `compare_entry_strides` holds exactly for layer counts of equal
padded stride. -/
theorem compare_strides_iff (ds : DrawState) (n0 n1 : ℤ) :
    (n0 = n1 ∨ (n0 ≤ MIN_LAYER_PADING ∧ n1 ≤ MIN_LAYER_PADING)) ↔
      GET_JOURNAL_VB_STRIDE_FOR_N_LAYERS ds n0 = GET_JOURNAL_VB_STRIDE_FOR_N_LAYERS ds n1 := by
  unfold GET_JOURNAL_VB_STRIDE_FOR_N_LAYERS MIN_LAYER_PADING TEX_STRIDE
  constructor
  · intro h
    split_ifs <;> omega
  · intro h
    split_ifs at h <;> omega

theorem strides_test_key (ds : DrawState) (journal : CoglJournal P R) (a b : CoglJournalIter)
    (h : test_of compare_entry_strides journal a b = true) :
    (iter_entry journal a).map (entry_stride ds) =
      (iter_entry journal b).map (entry_stride ds) := by
  unfold test_of compare_entry_strides at h
  cases ha : iter_entry journal a with
  | none => rw [ha] at h; simp at h
  | some ea =>
    cases hb : iter_entry journal b with
    | none => rw [ha, hb] at h; simp at h
    | some eb =>
      rw [ha, hb] at h
      simp only [Option.getD_some, decide_eq_true_eq] at h
      simp only [Option.map_some', Option.some.injEq, entry_stride]
      rw [(compare_strides_iff ds ea.n_layers eb.n_layers).1 h]

theorem outer_post_nil (ctx : CoglContext) (ds : DrawState) (journal : CoglJournal P R)
    (data : FlushData P) (done : List CoglJournalIter)
    (hao : data.state.array_offset = 4 * upload_words ds (entries_of journal done)) :
    outer_post ctx ds journal data data done [] [] := by
  refine ⟨rfl, ?_, rfl, ?_, ?_⟩
  · simpa using hao
  · simp [with_done]
  · simp

theorem outer_post_append (ctx : CoglContext) (ds : DrawState) (journal : CoglJournal P R)
    (d0 d1 d2 : FlushData P) (done r1 r2 : List CoglJournalIter)
    (s1 s2 : List (List CoglJournalIter))
    (h1 : outer_post ctx ds journal d0 d1 done r1 s1)
    (h2 : outer_post ctx ds journal d1 d2 (done ++ r1) r2 s2) :
    outer_post ctx ds journal d0 d2 done (r1 ++ r2) (s1 ++ s2) := by
  obtain ⟨a1, _, a3, a4, a5⟩ := h1
  obtain ⟨b1, b2, b3, b4, b5⟩ := h2
  refine ⟨?_, ?_, ?_, ?_, ?_⟩
  · rw [List.flatten_append, a1, b1]
  · rw [b2, List.append_assoc]
  · rw [b3, a3]
  · rw [b4, a4, with_done_append, a1, List.flatMap_append, List.append_assoc]
  · rw [b5, a5, List.flatMap_append, List.map_append, List.append_assoc]

/-- The callbacks of level 1 or 2 over a list of runs in turn, each of them
with the stride runs that `sub` says. -/
theorem outer_thread (ctx : CoglContext) (ds : DrawState) (journal : CoglJournal P R)
    (cb : FlushData P → CoglJournalIter → ℤ → Option (FlushData P))
    (sub : List CoglJournalIter → List (List CoglJournalIter))
    (Good : List CoglJournalIter → Prop)
    (hcb : ∀ (d : FlushData P) (done r : List CoglJournalIter) (start : CoglJournalIter),
      Good r → r.head? = some start →
      d.state.array_offset = 4 * upload_words ds (entries_of journal done) →
      ∃ d', cb d start r.length = some d' ∧ outer_post ctx ds journal d d' done r (sub r)) :
    ∀ (runs : List (List CoglJournalIter)) (data : FlushData P) (done : List CoglJournalIter),
      (∀ r ∈ runs, Good r ∧ r ≠ []) →
      data.state.array_offset = 4 * upload_words ds (entries_of journal done) →
      ∃ data', run_callbacks cb runs data = some data' ∧
        outer_post ctx ds journal data data' done runs.flatten (runs.flatMap sub)
  | [], data, done, _, hao => ⟨data, rfl, outer_post_nil ctx ds journal data done hao⟩
  | r :: runs, data, done, hgood, hao => by
    obtain ⟨hg, hne⟩ := hgood r (by simp)
    obtain ⟨start, hstart⟩ : ∃ start, r.head? = some start := by
      cases r with
      | nil => exact absurd rfl hne
      | cons a t => exact ⟨a, rfl⟩
    obtain ⟨d1, hd1, hpost1⟩ := hcb data done r start hg hstart hao
    obtain ⟨d2, hd2, hpost2⟩ := outer_thread ctx ds journal cb sub Good hcb runs d1
      (done ++ r) (fun r' hr' => hgood r' (by simp [hr'])) hpost1.2.1
    refine ⟨d2, ?_, ?_⟩
    · simp only [run_callbacks, hstart, hd1, hd2]
    · rw [List.flatten_cons, List.flatMap_cons]
      exact outer_post_append ctx ds journal data d1 d2 done r runs.flatten (sub r)
        (runs.flatMap sub) hpost1 hpost2

/-- The callback of level 2 on a stretch of the journal whose entries have the
stride of the first: it returns, having drawn the stretch in its runs, from the
array offset it was called with, and advanced the array offset over the bytes
of the stretch. -/
theorem flush_vbo_offsets_post (ctx : CoglContext) (ds : DrawState) (journal : CoglJournal P R)
    (hne : ∀ batch ∈ journal.batches, batch.entries ≠ [])
    (data : FlushData P) (done r pre post : List CoglJournalIter) (start : CoglJournalIter)
    (e : CoglJournalEntry)
    (hsplit : all_iters journal = pre ++ r ++ post) (hstart : r.head? = some start)
    (he : iter_entry journal start = some e)
    (hstride : ∀ x ∈ r, (iter_entry journal x).map (entry_stride ds) = some (entry_stride ds e))
    (hao : data.state.array_offset = 4 * upload_words ds (entries_of journal done)) :
    ∃ data', _cogl_journal_flush_vbo_offsets_and_entries ctx ds journal data start r.length =
        some data' ∧
      outer_post ctx ds journal data data' done r [r] := by
  have hsub : ∀ x ∈ r, x ∈ all_iters journal := by
    intro x hx; rw [hsplit]; simp [hx]
  unfold _cogl_journal_flush_vbo_offsets_and_entries
  simp only [he]
  rw [batch_and_call_data_fixed journal hne compare_entry_n_layers _
    (test_of compare_entry_n_layers journal) (compare_entry_n_layers_test journal)
    pre r post start _ hsplit hstart]
  obtain ⟨data2, h1, _, h3⟩ := inner_thread ctx journal
    (_cogl_journal_flush_texcoord_vbo_offsets_and_entries ctx ds journal)
    (pipeline_runs ds journal)
    (fun run => journal_attributes ds ((GET_JOURNAL_VB_STRIDE_FOR_N_LAYERS ds e.n_layers).toNat * 4)
      data.state.array_offset (run_n_layers journal run))
    (fun d => d.state.attributes.take 2 =
        [{ name := CoglAttributeName.cogl_position_in
           stride := (GET_JOURNAL_VB_STRIDE_FOR_N_LAYERS ds e.n_layers).toNat * 4
           offset := data.state.array_offset
           n_components := POS_STRIDE ds
           type := CoglAttributeType.COGL_ATTRIBUTE_TYPE_FLOAT },
         { name := CoglAttributeName.cogl_color_in
           stride := (GET_JOURNAL_VB_STRIDE_FOR_N_LAYERS ds e.n_layers).toNat * 4
           offset := data.state.array_offset + (POS_STRIDE ds).toNat * 4
           n_components := 4
           type := CoglAttributeType.COGL_ATTRIBUTE_TYPE_UNSIGNED_BYTE }] ∧
      d.state.stride = (GET_JOURNAL_VB_STRIDE_FOR_N_LAYERS ds e.n_layers).toNat * 4 ∧
      d.state.array_offset = data.state.array_offset)
    (fun r3 => (∃ pre3 post3, all_iters journal = pre3 ++ r3 ++ post3) ∧
      ∃ st e3, r3.head? = some st ∧ iter_entry journal st = some e3 ∧
        ∀ x ∈ r3, (iter_entry journal x).map (fun e' => e'.n_layers) = some e3.n_layers)
    (by
      intro d between' r3 st hpre hgood hst hcv'
      obtain ⟨⟨pre3, post3, hsplit3⟩, st', e3, hst', he3, hl3⟩ := hgood
      rw [hst] at hst'
      simp only [Option.some.injEq] at hst'
      rw [← hst'] at he3
      obtain ⟨d', hd1, hd2⟩ := flush_texcoord_post ctx ds journal hne d between' r3 pre3 post3
        st e3 hsplit3 hst he3 hl3 (two_le_of_take_two _ _ _ hpre.1) hcv'
      have k7 := hd2.2.2.2.2.2.2.1
      have k4 := hd2.2.2.2.1
      have k3 := hd2.2.2.1
      rw [hpre.1, hpre.2.1, hpre.2.2] at hd2
      exact ⟨d', hd1, ⟨k7.trans hpre.1, k4.trans hpre.2.1, k3.trans hpre.2.2⟩, hd2⟩)
    (split_runs (test_of compare_entry_n_layers journal) r)
    { state := { data.state with
        stride := (GET_JOURNAL_VB_STRIDE_FOR_N_LAYERS ds e.n_layers).toNat * 4
        attributes :=
          [{ name := CoglAttributeName.cogl_position_in
             stride := (GET_JOURNAL_VB_STRIDE_FOR_N_LAYERS ds e.n_layers).toNat * 4
             offset := data.state.array_offset
             n_components := POS_STRIDE ds
             type := CoglAttributeType.COGL_ATTRIBUTE_TYPE_FLOAT },
           { name := CoglAttributeName.cogl_color_in
             stride := (GET_JOURNAL_VB_STRIDE_FOR_N_LAYERS ds e.n_layers).toNat * 4
             offset := data.state.array_offset + (POS_STRIDE ds).toNat * 4
             n_components := 4
             type := CoglAttributeType.COGL_ATTRIBUTE_TYPE_UNSIGNED_BYTE }]
        indices := if ctx.driver_gl then data.state.indices else some (r.length : ℤ)
        current_vertex := 0 }
      calls := data.calls ++
        (if ctx.driver_gl then []
         else [FlushCall.cogl_get_rectangle_indices (r.length : ℤ)]) }
    []
    (by
      intro r3 hr3
      have hne3 := split_runs_nonempty _ r r3 hr3
      obtain ⟨A, B, hAB⟩ := mem_split_runs_stretch _ r r3 hr3
      refine ⟨⟨⟨pre ++ A, B ++ post, stretch_of_stretch _ _ _ _ _ _ _ hsplit hAB⟩, ?_⟩, hne3⟩
      cases r3 with
      | nil => exact absurd rfl hne3
      | cons st t =>
        have hst : st ∈ r := by rw [hAB]; simp
        obtain ⟨_, _, _, e3, _, _, _, _, he3⟩ := all_iters_valid journal st (hsub st hst)
        refine ⟨st, e3, rfl, he3, ?_⟩
        intro x hx
        have hchain := split_runs_chain (test_of compare_entry_n_layers journal) r (st :: t) hr3
        rw [chain_key_eq (fun it : CoglJournalIter => (iter_entry journal it).map
          (fun e' => e'.n_layers)) (st :: t) st rfl
          (List.Chain'.imp (fun a b hab => n_layers_test_key journal a b hab) hchain) x hx,
          he3]
        rfl)
    ⟨rfl, rfl, rfl⟩
    rfl
  rw [h1]
  rw [split_runs_flatten] at h3
  obtain ⟨c1, _, c3, _, _, c6, _, c8, c9⟩ := h3
  refine ⟨_, rfl, by simp, ?_, ?_, ?_, ?_⟩
  · show data2.state.array_offset + _ = _
    rw [c3, entries_of_append, upload_words_append,
      upload_words_of_stride ds journal (entry_stride ds e) r hstride]
    show data.state.array_offset + _ = _
    rw [hao]
    simp only [entry_stride, Int.toNat_ofNat]
    ring
  · exact c6
  · show draw_calls data2.calls = _
    rw [c8]
    have hs : run_stride ds journal r = entry_stride ds e := by
      simp [run_stride, hstart, he]
    simp only [with_done_singleton, List.flatMap_cons, List.flatMap_nil, List.append_nil,
      draw_calls, List.filterMap_append, hs]
    congr 1
    · split_ifs <;> simp [draw_call]
    · show List.map _ (with_done [] (layer_runs ds journal r)) = _
      apply List.map_congr_left
      intro br _
      show run_call ctx _ (if ctx.driver_gl then data.state.indices else some (r.length : ℤ))
        _ _ = _
      rw [← hao]
      apply run_call_indices
      by_cases hd : ctx.driver_gl = true
      · exact Or.inl hd
      · right
        simp [hd]
  · show (pushed_sources data2.calls).map some = _
    rw [c9]
    simp only [List.flatMap_cons, List.flatMap_nil, List.append_nil, pushed_sources,
      List.filterMap_append, List.map_append, layer_runs]
    congr 1
    split_ifs <;> simp [pushed_source]

theorem outer_post_congr (ctx : CoglContext) (ds : DrawState) (journal : CoglJournal P R)
    (d0 d0' d1 d1' : FlushData P) (done r : List CoglJournalIter)
    (s : List (List CoglJournalIter))
    (h : outer_post ctx ds journal d0' d1' done r s)
    (h1 : d0'.state.attribute_buffer = d0.state.attribute_buffer)
    (h2 : draw_calls d0'.calls = draw_calls d0.calls)
    (h3 : pushed_sources d0'.calls = pushed_sources d0.calls)
    (h4 : d1.state = d1'.state)
    (h5 : draw_calls d1.calls = draw_calls d1'.calls)
    (h6 : pushed_sources d1.calls = pushed_sources d1'.calls) :
    outer_post ctx ds journal d0 d1 done r s := by
  unfold outer_post at h ⊢
  rw [h1, h2, h3] at h
  rw [h4, h5, h6]
  exact h

/-- The callback of level 1 on a stretch of the journal: it returns, having
drawn the stride runs of the stretch. -/
theorem flush_clip_stacks_post (ctx : CoglContext) (ds : DrawState) (journal : CoglJournal P R)
    (hne : ∀ batch ∈ journal.batches, batch.entries ≠ [])
    (data : FlushData P) (done r pre post : List CoglJournalIter) (start : CoglJournalIter)
    (hsplit : all_iters journal = pre ++ r ++ post) (hstart : r.head? = some start)
    (hao : data.state.array_offset = 4 * upload_words ds (entries_of journal done)) :
    ∃ data', _cogl_journal_flush_clip_stacks_and_entries ctx ds journal data start r.length =
        some data' ∧
      outer_post ctx ds journal data data' done r (stride_runs_of journal r) := by
  have hsub : ∀ x ∈ r, x ∈ all_iters journal := by
    intro x hx; rw [hsplit]; simp [hx]
  have hmem : start ∈ all_iters journal := hsub start (head_mem_of_head? r start hstart)
  obtain ⟨_, _, batch, e, _, _, _, hb, he⟩ := all_iters_valid journal start hmem
  unfold _cogl_journal_flush_clip_stacks_and_entries
  simp only [he]
  rw [batch_and_call_data_fixed journal hne compare_entry_strides _
    (test_of compare_entry_strides journal) (compare_entry_strides_test journal)
    pre r post start _ hsplit hstart]
  obtain ⟨data2, h1, h3⟩ := outer_thread ctx ds journal
    (_cogl_journal_flush_vbo_offsets_and_entries ctx ds journal) (fun r2 => [r2])
    (fun r2 => (∃ pre2 post2, all_iters journal = pre2 ++ r2 ++ post2) ∧
      ∃ st e2, r2.head? = some st ∧ iter_entry journal st = some e2 ∧
        ∀ x ∈ r2, (iter_entry journal x).map (entry_stride ds) = some (entry_stride ds e2))
    (by
      intro d done' r2 st hgood hst hao'
      obtain ⟨⟨pre2, post2, hsplit2⟩, st', e2, hst', he2, hstride⟩ := hgood
      rw [hst] at hst'
      simp only [Option.some.injEq] at hst'
      rw [← hst'] at he2
      exact flush_vbo_offsets_post ctx ds journal hne d done' r2 pre2 post2 st e2 hsplit2 hst
        he2 hstride hao')
    (split_runs (test_of compare_entry_strides journal) r)
    { data with
      calls := data.calls ++
        [FlushCall._cogl_clip_stack_flush e.clip_stack,
          FlushCall._cogl_matrix_stack_push] ++
        (if ds.disable_software_transform then []
         else [FlushCall._cogl_matrix_stack_load_identity,
           FlushCall._cogl_matrix_stack_flush_to_gl CoglMatrixMode.COGL_MATRIX_MODELVIEW]) ++
        [FlushCall._cogl_matrix_stack_flush_to_gl CoglMatrixMode.COGL_MATRIX_PROJECTION] }
    done
    (by
      intro r2 hr2
      have hne2 := split_runs_nonempty _ r r2 hr2
      obtain ⟨A, B, hAB⟩ := mem_split_runs_stretch _ r r2 hr2
      refine ⟨⟨⟨pre ++ A, B ++ post, stretch_of_stretch _ _ _ _ _ _ _ hsplit hAB⟩, ?_⟩, hne2⟩
      cases r2 with
      | nil => exact absurd rfl hne2
      | cons st t =>
        have hst : st ∈ r := by rw [hAB]; simp
        obtain ⟨_, _, _, e2, _, _, _, _, he2⟩ := all_iters_valid journal st (hsub st hst)
        refine ⟨st, e2, rfl, he2, ?_⟩
        intro x hx
        have hchain := split_runs_chain (test_of compare_entry_strides journal) r (st :: t) hr2
        rw [chain_key_eq (fun it : CoglJournalIter => (iter_entry journal it).map
          (entry_stride ds)) (st :: t) st rfl
          (List.Chain'.imp (fun a b hab => strides_test_key ds journal a b hab) hchain) x hx,
          he2]
        rfl)
    hao
  rw [h1]
  rw [split_runs_flatten] at h3
  refine ⟨_, rfl, ?_⟩
  have h3' : outer_post ctx ds journal _ data2 done r
      ((split_runs (test_of compare_entry_strides journal) r).flatMap (fun r2 => [r2])) := h3
  rw [show (split_runs (test_of compare_entry_strides journal) r).flatMap (fun r2 => [r2]) =
    stride_runs_of journal r by simp [stride_runs_of]] at h3'
  refine outer_post_congr ctx ds journal data _ _ data2 done r _ h3' rfl ?_ ?_ rfl ?_ ?_
  · simp only [draw_calls, List.filterMap_append]
    split_ifs <;> simp [draw_call]
  · simp only [pushed_sources, List.filterMap_append]
    split_ifs <;> simp [pushed_source]
  · simp [draw_calls, List.filterMap_append, draw_call]
  · simp [pushed_sources, List.filterMap_append, pushed_source]

/-- The draw phase of the flush over a journal with no empty batch whose entry
counter is right, which is not empty: it returns, having drawn the stride runs
of the journal. -/
theorem draw_phase_post (ctx : CoglContext) (ds : DrawState) (journal : CoglJournal P R)
    (hwf : journal_wf journal) (hlen : journal.journal_len ≠ 0) (data : FlushData P)
    (hao : data.state.array_offset = 0) :
    ∃ data', batch_and_call_data (fun _ => journal) compare_entry_clip_stacks
        (_cogl_journal_flush_clip_stacks_and_entries ctx ds journal)
        (_cogl_journal_iterator_init journal) journal.journal_len data = some data' ∧
      outer_post ctx ds journal data data' [] (all_iters journal) (stride_runs journal) := by
  have hne := hwf.1
  have hpos : journal.batches ≠ [] := by
    intro hnil
    apply hlen
    rw [hwf.2]
    simp [all_entries, hnil]
  obtain ⟨l, hl⟩ := all_iters_head journal hne hpos
  have hcount : journal.journal_len = (all_iters journal).length := by
    rw [all_iters_length, ← hwf.2]
  rw [hcount, batch_and_call_data_fixed journal hne compare_entry_clip_stacks _
    (test_of compare_entry_clip_stacks journal) (compare_entry_clip_stacks_test journal)
    [] (all_iters journal) [] (_cogl_journal_iterator_init journal) _ (by simp)
    (by rw [hl]; rfl)]
  obtain ⟨data', h1, h3⟩ := outer_thread ctx ds journal
    (_cogl_journal_flush_clip_stacks_and_entries ctx ds journal) (stride_runs_of journal)
    (fun r1 => ∃ pre1 post1, all_iters journal = pre1 ++ r1 ++ post1)
    (by
      intro d done' r1 st hgood hst hao'
      obtain ⟨pre1, post1, hsplit1⟩ := hgood
      exact flush_clip_stacks_post ctx ds journal hne d done' r1 pre1 post1 st hsplit1 hst hao')
    (split_runs (test_of compare_entry_clip_stacks journal) (all_iters journal))
    data []
    (fun r1 hr1 => ⟨mem_split_runs_stretch _ _ r1 hr1, split_runs_nonempty _ _ r1 hr1⟩)
    (by rw [hao]; simp [entries_of, upload_words])
  rw [split_runs_flatten] at h3
  exact ⟨data', h1, h3⟩

/-! ## The flush as a whole -/

theorem journal_wf_of_same_frame (journal journal' : CoglJournal P R)
    (h : same_frame journal journal') (hwf : journal_wf journal) : journal_wf journal' := by
  refine ⟨same_frame_nonempty journal journal' h hwf.1, ?_⟩
  rw [h.2.2.1, hwf.2, ← all_iters_length, ← all_iters_length, same_frame_all_iters journal journal' h]

/-- The flush of a journal with no empty batch and right counters, which is not
empty: the clipping pass leaves a journal `journal1` of the same frame, the
upload stores its entries and returns it as `journal2` with the pool updated,
the draw phase draws the stride runs of `journal2`, and the flush returns
`journal2` discarded. -/
theorem flush_post [DecidableEq P] (c : Collaborators P R) (ctx : CoglContext) (ds : DrawState)
    (journal : CoglJournal P R) (hwf : journal_wf journal) (hlen : journal.journal_len ≠ 0)
    (hvbo : 0 < journal.needed_vbo_len) :
    ∃ (journal1 journal2 : CoglJournal P R) (n_bytes : ℕ) (data' : FlushData P),
      same_frame journal journal1 ∧ layers_kept journal journal1 ∧
      (ctx.disable_software_clip = true → journal1 = journal) ∧
      upload_vertices ctx ds journal1 =
        some (journal2, n_bytes, upload_entries ds 0 (all_entries journal1)) ∧
      journal2 = (create_attribute_buffer ctx journal1 (journal1.needed_vbo_len * 4)).1 ∧
      journal2.batches = journal1.batches ∧
      _cogl_journal_flush c ctx ds journal =
        some (_cogl_journal_discard journal2, data'.calls ++ [FlushCall.cogl_pop_framebuffer]) ∧
      outer_post ctx ds journal2
        { state :=
            { attribute_buffer := n_bytes
              attributes := []
              stride := 0
              array_offset := 0
              current_vertex := 0
              indices := none
              source := none }
          calls :=
            [FlushCall._cogl_framebuffer_flush_dependency_journals,
              FlushCall.cogl_push_framebuffer,
              FlushCall._cogl_framebuffer_flush_state,
              FlushCall.buffer_upload n_bytes (upload_entries ds 0 (all_entries journal1))] }
        data' [] (all_iters journal2) (stride_runs journal2) ∧
      batch_and_call_data (fun _ => journal2) compare_entry_clip_stacks
        (_cogl_journal_flush_clip_stacks_and_entries ctx ds journal2)
        (_cogl_journal_iterator_init journal2) journal2.journal_len
        { state :=
            { attribute_buffer := n_bytes
              attributes := []
              stride := 0
              array_offset := 0
              current_vertex := 0
              indices := none
              source := none }
          calls :=
            [FlushCall._cogl_framebuffer_flush_dependency_journals,
              FlushCall.cogl_push_framebuffer,
              FlushCall._cogl_framebuffer_flush_state,
              FlushCall.buffer_upload n_bytes (upload_entries ds 0 (all_entries journal1))] } =
        some data' ∧
      (if ctx.disable_software_clip then some journal
       else batch_and_call_data (fun j => j) compare_entry_clip_stacks
         (_cogl_journal_maybe_software_clip_entries c ds) (_cogl_journal_iterator_init journal)
         journal.journal_len journal) = some journal1 := by
  obtain ⟨journal1, hclip, hframe, hkept, hsame⟩ : ∃ journal1,
      (if ctx.disable_software_clip then some journal
       else batch_and_call_data (fun j => j) compare_entry_clip_stacks
         (_cogl_journal_maybe_software_clip_entries c ds) (_cogl_journal_iterator_init journal)
         journal.journal_len journal) = some journal1 ∧
      same_frame journal journal1 ∧ layers_kept journal journal1 ∧
      (ctx.disable_software_clip = true → journal1 = journal) := by
    by_cases hd : ctx.disable_software_clip = true
    · exact ⟨journal, by simp [hd], same_frame_refl journal, layers_kept_refl journal,
        fun _ => rfl⟩
    · obtain ⟨journal', h1, h2, h3⟩ := clip_pass_kept c ds journal hwf hlen
      exact ⟨journal', by simp [hd, h1], h2, h3, fun h => absurd h hd⟩
  have hwf1 : journal_wf journal1 := journal_wf_of_same_frame journal journal1 hframe hwf
  have hvbo1 : 0 < journal1.needed_vbo_len := by rw [hframe.1]; exact hvbo
  have hup := upload_vertices_stores ctx ds journal1 hwf1 hvbo1
  obtain ⟨hb, hl, _, _⟩ :=
    create_attribute_buffer_shape ctx journal1 (journal1.needed_vbo_len * 4)
  generalize hj2 : (create_attribute_buffer ctx journal1 (journal1.needed_vbo_len * 4)).1 =
    journal2 at hup hb hl
  generalize (create_attribute_buffer ctx journal1 (journal1.needed_vbo_len * 4)).2 =
    n_bytes at hup
  have hwf2 : journal_wf journal2 :=
    journal_wf_of_shape journal1 _ (by rw [batch_lengths, batch_lengths, hb]) hl hwf1
  have hlen2 : journal2.journal_len ≠ 0 := by rw [hl, hframe.2.2.1]; exact hlen
  have hiters : all_iters journal2 = all_iters journal := by
    rw [← same_frame_all_iters journal journal1 hframe]
    unfold all_iters
    rw [hb]
  have hpos : journal.batches ≠ [] := by
    intro hnil
    apply hlen
    rw [hwf.2]
    simp [all_entries, hnil]
  have hpos2 : journal2.batches ≠ [] := by
    intro hnil
    apply hlen2
    rw [hwf2.2]
    simp [all_entries, hnil]
  have hinit : _cogl_journal_iterator_init journal = _cogl_journal_iterator_init journal2 := by
    obtain ⟨l, hl⟩ := all_iters_head journal hwf.1 hpos
    obtain ⟨l2, hl2⟩ := all_iters_head journal2 hwf2.1 hpos2
    rw [hl, hl2] at hiters
    exact (List.cons.inj hiters).1.symm
  obtain ⟨data', hdraw, hpost⟩ := draw_phase_post ctx ds journal2 hwf2 hlen2
    { state :=
        { attribute_buffer := n_bytes
          attributes := []
          stride := 0
          array_offset := 0
          current_vertex := 0
          indices := none
          source := none }
      calls :=
        [FlushCall._cogl_framebuffer_flush_dependency_journals,
          FlushCall.cogl_push_framebuffer,
          FlushCall._cogl_framebuffer_flush_state,
          FlushCall.buffer_upload n_bytes (upload_entries ds 0 (all_entries journal1))] } rfl
  refine ⟨journal1, journal2, n_bytes, data', hframe, hkept, hsame, hup, hj2.symm, hb, ?_, hpost,
    hdraw, hclip⟩
  unfold _cogl_journal_flush
  rw [if_neg hlen]
  simp only [hclip, hup]
  rw [hinit, hdraw]

/-! ## Draining -/

theorem discard_drained (journal : CoglJournal P R) : drained (_cogl_journal_discard journal) :=
  ⟨rfl, rfl, rfl, rfl⟩

theorem flush_empty [DecidableEq P] (c : Collaborators P R) (ctx : CoglContext) (ds : DrawState)
    (journal : CoglJournal P R) (h : journal.journal_len = 0) :
    _cogl_journal_flush c ctx ds journal = some (journal, []) := by
  unfold _cogl_journal_flush
  rw [if_pos h]

theorem read_of_drained [DecidableEq P] (c : Collaborators P R) (ds : DrawState)
    (journal : CoglJournal P R) (x y : ℤ) (format : CoglPixelFormat) (h : drained journal)
    (hformat : format_supported format) :
    _cogl_journal_try_read_pixel c ds journal x y format =
      some (read_pixel_success journal false none) := by
  obtain ⟨_, h2, _, h4⟩ := h
  have h1 : ¬ journal.fast_read_pixel_count > 50 := by omega
  have h2' : ¬ (format ≠ CoglPixelFormat.COGL_PIXEL_FORMAT_RGBA_8888_PRE ∧
      format ≠ CoglPixelFormat.COGL_PIXEL_FORMAT_RGBA_8888) := by
    rcases hformat with h | h <;> simp [h]
  have h3 : journal.journal_len ≤ 0 := by omega
  unfold _cogl_journal_try_read_pixel
  rw [if_neg h1, if_neg h2', if_pos h3]

/-- The flush of a journal with no empty batch and right counters returns. -/
theorem flush_returns [DecidableEq P] (c : Collaborators P R) (ctx : CoglContext)
    (ds : DrawState) (journal : CoglJournal P R) (hwf : journal_wf journal)
    (hvbo : journal.journal_len ≠ 0 → 0 < journal.needed_vbo_len) :
    ∃ journal' calls, _cogl_journal_flush c ctx ds journal = some (journal', calls) ∧
      (journal.journal_len = 0 → journal' = journal ∧ calls = []) ∧
      (journal.journal_len ≠ 0 → drained journal') := by
  by_cases hlen : journal.journal_len = 0
  · exact ⟨journal, [], flush_empty c ctx ds journal hlen, fun _ => ⟨rfl, rfl⟩,
      fun h => absurd hlen h⟩
  · obtain ⟨_, journal2, _, data', _, _, _, _, _, _, hflush, _⟩ :=
      flush_post c ctx ds journal hwf hlen (hvbo hlen)
    exact ⟨_, _, hflush, fun h => absurd h hlen, fun _ => discard_drained journal2⟩

/-- C18 (flush of an empty journal is a no-op).  If the entry counter of the
journal is 0, the flush returns the journal as it is (batches, counters, pool
and pool cursor unchanged) and makes no call to another module. -/
theorem flush_of_empty_journal_is_noop [DecidableEq P] (c : Collaborators P R)
    (ctx : CoglContext) (ds : DrawState) (journal : CoglJournal P R)
    (h : journal.journal_len = 0) :
    _cogl_journal_flush c ctx ds journal = some (journal, []) :=
  flush_empty c ctx ds journal h

/-- C19 (amended: the following read is handled in a supported format).  The
flush of a journal with no empty batch and right counters that is not empty
returns a drained journal, and the discard of any journal leaves a drained
journal with the pool and the pool cursor as they were; on a drained journal a
read in one of the two supported formats is handled with no intersection found
and no pixel stored, and a flush returns the journal as it is without a call. -/
theorem flush_and_discard_drain [DecidableEq P] (c : Collaborators P R) (ctx : CoglContext)
    (ds : DrawState) (journal : CoglJournal P R) (hwf : journal_wf journal)
    (hlen : journal.journal_len ≠ 0) (hvbo : 0 < journal.needed_vbo_len) :
    (∃ journal' calls, _cogl_journal_flush c ctx ds journal = some (journal', calls) ∧
      drained journal') ∧
    (∀ other : CoglJournal P R, drained (_cogl_journal_discard other) ∧
      (_cogl_journal_discard other).vbo_pool = other.vbo_pool ∧
      (_cogl_journal_discard other).next_vbo_in_pool = other.next_vbo_in_pool) ∧
    (∀ (after : CoglJournal P R), drained after →
      (∀ (ds' : DrawState) (x y : ℤ) (format : CoglPixelFormat), format_supported format →
        ∃ r, _cogl_journal_try_read_pixel c ds' after x y format = some r ∧
          r.handled = true ∧ r.found_intersection = some false ∧ r.pixel = none) ∧
      (∀ (ctx' : CoglContext) (ds' : DrawState),
        _cogl_journal_flush c ctx' ds' after = some (after, []))) := by
  refine ⟨?_, fun other => ⟨discard_drained other, rfl, rfl⟩, ?_⟩
  · obtain ⟨journal', calls, h1, _, h3⟩ := flush_returns c ctx ds journal hwf (fun _ => hvbo)
    exact ⟨journal', calls, h1, h3 hlen⟩
  · intro after hafter
    refine ⟨?_, fun ctx' ds' => flush_empty c ctx' ds' after hafter.2.1⟩
    intro ds' x y format hformat
    exact ⟨_, read_of_drained c ds' after x y format hafter hformat, rfl, rfl, rfl⟩

/-! ## Strides -/

theorem stride_pos (ds : DrawState) (n : ℤ) : 0 < GET_JOURNAL_VB_STRIDE_FOR_N_LAYERS ds n := by
  unfold GET_JOURNAL_VB_STRIDE_FOR_N_LAYERS POS_STRIDE COLOR_STRIDE TEX_STRIDE MIN_LAYER_PADING
  split_ifs <;> omega

theorem entry_stride_eq_iff (ds : DrawState) (e0 e1 : CoglJournalEntry) :
    entry_stride ds e0 = entry_stride ds e1 ↔
      GET_JOURNAL_VB_STRIDE_FOR_N_LAYERS ds e0.n_layers =
        GET_JOURNAL_VB_STRIDE_FOR_N_LAYERS ds e1.n_layers := by
  have h0 := stride_pos ds e0.n_layers
  have h1 := stride_pos ds e1.n_layers
  unfold entry_stride
  omega

theorem mem_stride_runs (journal : CoglJournal P R) (r : List CoglJournalIter)
    (hr : r ∈ stride_runs journal) :
    (∃ pre post, all_iters journal = pre ++ r ++ post) ∧ r ≠ [] ∧
      r.Chain' (fun a b => test_of compare_entry_strides journal a b = true) := by
  unfold stride_runs at hr
  obtain ⟨r1, hr1, hr2⟩ := List.mem_flatMap.1 hr
  obtain ⟨A, B, hAB⟩ := mem_split_runs_stretch _ _ r1 hr1
  obtain ⟨A2, B2, hAB2⟩ := mem_split_runs_stretch _ r1 r hr2
  exact ⟨⟨A ++ A2, B2 ++ B, stretch_of_stretch _ _ _ _ _ _ _ hAB hAB2⟩,
    split_runs_nonempty _ r1 r hr2, split_runs_chain _ r1 r hr2⟩

/-- Every entry of a stride run has the stride of the first entry of the run. -/
theorem stride_run_homogeneous (ds : DrawState) (journal : CoglJournal P R)
    (r : List CoglJournalIter) (hr : r ∈ stride_runs journal) (start : CoglJournalIter)
    (hstart : r.head? = some start) (x : CoglJournalIter) (hx : x ∈ r) :
    ∃ e es, iter_entry journal x = some e ∧ iter_entry journal start = some es ∧
      entry_stride ds e = entry_stride ds es := by
  obtain ⟨⟨pre, post, hsplit⟩, _, hchain⟩ := mem_stride_runs journal r hr
  have hsub : ∀ y ∈ r, y ∈ all_iters journal := by
    intro y hy; rw [hsplit]; simp [hy]
  obtain ⟨_, _, _, e, _, _, _, _, he⟩ := all_iters_valid journal x (hsub x hx)
  obtain ⟨_, _, _, es, _, _, _, _, hes⟩ :=
    all_iters_valid journal start (hsub start (head_mem_of_head? r start hstart))
  refine ⟨e, es, he, hes, ?_⟩
  have := chain_key_eq (fun it : CoglJournalIter => (iter_entry journal it).map
    (entry_stride ds)) r start hstart
    (List.Chain'.imp (fun a b hab => strides_test_key ds journal a b hab) hchain) x hx
  simpa [he, hes] using this

/-- C21 (stride compatibility is stride equality).  For all layer counts the
test of `compare_entry_strides` (equal counts, or both at most 2) holds exactly
when the padded strides `GET_JOURNAL_VB_STRIDE_FOR_N_LAYERS` are equal, the
stride being the position words, one colour word and two words for each of
`max n 2` layers; on two entries the function returns whether their strides are
equal; the test is an equivalence relation; and every entry of a level-2
(stride) run of the journal has the stride of the first entry of the run. -/
theorem stride_compatibility_is_stride_equality (ds : DrawState) (journal : CoglJournal P R) :
    (∀ n0 n1 : ℤ, (n0 = n1 ∨ (n0 ≤ MIN_LAYER_PADING ∧ n1 ≤ MIN_LAYER_PADING)) ↔
      GET_JOURNAL_VB_STRIDE_FOR_N_LAYERS ds n0 = GET_JOURNAL_VB_STRIDE_FOR_N_LAYERS ds n1) ∧
    (∀ n : ℤ, GET_JOURNAL_VB_STRIDE_FOR_N_LAYERS ds n = POS_STRIDE ds + 1 + 2 * max n 2) ∧
    (∀ (iter0 iter1 : CoglJournalIter) (entry0 entry1 : CoglJournalEntry),
      iter_entry journal iter0 = some entry0 → iter_entry journal iter1 = some entry1 →
      compare_entry_strides journal iter0 iter1 =
        some (decide (entry_stride ds entry0 = entry_stride ds entry1))) ∧
    Equivalence (fun n0 n1 : ℤ =>
      n0 = n1 ∨ (n0 ≤ MIN_LAYER_PADING ∧ n1 ≤ MIN_LAYER_PADING)) ∧
    (∀ r ∈ stride_runs journal, ∀ start, r.head? = some start → ∀ x ∈ r,
      ∃ e es, iter_entry journal x = some e ∧ iter_entry journal start = some es ∧
        entry_stride ds e = entry_stride ds es) := by
  refine ⟨compare_strides_iff ds, ?_, ?_, ⟨?_, ?_, ?_⟩, ?_⟩
  · intro n
    unfold GET_JOURNAL_VB_STRIDE_FOR_N_LAYERS COLOR_STRIDE TEX_STRIDE MIN_LAYER_PADING
    split_ifs with h
    · rw [max_eq_right (by omega)]
    · rw [max_eq_left (by omega)]
  · intro iter0 iter1 entry0 entry1 h0 h1
    simp only [compare_entry_strides, h0, h1, Option.some.injEq, decide_eq_decide]
    rw [entry_stride_eq_iff]
    exact compare_strides_iff ds entry0.n_layers entry1.n_layers
  · intro n
    exact Or.inl rfl
  · intro a b h
    rcases h with h | h
    · exact Or.inl h.symm
    · exact Or.inr ⟨h.2, h.1⟩
  · intro a b d hab hbd
    unfold MIN_LAYER_PADING at *
    omega
  · intro r hr start hstart x hx
    exact stride_run_homogeneous ds journal r hr start hstart x hx

/-! ## Translations -/

theorem calculate_translation_columns (a b : CoglMatrix) (t : ℚ × ℚ)
    (h : calculate_translation a b = some t) : same_first_three_columns a b := by
  unfold calculate_translation at h
  split_ifs at h with h1
  unfold same_first_three_columns
  by_contra hne
  apply h1
  simp only [not_and_or] at hne
  tauto

theorem calculate_translation_of_product (a : CoglMatrix) (x y : ℚ) (hyy : a.yy ≠ 0)
    (hdet : a.xx * a.yy ≠ a.xy * a.yx) :
    calculate_translation a (matrix_multiply a (translation_matrix x y)) = some (x, y) := by
  have hden : a.xy * a.yx / a.yy - a.xx ≠ 0 := by
    intro h
    apply hdet
    field_simp at h
    linarith
  have htx : ((a.xy * (a.yx * x + a.yy * y + a.yw) - a.yw * a.xy) / a.yy + a.xw -
      (a.xx * x + a.xy * y + a.xw)) / (a.xy * a.yx / a.yy - a.xx) = x := by
    rw [div_eq_iff hden]
    field_simp
    ring
  have hty : (a.yx * x + a.yy * y + a.yw - a.yx * x - a.yw) / a.yy = y := by
    field_simp
    ring
  unfold calculate_translation
  simp only [matrix_multiply, translation_matrix, mul_one, mul_zero, add_zero, zero_add,
    ne_eq, not_true_eq_false, or_self, if_false, htx, hty, APPROX_EQUAL]
  norm_num

/-- C24 (translation recovery).  In exact arithmetic, for every matrix `a` with
`a.yy != 0` and `a.xx * a.yy != a.xy * a.yx` and for all `x`, `y`,
`calculate_translation (a, a ⋅ T(x, y))` returns `TRUE` with `tx = x` and
`ty = y`; and whenever `calculate_translation (a, b)` returns `TRUE` the first
three columns of `a` and `b` are equal. -/
theorem translation_recovery (a : CoglMatrix) (x y : ℚ) (hyy : a.yy ≠ 0)
    (hdet : a.xx * a.yy ≠ a.xy * a.yx) :
    calculate_translation a (matrix_multiply a (translation_matrix x y)) = some (x, y) ∧
      ∀ (b : CoglMatrix) (t : ℚ × ℚ), calculate_translation a b = some t →
        same_first_three_columns a b :=
  ⟨calculate_translation_of_product a x y hyy hdet,
    fun b t h => calculate_translation_columns a b t h⟩

/-! ## The software clip: the rewrite -/

theorem clip_tex_coords_layer_length (f1 g1 f2 g2 : ℚ) (tex : List ℚ) (i : ℕ) :
    (clip_tex_coords_layer f1 g1 f2 g2 tex i).length = tex.length := by
  simp [clip_tex_coords_layer]

theorem clip_tex_coords_layer_other (f1 g1 f2 g2 : ℚ) (tex : List ℚ) (i k : ℕ)
    (h : k < 4 * i ∨ 4 * i + 3 < k) :
    (clip_tex_coords_layer f1 g1 f2 g2 tex i)[k]? = tex[k]? := by
  unfold clip_tex_coords_layer
  simp only
  rw [List.getElem?_set_ne (by omega), List.getElem?_set_ne (by omega),
    List.getElem?_set_ne (by omega), List.getElem?_set_ne (by omega)]

theorem clip_tex_coords_layer_self (f1 g1 f2 g2 : ℚ) (tex : List ℚ) (i : ℕ)
    (h : 4 * i + 3 < tex.length) :
    (clip_tex_coords_layer f1 g1 f2 g2 tex i).getD (4 * i) 0 =
        f1 * (tex.getD (4 * i + 2) 0 - tex.getD (4 * i) 0) + tex.getD (4 * i) 0 ∧
      (clip_tex_coords_layer f1 g1 f2 g2 tex i).getD (4 * i + 1) 0 =
        g1 * (tex.getD (4 * i + 3) 0 - tex.getD (4 * i + 1) 0) + tex.getD (4 * i + 1) 0 ∧
      (clip_tex_coords_layer f1 g1 f2 g2 tex i).getD (4 * i + 2) 0 =
        f2 * (tex.getD (4 * i + 2) 0 - tex.getD (4 * i) 0) + tex.getD (4 * i) 0 ∧
      (clip_tex_coords_layer f1 g1 f2 g2 tex i).getD (4 * i + 3) 0 =
        g2 * (tex.getD (4 * i + 3) 0 - tex.getD (4 * i + 1) 0) + tex.getD (4 * i + 1) 0 := by
  unfold clip_tex_coords_layer
  simp only [List.getD_eq_getElem?_getD, mul_comm i 4]
  refine ⟨?_, ?_, ?_, ?_⟩
  · rw [List.getElem?_set_ne (by omega), List.getElem?_set_ne (by omega),
      List.getElem?_set_ne (by omega), List.getElem?_set_self (by omega)]
    rfl
  · rw [List.getElem?_set_ne (by omega), List.getElem?_set_ne (by omega),
      List.getElem?_set_self (by simp only [List.length_set]; omega)]
    rfl
  · rw [List.getElem?_set_ne (by omega),
      List.getElem?_set_self (by simp only [List.length_set]; omega)]
    rfl
  · rw [List.getElem?_set_self (by simp only [List.length_set]; omega)]
    rfl

theorem clip_tex_coords_length (f1 g1 f2 g2 : ℚ) (tex : List ℚ) (n : ℕ) :
    ((List.range n).foldl (clip_tex_coords_layer f1 g1 f2 g2) tex).length = tex.length := by
  induction n with
  | zero => rfl
  | succ n ih =>
    rw [List.range_succ, List.foldl_append]
    simp only [List.foldl_cons, List.foldl_nil, clip_tex_coords_layer_length, ih]

theorem clip_tex_coords_above (f1 g1 f2 g2 : ℚ) (tex : List ℚ) (n k : ℕ) (h : 4 * n ≤ k) :
    ((List.range n).foldl (clip_tex_coords_layer f1 g1 f2 g2) tex)[k]? = tex[k]? := by
  induction n with
  | zero => rfl
  | succ n ih =>
    rw [List.range_succ, List.foldl_append]
    simp only [List.foldl_cons, List.foldl_nil]
    rw [clip_tex_coords_layer_other _ _ _ _ _ _ _ (by omega), ih (by omega)]

/-- The texture-coordinate loop of `software_clip_entry` over `n` layers that
the array holds: the four coordinates of layer `i` are interpolated between the
original ones of the layer. -/
theorem clip_tex_coords_layers (f1 g1 f2 g2 : ℚ) (tex : List ℚ) (n i : ℕ) (hi : i < n)
    (hlen : 4 * n ≤ tex.length) :
    ((List.range n).foldl (clip_tex_coords_layer f1 g1 f2 g2) tex).getD (4 * i) 0 =
        f1 * (tex.getD (4 * i + 2) 0 - tex.getD (4 * i) 0) + tex.getD (4 * i) 0 ∧
      ((List.range n).foldl (clip_tex_coords_layer f1 g1 f2 g2) tex).getD (4 * i + 1) 0 =
        g1 * (tex.getD (4 * i + 3) 0 - tex.getD (4 * i + 1) 0) + tex.getD (4 * i + 1) 0 ∧
      ((List.range n).foldl (clip_tex_coords_layer f1 g1 f2 g2) tex).getD (4 * i + 2) 0 =
        f2 * (tex.getD (4 * i + 2) 0 - tex.getD (4 * i) 0) + tex.getD (4 * i) 0 ∧
      ((List.range n).foldl (clip_tex_coords_layer f1 g1 f2 g2) tex).getD (4 * i + 3) 0 =
        g2 * (tex.getD (4 * i + 3) 0 - tex.getD (4 * i + 1) 0) + tex.getD (4 * i + 1) 0 := by
  induction n with
  | zero => omega
  | succ n ih =>
    rw [List.range_succ, List.foldl_append]
    simp only [List.foldl_cons, List.foldl_nil]
    by_cases hin : i < n
    · have := ih hin (by omega)
      simp only [List.getD_eq_getElem?_getD] at this ⊢
      rw [clip_tex_coords_layer_other _ _ _ _ _ _ _ (by omega),
        clip_tex_coords_layer_other _ _ _ _ _ _ _ (by omega),
        clip_tex_coords_layer_other _ _ _ _ _ _ _ (by omega),
        clip_tex_coords_layer_other _ _ _ _ _ _ _ (by omega)]
      exact this
    · have hieq : i = n := by omega
      subst hieq
      have h := clip_tex_coords_layer_self f1 g1 f2 g2
        ((List.range i).foldl (clip_tex_coords_layer f1 g1 f2 g2) tex) i
        (by rw [clip_tex_coords_length]; omega)
      simp only [List.getD_eq_getElem?_getD] at h ⊢
      rw [clip_tex_coords_above _ _ _ _ _ _ _ (by omega),
        clip_tex_coords_above _ _ _ _ _ _ _ (by omega),
        clip_tex_coords_above _ _ _ _ _ _ _ (by omega),
        clip_tex_coords_above _ _ _ _ _ _ _ (by omega)] at h
      exact h

theorem swap_back_first (v1 v2 low high : ℚ) :
    (if v1 > v2 then CLAMP (if v1 < v2 then v2 else v1) low high
      else CLAMP (if v1 < v2 then v1 else v2) low high) = CLAMP v1 low high := by
  by_cases h : v1 > v2
  · rw [if_pos h, if_neg (by linarith)]
  · rw [if_neg h]
    by_cases h' : v1 < v2
    · rw [if_pos h']
    · rw [if_neg h', show v2 = v1 by linarith]

theorem swap_back_second (v1 v2 low high : ℚ) :
    (if v1 > v2 then CLAMP (if v1 < v2 then v1 else v2) low high
      else CLAMP (if v1 < v2 then v2 else v1) low high) = CLAMP v2 low high := by
  by_cases h : v1 > v2
  · rw [if_pos h, if_neg (by linarith)]
  · rw [if_neg h]
    by_cases h' : v1 < v2
    · rw [if_pos h']
    · rw [if_neg h', show v1 = v2 by linarith]

/-- The entry that `software_clip_entry` returns when the overlap of the quad
with the bound has positive width and height: each corner is clamped to the
bound, and the texture coordinates are rewritten with the fractions of the
clamped corners. -/
theorem software_clip_overlapping (c : Collaborators P R) (ds : DrawState)
    (entry : CoglJournalEntry) (bounds : ClipBounds)
    (hw : 0 < overlap_width entry bounds) (hh : 0 < overlap_height entry bounds) :
    software_clip_entry c ds entry bounds =
      if ds.disable_software_transform then
        { entry with
          clip_stack := []
          position :=
            { f0 := CLAMP entry.position.f0 bounds.x_1 bounds.x_2
              f1 := CLAMP entry.position.f1 bounds.y_1 bounds.y_2
              f2 := CLAMP entry.position.f2 bounds.x_1 bounds.x_2
              f3 := CLAMP entry.position.f3 bounds.y_1 bounds.y_2 }
          tex_coords := (List.range entry.n_layers.toNat).foldl
            (clip_tex_coords_layer
              ((CLAMP entry.position.f0 bounds.x_1 bounds.x_2 - entry.position.f0) /
                (entry.position.f2 - entry.position.f0))
              ((CLAMP entry.position.f1 bounds.y_1 bounds.y_2 - entry.position.f1) /
                (entry.position.f3 - entry.position.f1))
              ((CLAMP entry.position.f2 bounds.x_1 bounds.x_2 - entry.position.f0) /
                (entry.position.f2 - entry.position.f0))
              ((CLAMP entry.position.f3 bounds.y_1 bounds.y_2 - entry.position.f1) /
                (entry.position.f3 - entry.position.f1))) entry.tex_coords }
      else
        _cogl_journal_calculate_transformed_vertices c
          { entry with
            clip_stack := []
            position :=
              { f0 := CLAMP entry.position.f0 bounds.x_1 bounds.x_2
                f1 := CLAMP entry.position.f1 bounds.y_1 bounds.y_2
                f2 := CLAMP entry.position.f2 bounds.x_1 bounds.x_2
                f3 := CLAMP entry.position.f3 bounds.y_1 bounds.y_2 }
            tex_coords := (List.range entry.n_layers.toNat).foldl
              (clip_tex_coords_layer
                ((CLAMP entry.position.f0 bounds.x_1 bounds.x_2 - entry.position.f0) /
                  (entry.position.f2 - entry.position.f0))
                ((CLAMP entry.position.f1 bounds.y_1 bounds.y_2 - entry.position.f1) /
                  (entry.position.f3 - entry.position.f1))
                ((CLAMP entry.position.f2 bounds.x_1 bounds.x_2 - entry.position.f0) /
                  (entry.position.f2 - entry.position.f0))
                ((CLAMP entry.position.f3 bounds.y_1 bounds.y_2 - entry.position.f1) /
                  (entry.position.f3 - entry.position.f1))) entry.tex_coords } := by
  have hx : bounds.x_1 ≤ bounds.x_2 := by
    unfold overlap_width at hw
    have h1 := min_le_right (max entry.position.f0 entry.position.f2) bounds.x_2
    have h2 := le_max_right (min entry.position.f0 entry.position.f2) bounds.x_1
    linarith
  have hy : bounds.y_1 ≤ bounds.y_2 := by
    unfold overlap_height at hh
    have h1 := min_le_right (max entry.position.f1 entry.position.f3) bounds.y_2
    have h2 := le_max_right (min entry.position.f1 entry.position.f3) bounds.y_1
    linarith
  have h : ¬ (CLAMP (if entry.position.f0 < entry.position.f2 then entry.position.f0
        else entry.position.f2) bounds.x_1 bounds.x_2 =
      CLAMP (if entry.position.f0 < entry.position.f2 then entry.position.f2
        else entry.position.f0) bounds.x_1 bounds.x_2 ∨
      CLAMP (if entry.position.f1 < entry.position.f3 then entry.position.f1
        else entry.position.f3) bounds.y_1 bounds.y_2 =
      CLAMP (if entry.position.f1 < entry.position.f3 then entry.position.f3
        else entry.position.f1) bounds.y_1 bounds.y_2) := by
    rw [clamp_eq_iff _ _ _ _ hx, clamp_eq_iff _ _ _ _ hy]
    unfold overlap_width at hw
    unfold overlap_height at hh
    intro h
    rcases h with h | h <;> linarith
  unfold software_clip_entry
  simp only [h, if_false, swap_back_first, swap_back_second]

theorem CLAMP_low (a low high : ℚ) (h : a ≤ high) : CLAMP a low high = max a low := by
  unfold CLAMP
  rw [if_neg (not_lt.2 h)]
  by_cases h' : a < low
  · rw [if_pos h', max_eq_right h'.le]
  · rw [if_neg h', max_eq_left (not_lt.1 h')]

theorem CLAMP_high (b low high : ℚ) (h : low ≤ b) : CLAMP b low high = min b high := by
  unfold CLAMP
  by_cases h' : b > high
  · rw [if_pos h', min_eq_right h'.le]
  · rw [if_neg h', if_neg (not_lt.2 h), min_eq_left (not_lt.1 h')]

theorem clamp_pair_le (a b low high : ℚ)
    (h : 0 < min b high - max a low) :
    CLAMP a low high = max a low ∧ CLAMP b low high = min b high ∧
      max a low < min b high ∧ low ≤ max a low ∧ min b high ≤ high := by
  have h1 : max a low < min b high := by linarith
  have h2 : a < high := lt_of_le_of_lt (le_max_left a low) (lt_of_lt_of_le h1 (min_le_right _ _))
  have h3 : low < b := lt_of_le_of_lt (le_max_right a low) (lt_of_lt_of_le h1 (min_le_left _ _))
  exact ⟨CLAMP_low a low high h2.le, CLAMP_high b low high h3.le, h1, le_max_right _ _,
    min_le_right _ _⟩

/-- The corners of a quad clamped to a bound that overlaps it with positive
width: they span the intersection, in the orientation of the quad, inside the
bound. -/
theorem clamp_pair (x0 x2 low high : ℚ)
    (h : 0 < min (max x0 x2) high - max (min x0 x2) low) :
    min (CLAMP x0 low high) (CLAMP x2 low high) = max (min x0 x2) low ∧
      max (CLAMP x0 low high) (CLAMP x2 low high) = min (max x0 x2) high ∧
      (x0 < x2 → CLAMP x0 low high < CLAMP x2 low high) ∧
      (x0 > x2 → CLAMP x0 low high > CLAMP x2 low high) ∧
      (low ≤ CLAMP x0 low high ∧ CLAMP x0 low high ≤ high) ∧
      (low ≤ CLAMP x2 low high ∧ CLAMP x2 low high ≤ high) ∧
      CLAMP x0 low high ≠ CLAMP x2 low high ∧ x0 ≠ x2 := by
  rcases le_total x0 x2 with h02 | h02
  · rw [max_eq_right h02, min_eq_left h02] at h ⊢
    obtain ⟨e1, e2, e3, e4, e5⟩ := clamp_pair_le x0 x2 low high h
    rw [e1, e2]
    refine ⟨min_eq_left e3.le, max_eq_right e3.le, fun _ => e3, fun h' => absurd h02 (not_le.2 h'),
      ⟨e4, le_trans e3.le e5⟩, ⟨le_trans e4 e3.le, e5⟩, ne_of_lt e3, ?_⟩
    intro heq
    rw [heq] at e3
    have := lt_of_le_of_lt (le_max_left x2 low) (lt_of_lt_of_le e3 (min_le_left _ _))
    exact lt_irrefl _ this
  · rw [max_eq_left h02, min_eq_right h02] at h ⊢
    obtain ⟨e1, e2, e3, e4, e5⟩ := clamp_pair_le x2 x0 low high h
    rw [e1, e2]
    refine ⟨min_eq_right e3.le, max_eq_left e3.le, fun h' => absurd h02 (not_le.2 h'),
      fun _ => e3, ⟨le_trans e4 e3.le, e5⟩, ⟨e4, le_trans e3.le e5⟩, (ne_of_lt e3).symm, ?_⟩
    intro heq
    rw [← heq] at e3
    have := lt_of_le_of_lt (le_max_left x0 low) (lt_of_lt_of_le e3 (min_le_left _ _))
    exact lt_irrefl _ this

theorem software_clip_entry_model_view (c : Collaborators P R) (ds : DrawState)
    (entry : CoglJournalEntry) (bounds : ClipBounds) :
    (software_clip_entry c ds entry bounds).model_view = entry.model_view := by
  unfold software_clip_entry
  simp only
  split_ifs <;> rfl

theorem software_clip_entry_verts_debug (c : Collaborators P R) (ds : DrawState)
    (entry : CoglJournalEntry) (bounds : ClipBounds)
    (hd : ds.disable_software_transform = true) :
    (software_clip_entry c ds entry bounds).transformed_verts = entry.transformed_verts := by
  unfold software_clip_entry
  simp only [hd, if_true]
  split_ifs <;> rfl

theorem software_clip_position (c : Collaborators P R) (ds : DrawState)
    (entry : CoglJournalEntry) (bounds : ClipBounds)
    (hw : 0 < overlap_width entry bounds) (hh : 0 < overlap_height entry bounds) :
    (software_clip_entry c ds entry bounds).position =
      { f0 := CLAMP entry.position.f0 bounds.x_1 bounds.x_2
        f1 := CLAMP entry.position.f1 bounds.y_1 bounds.y_2
        f2 := CLAMP entry.position.f2 bounds.x_1 bounds.x_2
        f3 := CLAMP entry.position.f3 bounds.y_1 bounds.y_2 } := by
  rw [software_clip_overlapping c ds entry bounds hw hh]
  split_ifs <;> rfl

theorem software_clip_tex_coords (c : Collaborators P R) (ds : DrawState)
    (entry : CoglJournalEntry) (bounds : ClipBounds)
    (hw : 0 < overlap_width entry bounds) (hh : 0 < overlap_height entry bounds) :
    (software_clip_entry c ds entry bounds).tex_coords =
      (List.range entry.n_layers.toNat).foldl
        (clip_tex_coords_layer
          (((software_clip_entry c ds entry bounds).position.f0 - entry.position.f0) /
            (entry.position.f2 - entry.position.f0))
          (((software_clip_entry c ds entry bounds).position.f1 - entry.position.f1) /
            (entry.position.f3 - entry.position.f1))
          (((software_clip_entry c ds entry bounds).position.f2 - entry.position.f0) /
            (entry.position.f2 - entry.position.f0))
          (((software_clip_entry c ds entry bounds).position.f3 - entry.position.f1) /
            (entry.position.f3 - entry.position.f1))) entry.tex_coords := by
  rw [software_clip_position c ds entry bounds hw hh,
    software_clip_overlapping c ds entry bounds hw hh]
  split_ifs <;> rfl

theorem entry_eq_of_fields (a b : CoglJournalEntry) (h1 : a.position = b.position)
    (h2 : a.transformed_verts = b.transformed_verts) (h3 : a.color = b.color)
    (h4 : a.n_layers = b.n_layers) (h5 : a.model_view = b.model_view)
    (h6 : a.clip_stack = b.clip_stack) (h7 : a.tex_coords = b.tex_coords) : a = b := by
  cases a
  cases b
  simp only at h1 h2 h3 h4 h5 h6 h7
  simp only [h1, h2, h3, h4, h5, h6, h7]

/-- A second software clip with the same bound changes nothing, when the
overlap of the quad with the bound has positive width and height. -/
theorem software_clip_idempotent (c : Collaborators P R) (ds : DrawState)
    (entry : CoglJournalEntry) (bounds : ClipBounds)
    (hw : 0 < overlap_width entry bounds) (hh : 0 < overlap_height entry bounds) :
    software_clip_entry c ds (software_clip_entry c ds entry bounds) bounds =
      software_clip_entry c ds entry bounds := by
  have hpos := software_clip_position c ds entry bounds hw hh
  obtain ⟨a1, a2, _, _, a5, a6, a7, _⟩ := clamp_pair entry.position.f0 entry.position.f2
    bounds.x_1 bounds.x_2 hw
  obtain ⟨b1, b2, _, _, b5, b6, b7, _⟩ := clamp_pair entry.position.f1 entry.position.f3
    bounds.y_1 bounds.y_2 hh
  have hin : bound_contains bounds (software_clip_entry c ds entry bounds) := by
    unfold bound_contains
    rw [hpos]
    exact ⟨a5, a6, b5, b6⟩
  have hnd : (software_clip_entry c ds entry bounds).position.f0 ≠
      (software_clip_entry c ds entry bounds).position.f2 ∧
      (software_clip_entry c ds entry bounds).position.f1 ≠
        (software_clip_entry c ds entry bounds).position.f3 := by
    rw [hpos]
    exact ⟨a7, b7⟩
  have hw' : 0 < overlap_width (software_clip_entry c ds entry bounds) bounds := by
    unfold overlap_width at hw ⊢
    rw [hpos]
    simp only
    rw [a1, a2, min_eq_left (min_le_right _ _), max_eq_left (le_max_right _ _)]
    exact hw
  have hh' : 0 < overlap_height (software_clip_entry c ds entry bounds) bounds := by
    unfold overlap_height at hh ⊢
    rw [hpos]
    simp only
    rw [b1, b2, min_eq_left (min_le_right _ _), max_eq_left (le_max_right _ _)]
    exact hh
  obtain ⟨hp, ht⟩ := software_clip_contained c ds (software_clip_entry c ds entry bounds)
    bounds hin (Or.inr hnd)
  apply entry_eq_of_fields
  · exact hp
  · by_cases hd : ds.disable_software_transform = true
    · exact software_clip_entry_verts_debug c ds _ bounds hd
    · have hd' : ds.disable_software_transform = false := by simpa using hd
      have s1 := software_clip_kept_in_sync c ds entry bounds hd' hw hh
      have s2 := software_clip_kept_in_sync c ds (software_clip_entry c ds entry bounds) bounds
        hd' hw' hh'
      unfold entry_in_sync at s1 s2
      rw [s2, s1, hp, software_clip_entry_model_view]
  · rw [software_clip_entry_color]
  · rw [software_clip_entry_n_layers]
  · rw [software_clip_entry_model_view]
  · rw [software_clip_entry_clip_stack, software_clip_entry_clip_stack]
  · exact ht

/-- C25 (software clip rewrite to the clipped sub-rectangle).  For every entry
that holds the texture coordinates of its layers and every bound whose overlap
with the entry's quad has positive width and height (so the quad is not
degenerate and the bound is well formed), after `software_clip_entry` the
position spans the intersection of the quad with the bound in the corner
orientation of the quad, the number of texture coordinates is kept, the texture
coordinates of every layer are the linear interpolation of the original ones at
the fractional position of the new corners, and a second `software_clip_entry`
with the same bound returns the same entry. -/
theorem software_clip_rewrites_to_intersection (c : Collaborators P R) (ds : DrawState)
    (entry : CoglJournalEntry) (bounds : ClipBounds)
    (hw : 0 < overlap_width entry bounds) (hh : 0 < overlap_height entry bounds)
    (hlen : 4 * entry.n_layers.toNat ≤ entry.tex_coords.length) :
    spans_intersection entry.position (software_clip_entry c ds entry bounds).position bounds ∧
      same_orientation entry.position (software_clip_entry c ds entry bounds).position ∧
      (software_clip_entry c ds entry bounds).tex_coords.length = entry.tex_coords.length ∧
      (∀ i, i < entry.n_layers.toNat →
        layer_interpolated entry (software_clip_entry c ds entry bounds) i) ∧
      software_clip_entry c ds (software_clip_entry c ds entry bounds) bounds =
        software_clip_entry c ds entry bounds := by
  obtain ⟨a1, a2, a3, a4, _⟩ := clamp_pair entry.position.f0 entry.position.f2
    bounds.x_1 bounds.x_2 hw
  obtain ⟨b1, b2, b3, b4, _⟩ := clamp_pair entry.position.f1 entry.position.f3
    bounds.y_1 bounds.y_2 hh
  refine ⟨?_, ?_, ?_, ?_, software_clip_idempotent c ds entry bounds hw hh⟩
  · rw [software_clip_position c ds entry bounds hw hh]
    exact ⟨a1, a2, b1, b2⟩
  · rw [software_clip_position c ds entry bounds hw hh]
    exact ⟨a3, a4, b3, b4⟩
  · rw [software_clip_tex_coords c ds entry bounds hw hh, clip_tex_coords_length]
  · intro i hi
    unfold layer_interpolated
    rw [software_clip_tex_coords c ds entry bounds hw hh]
    obtain ⟨h1, h2, h3, h4⟩ := clip_tex_coords_layers
      (((software_clip_entry c ds entry bounds).position.f0 - entry.position.f0) /
        (entry.position.f2 - entry.position.f0))
      (((software_clip_entry c ds entry bounds).position.f1 - entry.position.f1) /
        (entry.position.f3 - entry.position.f1))
      (((software_clip_entry c ds entry bounds).position.f2 - entry.position.f0) /
        (entry.position.f2 - entry.position.f0))
      (((software_clip_entry c ds entry bounds).position.f3 - entry.position.f1) /
        (entry.position.f3 - entry.position.f1))
      entry.tex_coords entry.n_layers.toNat i hi hlen
    rw [h1, h2, h3, h4]
    refine ⟨?_, ?_, ?_, ?_⟩ <;> ring

/-! ## The fast pixel read on unclipped journals -/

theorem iter_entry_mem (journal : CoglJournal P R) (iter : CoglJournalIter)
    (e : CoglJournalEntry) (h : iter_entry journal iter = some e) : e ∈ all_entries journal := by
  unfold iter_entry at h
  cases hk : iter.entry with
  | none => simp [hk] at h
  | some k =>
    cases hb : batch_at journal iter.batch_num with
    | none => simp [hk, hb] at h
    | some batch =>
      simp only [hk, hb] at h
      unfold batch_at at hb
      split_ifs at hb
      have hmem : batch ∈ journal.batches := List.get?_mem hb
      have he : e ∈ batch.entries := List.get?_mem h
      unfold all_entries
      rw [List.mem_flatten]
      exact ⟨batch.entries, List.mem_map_of_mem (fun b : CoglJournalBatch P R => b.entries) hmem,
        he⟩

theorem journal_count_zero (journal : CoglJournal P R) :
    journal = { journal with fast_read_pixel_count := journal.fast_read_pixel_count + 0 } := by
  cases journal
  simp

theorem read_pixel_hit_journal (c : Collaborators P R) (journal : CoglJournal P R)
    (pipeline : P) (entry : CoglJournalEntry) :
    (read_pixel_hit c journal pipeline entry).journal =
      { journal with
        fast_read_pixel_count := journal.fast_read_pixel_count +
          (if (read_pixel_hit c journal pipeline entry).handled = true then 1 else 0) } := by
  unfold read_pixel_hit read_pixel_success
  by_cases h1 : c._cogl_pipeline_equal c.opaque_color_pipeline pipeline = true
  · by_cases h2 : entry.color.a = 0xff
    · simp [h1, h2]
    · simp only [h1, h2, Bool.not_true, Bool.false_eq_true, if_false, ne_eq, not_false_eq_true,
        if_true]
      exact journal_count_zero journal
  · simp only [h1, Bool.not_false, if_true, Bool.false_eq_true, if_false]
    exact journal_count_zero journal

/-- The loop of the fast read on a journal without clipped entry: the journal
it leaves differs from the one it found in the fast-read counter only. -/
theorem read_pixel_loop_unclipped [DecidableEq P] (c : Collaborators P R) (ds : DrawState)
    (x y : ℤ) (journal : CoglJournal P R)
    (hclip : ∀ e ∈ all_entries journal, e.clip_stack = []) :
    ∀ (fuel : ℕ) (iter : CoglJournalIter) (r : ReadPixel P R),
      read_pixel_loop c ds x y fuel journal iter = some r →
      r.journal = { journal with
        fast_read_pixel_count := journal.fast_read_pixel_count +
          (if r.handled = true then 1 else 0) } := by
  intro fuel
  induction fuel with
  | zero =>
    intro iter r h
    simp only [read_pixel_loop, Option.some.injEq] at h
    subst h
    simp [read_pixel_success]
  | succ fuel ih =>
    intro iter r h
    rw [read_pixel_loop] at h
    cases hie : iter_entry journal iter with
    | none => simp [hie] at h
    | some entry =>
      cases hba : batch_at journal iter.batch_num with
      | none => simp [hie, hba] at h
      | some batch =>
        simp only [hie, hba] at h
        have hc : entry.clip_stack = [] := hclip entry (iter_entry_mem journal iter entry hie)
        split at h
        · cases hprev : _cogl_journal_iterator_previous journal iter with
          | none => simp [hprev] at h
          | some prev =>
            simp only [hprev] at h
            exact ih prev r h
        · rw [if_neg (by simp [hc])] at h
          simp only [Option.some.injEq] at h
          subst h
          exact read_pixel_hit_journal c journal batch.pipeline entry

/-- C29 (the fast read is read-only on unclipped journals).  On a journal with
no empty batch and a right entry counter in which no entry has a clip stack,
for every point and format, `_cogl_journal_try_read_pixel` returns, and the
journal it leaves is the one it found (every batch and entry, `journal_len`,
`needed_vbo_len`, the pool) but for `fast_read_pixel_count`, which has grown by
1 if the call returned handled and is unchanged if not. -/
theorem try_read_pixel_read_only [DecidableEq P] (c : Collaborators P R) (ds : DrawState)
    (journal : CoglJournal P R) (x y : ℤ) (format : CoglPixelFormat)
    (hwf : journal_wf journal) (hclip : ∀ e ∈ all_entries journal, e.clip_stack = []) :
    ∃ r, _cogl_journal_try_read_pixel c ds journal x y format = some r ∧
      r.journal = { journal with
        fast_read_pixel_count := journal.fast_read_pixel_count +
          (if r.handled = true then 1 else 0) } := by
  obtain ⟨r, hr⟩ := try_read_pixel_defined c ds journal x y format hwf
  refine ⟨r, hr, ?_⟩
  unfold _cogl_journal_try_read_pixel at hr
  split at hr
  · simp only [Option.some.injEq] at hr
    subst hr
    exact journal_count_zero journal
  · split at hr
    · simp only [Option.some.injEq] at hr
      subst hr
      exact journal_count_zero journal
    · split at hr
      · simp only [Option.some.injEq] at hr
        subst hr
        simp [read_pixel_success]
      · exact read_pixel_loop_unclipped c ds x y journal hclip _ _ r hr

/-! ## The colour balance -/

theorem gint_of_gdouble_int (n : ℤ) : gint_of_gdouble (n : ℚ) = n := by
  unfold gint_of_gdouble
  split_ifs <;> simp

theorem balance_read_write (priv : CoglGstVideoSinkPrivate) (new_value : ℚ)
    (pointer : BalanceVariable) (dirty : Bool) :
    pointer.read { pointer.write priv new_value with balance_dirty := dirty } = new_value := by
  cases pointer <;> rfl

/-- The value read back after a store through `set_value`, for a channel whose
label `cogl_gst_video_sink_get_variable` knows: `get_value` maps the stored
`(max - min) * t + min`, with `t` the fraction of `value` in the channel range,
to `(t + 2 * min / (max - min))` of the channel range. -/
theorem balance_get_after_set (priv : CoglGstVideoSinkPrivate) (label : String) (v : ℤ)
    (min max : ℚ) (pointer : BalanceVariable)
    (hvar : cogl_gst_video_sink_get_variable label = some (min, max, pointer)) :
    cogl_gst_video_sink_color_balance_get_value
        (cogl_gst_video_sink_color_balance_set_value priv (balance_channel label) v)
        (balance_channel label) =
      gint_of_gdouble ((((max - min) * (((v + 1000 : ℤ) : ℚ) / 2000) + min + min) /
        (max - min)) * 2000) - 1000 := by
  unfold cogl_gst_video_sink_color_balance_get_value
    cogl_gst_video_sink_color_balance_set_value balance_channel
  simp only [hvar]
  have h1 : (((v - -1000 : ℤ) : ℚ)) = ((v + 1000 : ℤ) : ℚ) := by push_cast; ring
  have h2 : (((1000 - -1000 : ℤ) : ℚ)) = 2000 := by norm_num
  rw [h1, h2]
  by_cases hne : (max - min) * (((v + 1000 : ℤ) : ℚ) / 2000) + min ≠ pointer.read priv
  · rw [if_pos hne, balance_read_write]
    rfl
  · rw [if_neg hne]
    have heq : pointer.read priv = (max - min) * (((v + 1000 : ℤ) : ℚ) / 2000) + min := by
      by_contra h
      exact hne (fun h' => h h'.symm)
    rw [heq]
    rfl

/-- What `get_value` returns after `set_value (channel, v)` for the four
channels: `v` for CONTRAST and SATURATION, `v - 2000` for BRIGHTNESS and HUE. -/
theorem balance_round_trip_values (priv : CoglGstVideoSinkPrivate) (v : ℤ) :
    cogl_gst_video_sink_color_balance_get_value
        (cogl_gst_video_sink_color_balance_set_value priv (balance_channel "CONTRAST") v)
        (balance_channel "CONTRAST") = v ∧
    cogl_gst_video_sink_color_balance_get_value
        (cogl_gst_video_sink_color_balance_set_value priv (balance_channel "SATURATION") v)
        (balance_channel "SATURATION") = v ∧
    cogl_gst_video_sink_color_balance_get_value
        (cogl_gst_video_sink_color_balance_set_value priv (balance_channel "BRIGHTNESS") v)
        (balance_channel "BRIGHTNESS") = v - 2000 ∧
    cogl_gst_video_sink_color_balance_get_value
        (cogl_gst_video_sink_color_balance_set_value priv (balance_channel "HUE") v)
        (balance_channel "HUE") = v - 2000 := by
  refine ⟨?_, ?_, ?_, ?_⟩
  · rw [balance_get_after_set priv "CONTRAST" v 0 2 BalanceVariable.contrast (by decide)]
    have : ((((2 : ℚ) - 0) * (((v + 1000 : ℤ) : ℚ) / 2000) + 0 + 0) / (2 - 0)) * 2000 =
        ((v + 1000 : ℤ) : ℚ) := by push_cast; ring
    rw [this, gint_of_gdouble_int]; ring
  · rw [balance_get_after_set priv "SATURATION" v 0 2 BalanceVariable.saturation (by decide)]
    have : ((((2 : ℚ) - 0) * (((v + 1000 : ℤ) : ℚ) / 2000) + 0 + 0) / (2 - 0)) * 2000 =
        ((v + 1000 : ℤ) : ℚ) := by push_cast; ring
    rw [this, gint_of_gdouble_int]; ring
  · rw [balance_get_after_set priv "BRIGHTNESS" v (-1) 1 BalanceVariable.brightness (by decide)]
    have : ((((1 : ℚ) - -1) * (((v + 1000 : ℤ) : ℚ) / 2000) + -1 + -1) / (1 - -1)) * 2000 =
        ((v - 1000 : ℤ) : ℚ) := by push_cast; ring
    rw [this, gint_of_gdouble_int]; ring
  · rw [balance_get_after_set priv "HUE" v (-1) 1 BalanceVariable.hue (by decide)]
    have : ((((1 : ℚ) - -1) * (((v + 1000 : ℤ) : ℚ) / 2000) + -1 + -1) / (1 - -1)) * 2000 =
        ((v - 1000 : ℤ) : ℚ) := by push_cast; ring
    rw [this, gint_of_gdouble_int]; ring

/-- C30 (colour-balance round trip), the code at the failing input: after
`set_value (BRIGHTNESS, 0)` on a sink with the default balance, `get_value
(BRIGHTNESS)` returns -2000, which is not 0 and lies outside the channel range
-1000..1000; a sink that was never set returns -2000 as well, and HUE behaves
the same, while the sibling channels CONTRAST and SATURATION, whose `min` is 0,
return the value set. -/
theorem color_balance_round_trip_fails :
    cogl_gst_video_sink_color_balance_get_value
        (cogl_gst_video_sink_color_balance_set_value default_balance
          (balance_channel "BRIGHTNESS") 0)
        (balance_channel "BRIGHTNESS") = -2000 ∧
    cogl_gst_video_sink_color_balance_get_value default_balance
        (balance_channel "BRIGHTNESS") = -2000 ∧
    cogl_gst_video_sink_color_balance_get_value
        (cogl_gst_video_sink_color_balance_set_value default_balance
          (balance_channel "HUE") 500)
        (balance_channel "HUE") = -1500 ∧
    cogl_gst_video_sink_color_balance_get_value
        (cogl_gst_video_sink_color_balance_set_value default_balance
          (balance_channel "CONTRAST") 500)
        (balance_channel "CONTRAST") = 500 ∧
    cogl_gst_video_sink_color_balance_get_value
        (cogl_gst_video_sink_color_balance_set_value default_balance
          (balance_channel "SATURATION") (-250))
        (balance_channel "SATURATION") = -250 := by
  decide!

/-! ## The upload stays inside the buffer -/

theorem upload_vertices_vout_chain (ds : DrawState) (journal : CoglJournal P R) :
    ∀ (l : List CoglJournalIter) (a : CoglJournalIter) (entries : List CoglJournalEntry)
      (vout : ℕ),
      List.Chain' (fun a b : CoglJournalIter =>
        _cogl_journal_iterator_next journal a = some b) (a :: l) →
      (a :: l).map (iter_entry journal) = entries.map some →
      upload_vertices_vout ds journal (l.length + 1) a vout =
        some (vout + upload_words ds entries)
  | [], a, entries, vout, _, hentries => by
    cases entries with
    | nil => simp at hentries
    | cons e es =>
      simp only [List.map_cons, List.map_nil, List.cons.injEq, List.nil_eq,
        List.map_eq_nil_iff] at hentries
      obtain ⟨he, hes⟩ := hentries
      subst hes
      obtain ⟨nx, hnx⟩ := iterator_next_defined journal a e he
      simp [upload_vertices_vout, he, hnx, upload_words, entry_stride]
  | b :: t, a, entries, vout, hchain, hentries => by
    cases entries with
    | nil => simp at hentries
    | cons e es =>
      have he : iter_entry journal a = some e := by
        have := congrArg List.head? hentries
        simpa using this
      have hes : (b :: t).map (iter_entry journal) = es.map some := by
        have := congrArg List.tail hentries
        simpa using this
      rw [List.chain'_cons] at hchain
      have ih := upload_vertices_vout_chain ds journal t b es
        (vout + entry_stride ds e * 4) hchain.2 hes
      rw [List.length_cons, upload_vertices_vout]
      simp only [he, hchain.1]
      rw [entry_stride] at ih
      rw [ih]
      simp only [upload_words, List.map_cons, List.sum_cons, entry_stride]
      rw [Nat.add_assoc]

/-- The pointer `vout` after the upload loop over a whole journal has advanced
by the words of all entries. -/
theorem upload_vertices_vout_all (ds : DrawState) (journal : CoglJournal P R)
    (hwf : journal_wf journal) (hlen : journal.journal_len ≠ 0) :
    upload_vertices_vout ds journal journal.journal_len (_cogl_journal_iterator_init journal) 0 =
      some (upload_words ds (all_entries journal)) := by
  have hpos : journal.batches ≠ [] := by
    intro hnil
    apply hlen
    rw [hwf.2]
    simp [all_entries, hnil]
  obtain ⟨l, hl⟩ := all_iters_head journal hwf.1 hpos
  have hchain := iters_of_chain journal journal.batches [] rfl hwf.1
  have hc : List.Chain' (fun a b : CoglJournalIter =>
      _cogl_journal_iterator_next journal a = some b) (all_iters journal) :=
    List.Chain'.imp (fun a b h => h.1) hchain
  have hentries : (all_iters journal).map (iter_entry journal) =
      (all_entries journal).map some := iters_of_entries journal journal.batches [] rfl
  have hcount : (all_iters journal).length = journal.journal_len := by
    rw [all_iters_length, hwf.2]
  rw [hl] at hc hentries hcount
  rw [← hcount]
  have := upload_vertices_vout_chain ds journal l _ _ 0 hc hentries
  simpa using this

theorem create_attribute_buffer_size (ctx : CoglContext) (journal : CoglJournal P R)
    (n_bytes : ℕ) : n_bytes ≤ (create_attribute_buffer ctx journal n_bytes).2 := by
  unfold create_attribute_buffer
  split_ifs
  · exact le_refl _
  · simp only
    split
    · exact le_refl _
    · split_ifs with h
      · exact le_refl _
      · exact not_lt.1 h

theorem entry_stride_pos (ds : DrawState) (entry : CoglJournalEntry) :
    0 < entry_stride ds entry := by
  have := stride_pos ds entry.n_layers
  unfold entry_stride
  omega

theorem upload_words_pos (ds : DrawState) (entries : List CoglJournalEntry)
    (h : entries ≠ []) : 0 < upload_words ds entries := by
  cases entries with
  | nil => exact absurd rfl h
  | cons e es =>
    have := entry_stride_pos ds e
    simp only [upload_words, List.map_cons, List.sum_cons]
    omega

theorem upload_words_of_layers (ds : DrawState) (entries entries' : List CoglJournalEntry)
    (h : entries'.map (fun e => e.n_layers) = entries.map (fun e => e.n_layers)) :
    upload_words ds entries' = upload_words ds entries := by
  have hmap : ∀ l : List CoglJournalEntry, l.map (fun e => entry_stride ds e * 4) =
      (l.map (fun e => e.n_layers)).map
        (fun n => (GET_JOURNAL_VB_STRIDE_FOR_N_LAYERS ds n).toNat * 4) := by
    intro l
    rw [List.map_map]
    rfl
  unfold upload_words
  rw [hmap, hmap, h]

/-- The entries of a journal of the same frame with the layer counts kept have
the layer counts of the entries of the first. -/
theorem layers_kept_entries (journal journal' : CoglJournal P R)
    (hframe : same_frame journal journal') (hkept : layers_kept journal journal') :
    (all_entries journal').map (fun e => e.n_layers) =
      (all_entries journal).map (fun e => e.n_layers) := by
  have h1 : (all_iters journal).map (iter_entry journal) = (all_entries journal).map some :=
    iters_of_entries journal journal.batches [] rfl
  have h2 : (all_iters journal').map (iter_entry journal') = (all_entries journal').map some :=
    iters_of_entries journal' journal'.batches [] rfl
  rw [same_frame_all_iters journal journal' hframe] at h2
  have h3 : ((all_iters journal).map (iter_entry journal')).map
      (Option.map (fun e => e.n_layers)) =
      ((all_iters journal).map (iter_entry journal)).map (Option.map (fun e => e.n_layers)) := by
    rw [List.map_map, List.map_map]
    apply List.map_congr_left
    intro it _
    exact hkept it
  rw [h1, h2, List.map_map, List.map_map] at h3
  have h4 : ∀ l : List CoglJournalEntry,
      l.map (Option.map (fun e : CoglJournalEntry => e.n_layers) ∘ some) =
        (l.map (fun e => e.n_layers)).map some := by
    intro l
    rw [List.map_map]
    rfl
  rw [h4, h4] at h3
  exact List.map_injective_iff.2 (Option.some_injective _) h3

/-- C23 (the upload stays inside the buffer).  For every journal with no empty
batch that satisfies the counters invariant and is not empty, `upload_vertices`
returns a buffer of at least `needed_vbo_len * 4` bytes, its pointer `vout` has
advanced by exactly `needed_vbo_len` words after the loop, and every word it
stores lies at an index below `needed_vbo_len`; the clipping pass that the flush
runs before the upload returns a journal that has no empty batch, satisfies the
counters invariant and is not empty either, with the layer count of every entry
and `needed_vbo_len` unchanged. -/
theorem upload_stays_inside_buffer [DecidableEq P] (c : Collaborators P R) (ctx : CoglContext)
    (ds : DrawState) (journal : CoglJournal P R)
    (hne : ∀ batch ∈ journal.batches, batch.entries ≠ [])
    (hinv : counters_invariant ds journal) (hlen : journal.journal_len ≠ 0) :
    (∃ journal' n_bytes stores,
      upload_vertices ctx ds journal = some (journal', n_bytes, stores) ∧
      journal.needed_vbo_len * 4 ≤ n_bytes ∧
      upload_vertices_vout ds journal' journal'.journal_len
        (_cogl_journal_iterator_init journal') 0 = some journal.needed_vbo_len ∧
      ∀ p ∈ stores, p.1 < journal.needed_vbo_len) ∧
    (∃ journal1,
      batch_and_call_data (fun j => j) compare_entry_clip_stacks
        (_cogl_journal_maybe_software_clip_entries c ds) (_cogl_journal_iterator_init journal)
        journal.journal_len journal = some journal1 ∧
      (∀ batch ∈ journal1.batches, batch.entries ≠ []) ∧
      counters_invariant ds journal1 ∧ journal1.journal_len ≠ 0 ∧
      journal1.needed_vbo_len = journal.needed_vbo_len ∧
      (all_entries journal1).map (fun e => e.n_layers) =
        (all_entries journal).map (fun e => e.n_layers)) := by
  have hwf : journal_wf journal := ⟨hne, hinv.1⟩
  have hentries : all_entries journal ≠ [] := by
    intro h
    apply hlen
    rw [hinv.1, h]
    rfl
  have hvbo : 0 < journal.needed_vbo_len := by
    rw [hinv.2]
    exact upload_words_pos ds _ hentries
  constructor
  · obtain ⟨hb, hl, _, _⟩ :=
      create_attribute_buffer_shape ctx journal (journal.needed_vbo_len * 4)
    have hwf' : journal_wf
        (create_attribute_buffer ctx journal (journal.needed_vbo_len * 4)).1 :=
      journal_wf_of_shape journal _ (by rw [batch_lengths, batch_lengths, hb]) hl hwf
    have hall : all_entries (create_attribute_buffer ctx journal
        (journal.needed_vbo_len * 4)).1 = all_entries journal := by
      rw [all_entries, all_entries, hb]
    refine ⟨_, _, _, upload_vertices_stores ctx ds journal hwf hvbo,
      create_attribute_buffer_size ctx journal _, ?_, ?_⟩
    · rw [upload_vertices_vout_all ds _ hwf' (by rw [hl]; exact hlen), hall, hinv.2]
    · intro p hp
      have := upload_entries_range ds (all_entries journal) 0 p hp
      rw [hinv.2]
      omega
  · obtain ⟨journal1, h1, hframe, hkept⟩ := clip_pass_kept c ds journal hwf hlen
    have hwf1 := journal_wf_of_same_frame journal journal1 hframe hwf
    have hlayers := layers_kept_entries journal journal1 hframe hkept
    refine ⟨journal1, h1, hwf1.1, ⟨hwf1.2, ?_⟩, ?_, hframe.1, hlayers⟩
    · rw [hframe.1, hinv.2, upload_words_of_layers ds _ _ hlayers]
    · rw [hframe.2.2.1]
      exact hlen

/-! ## Sequences of operations -/

theorem add_entry_needed_vbo_len (c : Collaborators P R) (ds : DrawState)
    (journal : CoglJournal P R) (pipeline : P) (entry : CoglJournalEntry) :
    (_cogl_journal_add_entry_to_batch c ds journal pipeline entry).needed_vbo_len =
      journal.needed_vbo_len := by
  unfold _cogl_journal_add_entry_to_batch
  simp only
  split
  · split <;> rfl
  · rfl

theorem log_call_needed_vbo_len (c : Collaborators P R) (journal : CoglJournal P R)
    (call : LogCall P) :
    (log_call c journal call).needed_vbo_len = journal.needed_vbo_len +
      (GET_JOURNAL_VB_STRIDE_FOR_N_LAYERS call.ds call.n_layers).toNat * 4 := by
  have h := stride_pos call.ds call.n_layers
  simp only [log_call, _cogl_journal_log_quad, add_entry_needed_vbo_len]
  omega

theorem call_entry_n_layers (c : Collaborators P R) (call : LogCall P) :
    (call_entry c call).n_layers = call.n_layers := rfl

theorem stride_of_flag (ds ds' : DrawState) (n : ℤ)
    (h : ds'.disable_software_transform = ds.disable_software_transform) :
    GET_JOURNAL_VB_STRIDE_FOR_N_LAYERS ds' n = GET_JOURNAL_VB_STRIDE_FOR_N_LAYERS ds n := by
  unfold GET_JOURNAL_VB_STRIDE_FOR_N_LAYERS POS_STRIDE
  rw [h]

/-- Logging adds the words of the logged entry to the words of the entries. -/
theorem log_call_upload_words (c : Collaborators P R) (ds : DrawState)
    (journal : CoglJournal P R) (call : LogCall P) :
    upload_words ds (all_entries (log_call c journal call)) =
      upload_words ds (all_entries journal) + entry_stride ds (call_entry c call) * 4 := by
  rcases log_call_batches_cases c journal call with ⟨pre, batch, post, hb, hres⟩ | hres
  · simp only [all_entries, upload_words, hres, hb, batch_with, List.map_append, List.map_cons,
      List.flatten_append, List.flatten_cons, List.sum_append, List.map_nil, List.sum_cons,
      List.sum_nil]
    omega
  · simp only [all_entries, upload_words, hres, new_batch, List.map_append, List.map_cons,
      List.flatten_append, List.flatten_cons, List.sum_append, List.map_nil, List.sum_cons,
      List.sum_nil, List.flatten_nil, List.append_nil, Nat.add_zero]

/-- The flush of a journal with no empty batch that satisfies the counters
invariant returns a journal with these properties. -/
theorem flush_keeps_invariant [DecidableEq P] (c : Collaborators P R) (ctx : CoglContext)
    (ds ds' : DrawState) (journal : CoglJournal P R) (hwf : journal_wf journal)
    (hvbo : journal.journal_len ≠ 0 → 0 < journal.needed_vbo_len)
    (hinv : counters_invariant ds' journal) :
    ∃ journal', (_cogl_journal_flush c ctx ds journal).map (fun r => r.1) = some journal' ∧
      journal_wf journal' ∧ (journal'.journal_len ≠ 0 → 0 < journal'.needed_vbo_len) ∧
      counters_invariant ds' journal' := by
  obtain ⟨journal', calls, h1, h2, h3⟩ := flush_returns c ctx ds journal hwf hvbo
  refine ⟨journal', by rw [h1]; rfl, ?_⟩
  by_cases hlen : journal.journal_len = 0
  · rw [(h2 hlen).1]
    exact ⟨hwf, hvbo, hinv⟩
  · obtain ⟨d1, d2, d3, _⟩ := h3 hlen
    refine ⟨⟨?_, ?_⟩, fun h => absurd d2 h, ?_, ?_⟩
    · intro batch hb
      rw [d1] at hb
      simp at hb
    · rw [d2, all_entries, d1]; rfl
    · rw [d2, all_entries, d1]; rfl
    · rw [d3, all_entries, d1]; rfl

/-- Every sequence of operations on a journal with no empty batch, a right
entry counter and a positive `needed_vbo_len` when it is not empty returns a
journal with these properties. -/
theorem run_ops_wf [DecidableEq P] (c : Collaborators P R) :
    ∀ (ops : List (JournalOp P)) (journal : CoglJournal P R), journal_wf journal →
      (journal.journal_len ≠ 0 → 0 < journal.needed_vbo_len) →
      ∃ journal', run_ops c journal ops = some journal' ∧ journal_wf journal' ∧
        (journal'.journal_len ≠ 0 → 0 < journal'.needed_vbo_len)
  | [], journal, hwf, hvbo => ⟨journal, rfl, hwf, hvbo⟩
  | op :: ops, journal, hwf, hvbo => by
    obtain ⟨j1, h1, hwf1, hvbo1⟩ : ∃ j1, run_op c journal op = some j1 ∧ journal_wf j1 ∧
        (j1.journal_len ≠ 0 → 0 < j1.needed_vbo_len) := by
      cases op with
      | log call =>
        refine ⟨_, rfl, log_call_wf c journal call hwf, fun _ => ?_⟩
        rw [log_call_needed_vbo_len]
        have := stride_pos call.ds call.n_layers
        omega
      | discard =>
        refine ⟨_, rfl, ⟨?_, rfl⟩, fun h => absurd rfl h⟩
        intro batch hb
        simp [_cogl_journal_discard] at hb
      | flush ctx ds =>
        obtain ⟨journal', calls, e1, e2, e3⟩ := flush_returns c ctx ds journal hwf hvbo
        refine ⟨journal', by simp only [run_op, e1]; rfl, ?_⟩
        by_cases hlen : journal.journal_len = 0
        · rw [(e2 hlen).1]
          exact ⟨hwf, hvbo⟩
        · obtain ⟨d1, d2, _, _⟩ := e3 hlen
          refine ⟨⟨?_, ?_⟩, fun h => absurd d2 h⟩
          · intro batch hb
            rw [d1] at hb
            simp at hb
          · rw [d2, all_entries, d1]; rfl
    obtain ⟨j2, h2, hwf2, hvbo2⟩ := run_ops_wf c ops j1 hwf1 hvbo1
    exact ⟨j2, by simp only [run_ops, h1, h2], hwf2, hvbo2⟩

/-- Every sequence of operations under one setting of
`COGL_DEBUG_DISABLE_SOFTWARE_TRANSFORM` keeps the counters invariant. -/
theorem run_ops_counters [DecidableEq P] (c : Collaborators P R) (ds : DrawState) :
    ∀ (ops : List (JournalOp P)) (journal : CoglJournal P R),
      (∀ op ∈ ops, ∀ flag, op_transform_flag op = some flag →
        flag = ds.disable_software_transform) →
      (∀ batch ∈ journal.batches, batch.entries ≠ []) → counters_invariant ds journal →
      ∃ journal', run_ops c journal ops = some journal' ∧
        (∀ batch ∈ journal'.batches, batch.entries ≠ []) ∧ counters_invariant ds journal'
  | [], journal, _, hne, hinv => ⟨journal, rfl, hne, hinv⟩
  | op :: ops, journal, hflag, hne, hinv => by
    have hwf : journal_wf journal := ⟨hne, hinv.1⟩
    have hvbo : journal.journal_len ≠ 0 → 0 < journal.needed_vbo_len := by
      intro hlen
      rw [hinv.2]
      apply upload_words_pos
      intro h
      apply hlen
      rw [hinv.1, h]
      rfl
    obtain ⟨j1, h1, hne1, hinv1⟩ : ∃ j1, run_op c journal op = some j1 ∧
        (∀ batch ∈ j1.batches, batch.entries ≠ []) ∧ counters_invariant ds j1 := by
      cases op with
      | log call =>
        have hf := hflag (JournalOp.log call) (by simp) _ rfl
        have hwf1 := log_call_wf c journal call hwf
        refine ⟨_, rfl, hwf1.1, hwf1.2, ?_⟩
        rw [log_call_needed_vbo_len, log_call_upload_words, hinv.2, entry_stride,
          call_entry_n_layers, stride_of_flag ds call.ds call.n_layers hf]
      | discard =>
        refine ⟨_, rfl, ?_, rfl, rfl⟩
        intro batch hb
        simp [_cogl_journal_discard] at hb
      | flush ctx ds' =>
        obtain ⟨journal', e1, e2, _, e4⟩ :=
          flush_keeps_invariant c ctx ds' ds journal hwf hvbo hinv
        exact ⟨journal', e1, e2.1, e4⟩
    obtain ⟨j2, h2, hne2, hinv2⟩ := run_ops_counters c ds ops j1
      (fun op' hop' => hflag op' (by simp [hop'])) hne1 hinv1
    exact ⟨j2, by simp only [run_ops, h1, h2], hne2, hinv2⟩

theorem mem_all_iters_of_entry (journal : CoglJournal P R) (iter : CoglJournalIter)
    (entry : CoglJournalEntry) (h : iter_entry journal iter = some entry) :
    iter ∈ all_iters journal := by
  unfold iter_entry at h
  cases hk : iter.entry with
  | none => simp [hk] at h
  | some k =>
    cases hb : batch_at journal iter.batch_num with
    | none => simp [hk, hb] at h
    | some batch =>
      simp only [hk, hb] at h
      unfold batch_at at hb
      split_ifs at hb with hneg
      rw [all_iters, mem_iters_of]
      refine ⟨iter.batch_num.toNat, k, batch, hb, ?_, ?_⟩
      · rw [List.get?_eq_getElem?] at h
        exact (List.getElem?_eq_some.1 h).1
      · cases iter with
        | mk e b =>
          simp only at hk hneg ⊢
          rw [hk]
          congr 1
          omega

/-- On a journal with no empty batch, `_cogl_journal_iterator_next` from an
iterator on an entry that is not the last one yields an iterator on an entry of
a batch of the array, and the reverse initial iterator of a journal that is not
empty is on an entry. -/
theorem next_on_entry (journal : CoglJournal P R) (hwf : journal_wf journal) :
    (∀ iter entry, iter_entry journal iter = some entry →
      iter ≠ _cogl_journal_iterator_init_reverse journal →
      ∃ next_iter next_entry, _cogl_journal_iterator_next journal iter = some next_iter ∧
        iter_entry journal next_iter = some next_entry ∧
        0 ≤ next_iter.batch_num ∧ next_iter.batch_num < journal.batches.length) ∧
    (journal.journal_len ≠ 0 →
      ∃ entry, iter_entry journal (_cogl_journal_iterator_init_reverse journal) = some entry) := by
  constructor
  · intro iter entry he hlast
    have hmem := mem_all_iters_of_entry journal iter entry he
    have hpos : journal.batches ≠ [] := by
      intro hnil
      rw [all_iters, hnil] at hmem
      simp [iters_of] at hmem
    obtain ⟨l, hl⟩ := all_iters_last journal hwf.1 hpos
    rw [hl] at hmem
    rcases List.mem_append.1 hmem with hin | hin
    · obtain ⟨pre, post, hsplit⟩ := List.append_of_mem hin
      obtain ⟨nxt, rest, hrest⟩ : ∃ nxt rest,
          post ++ [_cogl_journal_iterator_init_reverse journal] = nxt :: rest := by
        cases post with
        | nil => exact ⟨_, [], rfl⟩
        | cons a t =>
          exact ⟨a, t ++ [_cogl_journal_iterator_init_reverse journal], by simp⟩
      have hall : all_iters journal = pre ++ iter :: nxt :: rest := by
        rw [hl, hsplit, ← hrest]
        simp
      have hnext := all_iters_next journal hwf.1 pre rest iter nxt hall
      have hnmem : nxt ∈ all_iters journal := by rw [hall]; simp
      obtain ⟨b, k, batch, e, hn, hb, _, _, hne⟩ := all_iters_valid journal nxt hnmem
      refine ⟨nxt, e, hnext, hne, ?_, ?_⟩
      · rw [hn]; simp
      · rw [hn]
        have : b < journal.batches.length := by
          rw [List.get?_eq_getElem?] at hb
          exact (List.getElem?_eq_some.1 hb).1
        simpa using this
    · simp only [List.mem_singleton] at hin
      exact absurd hin hlast
  · intro hlen
    have hpos : journal.batches ≠ [] := by
      intro hnil
      apply hlen
      rw [hwf.2]
      simp [all_entries, hnil]
    obtain ⟨l, hl⟩ := all_iters_last journal hwf.1 hpos
    obtain ⟨_, _, _, e, _, _, _, _, he⟩ := all_iters_valid journal
      (_cogl_journal_iterator_init_reverse journal) (by rw [hl]; simp)
    exact ⟨e, he⟩

/-- C22 (journal counters invariant).  After any sequence of Log, Discard and
Flush operations on a new journal, run under one setting of
`COGL_DEBUG_DISABLE_SOFTWARE_TRANSFORM` (which fixes the position words), every
operation returns, `journal_len` equals the number of entries of all batches and
`needed_vbo_len` equals the sum over all entries of 4 times the stride of the
entry, the stride being the position words, one colour word and two words for
each of `max n_layers 2` layers; each Log raises `journal_len` by 1 and
`needed_vbo_len` by 4 times the stride for its layer count. -/
theorem counters_invariant_maintained [DecidableEq P] (c : Collaborators P R) (ds : DrawState)
    (ops : List (JournalOp P))
    (hflag : ∀ op ∈ ops, ∀ flag, op_transform_flag op = some flag →
      flag = ds.disable_software_transform) :
    (∃ journal, run_ops c (_cogl_journal_new : CoglJournal P R) ops = some journal ∧
      counters_invariant ds journal) ∧
    (∀ entry : CoglJournalEntry, entry_stride ds entry =
      (POS_STRIDE ds).toNat + 1 + 2 * max entry.n_layers.toNat 2) ∧
    (∀ (journal : CoglJournal P R) (call : LogCall P),
      (log_call c journal call).journal_len = journal.journal_len + 1 ∧
      (log_call c journal call).needed_vbo_len = journal.needed_vbo_len +
        (GET_JOURNAL_VB_STRIDE_FOR_N_LAYERS call.ds call.n_layers).toNat * 4) := by
  refine ⟨?_, entry_stride_eq ds, fun journal call =>
    ⟨log_call_journal_len c journal call, log_call_needed_vbo_len c journal call⟩⟩
  obtain ⟨journal, h1, _, h3⟩ := run_ops_counters c ds ops _cogl_journal_new hflag
    (by intro batch hb; simp [_cogl_journal_new] at hb) ⟨rfl, rfl⟩
  exact ⟨journal, h1, h3⟩

/-- C28 (no empty batch).  After any sequence of Log, Discard and Flush
operations on a new journal every operation returns and every batch of the
journal holds at least one entry; from every iterator on an entry that is not
the last one, `_cogl_journal_iterator_next` yields an iterator on an entry, with
a batch index inside the batch array; and the reverse initial iterator of a
journal that is not empty is on an entry. -/
theorem no_empty_batch [DecidableEq P] (c : Collaborators P R) (ops : List (JournalOp P)) :
    ∃ journal, run_ops c (_cogl_journal_new : CoglJournal P R) ops = some journal ∧
      (∀ batch ∈ journal.batches, batch.entries ≠ []) ∧
      (∀ iter entry, iter_entry journal iter = some entry →
        iter ≠ _cogl_journal_iterator_init_reverse journal →
        ∃ next_iter next_entry, _cogl_journal_iterator_next journal iter = some next_iter ∧
          iter_entry journal next_iter = some next_entry ∧
          0 ≤ next_iter.batch_num ∧ next_iter.batch_num < journal.batches.length) ∧
      (journal.journal_len ≠ 0 →
        ∃ entry,
          iter_entry journal (_cogl_journal_iterator_init_reverse journal) = some entry) := by
  obtain ⟨journal, h1, hwf, _⟩ := run_ops_wf c ops (_cogl_journal_new : CoglJournal P R)
    journal_new_wf (fun h => absurd rfl h)
  obtain ⟨n1, n2⟩ := next_on_entry journal hwf
  exact ⟨journal, h1, hwf.1, n1, n2⟩

/-! ## The draw phase: the runs drawn -/

theorem mem_with_done {α : Type} :
    ∀ (runs : List (List α)) (done : List α) (dr : List α × List α),
      dr ∈ with_done done runs →
      ∃ A B, runs = A ++ dr.2 :: B ∧ dr.1 = done ++ A.flatten
  | [], _, _, h => by simp [with_done] at h
  | r :: runs, done, dr, h => by
    rw [with_done, List.mem_cons] at h
    rcases h with h | h
    · exact ⟨[], runs, by rw [h]; rfl, by rw [h]; simp⟩
    · obtain ⟨A, B, h1, h2⟩ := mem_with_done runs (done ++ r) dr h
      exact ⟨r :: A, B, by rw [h1]; rfl, by rw [h2]; simp⟩

theorem with_done_flatMap_snd {α β : Type} (g : List α → List β) :
    ∀ (runs : List (List α)) (done : List α),
      (with_done done runs).flatMap (fun dr => g dr.2) = runs.flatMap g
  | [], _ => rfl
  | r :: runs, done => by
    rw [with_done, List.flatMap_cons, List.flatMap_cons, with_done_flatMap_snd g runs]

theorem flatMap_flatten_of {α : Type} (f : List α → List (List α))
    (hf : ∀ l, (f l).flatten = l) :
    ∀ runs : List (List α), (runs.flatMap f).flatten = runs.flatten
  | [] => rfl
  | r :: runs => by
    rw [List.flatMap_cons, List.flatten_append, hf, flatMap_flatten_of f hf runs,
      List.flatten_cons]

theorem modelview_runs_flatten (ds : DrawState) (journal : CoglJournal P R)
    (r : List CoglJournalIter) : (modelview_runs ds journal r).flatten = r := by
  unfold modelview_runs
  split_ifs
  · exact split_runs_flatten _ r
  · simp

theorem pipeline_runs_flatten (ds : DrawState) (journal : CoglJournal P R)
    (r : List CoglJournalIter) : (pipeline_runs ds journal r).flatten = r := by
  unfold pipeline_runs
  rw [flatMap_flatten_of _ (modelview_runs_flatten ds journal), split_runs_flatten]

theorem layer_runs_flatten (ds : DrawState) (journal : CoglJournal P R)
    (r : List CoglJournalIter) : (layer_runs ds journal r).flatten = r := by
  unfold layer_runs
  rw [flatMap_flatten_of _ (pipeline_runs_flatten ds journal), split_runs_flatten]

theorem stride_runs_flatten (journal : CoglJournal P R) :
    (stride_runs journal).flatten = all_iters journal := by
  unfold stride_runs
  rw [flatMap_flatten_of (stride_runs_of journal) (fun l => split_runs_flatten _ l),
    split_runs_flatten]

theorem draw_runs_runs (ds : DrawState) (journal : CoglJournal P R) :
    (draw_runs ds journal).map (fun r => r.run) =
      (stride_runs journal).flatMap (layer_runs ds journal) := by
  unfold draw_runs
  rw [List.map_flatMap]
  simp only [List.map_map]
  rw [← with_done_flatMap_snd (layer_runs ds journal) (stride_runs journal) []]
  congr 1
  funext dr
  exact with_done_map_snd _ _

/-- The runs drawn cover the journal: each entry is in exactly one of them, in
iteration order. -/
theorem draw_runs_cover (ds : DrawState) (journal : CoglJournal P R) :
    ((draw_runs ds journal).map (fun r => r.run)).flatten = all_iters journal := by
  rw [draw_runs_runs, flatMap_flatten_of _ (layer_runs_flatten ds journal),
    stride_runs_flatten]

theorem chain_all_eq {α β : Type} (key : α → β) (l : List α)
    (h : l.Chain' (fun x y => key x = key y)) : ∀ x ∈ l, ∀ y ∈ l, key x = key y := by
  cases l with
  | nil => intro x hx; simp at hx
  | cons a t =>
    intro x hx y hy
    rw [chain_key_eq key (a :: t) a rfl h x hx, chain_key_eq key (a :: t) a rfl h y hy]

theorem clip_stacks_test_key (journal : CoglJournal P R) (a b : CoglJournalIter)
    (h : test_of compare_entry_clip_stacks journal a b = true) :
    (iter_entry journal a).map (fun e => clip_stack_pointer e.clip_stack) =
      (iter_entry journal b).map (fun e => clip_stack_pointer e.clip_stack) := by
  unfold test_of compare_entry_clip_stacks at h
  cases ha : iter_entry journal a with
  | none => rw [ha] at h; simp at h
  | some ea =>
    cases hb : iter_entry journal b with
    | none => rw [ha, hb] at h; simp at h
    | some eb =>
      rw [ha, hb] at h
      simp only [Option.getD_some, decide_eq_true_eq] at h
      simp only [Option.map_some', h]

/-- The place of a run drawn: its stride run is a stride run of the journal
that starts after the iterators `r.done`, and the run starts in it after the
iterators `r.between`; it lies in one maximal run of each of the four tests. -/
theorem mem_draw_runs (ds : DrawState) (journal : CoglJournal P R) (r : DrawnRun)
    (hr : r ∈ draw_runs ds journal) :
    ∃ r1 r3 r4 after rest,
      r1 ∈ split_runs (test_of compare_entry_clip_stacks journal) (all_iters journal) ∧
      r.stride_run ∈ split_runs (test_of compare_entry_strides journal) r1 ∧
      r3 ∈ split_runs (test_of compare_entry_n_layers journal) r.stride_run ∧
      r4 ∈ split_runs compare_entry_pipelines r3 ∧
      r.run ∈ modelview_runs ds journal r4 ∧
      r.stride_run ∈ stride_runs journal ∧
      r.stride_run = r.between ++ r.run ++ after ∧
      all_iters journal = r.done ++ r.stride_run ++ rest := by
  unfold draw_runs at hr
  obtain ⟨dr, hdr, hr'⟩ := List.mem_flatMap.1 hr
  obtain ⟨br, hbr, hr''⟩ := List.mem_map.1 hr'
  obtain ⟨A, B, hA, hA'⟩ := mem_with_done _ _ dr hdr
  obtain ⟨A2, B2, hB, hB'⟩ := mem_with_done _ _ br hbr
  have hr2 : dr.2 ∈ stride_runs journal := by rw [hA]; simp
  have hr5 : br.2 ∈ layer_runs ds journal dr.2 := by rw [hB]; simp
  have hs := hr2
  unfold stride_runs at hs
  obtain ⟨r1, hr1, hr21⟩ := List.mem_flatMap.1 hs
  unfold layer_runs at hr5
  obtain ⟨r3, hr3, hr53⟩ := List.mem_flatMap.1 hr5
  unfold pipeline_runs at hr53
  obtain ⟨r4, hr4, hr54⟩ := List.mem_flatMap.1 hr53
  have e1 : r.done = A.flatten := by rw [← hr'', hA']; simp
  have e0 : r.stride_run = dr.2 := by rw [← hr'']
  have e2 : r.between = A2.flatten := by rw [← hr'', hB']; simp
  have e3 : r.run = br.2 := by rw [← hr'']
  rw [e0]
  refine ⟨r1, r3, r4, B2.flatten, B.flatten, hr1, hr21, hr3, hr4, ?_, hr2, ?_, ?_⟩
  · rw [e3]; exact hr54
  · rw [e2, e3]
    have := layer_runs_flatten ds journal dr.2
    rw [hB] at this
    rw [← this]
    simp
  · rw [e1]
    have := stride_runs_flatten journal
    rw [hA] at this
    rw [← this]
    simp

/-- A run drawn is not empty, its iterators are iterators of the journal, and
they lie in the runs of the levels above. -/
theorem draw_run_levels (ds : DrawState) (journal : CoglJournal P R) (r : DrawnRun)
    (hr : r ∈ draw_runs ds journal) :
    r.run ≠ [] ∧
    ∃ r1 r3 r4,
      r1 ∈ split_runs (test_of compare_entry_clip_stacks journal) (all_iters journal) ∧
      r.stride_run ∈ split_runs (test_of compare_entry_strides journal) r1 ∧
      r3 ∈ split_runs (test_of compare_entry_n_layers journal) r.stride_run ∧
      r4 ∈ split_runs compare_entry_pipelines r3 ∧
      (∀ z ∈ r.run, z ∈ r4) ∧ (∀ z ∈ r.run, z ∈ r3) ∧ (∀ z ∈ r.run, z ∈ r.stride_run) ∧
      (∀ z ∈ r.run, z ∈ r1) ∧ (∀ z ∈ r.stride_run, z ∈ all_iters journal) := by
  obtain ⟨r1, r3, r4, _, _, h1, h2, h3, h4, h5, _, _, _⟩ := mem_draw_runs ds journal r hr
  obtain ⟨hne, m4⟩ := mem_modelview_runs ds journal r4 r.run (split_runs_nonempty _ r3 r4 h4) h5
  have m3 : ∀ z ∈ r.run, z ∈ r3 := fun z hz => mem_of_mem_split_runs _ r3 r4 h4 z (m4 z hz)
  have m2 : ∀ z ∈ r.run, z ∈ r.stride_run :=
    fun z hz => mem_of_mem_split_runs _ r.stride_run r3 h3 z (m3 z hz)
  have m1 : ∀ z ∈ r.run, z ∈ r1 := fun z hz => mem_of_mem_split_runs _ r1 r.stride_run h2 z (m2 z hz)
  have m0 : ∀ z ∈ r.stride_run, z ∈ all_iters journal :=
    fun z hz => mem_of_mem_split_runs _ _ r1 h1 z (mem_of_mem_split_runs _ r1 r.stride_run h2 z hz)
  exact ⟨hne, r1, r3, r4, h1, h2, h3, h4, m4, m3, m2, m1, m0⟩

/-- All entries of a run drawn have the same clip-stack pointer, the same layer
count and the same batch. -/
theorem draw_run_homogeneous (ds : DrawState) (journal : CoglJournal P R) (r : DrawnRun)
    (hr : r ∈ draw_runs ds journal) (x : CoglJournalIter) (hx : x ∈ r.run)
    (y : CoglJournalIter) (hy : y ∈ r.run) :
    ∃ ex ey, iter_entry journal x = some ex ∧ iter_entry journal y = some ey ∧
      clip_stack_pointer ex.clip_stack = clip_stack_pointer ey.clip_stack ∧
      ex.n_layers = ey.n_layers ∧ x.batch_num = y.batch_num := by
  obtain ⟨_, r1, r3, r4, h1, h2, h3, h4, m4, m3, m2, m1, m0⟩ := draw_run_levels ds journal r hr
  obtain ⟨_, _, _, ex, _, _, _, _, hex⟩ := all_iters_valid journal x (m0 x (m2 x hx))
  obtain ⟨_, _, _, ey, _, _, _, _, hey⟩ := all_iters_valid journal y (m0 y (m2 y hy))
  have k1 := chain_all_eq (fun it : CoglJournalIter => (iter_entry journal it).map
    (fun e => clip_stack_pointer e.clip_stack)) r1
    (List.Chain'.imp (fun a b hab => clip_stacks_test_key journal a b hab)
      (split_runs_chain _ _ r1 h1)) x (m1 x hx) y (m1 y hy)
  have k3 := chain_all_eq (fun it : CoglJournalIter => (iter_entry journal it).map
    (fun e => e.n_layers)) r3
    (List.Chain'.imp (fun a b hab => n_layers_test_key journal a b hab)
      (split_runs_chain _ _ r3 h3)) x (m3 x hx) y (m3 y hy)
  have k4 := chain_all_eq (fun it : CoglJournalIter => it.batch_num) r4
    (List.Chain'.imp (fun a b hab => by simpa [compare_entry_pipelines] using hab)
      (split_runs_chain _ _ r4 h4)) x (m4 x hx) y (m4 y hy)
  simp only [hex, hey, Option.map_some', Option.some.injEq] at k1 k3
  exact ⟨ex, ey, hex, hey, k1, k3, k4⟩

theorem filterMap_of_map_some {α β : Type} (f : α → Option β) :
    ∀ (l : List α) (l' : List β), l.map f = l'.map some → l.filterMap f = l'
  | [], l', h => by
    cases l' with
    | nil => rfl
    | cons b t => simp at h
  | a :: l, l', h => by
    cases l' with
    | nil => simp at h
    | cons b t =>
      simp only [List.map_cons, List.cons.injEq] at h
      rw [List.filterMap_cons, h.1, filterMap_of_map_some f l t h.2]

theorem entries_of_all_iters (journal : CoglJournal P R) :
    entries_of journal (all_iters journal) = all_entries journal :=
  filterMap_of_map_some _ _ _ (iters_of_entries journal journal.batches [] rfl)

/-- While `current_vertex` is a positive `int` and, for an indexed draw,
`current_vertex * 6` does not wrap, the draw call of the draw callback is the
draw call of the run. -/
theorem run_call_eq (ctx : CoglContext) (ds : DrawState) (journal : CoglJournal P R)
    (r : DrawnRun) (h : 4 * r.between.length < 2 ^ 31)
    (h6 : ctx.driver_gl = false → 1 < r.run.length → 24 * r.between.length < 2 ^ 32) :
    (run_call ctx
        (journal_attributes ds (run_stride ds journal r.stride_run * 4)
          (4 * upload_words ds (entries_of journal r.done)) (run_n_layers journal r.run))
        (some (r.stride_run.length : ℤ)) (4 * r.between.length % 2 ^ 32)
        (r.run.length : ℤ) : FlushCall P) =
      drawn_call ctx ds journal r := by
  have h1 : 4 * r.between.length % 2 ^ 32 = 4 * r.between.length := Nat.mod_eq_of_lt (by omega)
  have h3 : GLuint_to_int (4 * r.between.length) = 4 * (r.between.length : ℤ) := by
    unfold GLuint_to_int
    rw [if_pos (by omega)]
    push_cast
    ring
  have e4 : (r.run.length : ℤ) * 4 = 4 * (r.run.length : ℤ) := by ring
  have e6 : (r.run.length : ℤ) * 6 = 6 * (r.run.length : ℤ) := by ring
  have e2 : ((6 * r.between.length : ℕ) : ℤ) = 6 * (r.between.length : ℤ) := by
    push_cast; ring
  unfold run_call drawn_call
  simp only
  rw [h1, h3, e4, e6]
  by_cases hd : ctx.driver_gl = true
  · rw [if_pos hd, if_pos hd]
  · rw [if_neg hd, if_neg hd]
    by_cases hn : 1 < r.run.length
    · have hz : (r.run.length : ℤ) > 1 := by omega
      have hw : 24 * r.between.length < 2 ^ 32 := h6 (by simpa using hd) hn
      have h2 : 4 * r.between.length * 6 % 2 ^ 32 / 4 = 6 * r.between.length := by
        rw [Nat.mod_eq_of_lt (by omega)]
        omega
      rw [if_pos hz, if_pos hn, h2, e2]
    · have hz : ¬ (r.run.length : ℤ) > 1 := by omega
      rw [if_neg hz, if_neg hn]

/-- The draw calls of the flush of a journal with no empty batch and right
counters, which is not empty: with `journal1` the journal after the clipping
pass, `journal2` the one that `upload_vertices` returns and `data'` the data
after the draw phase, one source is pushed and one draw call made for each run
of `draw_runs`, in order, and the array offset ends at the bytes uploaded. -/
theorem flush_draws [DecidableEq P] (c : Collaborators P R) (ctx : CoglContext) (ds : DrawState)
    (journal : CoglJournal P R) (hwf : journal_wf journal) (hlen : journal.journal_len ≠ 0)
    (hvbo : 0 < journal.needed_vbo_len) :
    ∃ (journal1 journal2 : CoglJournal P R) (n_bytes : ℕ) (data' : FlushData P),
      (if ctx.disable_software_clip then some journal
       else batch_and_call_data (fun j => j) compare_entry_clip_stacks
         (_cogl_journal_maybe_software_clip_entries c ds) (_cogl_journal_iterator_init journal)
         journal.journal_len journal) = some journal1 ∧
      upload_vertices ctx ds journal1 =
        some (journal2, n_bytes, upload_entries ds 0 (all_entries journal2)) ∧
      batch_and_call_data (fun _ => journal2) compare_entry_clip_stacks
        (_cogl_journal_flush_clip_stacks_and_entries ctx ds journal2)
        (_cogl_journal_iterator_init journal2) journal2.journal_len
        { state :=
            { attribute_buffer := n_bytes
              attributes := []
              stride := 0
              array_offset := 0
              current_vertex := 0
              indices := none
              source := none }
          calls :=
            [FlushCall._cogl_framebuffer_flush_dependency_journals,
              FlushCall.cogl_push_framebuffer,
              FlushCall._cogl_framebuffer_flush_state,
              FlushCall.buffer_upload n_bytes (upload_entries ds 0 (all_entries journal2))] } =
        some data' ∧
      _cogl_journal_flush c ctx ds journal =
        some (_cogl_journal_discard journal2, data'.calls ++ [FlushCall.cogl_pop_framebuffer]) ∧
      draw_calls (data'.calls ++ [FlushCall.cogl_pop_framebuffer]) =
        (draw_runs ds journal2).map (fun r =>
          run_call ctx
            (journal_attributes ds (run_stride ds journal2 r.stride_run * 4)
              (4 * upload_words ds (entries_of journal2 r.done)) (run_n_layers journal2 r.run))
            (some (r.stride_run.length : ℤ)) (4 * r.between.length % 2 ^ 32) r.run.length) ∧
      (pushed_sources (data'.calls ++ [FlushCall.cogl_pop_framebuffer])).map some =
        (draw_runs ds journal2).map (fun r => source_of journal2 r.run) ∧
      data'.state.array_offset = 4 * upload_words ds (all_entries journal2) ∧
      journal_wf journal2 ∧ journal2.journal_len = journal.journal_len ∧
      upload_words ds (all_entries journal2) = upload_words ds (all_entries journal) ∧
      journal2.batches = journal1.batches ∧
      (ctx.disable_software_clip = true → journal1 = journal) := by
  obtain ⟨journal1, journal2, n_bytes, data', hframe, hkept, hsame, hup, hj2, hb, hflush, hpost,
    hdraw, hclip⟩ := flush_post c ctx ds journal hwf hlen hvbo
  have hall : all_entries journal1 = all_entries journal2 := by
    rw [all_entries, all_entries, hb]
  rw [hall] at hup hpost hdraw
  have hwf1 := journal_wf_of_same_frame journal journal1 hframe hwf
  obtain ⟨_, hl2, _, _⟩ :=
    create_attribute_buffer_shape ctx journal1 (journal1.needed_vbo_len * 4)
  rw [← hj2] at hl2
  have hwf2 : journal_wf journal2 :=
    journal_wf_of_shape journal1 journal2 (by rw [batch_lengths, batch_lengths, hb]) hl2 hwf1
  have hlen2 : journal2.journal_len = journal.journal_len := hl2.trans hframe.2.2.1
  obtain ⟨_, p2, _, p4, p5⟩ := hpost
  refine ⟨journal1, journal2, n_bytes, data', hclip, hup, hdraw, hflush, ?_, ?_, ?_, hwf2, hlen2,
    ?_, hb, hsame⟩
  · rw [draw_calls, List.filterMap_append]
    have := p4
    rw [draw_calls] at this
    rw [this]
    simp only [draw_calls, draw_runs, List.map_flatMap, List.map_map]
    simp [draw_call]
    rfl
  · rw [pushed_sources, List.filterMap_append, List.map_append]
    have := p5
    rw [pushed_sources] at this
    rw [this, draw_runs_runs ds journal2 |>.symm]
    simp [pushed_sources, pushed_source, List.map_map]
  · rw [p2]
    simp [entries_of_all_iters]
  · rw [← hall]
    exact upload_words_of_layers ds _ _ (layers_kept_entries journal journal1 hframe hkept)

/-! ## The draw phase: the vertices drawn -/

theorem range_map_four (b n : ℕ) :
    (List.range (4 * n)).map (fun k => 4 * b + k) =
      (List.range n).flatMap (fun j => [0, 1, 2, 3].map (fun k => 4 * (b + j) + k)) := by
  induction n with
  | zero => rfl
  | succ n ih =>
    have e : List.range (4 * (n + 1)) = List.range (4 * n) ++ [4 * n, 4 * n + 1, 4 * n + 2,
        4 * n + 3] := by
      rw [show 4 * (n + 1) = 4 * n + 1 + 1 + 1 + 1 by ring]
      simp [List.range_succ]
    rw [e, List.map_append, ih, List.range_succ, List.flatMap_append]
    simp only [List.map_cons, List.map_nil, List.flatMap_cons, List.flatMap_nil,
      List.append_nil]
    congr 1
    simp only [List.cons.injEq, and_true]
    refine ⟨?_, ?_, ?_, ?_⟩ <;> ring

theorem rectangle_index_eq (q i : ℕ) (hi : i < 6) :
    rectangle_index (6 * q + i) = 4 * q + [0, 1, 2, 0, 2, 3].getD i 0 := by
  unfold rectangle_index
  have h1 : (6 * q + i) / 6 = q := by omega
  have h2 : (6 * q + i) % 6 = i := by omega
  rw [h1, h2]

theorem range_map_six (b n : ℕ) :
    (List.range (6 * n)).map (fun k => rectangle_index (6 * b + k)) =
      (List.range n).flatMap (fun j => [0, 1, 2, 0, 2, 3].map (fun k => 4 * (b + j) + k)) := by
  induction n with
  | zero => rfl
  | succ n ih =>
    have e : List.range (6 * (n + 1)) = List.range (6 * n) ++ [6 * n, 6 * n + 1, 6 * n + 2,
        6 * n + 3, 6 * n + 4, 6 * n + 5] := by
      rw [show 6 * (n + 1) = 6 * n + 1 + 1 + 1 + 1 + 1 + 1 by ring]
      simp [List.range_succ]
    rw [e, List.map_append, ih, List.range_succ, List.flatMap_append]
    simp only [List.map_cons, List.map_nil, List.flatMap_cons, List.flatMap_nil,
      List.append_nil]
    congr 1
    have k0 := rectangle_index_eq (b + n) 0 (by norm_num)
    have k1 := rectangle_index_eq (b + n) 1 (by norm_num)
    have k2 := rectangle_index_eq (b + n) 2 (by norm_num)
    have k3 := rectangle_index_eq (b + n) 3 (by norm_num)
    have k4 := rectangle_index_eq (b + n) 4 (by norm_num)
    have k5 := rectangle_index_eq (b + n) 5 (by norm_num)
    simp only [List.getD_cons_zero, List.getD_cons_succ] at k0 k1 k2 k3 k4 k5
    rw [show 6 * b + 6 * n = 6 * (b + n) + 0 by ring,
      show 6 * b + (6 * n + 1) = 6 * (b + n) + 1 by ring,
      show 6 * b + (6 * n + 2) = 6 * (b + n) + 2 by ring,
      show 6 * b + (6 * n + 3) = 6 * (b + n) + 3 by ring,
      show 6 * b + (6 * n + 4) = 6 * (b + n) + 4 by ring,
      show 6 * b + (6 * n + 5) = 6 * (b + n) + 5 by ring, k0, k1, k2, k3, k4, k5]

/-- The vertices that the draw call of a run fetches: for each entry of the run
in turn, the four vertices that start at 4 times its place in the stride run,
each once, or as the two triangles 0, 1, 2 and 0, 2, 3 for an indexed draw. -/
theorem fetched_vertices_drawn_call (ctx : CoglContext) (ds : DrawState)
    (journal : CoglJournal P R) (r : DrawnRun) (hne : r.run ≠ [])
    (hin : r.between.length + r.run.length ≤ r.stride_run.length) :
    fetched_vertices (drawn_call ctx ds journal r : FlushCall P) =
      some ((List.range r.run.length).flatMap (fun j =>
        (quad_vertices ctx r.run.length).map (fun k => 4 * (r.between.length + j) + k))) := by
  have hpos : 0 < r.run.length := List.length_pos.2 hne
  have t4 : (4 * (r.run.length : ℤ)).toNat = 4 * r.run.length := by omega
  have t6 : (6 * (r.run.length : ℤ)).toNat = 6 * r.run.length := by omega
  have b4 : (4 * (r.between.length : ℤ)).toNat = 4 * r.between.length := by omega
  have b6 : (6 * (r.between.length : ℤ)).toNat = 6 * r.between.length := by omega
  unfold drawn_call quad_vertices
  simp only
  by_cases hd : ctx.driver_gl = true
  · rw [if_pos hd, if_pos hd]
    simp only [fetched_vertices]
    rw [if_neg (by omega), t4, b4, range_map_four]
  · rw [if_neg hd, if_neg hd]
    by_cases hn : 1 < r.run.length
    · rw [if_pos hn, if_pos hn]
      simp only [fetched_vertices]
      rw [if_neg (by omega), t6, b6, range_map_six]
    · rw [if_neg hn, if_neg hn]
      have h1 : r.run.length = 1 := by omega
      simp only [fetched_vertices]
      rw [if_neg (by omega), b4, h1]
      exact congrArg some (range_map_four _ 1)

theorem call_attributes_drawn_call (ctx : CoglContext) (ds : DrawState)
    (journal : CoglJournal P R) (r : DrawnRun) :
    call_attributes (drawn_call ctx ds journal r : FlushCall P) =
      journal_attributes ds (run_stride ds journal r.stride_run * 4)
        (4 * upload_words ds (entries_of journal r.done)) (run_n_layers journal r.run) := by
  unfold drawn_call
  simp only
  split_ifs <;> rfl

theorem journal_attributes_names (ds : DrawState) (stride array_offset : ℕ) (n_layers : ℤ) :
    (journal_attributes ds stride array_offset n_layers).map (fun a => a.name) =
      [CoglAttributeName.cogl_position_in, CoglAttributeName.cogl_color_in] ++
        (List.range n_layers.toNat).map CoglAttributeName.cogl_tex_coord_in := by
  simp [journal_attributes, tex_coord_attributes, List.map_map, Function.comp_def]

/-- The attributes for vertices of `S` words that start at word `W`: each has the
stride `4 * S` bytes, and for the vertex number `v` it starts at the byte of the
word `W + S * v` plus the word of the attribute in the vertex. -/
theorem journal_attributes_address (ds : DrawState) (S W : ℕ) (n_layers : ℤ)
    (a : CoglAttribute) (ha : a ∈ journal_attributes ds (S * 4) (4 * W) n_layers) (v : ℕ) :
    a.stride = 4 * S ∧
      attribute_address a v = 4 * (W + S * v + attribute_word ds a.name) := by
  simp only [journal_attributes, tex_coord_attributes, List.cons_append, List.nil_append,
    List.mem_cons, List.mem_map, List.mem_range] at ha
  rcases ha with ha | ha | ⟨i, _, ha⟩
  · rw [ha]
    simp only [attribute_address, attribute_word]
    constructor <;> ring
  · rw [ha]
    simp only [attribute_address, attribute_word]
    constructor <;> ring
  · rw [← ha]
    simp only [attribute_address, attribute_word]
    constructor <;> ring

theorem entries_of_cons (journal : CoglJournal P R) (it : CoglJournalIter)
    (l : List CoglJournalIter) (e : CoglJournalEntry) (h : iter_entry journal it = some e) :
    entries_of journal (it :: l) = e :: entries_of journal l := by
  simp [entries_of, h]

/-- The place of an entry of a run drawn: the entries before it in iteration
order are those of the iterators before it; the words uploaded for them are
those uploaded before its stride run and, for each entry between the start of
the stride run and it, four vertices of the stride of the stride run; the entry
has that stride and the layer count of the first entry of its run. -/
theorem drawn_entry_place (ds : DrawState) (journal : CoglJournal P R) (r : DrawnRun)
    (hr : r ∈ draw_runs ds journal) (j : ℕ) (it : CoglJournalIter)
    (hj : r.run.get? j = some it) :
    ∃ e post, iter_entry journal it = some e ∧
      all_entries journal =
        entries_of journal (r.done ++ r.between ++ r.run.take j) ++ e :: post ∧
      upload_words ds (entries_of journal (r.done ++ r.between ++ r.run.take j)) =
        upload_words ds (entries_of journal r.done) +
          run_stride ds journal r.stride_run * (4 * (r.between.length + j)) ∧
      entry_stride ds e = run_stride ds journal r.stride_run ∧
      e.n_layers = run_n_layers journal r.run := by
  obtain ⟨r1, r3, r4, after, rest, h1, h2, h3, h4, h5, _, hs, ha⟩ := mem_draw_runs ds journal r hr
  obtain ⟨hne, _, r3', _, _, _, h3', _, _, m3, m2, _, m0⟩ := draw_run_levels ds journal r hr
  rw [List.get?_eq_getElem?] at hj
  obtain ⟨hlt, hget⟩ := List.getElem?_eq_some.1 hj
  have hrun : r.run = r.run.take j ++ it :: r.run.drop (j + 1) := by
    rw [← hget, ← List.drop_eq_getElem_cons hlt, List.take_append_drop]
  have hit : it ∈ r.run := by rw [hrun]; simp
  obtain ⟨_, _, _, e, _, _, _, _, he⟩ := all_iters_valid journal it (m0 it (m2 it hit))
  have hiters : all_iters journal =
      (r.done ++ r.between ++ r.run.take j) ++ it :: (r.run.drop (j + 1) ++ after ++ rest) := by
    rw [ha, hs]
    nth_rewrite 1 [hrun]
    simp
  -- the stride of the stride run
  obtain ⟨h0, t0, hst⟩ : ∃ h0 t0, r.stride_run = h0 :: t0 := by
    cases hsr : r.stride_run with
    | nil =>
      have := m2 it hit
      rw [hsr] at this
      simp at this
    | cons h0 t0 => exact ⟨h0, t0, rfl⟩
  have hkey : ∀ x ∈ r.stride_run, (iter_entry journal x).map (entry_stride ds) =
      (iter_entry journal h0).map (entry_stride ds) := by
    intro x hx
    exact chain_key_eq (fun it : CoglJournalIter => (iter_entry journal it).map
      (entry_stride ds)) r.stride_run h0 (by rw [hst]; rfl)
      (List.Chain'.imp (fun a b hab => strides_test_key ds journal a b hab)
        (split_runs_chain _ _ r.stride_run h2)) x hx
  obtain ⟨_, _, _, e0, _, _, _, _, he0⟩ := all_iters_valid journal h0 (m0 h0 (by rw [hst]; simp))
  have hS : run_stride ds journal r.stride_run = entry_stride ds e0 := by
    simp [run_stride, hst, he0]
  have hstride : ∀ x ∈ r.between ++ r.run.take j,
      (iter_entry journal x).map (entry_stride ds) = some (entry_stride ds e0) := by
    intro x hx
    have hx' : x ∈ r.stride_run := by
      rw [hs]
      rcases List.mem_append.1 hx with hx | hx
      · simp [hx]
      · simp [List.mem_of_mem_take hx]
    rw [hkey x hx', he0]
    rfl
  have hes : entry_stride ds e = entry_stride ds e0 := by
    have := hkey it (m2 it hit)
    rw [he, he0] at this
    simpa using this
  -- the layer count of the run
  obtain ⟨hd, tl, hrl⟩ : ∃ hd tl, r.run = hd :: tl := by
    cases hrr : r.run with
    | nil => exact absurd hrr hne
    | cons hd tl => exact ⟨hd, tl, rfl⟩
  have hhd : hd ∈ r.run := by rw [hrl]; simp
  have hlay := chain_all_eq (fun it : CoglJournalIter => (iter_entry journal it).map
    (fun e => e.n_layers)) r3'
    (List.Chain'.imp (fun a b hab => n_layers_test_key journal a b hab)
      (split_runs_chain _ _ r3' h3')) it (m3 it hit) hd (m3 hd hhd)
  have hnl : e.n_layers = run_n_layers journal r.run := by
    simp only [he, Option.map_some'] at hlay
    cases hed : iter_entry journal hd with
    | none => rw [hed] at hlay; simp at hlay
    | some ed =>
      rw [hed] at hlay
      simp only [Option.map_some', Option.some.injEq] at hlay
      simp [run_n_layers, hrl, hed, hlay]
  refine ⟨e, entries_of journal (r.run.drop (j + 1) ++ after ++ rest), he, ?_, ?_, ?_, hnl⟩
  · rw [← entries_of_all_iters, hiters, entries_of_append, entries_of_cons journal it _ e he]
  · rw [List.append_assoc, entries_of_append, upload_words_append,
      upload_words_of_stride ds journal (entry_stride ds e0) _ hstride, hS]
    simp only [List.length_append, List.length_take, Nat.min_eq_left (le_of_lt hlt)]
    ring
  · rw [hes, hS]

/-- C26 (amended: draw ranges match the upload).  For the flush of a journal
with no empty batch that satisfies the counters invariant, is not empty and
holds fewer than 178956973 entries (so that `current_vertex * 6`, which is 24
times the number of entries before a run of two or more in its stride run, stays
below 2^32 and does not wrap):
the clipping pass returns `journal1`, `upload_vertices` returns `journal2` having
stored the entries, the draw phase returns `data'` and the flush returns.  Its
draw calls are, in order, one for each run of `draw_runs`, and each is the draw
call of its run: the attributes are at the byte offset 4 times the number of
words uploaded for the entries before the stride run of the run
(`state.array_offset` in force), and the range is four vertices per entry from
vertex 4 times the number of entries between the start of the stride run and the
start of the run, or, when the driver is not GL and the run has more than one
entry, six indices per entry from index 6 times that number, through the
rectangle indices got for the stride run.  The runs drawn lie in the stride runs
as said, they cover the journal in iteration order, each entry once, and the
array offset ends at `needed_vbo_len * 4`.  The vertices that the call of a run
fetches are, for each entry of the run in turn, the four vertices that start at 4
times its place in the stride run; the attributes of the call are the position,
the colour and one pair of texture coordinates for each layer of the entry; and
for the vertex `k` of the entry each attribute has the stride of the entry and
starts at the byte where `upload_vertices` stored its words of the vertex `k`
expanded for the entry, after the words of all entries before it. -/
theorem draw_ranges_match_upload [DecidableEq P] (c : Collaborators P R) (ctx : CoglContext)
    (ds : DrawState) (journal : CoglJournal P R)
    (hne : ∀ batch ∈ journal.batches, batch.entries ≠ [])
    (hinv : counters_invariant ds journal) (hlen : journal.journal_len ≠ 0)
    (hsize : journal.journal_len < 178956973) :
    ∃ (journal1 journal2 : CoglJournal P R) (n_bytes : ℕ) (data' : FlushData P),
      (if ctx.disable_software_clip then some journal
       else batch_and_call_data (fun j => j) compare_entry_clip_stacks
         (_cogl_journal_maybe_software_clip_entries c ds) (_cogl_journal_iterator_init journal)
         journal.journal_len journal) = some journal1 ∧
      upload_vertices ctx ds journal1 =
        some (journal2, n_bytes, upload_entries ds 0 (all_entries journal2)) ∧
      batch_and_call_data (fun _ => journal2) compare_entry_clip_stacks
        (_cogl_journal_flush_clip_stacks_and_entries ctx ds journal2)
        (_cogl_journal_iterator_init journal2) journal2.journal_len
        { state :=
            { attribute_buffer := n_bytes
              attributes := []
              stride := 0
              array_offset := 0
              current_vertex := 0
              indices := none
              source := none }
          calls :=
            [FlushCall._cogl_framebuffer_flush_dependency_journals,
              FlushCall.cogl_push_framebuffer,
              FlushCall._cogl_framebuffer_flush_state,
              FlushCall.buffer_upload n_bytes (upload_entries ds 0 (all_entries journal2))] } =
        some data' ∧
      _cogl_journal_flush c ctx ds journal =
        some (_cogl_journal_discard journal2, data'.calls ++ [FlushCall.cogl_pop_framebuffer]) ∧
      draw_calls (data'.calls ++ [FlushCall.cogl_pop_framebuffer]) =
        (draw_runs ds journal2).map (drawn_call ctx ds journal2) ∧
      (∀ r ∈ draw_runs ds journal2, r.stride_run ∈ stride_runs journal2 ∧
        ∃ after rest, r.stride_run = r.between ++ r.run ++ after ∧
          all_iters journal2 = r.done ++ r.stride_run ++ rest) ∧
      ((draw_runs ds journal2).map (fun r => r.run)).flatten = all_iters journal2 ∧
      data'.state.array_offset = journal.needed_vbo_len * 4 ∧
      (∀ r ∈ draw_runs ds journal2,
        fetched_vertices (drawn_call ctx ds journal2 r : FlushCall P) =
          some ((List.range r.run.length).flatMap (fun j =>
            (quad_vertices ctx r.run.length).map
              (fun k => 4 * (r.between.length + j) + k))) ∧
        ∀ j it, r.run.get? j = some it →
          ∃ e post, iter_entry journal2 it = some e ∧
            all_entries journal2 =
              entries_of journal2 (r.done ++ r.between ++ r.run.take j) ++ e :: post ∧
            (call_attributes (drawn_call ctx ds journal2 r : FlushCall P)).map
                (fun a => a.name) =
              [CoglAttributeName.cogl_position_in, CoglAttributeName.cogl_color_in] ++
                (List.range e.n_layers.toNat).map CoglAttributeName.cogl_tex_coord_in ∧
            ∀ k, k < 4 →
              (∀ a ∈ call_attributes (drawn_call ctx ds journal2 r : FlushCall P),
                a.stride = 4 * entry_stride ds e ∧
                attribute_address a (4 * (r.between.length + j) + k) =
                  4 * (upload_words ds
                      (entries_of journal2 (r.done ++ r.between ++ r.run.take j)) +
                    entry_stride ds e * k + attribute_word ds a.name)) ∧
              (∀ w, w < entry_stride ds e →
                vbo_read (upload_entries ds 0 (all_entries journal2))
                    (upload_words ds
                        (entries_of journal2 (r.done ++ r.between ++ r.run.take j)) +
                      entry_stride ds e * k + w) =
                  (expanded_vertex ds e k)[w]?)) := by
  have hwf : journal_wf journal := ⟨hne, hinv.1⟩
  have hvbo : 0 < journal.needed_vbo_len := by
    rw [hinv.2]
    apply upload_words_pos
    intro h
    apply hlen
    rw [hinv.1, h]
    rfl
  obtain ⟨journal1, journal2, n_bytes, data', h1, h2, h3, h4, h5, _, h7, hwf2, hlen2, h10, _, _⟩ :=
    flush_draws c ctx ds journal hwf hlen hvbo
  have hplace : ∀ r ∈ draw_runs ds journal2, r.stride_run ∈ stride_runs journal2 ∧
      ∃ after rest, r.stride_run = r.between ++ r.run ++ after ∧
        all_iters journal2 = r.done ++ r.stride_run ++ rest := by
    intro r hr
    obtain ⟨_, _, _, after, rest, _, _, _, _, _, m6, m7, m8⟩ := mem_draw_runs ds journal2 r hr
    exact ⟨m6, after, rest, m7, m8⟩
  refine ⟨journal1, journal2, n_bytes, data', h1, h2, h3, h4, ?_, hplace,
    draw_runs_cover ds journal2, ?_, ?_⟩
  · rw [h5]
    apply List.map_congr_left
    intro r hr
    obtain ⟨_, after, rest, e1, e2⟩ := hplace r hr
    have hcount : (all_iters journal2).length = journal.journal_len := by
      rw [all_iters_length, ← hwf2.2, hlen2]
    have hpos : 0 < r.run.length := List.length_pos.2 (draw_run_levels ds journal2 r hr).1
    rw [e2, e1] at hcount
    simp only [List.length_append] at hcount
    exact run_call_eq ctx ds journal2 r (by omega) (fun _ hn => by omega)
  · rw [h7, h10, hinv.2]
    ring
  · intro r hr
    obtain ⟨hrne, _⟩ := draw_run_levels ds journal2 r hr
    obtain ⟨_, after, _, hs, _⟩ := hplace r hr
    have hin : r.between.length + r.run.length ≤ r.stride_run.length := by
      rw [hs]
      simp only [List.length_append]
      omega
    refine ⟨fetched_vertices_drawn_call ctx ds journal2 r hrne hin, ?_⟩
    intro j it hj
    obtain ⟨e, post, he, hall, hwords, hstride, hnl⟩ := drawn_entry_place ds journal2 r hr j it hj
    refine ⟨e, post, he, hall, ?_, ?_⟩
    · rw [call_attributes_drawn_call, journal_attributes_names, hnl]
    · intro k hk
      refine ⟨?_, ?_⟩
      · intro a ha
        rw [call_attributes_drawn_call] at ha
        obtain ⟨s1, s2⟩ := journal_attributes_address ds (run_stride ds journal2 r.stride_run)
          (upload_words ds (entries_of journal2 r.done)) (run_n_layers journal2 r.run) a ha
          (4 * (r.between.length + j) + k)
        refine ⟨by rw [s1, hstride], ?_⟩
        rw [s2, hwords, hstride]
        ring
      · intro w hw
        rw [hall]
        exact upload_entries_read ds _ post e k w hk hw

/-- C27 (innermost runs are homogeneous).  For the flush of a journal with no
empty batch and a right entry counter that is not empty and has
`needed_vbo_len > 0`: the clipping pass returns `journal1`, `upload_vertices`
returns `journal2` and the flush returns; the draw callback is reached once for
each run of `draw_runs` in order (one source pushed, the pipeline of the batch
of the run's first entry, and one draw call made for each), and all entries of
every such run, not only neighbouring ones, have the same clip-stack object (the
same `clip_stack` pointer), the same layer count and the same batch. -/
theorem innermost_runs_homogeneous [DecidableEq P] (c : Collaborators P R) (ctx : CoglContext)
    (ds : DrawState) (journal : CoglJournal P R) (hwf : journal_wf journal)
    (hlen : journal.journal_len ≠ 0) (hvbo : 0 < journal.needed_vbo_len) :
    ∃ (journal1 journal2 : CoglJournal P R) (n_bytes : ℕ) (calls : List (FlushCall P)),
      (if ctx.disable_software_clip then some journal
       else batch_and_call_data (fun j => j) compare_entry_clip_stacks
         (_cogl_journal_maybe_software_clip_entries c ds) (_cogl_journal_iterator_init journal)
         journal.journal_len journal) = some journal1 ∧
      upload_vertices ctx ds journal1 =
        some (journal2, n_bytes, upload_entries ds 0 (all_entries journal2)) ∧
      _cogl_journal_flush c ctx ds journal = some (_cogl_journal_discard journal2, calls) ∧
      (pushed_sources calls).map some =
        (draw_runs ds journal2).map (fun r => source_of journal2 r.run) ∧
      (draw_calls calls).length = (draw_runs ds journal2).length ∧
      (∀ r ∈ draw_runs ds journal2, ∀ x ∈ r.run, ∀ y ∈ r.run,
        ∃ ex ey, iter_entry journal2 x = some ex ∧ iter_entry journal2 y = some ey ∧
          clip_stack_pointer ex.clip_stack = clip_stack_pointer ey.clip_stack ∧
          ex.n_layers = ey.n_layers ∧ x.batch_num = y.batch_num) := by
  obtain ⟨journal1, journal2, n_bytes, data', h1, h2, _, h4, h5, h6, _⟩ :=
    flush_draws c ctx ds journal hwf hlen hvbo
  refine ⟨journal1, journal2, n_bytes, _, h1, h2, h4, h6, ?_, ?_⟩
  · rw [h5, List.length_map]
  · intro r hr x hx y hy
    exact draw_run_homogeneous ds journal2 r hr x hx y hy

/-! ## A journal too long for the vertex cursor -/

theorem split_acc_of_forall {α : Type} (p : α → α → Bool) (S : α → Prop)
    (hp : ∀ a b, S a → S b → p a b = true) :
    ∀ (l cur : List α) (prev : α), S prev → (∀ b ∈ l, S b) →
      split_acc p cur prev l = [cur ++ l]
  | [], cur, _, _, _ => by simp [split_acc]
  | x :: l, cur, prev, hprev, hl => by
    have hx : S x := hl x (by simp)
    rw [split_acc, if_pos (hp prev x hprev hx),
      split_acc_of_forall p S hp l (cur ++ [x]) x hx (fun b hb => hl b (by simp [hb]))]
    simp

/-- A sequence on whose pairs the test holds is one run. -/
theorem split_runs_of_forall {α : Type} (p : α → α → Bool) (S : α → Prop)
    (hp : ∀ a b, S a → S b → p a b = true) (l : List α) (hne : l ≠ [])
    (hl : ∀ b ∈ l, S b) : split_runs p l = [l] := by
  cases l with
  | nil => exact absurd rfl hne
  | cons a t =>
    rw [split_runs, split_acc_of_forall p S hp t [a] a (hl a (by simp))
      (fun b hb => hl b (by simp [hb]))]
    rfl

theorem split_acc_two_blocks {α : Type} (p : α → α → Bool) (S1 S2 : α → Prop)
    (hp1 : ∀ a b, S1 a → S1 b → p a b = true) (hp2 : ∀ a b, S2 a → S2 b → p a b = true)
    (hbreak : ∀ a b, S1 a → S2 b → p a b = false) (l2 : List α) (hne : l2 ≠ [])
    (h2 : ∀ b ∈ l2, S2 b) :
    ∀ (l1 cur : List α) (prev : α), S1 prev → (∀ b ∈ l1, S1 b) →
      split_acc p cur prev (l1 ++ l2) = [cur ++ l1, l2]
  | [], cur, prev, hprev, _ => by
    cases l2 with
    | nil => exact absurd rfl hne
    | cons x t =>
      have hx : S2 x := h2 x (by simp)
      rw [List.nil_append, split_acc, hbreak prev x hprev hx]
      simp only [Bool.false_eq_true, if_false, List.append_nil]
      rw [split_acc_of_forall p S2 hp2 t [x] x hx (fun b hb => h2 b (by simp [hb]))]
      rfl
  | x :: l1, cur, prev, hprev, h1 => by
    have hx : S1 x := h1 x (by simp)
    rw [List.cons_append, split_acc, if_pos (hp1 prev x hprev hx),
      split_acc_two_blocks p S1 S2 hp1 hp2 hbreak l2 hne h2 l1 (cur ++ [x]) x hx
        (fun b hb => h1 b (by simp [hb]))]
    simp

/-- A sequence of two blocks, with the test holding inside each block and failing
from the first to the second, splits into the two blocks. -/
theorem split_runs_two_blocks {α : Type} (p : α → α → Bool) (S1 S2 : α → Prop)
    (hp1 : ∀ a b, S1 a → S1 b → p a b = true) (hp2 : ∀ a b, S2 a → S2 b → p a b = true)
    (hbreak : ∀ a b, S1 a → S2 b → p a b = false) (l1 l2 : List α) (hne1 : l1 ≠ [])
    (hne2 : l2 ≠ []) (h1 : ∀ b ∈ l1, S1 b) (h2 : ∀ b ∈ l2, S2 b) :
    split_runs p (l1 ++ l2) = [l1, l2] := by
  cases l1 with
  | nil => exact absurd rfl hne1
  | cons a t =>
    rw [List.cons_append, split_runs,
      split_acc_two_blocks p S1 S2 hp1 hp2 hbreak l2 hne2 h2 t [a] a (h1 a (by simp))
        (fun b hb => h1 b (by simp [hb]))]
    rfl

/-- The iterators of a journal of one batch: one for each entry, in batch 0. -/
theorem all_iters_one_batch (journal : CoglJournal P R) (b : CoglJournalBatch P R)
    (hb : journal.batches = [b]) :
    all_iters journal = (List.range b.entries.length).map
      (fun k => ({ entry := some k, batch_num := 0 } : CoglJournalIter)) := by
  simp [all_iters, iters_of, hb]

theorem iter_entry_one_batch (journal : CoglJournal P R) (b : CoglJournalBatch P R)
    (hb : journal.batches = [b]) (k : ℕ) :
    iter_entry journal { entry := some k, batch_num := 0 } = b.entries.get? k := by
  have := iter_entry_nat journal 0 k b (by rw [hb]; rfl)
  simpa using this

/-- The runs drawn of a journal of one batch that holds first entries of one
layer and then entries of two layers, all without clip stack, with software
transform enabled: the entries of one layer, and then, in the same stride run,
the entries of two layers. -/
theorem draw_runs_two_layer_counts (ds : DrawState) (journal : CoglJournal P R)
    (b : CoglJournalBatch P R) (L1 L2 : List CoglJournalEntry)
    (hds : ds.disable_software_transform = false)
    (hb : journal.batches = [b]) (hL : b.entries = L1 ++ L2) (hne1 : L1 ≠ []) (hne2 : L2 ≠ [])
    (h1 : ∀ e ∈ L1, e.clip_stack = [] ∧ e.n_layers = 1)
    (h2 : ∀ e ∈ L2, e.clip_stack = [] ∧ e.n_layers = 2) :
    draw_runs ds journal =
      [{ done := []
         stride_run := (List.range (L1.length + L2.length)).map
           (fun k => ({ entry := some k, batch_num := 0 } : CoglJournalIter))
         between := []
         run := (List.range L1.length).map
           (fun k => ({ entry := some k, batch_num := 0 } : CoglJournalIter)) },
       { done := []
         stride_run := (List.range (L1.length + L2.length)).map
           (fun k => ({ entry := some k, batch_num := 0 } : CoglJournalIter))
         between := (List.range L1.length).map
           (fun k => ({ entry := some k, batch_num := 0 } : CoglJournalIter))
         run := (List.range L2.length).map
           (fun k => ({ entry := some (L1.length + k), batch_num := 0 } : CoglJournalIter)) }] := by
  set I1 : List CoglJournalIter := (List.range L1.length).map
    (fun k => ({ entry := some k, batch_num := 0 } : CoglJournalIter)) with hI1
  set I2 : List CoglJournalIter := (List.range L2.length).map
    (fun k => ({ entry := some (L1.length + k), batch_num := 0 } : CoglJournalIter)) with hI2
  have hI : (List.range (L1.length + L2.length)).map
      (fun k => ({ entry := some k, batch_num := 0 } : CoglJournalIter)) = I1 ++ I2 := by
    rw [List.range_add, List.map_append, List.map_map]
    rfl
  have hall : all_iters journal = I1 ++ I2 := by
    rw [all_iters_one_batch journal b hb, hL, List.length_append, hI]
  have hI1ne : I1 ≠ [] := by
    intro h
    apply hne1
    have := congrArg List.length h
    simpa [hI1] using this
  have hI2ne : I2 ≠ [] := by
    intro h
    apply hne2
    have := congrArg List.length h
    simpa [hI2] using this
  -- the entries behind the iterators
  have e1 : ∀ it ∈ I1, ∃ e, iter_entry journal it = some e ∧ e.clip_stack = [] ∧
      e.n_layers = 1 ∧ it.batch_num = 0 := by
    intro it hit
    obtain ⟨k, hk, rfl⟩ := List.mem_map.1 hit
    have hk' : k < L1.length := List.mem_range.1 hk
    refine ⟨L1.get ⟨k, hk'⟩, ?_, (h1 _ (List.get_mem _ _ _)).1, (h1 _ (List.get_mem _ _ _)).2,
      rfl⟩
    rw [iter_entry_one_batch journal b hb, hL, List.get?_eq_getElem?,
      List.getElem?_append_left hk']
    simp
  have e2 : ∀ it ∈ I2, ∃ e, iter_entry journal it = some e ∧ e.clip_stack = [] ∧
      e.n_layers = 2 ∧ it.batch_num = 0 := by
    intro it hit
    obtain ⟨k, hk, rfl⟩ := List.mem_map.1 hit
    have hk' : k < L2.length := List.mem_range.1 hk
    refine ⟨L2.get ⟨k, hk'⟩, ?_, (h2 _ (List.get_mem _ _ _)).1, (h2 _ (List.get_mem _ _ _)).2,
      rfl⟩
    rw [iter_entry_one_batch journal b hb, hL, List.get?_eq_getElem?,
      List.getElem?_append_right (by omega)]
    simp
  have eall : ∀ it ∈ I1 ++ I2, ∃ e, iter_entry journal it = some e ∧ e.clip_stack = [] ∧
      e.n_layers ≤ 2 ∧ it.batch_num = 0 := by
    intro it hit
    rcases List.mem_append.1 hit with h | h
    · obtain ⟨e, a1, a2, a3, a4⟩ := e1 it h
      exact ⟨e, a1, a2, by omega, a4⟩
    · obtain ⟨e, a1, a2, a3, a4⟩ := e2 it h
      exact ⟨e, a1, a2, by omega, a4⟩
  -- level 1 and level 2: one run
  have hclip : split_runs (test_of compare_entry_clip_stacks journal) (I1 ++ I2) = [I1 ++ I2] := by
    apply split_runs_of_forall _ (fun it => ∃ e, iter_entry journal it = some e ∧
      e.clip_stack = []) _ _ (by simp [hI1ne])
    · intro it hit
      obtain ⟨e, a1, a2, _, _⟩ := eall it hit
      exact ⟨e, a1, a2⟩
    · intro a b ⟨ea, ha1, ha2⟩ ⟨eb, hb1, hb2⟩
      simp [test_of, compare_entry_clip_stacks, ha1, hb1, ha2, hb2]
  have hstride : split_runs (test_of compare_entry_strides journal) (I1 ++ I2) = [I1 ++ I2] := by
    apply split_runs_of_forall _ (fun it => ∃ e, iter_entry journal it = some e ∧
      e.n_layers ≤ 2) _ _ (by simp [hI1ne])
    · intro it hit
      obtain ⟨e, a1, _, a3, _⟩ := eall it hit
      exact ⟨e, a1, a3⟩
    · intro a b ⟨ea, ha1, ha2⟩ ⟨eb, hb1, hb2⟩
      simp [test_of, compare_entry_strides, ha1, hb1, MIN_LAYER_PADING, ha2, hb2]
  -- level 3: two runs
  have hlayers : split_runs (test_of compare_entry_n_layers journal) (I1 ++ I2) = [I1, I2] := by
    apply split_runs_two_blocks _
      (fun it => ∃ e, iter_entry journal it = some e ∧ e.n_layers = 1)
      (fun it => ∃ e, iter_entry journal it = some e ∧ e.n_layers = 2) _ _ _ I1 I2 hI1ne hI2ne
    · intro it hit
      obtain ⟨e, a1, _, a3, _⟩ := e1 it hit
      exact ⟨e, a1, a3⟩
    · intro it hit
      obtain ⟨e, a1, _, a3, _⟩ := e2 it hit
      exact ⟨e, a1, a3⟩
    · intro a b ⟨ea, ha1, ha2⟩ ⟨eb, hb1, hb2⟩
      simp [test_of, compare_entry_n_layers, ha1, hb1, ha2, hb2]
    · intro a b ⟨ea, ha1, ha2⟩ ⟨eb, hb1, hb2⟩
      simp [test_of, compare_entry_n_layers, ha1, hb1, ha2, hb2]
    · intro a b ⟨ea, ha1, ha2⟩ ⟨eb, hb1, hb2⟩
      simp [test_of, compare_entry_n_layers, ha1, hb1, ha2, hb2]
  -- levels 4 and 5: one run each
  have hpipe : ∀ I : List CoglJournalIter, I ≠ [] → (∀ it ∈ I, it.batch_num = 0) →
      pipeline_runs ds journal I = [I] := by
    intro I hIne hI0
    have : split_runs compare_entry_pipelines I = [I] := by
      apply split_runs_of_forall _ (fun it => it.batch_num = 0) _ _ hIne hI0
      intro a b ha hb'
      simp only at ha hb'
      simp [compare_entry_pipelines, ha, hb']
    simp [pipeline_runs, this, modelview_runs, hds]
  have hp1 := hpipe I1 hI1ne (fun it hit => (e1 it hit).choose_spec.2.2.2)
  have hp2 := hpipe I2 hI2ne (fun it hit => (e2 it hit).choose_spec.2.2.2)
  rw [hI]
  simp only [draw_runs, stride_runs, stride_runs_of, layer_runs, hall, hclip, hstride, hlayers,
    List.flatMap_cons, List.flatMap_nil, List.append_nil, with_done, hp1, hp2,
    List.cons_append, List.nil_append, List.map_cons, List.map_nil]

theorem log_call_one_batch (c : Collaborators P R) (journal : CoglJournal P R)
    (b : CoglJournalBatch P R) (call : LogCall P) (hb : journal.batches = [b])
    (heq : c._cogl_pipeline_equal b.pipeline (call_source c call) = true) :
    ∃ b', (log_call c journal call).batches = [b'] ∧ b'.pipeline = b.pipeline ∧
      b'.entries = b.entries ++ [call_entry c call] := by
  have h := add_entry_found c call.ds journal (call_source c call) (call_entry c call) [] []
    b (by rw [hb]; rfl) heq (by intro x hx; simp at hx)
  refine ⟨batch_with c b (entry_bounds c call.ds (call_entry c call)) (call_entry c call), ?_,
    rfl, rfl⟩
  rw [log_call, log_quad_batches]
  exact h

/-- Calls whose pipelines are equivalent to the pipeline of the only batch of the
journal are all logged into that batch, in order. -/
theorem log_calls_one_batch (c : Collaborators P R) :
    ∀ (calls : List (LogCall P)) (journal : CoglJournal P R) (b : CoglJournalBatch P R),
      journal.batches = [b] →
      (∀ call ∈ calls, c._cogl_pipeline_equal b.pipeline (call_source c call) = true) →
      ∃ b', (log_calls c journal calls).batches = [b'] ∧ b'.pipeline = b.pipeline ∧
        b'.entries = b.entries ++ calls.map (call_entry c)
  | [], journal, b, hb, _ => ⟨b, hb, rfl, by simp⟩
  | call :: calls, journal, b, hb, heq => by
    obtain ⟨b1, h1, h2, h3⟩ := log_call_one_batch c journal b call hb (heq call (by simp))
    obtain ⟨b2, k1, k2, k3⟩ := log_calls_one_batch c calls (log_call c journal call) b1 h1
      (fun call' hc => by rw [h2]; exact heq call' (by simp [hc]))
    refine ⟨b2, k1, k2.trans h2, ?_⟩
    rw [k3, h3]
    simp

/-- Calls whose pipelines are equivalent to the pipeline of the first are logged
into one batch of a new journal, in order. -/
theorem log_calls_new_one_batch (c : Collaborators P R) (call : LogCall P)
    (calls : List (LogCall P))
    (heq : ∀ call' ∈ calls,
      c._cogl_pipeline_equal (call_source c call) (call_source c call') = true) :
    ∃ b, (log_calls c (_cogl_journal_new : CoglJournal P R) (call :: calls)).batches = [b] ∧
      b.entries = (call :: calls).map (call_entry c) := by
  have h := add_entry_new c call.ds (_cogl_journal_new : CoglJournal P R) (call_source c call)
    (call_entry c call) rfl
  have h1 : (log_call c (_cogl_journal_new : CoglJournal P R) call).batches =
      [new_batch c (call_source c call) (entry_bounds c call.ds (call_entry c call))
        (call_entry c call)] := by
    rw [log_call, log_quad_batches]
    exact h
  obtain ⟨b2, k1, _, k3⟩ := log_calls_one_batch c calls _ _ h1 heq
  exact ⟨b2, k1, by rw [k3]; rfl⟩

theorem log_calls_needed_vbo_len_pos (c : Collaborators P R) :
    ∀ (calls : List (LogCall P)) (journal : CoglJournal P R),
      (0 < journal.needed_vbo_len ∨ calls ≠ []) →
      0 < (log_calls c journal calls).needed_vbo_len
  | [], journal, h => by
    rcases h with h | h
    · exact h
    · exact absurd rfl h
  | call :: calls, journal, _ => by
    apply log_calls_needed_vbo_len_pos c calls (log_call c journal call)
    left
    rw [log_call_needed_vbo_len]
    have := stride_pos call.ds call.n_layers
    omega

theorem run_stride_of_head (ds : DrawState) (journal : CoglJournal P R)
    (it : CoglJournalIter) (l : List CoglJournalIter) (e : CoglJournalEntry)
    (h : iter_entry journal it = some e) :
    run_stride ds journal (it :: l) = entry_stride ds e := by
  simp [run_stride, h]

theorem run_n_layers_of_head (journal : CoglJournal P R)
    (it : CoglJournalIter) (l : List CoglJournalIter) (e : CoglJournalEntry)
    (h : iter_entry journal it = some e) :
    run_n_layers journal (it :: l) = e.n_layers := by
  simp [run_n_layers, h]

/-- The draw calls of a journal of one batch that holds first entries of one
layer and then entries of two layers, all without clip stack, with software
transform enabled: one call for the entries of one layer and one for those of
two layers, with the vertex cursor at 4 times the number of the former, taken
modulo 2^32. -/
theorem two_layer_counts_calls (ctx : CoglContext) (ds : DrawState) (journal : CoglJournal P R)
    (b : CoglJournalBatch P R) (e1 e2 : CoglJournalEntry) (L1 L2 : List CoglJournalEntry)
    (hds : ds.disable_software_transform = false)
    (hb : journal.batches = [b]) (hL : b.entries = (e1 :: L1) ++ (e2 :: L2))
    (h1 : ∀ e ∈ e1 :: L1, e.clip_stack = [] ∧ e.n_layers = 1)
    (h2 : ∀ e ∈ e2 :: L2, e.clip_stack = [] ∧ e.n_layers = 2) :
    (draw_runs ds journal).map (fun r =>
        (run_call ctx
          (journal_attributes ds (run_stride ds journal r.stride_run * 4)
            (4 * upload_words ds (entries_of journal r.done)) (run_n_layers journal r.run))
          (some (r.stride_run.length : ℤ)) (4 * r.between.length % 2 ^ 32)
          r.run.length : FlushCall P)) =
      [run_call ctx (journal_attributes ds (entry_stride ds e1 * 4) 0 1)
          (some (((L1.length + 1 + (L2.length + 1) : ℕ)) : ℤ)) 0 ((L1.length + 1 : ℕ) : ℤ),
        run_call ctx (journal_attributes ds (entry_stride ds e1 * 4) 0 2)
          (some (((L1.length + 1 + (L2.length + 1) : ℕ)) : ℤ))
          (4 * (L1.length + 1) % 2 ^ 32) ((L2.length + 1 : ℕ) : ℤ)] := by
  rw [draw_runs_two_layer_counts ds journal b (e1 :: L1) (e2 :: L2) hds hb hL (by simp)
    (by simp) h1 h2]
  have g1 : iter_entry journal { entry := some 0, batch_num := 0 } = some e1 := by
    rw [iter_entry_one_batch journal b hb, hL]
    rfl
  have g2 : iter_entry journal { entry := some (L1.length + 1 + 0), batch_num := 0 } =
      some e2 := by
    rw [iter_entry_one_batch journal b hb, hL, List.get?_eq_getElem?,
      List.getElem?_append_right (by simp)]
    simp
  have r0 : ∀ n : ℕ, (List.range (n + 1)).map
      (fun k => ({ entry := some k, batch_num := 0 } : CoglJournalIter)) =
      { entry := some 0, batch_num := 0 } :: (List.range n).map
        (fun k => ({ entry := some (k + 1), batch_num := 0 } : CoglJournalIter)) := by
    intro n
    rw [List.range_succ_eq_map, List.map_cons, List.map_map]
    rfl
  have r2 : (List.range (L2.length + 1)).map
      (fun k => ({ entry := some (L1.length + 1 + k), batch_num := 0 } : CoglJournalIter)) =
      { entry := some (L1.length + 1 + 0), batch_num := 0 } :: (List.range L2.length).map
        (fun k => ({ entry := some (L1.length + 1 + (k + 1)), batch_num := 0 } :
          CoglJournalIter)) := by
    rw [List.range_succ_eq_map, List.map_cons, List.map_map]
    rfl
  have s1 : run_stride ds journal ((List.range (L1.length + 1 + (L2.length + 1))).map
      (fun k => ({ entry := some k, batch_num := 0 } : CoglJournalIter))) =
      entry_stride ds e1 := by
    rw [show L1.length + 1 + (L2.length + 1) = (L1.length + (L2.length + 1)) + 1 by omega, r0]
    exact run_stride_of_head ds journal _ _ e1 g1
  have n1 : run_n_layers journal ((List.range (L1.length + 1)).map
      (fun k => ({ entry := some k, batch_num := 0 } : CoglJournalIter))) = 1 := by
    rw [r0, run_n_layers_of_head journal _ _ e1 g1]
    exact (h1 e1 (by simp)).2
  have n2 : run_n_layers journal ((List.range (L2.length + 1)).map
      (fun k => ({ entry := some (L1.length + 1 + k), batch_num := 0 } :
        CoglJournalIter))) = 2 := by
    rw [r2, run_n_layers_of_head journal _ _ e2 g2]
    exact (h2 e2 (by simp)).2
  simp only [List.map_cons, List.map_nil, entries_of, List.filterMap_nil,
    upload_words, List.sum_nil, Nat.mul_zero, List.length_nil, List.length_map,
    List.length_range, List.length_cons, Nat.zero_mod, s1, n1, n2]

/-! ## The statements evaluated on the sample scene -/

theorem sample_region_foldl :
    ∀ (added init : List CoglLooseRegionRectangle),
      added.foldl sample_collaborators._cogl_loose_region_add_rectangle init = init ++ added
  | [], init => by simp
  | r :: added, init => by
    rw [List.foldl_cons, sample_region_foldl added]
    simp [sample_collaborators]

theorem sample_region_sound : region_sound sample_collaborators sample_meets := by
  intro added tested h
  obtain ⟨r, hr, hmeet⟩ := h
  rw [sample_region_foldl]
  simp only [sample_collaborators, List.nil_append, List.any_eq_true, decide_eq_true_eq]
  exact ⟨r, hr, hmeet⟩

theorem log_order_preserved_witness :
    region_sound sample_collaborators sample_meets ∧
    (_cogl_journal_new : CoglJournal SamplePipeline (List CoglLooseRegionRectangle)).batches
      = [] ∧
    ∃ order : List (ℕ × LogCall SamplePipeline),
      order.Perm [sample_A 0, sample_C 1, sample_B 0].enum ∧
      all_entries (log_calls sample_collaborators _cogl_journal_new
          [sample_A 0, sample_C 1, sample_B 0]) =
        order.map (fun x => call_entry sample_collaborators x.2) ∧
      ∀ i j ci cj, i < j → [sample_A 0, sample_C 1, sample_B 0].get? i = some ci →
        [sample_A 0, sample_C 1, sample_B 0].get? j = some cj →
        sample_meets (call_bounds sample_collaborators ci)
          (call_bounds sample_collaborators cj) →
        [(i, ci), (j, cj)].Sublist order :=
  ⟨sample_region_sound, rfl,
    log_order_preserved sample_collaborators sample_meets sample_region_sound
      _cogl_journal_new rfl [sample_A 0, sample_C 1, sample_B 0]⟩

theorem batch_and_call_complete_witness :
    (1 : ℤ) ≤ 3 ∧
    iter_walk sample_journal (3 : ℤ).toNat (_cogl_journal_iterator_init sample_journal) =
      some [{ entry := some 0, batch_num := 0 }, { entry := some 1, batch_num := 0 },
        { entry := some 0, batch_num := 1 }] ∧
    ∃ calls runs,
      batch_and_call sample_journal (_cogl_journal_iterator_init sample_journal) 3
        compare_entry_pipelines = some calls ∧
      calls ≠ [] ∧
      contiguous_runs sample_journal (_cogl_journal_iterator_init sample_journal) calls ∧
      (calls.map Prod.snd).sum = 3 ∧
      run_entries sample_journal calls = some runs ∧
      runs.flatten = [{ entry := some 0, batch_num := 0 }, { entry := some 1, batch_num := 0 },
        { entry := some 0, batch_num := 1 }] ∧
      ((∀ a b, compare_entry_pipelines a b = true) →
        calls = [(_cogl_journal_iterator_init sample_journal, 3)]) :=
  ⟨by decide, by decide!,
    batch_and_call_complete sample_journal (_cogl_journal_iterator_init sample_journal) 3
      compare_entry_pipelines _ (by decide) (by decide!)⟩

theorem batch_and_call_maximal_runs_witness :
    (1 : ℤ) ≤ 3 ∧
    iter_walk sample_journal (3 : ℤ).toNat (_cogl_journal_iterator_init sample_journal) =
      some [{ entry := some 0, batch_num := 0 }, { entry := some 1, batch_num := 0 },
        { entry := some 0, batch_num := 1 }] ∧
    ∃ calls runs,
      batch_and_call sample_journal (_cogl_journal_iterator_init sample_journal) 3
        compare_entry_pipelines = some calls ∧
      run_entries sample_journal calls = some runs ∧
      runs.flatten = [{ entry := some 0, batch_num := 0 }, { entry := some 1, batch_num := 0 },
        { entry := some 0, batch_num := 1 }] ∧
      (∀ r ∈ runs, r.Chain' (fun a b => compare_entry_pipelines a b = true)) ∧
      boundaries_fail compare_entry_pipelines runs ∧
      calls.length = 1 + false_pairs compare_entry_pipelines
        [{ entry := some 0, batch_num := 0 }, { entry := some 1, batch_num := 0 },
          { entry := some 0, batch_num := 1 }] ∧
      (∀ parts : List (List CoglJournalIter),
        parts.flatten = [{ entry := some 0, batch_num := 0 }, { entry := some 1, batch_num := 0 },
          { entry := some 0, batch_num := 1 }] →
        (∀ r ∈ parts, r.Chain' (fun a b => compare_entry_pipelines a b = true)) →
        calls.length ≤ parts.length) :=
  ⟨by decide, by decide!,
    batch_and_call_maximal_runs sample_journal (_cogl_journal_iterator_init sample_journal) 3
      compare_entry_pipelines _ (by decide) (by decide!)⟩

theorem log_quad_placement_witness :
    let journal := log_calls sample_collaborators
      (_cogl_journal_new : CoglJournal SamplePipeline (List CoglLooseRegionRectangle))
      [sample_A 0, sample_C 1]
    let eA := call_entry sample_collaborators (sample_A 0)
    let eB := call_entry sample_collaborators (sample_B 0)
    let eC := call_entry sample_collaborators (sample_C 1)
    journal.batches.map (fun b => b.entries) = [[eA], [eC]] ∧
    (log_call sample_collaborators journal (sample_B 0)).batches.map (fun b => b.entries)
      = [[eA, eB], [eC]] := by
  intro journal eA eB eC
  let bA := new_batch sample_collaborators (call_source sample_collaborators (sample_A 0))
    (call_bounds sample_collaborators (sample_A 0)) eA
  let bC := new_batch sample_collaborators (call_source sample_collaborators (sample_C 1))
    (call_bounds sample_collaborators (sample_C 1)) eC
  have hj : journal.batches = [] ++ bA :: [bC] := by decide!
  have hbA : bA.entries = [eA] := rfl
  have hbC : bC.entries = [eC] := rfl
  have heq : sample_collaborators._cogl_pipeline_equal bA.pipeline
      (log_quad_source sample_collaborators (sample_B 0).pipeline (sample_B 0).n_layers
        (sample_B 0).layer0_override_texture) = true := by decide!
  have hpost : ∀ b ∈ [bC], passed_over sample_collaborators
      (log_quad_source sample_collaborators (sample_B 0).pipeline (sample_B 0).n_layers
        (sample_B 0).layer0_override_texture)
      (entry_bounds sample_collaborators (sample_B 0).ds
        (log_quad_entry sample_collaborators (sample_B 0).ds (sample_B 0).position
          (sample_B 0).pipeline (sample_B 0).n_layers (sample_B 0).tex_coords)) b := by
    intro b hb
    simp only [List.mem_singleton] at hb
    subst hb
    exact ⟨by decide!, by decide!⟩
  have h := (log_quad_placement sample_collaborators (sample_B 0).ds journal
    (sample_B 0).position (sample_B 0).pipeline (sample_B 0).n_layers
    (sample_B 0).layer0_override_texture (sample_B 0).tex_coords).1 [] bA [bC] hj heq hpost
  refine ⟨by rw [hj]; simp [hbA, hbC], ?_⟩
  show (_cogl_journal_log_quad sample_collaborators (sample_B 0).ds journal
    (sample_B 0).position (sample_B 0).pipeline (sample_B 0).n_layers
    (sample_B 0).layer0_override_texture (sample_B 0).tex_coords).batches.map
      (fun b => b.entries) = [[eA, eB], [eC]]
  rw [h]
  simp only [List.nil_append, List.map_cons, List.map_nil, batch_with, hbA, hbC]
  rfl

theorem sample_flat_journal_wf : journal_wf sample_flat_journal := by
  unfold sample_flat_journal
  exact log_calls_wf sample_collaborators _ _cogl_journal_new journal_new_wf

theorem sample_journal_wf : journal_wf sample_journal := by
  unfold journal_wf; decide!

theorem sample_disjoint_wf : journal_wf sample_disjoint := by
  unfold journal_wf; decide!

theorem topmost_opaque_hit_wins_witness :
    sample_flat_journal.batches.map (fun b => b.entries.length) = [3] ∧
    sample_journal.batches.map (fun b => b.entries.length) = [2, 1] ∧
    (_cogl_journal_try_read_pixel sample_collaborators sample_draw_state sample_journal
        25 25 sample_format).map (fun r => (r.handled, r.pixel)) = some (false, none) ∧
    (∃ r, _cogl_journal_try_read_pixel sample_collaborators sample_draw_state
        sample_flat_journal 7 7 sample_format = some r ∧
      r.handled = true ∧ r.found_intersection = some true ∧ r.pixel = some sample_blue) ∧
    (∃ r, _cogl_journal_try_read_pixel sample_collaborators sample_draw_state
        sample_flat_journal 25 25 sample_format = some r ∧
      r.handled = true ∧ r.found_intersection = some true ∧ r.pixel = some sample_green) ∧
    (∃ r, _cogl_journal_try_read_pixel sample_collaborators sample_draw_state
        sample_flat_journal 1 1 sample_format = some r ∧
      r.handled = true ∧ r.found_intersection = some true ∧ r.pixel = some sample_red) :=
  ⟨by decide!, by decide!, by decide!,
    topmost_opaque_hit_wins sample_collaborators sample_draw_state sample_flat_journal 7 7
      sample_format
      [((sample_A 0).pipeline, call_entry sample_collaborators (sample_A 0))]
      [((sample_A 0).pipeline, call_entry sample_collaborators (sample_C 0))]
      (sample_A 0).pipeline (call_entry sample_collaborators (sample_B 0))
      sample_flat_journal_wf (by decide!) (Or.inr rfl) (by decide!) (by decide!) (by decide!)
      (by decide!),
    topmost_opaque_hit_wins sample_collaborators sample_draw_state sample_flat_journal 25 25
      sample_format
      [((sample_A 0).pipeline, call_entry sample_collaborators (sample_A 0)),
        ((sample_A 0).pipeline, call_entry sample_collaborators (sample_B 0))]
      []
      (sample_A 0).pipeline (call_entry sample_collaborators (sample_C 0))
      sample_flat_journal_wf (by decide!) (Or.inr rfl) (by decide!) (by decide!) (by decide!)
      (by decide!),
    topmost_opaque_hit_wins sample_collaborators sample_draw_state sample_flat_journal 1 1
      sample_format
      []
      [((sample_A 0).pipeline, call_entry sample_collaborators (sample_B 0)),
        ((sample_A 0).pipeline, call_entry sample_collaborators (sample_C 0))]
      (sample_A 0).pipeline (call_entry sample_collaborators (sample_A 0))
      sample_flat_journal_wf (by decide!) (Or.inr rfl) (by decide!) (by decide!) (by decide!)
      (by decide!)⟩

/-- C6, counterexample: the journal that Log builds from A, B and C, all of the
flat-colour state, holds only unclipped, opaque, flat-colour entries, and B, the
last entry whose polygon contains (7, 7), is blue; yet a read at (7, 7) in an
unsupported format returns not-handled and no colour, and of 52 reads at (7, 7)
in a supported format the first 51 are handled and the last is refused.  In the
scene of the specification, where C has a state of its own and Log gives it a
batch of its own, C is not flat-colour and the read at (25, 25) returns
not-handled and no colour. -/
theorem topmost_hit_refused_by_the_gates :
    (∀ pe ∈ all_pairs sample_flat_journal,
      sample_collaborators._cogl_pipeline_equal sample_collaborators.opaque_color_pipeline
        pe.1 = true ∧ pe.2.clip_stack = [] ∧ pe.2.color.a = 0xff) ∧
    entry_contains sample_collaborators sample_draw_state
      (call_entry sample_collaborators (sample_B 0)) 7 7 = true ∧
    (_cogl_journal_try_read_pixel sample_collaborators sample_draw_state sample_flat_journal
        7 7 (CoglPixelFormat.COGL_PIXEL_FORMAT_OTHER 0)).map
      (fun r => (r.handled, r.pixel)) = some (false, none) ∧
    (read_pixel_calls sample_collaborators sample_draw_state sample_flat_journal
        (List.replicate 52 (7, 7, sample_format))).map (fun res => res.2) =
      some (List.replicate 51 true ++ [false]) ∧
    sample_journal.batches.map (fun b => b.entries.length) = [2, 1] ∧
    (_cogl_journal_try_read_pixel sample_collaborators sample_draw_state sample_journal
        25 25 sample_format).map
      (fun r => (r.handled, r.pixel)) = some (false, none) := by
  decide!

theorem fast_read_agrees_with_brute_force_witness :
    ∃ r, _cogl_journal_try_read_pixel sample_collaborators sample_draw_state
        sample_disjoint 25 25 sample_format = some r ∧
      r.handled = true ∧
      r.pixel = brute_force_read sample_collaborators sample_draw_state sample_disjoint 25 25 ∧
      r.found_intersection =
        some (brute_force_read sample_collaborators sample_draw_state sample_disjoint
          25 25).isSome ∧
      (∀ e ∈ all_entries sample_disjoint,
        entry_contains sample_collaborators sample_draw_state e 25 25 = true →
        r.found_intersection = some true ∧ r.pixel = some e.color) ∧
      ((∀ e ∈ all_entries sample_disjoint,
          entry_contains sample_collaborators sample_draw_state e 25 25 = false) →
        r.found_intersection = some false ∧ r.pixel = none) :=
  fast_read_agrees_with_brute_force sample_collaborators sample_draw_state sample_disjoint
    25 25 sample_format sample_disjoint_wf (by decide!) (Or.inr rfl) (by decide!) (by decide!)

theorem miss_is_handled_witness :
    ∃ r, _cogl_journal_try_read_pixel sample_collaborators sample_draw_state
        sample_journal 35 1 sample_format = some r ∧
      r.handled = true ∧ r.found_intersection = some false ∧ r.pixel = none :=
  miss_is_handled sample_collaborators sample_draw_state sample_journal 35 1 sample_format
    (by decide!) (Or.inr rfl) (Or.inr ⟨sample_journal_wf, by decide!⟩)

theorem abort_instead_of_falling_through_witness :
    ∃ r, _cogl_journal_try_read_pixel sample_collaborators sample_draw_state
        sample_journal 25 25 sample_format = some r ∧
      r.handled = false ∧ r.pixel = none :=
  abort_instead_of_falling_through sample_collaborators sample_draw_state sample_journal
    25 25 sample_format
    [((sample_A 0).pipeline, call_entry sample_collaborators (sample_A 0)),
      ((sample_A 0).pipeline, call_entry sample_collaborators (sample_B 0))]
    []
    (sample_C 1).pipeline (call_entry sample_collaborators (sample_C 1))
    sample_journal_wf (by decide!)
    (by intro pe hpe; simp at hpe)
    ⟨by decide!, Or.inl rfl⟩ (Or.inl (by decide!))

/-- C7, counterexample: on the sample journal, never flushed or discarded, the
first 50 reads at (7, 7) are handled and the 51st call is handled as well; only
the 52nd call is refused. -/
theorem fifty_first_call_is_handled :
    (read_pixel_calls sample_collaborators sample_draw_state sample_journal
        (List.replicate 52 (7, 7, sample_format))).map (fun res => res.2) =
      some (List.replicate 51 true ++ [false]) := by
  decide!

theorem breaker_trips_after_51_handled_witness :
    ∃ journal' flags,
      read_pixel_calls sample_collaborators sample_draw_state sample_journal
        (List.replicate 50 (7, 7, sample_format) ++
          [(25, 25, sample_format), (7, 7, sample_format), (7, 7, sample_format)])
        = some (journal', flags) ∧
      flags = List.replicate 50 true ++ [false, true, false] ∧
      51 ≤ (List.replicate 50 true ++ [false, true]).count true ∧
      journal'.fast_read_pixel_count = 51 := by
  obtain ⟨journal', flags, h1, _, h3, _, _⟩ :=
    breaker_trips_after_51_handled sample_collaborators sample_draw_state sample_journal
      (List.replicate 50 (7, 7, sample_format) ++
        [(25, 25, sample_format), (7, 7, sample_format), (7, 7, sample_format)])
      sample_journal_wf (by decide!)
  have he : (read_pixel_calls sample_collaborators sample_draw_state sample_journal
      (List.replicate 50 (7, 7, sample_format) ++
        [(25, 25, sample_format), (7, 7, sample_format), (7, 7, sample_format)])).map
      (fun res => res.2) = some (List.replicate 50 true ++ [false, true, false]) := by
    decide!
  rw [h1] at he
  simp only [Option.map_some', Option.some.injEq] at he
  refine ⟨journal', flags, h1, he, by decide, ?_⟩
  rw [h3, he]
  decide!

/-- C8, counterexample: a call with an unsupported format, and a call that hits
the non-flat entry C, both return not-handled and leave `fast_read_pixel_count`
at 0; it is not incremented. -/
theorem counter_not_incremented_when_not_handled :
    sample_journal.fast_read_pixel_count = 0 ∧
    (_cogl_journal_try_read_pixel sample_collaborators sample_draw_state sample_journal 7 7
        (CoglPixelFormat.COGL_PIXEL_FORMAT_OTHER 0)).map
      (fun r => (r.handled, r.journal.fast_read_pixel_count)) = some (false, 0) ∧
    (_cogl_journal_try_read_pixel sample_collaborators sample_draw_state sample_journal 25 25
        sample_format).map
      (fun r => (r.handled, r.journal.fast_read_pixel_count)) = some (false, 0) := by
  decide!

theorem counter_counts_handled_reads_witness :
    ∃ r, _cogl_journal_try_read_pixel sample_collaborators sample_draw_state
        sample_journal 7 7 sample_format = some r ∧
      r.journal.fast_read_pixel_count =
        sample_journal.fast_read_pixel_count + (if r.handled = true then 1 else 0) :=
  counter_counts_handled_reads sample_collaborators sample_draw_state sample_journal 7 7
    sample_format sample_journal_wf

/-- C13, counterexample: with `COGL_DEBUG_DISABLE_SOFTWARE_TRANSFORM` set, the
zero-width quad `[5,0,5,10]` lies inside the bound `[0,20] x [0,20]`, and
`software_clip_entry` zeroes its position. -/
theorem software_clip_zeroes_contained_flat_quad :
    bound_contains { x_1 := 0, y_1 := 0, x_2 := 20, y_2 := 20 } sample_flat_quad ∧
    sample_flat_quad.position = { f0 := 5, f1 := 0, f2 := 5, f3 := 10 } ∧
    (software_clip_entry sample_collaborators sample_debug_state sample_flat_quad
      { x_1 := 0, y_1 := 0, x_2 := 20, y_2 := 20 }).position =
      { f0 := 0, f1 := 0, f2 := 0, f3 := 0 } := by
  decide!

/-- The witness of C13: the quad `[2,3,12,13]` with one layer (0,0)-(1,1), which
has non-zero width and height, lies inside the bound `[0,20] x [0,20]`; clipped
to it with software transform disabled, and with its corners swapped to
`[12,13,2,3]` and software transform enabled, it keeps its position and its
texture coordinates. -/
theorem software_clip_noop_in_containing_bound_witness :
    (call_entry sample_collaborators sample_textured_call).position =
      { f0 := 2, f1 := 3, f2 := 12, f3 := 13 } ∧
    (call_entry sample_collaborators sample_textured_call).tex_coords = [0, 0, 1, 1] ∧
    ((software_clip_entry sample_collaborators sample_debug_state
        (call_entry sample_collaborators sample_textured_call)
        { x_1 := 0, y_1 := 0, x_2 := 20, y_2 := 20 }).position =
        (call_entry sample_collaborators sample_textured_call).position ∧
      (software_clip_entry sample_collaborators sample_debug_state
        (call_entry sample_collaborators sample_textured_call)
        { x_1 := 0, y_1 := 0, x_2 := 20, y_2 := 20 }).tex_coords =
        (call_entry sample_collaborators sample_textured_call).tex_coords) ∧
    ((software_clip_entry sample_collaborators sample_draw_state
        (call_entry sample_collaborators
          { sample_textured_call with position := { f0 := 12, f1 := 13, f2 := 2, f3 := 3 } })
        { x_1 := 0, y_1 := 0, x_2 := 20, y_2 := 20 }).position =
        { f0 := 12, f1 := 13, f2 := 2, f3 := 3 } ∧
      (software_clip_entry sample_collaborators sample_draw_state
        (call_entry sample_collaborators
          { sample_textured_call with position := { f0 := 12, f1 := 13, f2 := 2, f3 := 3 } })
        { x_1 := 0, y_1 := 0, x_2 := 20, y_2 := 20 }).tex_coords = [0, 0, 1, 1]) :=
  ⟨by decide!, by decide!,
    software_clip_noop_in_containing_bound sample_collaborators sample_debug_state
      (call_entry sample_collaborators sample_textured_call)
      { x_1 := 0, y_1 := 0, x_2 := 20, y_2 := 20 } (by decide!)
      (Or.inr ⟨by decide!, by decide!⟩),
    software_clip_noop_in_containing_bound sample_collaborators sample_draw_state
      (call_entry sample_collaborators
        { sample_textured_call with position := { f0 := 12, f1 := 13, f2 := 2, f3 := 3 } })
      { x_1 := 0, y_1 := 0, x_2 := 20, y_2 := 20 } (by decide!) (Or.inl rfl)⟩

/-- C15, counterexample: with software transform enabled, clipping the quad
A = [0,0,10,10] to the bound `[20,30] x [20,30]`, which it does not overlap,
zeroes `transformed_verts` and keeps `position`: the entry is left out of
sync. -/
theorem eliminating_clip_leaves_entry_out_of_sync :
    (software_clip_entry sample_collaborators sample_draw_state
        (call_entry sample_collaborators (sample_A 0))
        { x_1 := 20, y_1 := 20, x_2 := 30, y_2 := 30 }).position =
      { f0 := 0, f1 := 0, f2 := 10, f3 := 10 } ∧
    (software_clip_entry sample_collaborators sample_draw_state
        (call_entry sample_collaborators (sample_A 0))
        { x_1 := 20, y_1 := 20, x_2 := 30, y_2 := 30 }).transformed_verts =
      { v0 := { x := 0, y := 0, z := 0 }, v1 := { x := 0, y := 0, z := 0 },
        v2 := { x := 0, y := 0, z := 0 }, v3 := { x := 0, y := 0, z := 0 } } ∧
    ¬ entry_in_sync sample_collaborators
      (software_clip_entry sample_collaborators sample_draw_state
        (call_entry sample_collaborators (sample_A 0))
        { x_1 := 20, y_1 := 20, x_2 := 30, y_2 := 30 }) := by
  decide!

theorem entry_in_sync_after_log_and_overlapping_clip_witness :
    entry_in_sync sample_collaborators
        (log_quad_entry sample_collaborators sample_draw_state
          { f0 := 0, f1 := 0, f2 := 10, f3 := 10 } sample_flat_red 0 []) ∧
      entry_in_sync sample_collaborators
        (software_clip_entry sample_collaborators sample_draw_state
          (call_entry sample_collaborators (sample_A 0))
          { x_1 := 5, y_1 := 5, x_2 := 30, y_2 := 30 }) :=
  entry_in_sync_after_log_and_overlapping_clip sample_collaborators sample_draw_state
    { f0 := 0, f1 := 0, f2 := 10, f3 := 10 } sample_flat_red 0 []
    (call_entry sample_collaborators (sample_A 0))
    { x_1 := 5, y_1 := 5, x_2 := 30, y_2 := 30 } rfl (by decide!) (by decide!)

theorem clip_bound_is_translated_intersection_witness :
    ∃ ts : List (ℚ × ℚ),
      List.Forall₂ (fun (node : CoglClipStackNode) (t : ℚ × ℚ) =>
        calculate_translation node.matrix sample_translated_entry.model_view = some t)
        [sample_clip_rect] ts ∧
      ({ x_1 := -1, y_1 := -2, x_2 := 5, y_2 := 4 } : ClipBounds) =
        (if bound_positive (translated_intersection ([sample_clip_rect].zip ts)) then
          translated_intersection ([sample_clip_rect].zip ts)
        else { x_1 := 0, y_1 := 0, x_2 := 0, y_2 := 0 }) ∧
      ({ x_1 := -1, y_1 := -2, x_2 := 5, y_2 := 4 } : ClipBounds).x_1 ≤
        ({ x_1 := -1, y_1 := -2, x_2 := 5, y_2 := 4 } : ClipBounds).x_2 ∧
      ({ x_1 := -1, y_1 := -2, x_2 := 5, y_2 := 4 } : ClipBounds).y_1 ≤
        ({ x_1 := -1, y_1 := -2, x_2 := 5, y_2 := 4 } : ClipBounds).y_2 ∧
      (([sample_clip_rect] : CoglClipStack) = [] →
        ({ x_1 := -1, y_1 := -2, x_2 := 5, y_2 := 4 } : ClipBounds) = unbounded_box) :=
  clip_bound_is_translated_intersection sample_collaborators sample_flat_red
    sample_translated_entry none [sample_clip_rect]
    { x_1 := -1, y_1 := -2, x_2 := 5, y_2 := 4 } (by decide!)

theorem sample_window_journal_wf : journal_wf sample_window_journal := by
  unfold sample_window_journal
  exact log_calls_wf sample_collaborators _ _cogl_journal_new journal_new_wf

/-- C11, counterexample: the only entry of the journal is the quad A logged
under a window-rectangle clip; its polygon contains (5, 5) and the point is
inside the bounds of the clip, and the read is handled: it returns the colour
of A. -/
theorem window_clip_read_is_handled :
    (all_pairs sample_window_journal).map (fun pe => pe.2.clip_stack) =
      [[sample_clip_window]] ∧
    sample_clip_window.type = CoglClipStackType.COGL_CLIP_STACK_WINDOW_RECT ∧
    (∀ pe ∈ all_pairs sample_window_journal,
      entry_contains sample_collaborators sample_draw_state pe.2 5 5 = true ∧
        inside_all_bounds pe.2.clip_stack 5 5) ∧
    (_cogl_journal_try_read_pixel sample_collaborators sample_draw_state
        sample_window_journal 5 5 sample_format).map read_outcome =
      some (true, some true, some sample_red) := by
  decide!

theorem window_clip_aborts_only_with_unresolved_clip_witness :
    ∃ r, _cogl_journal_try_read_pixel sample_collaborators sample_draw_state
        sample_window_journal 5 5 sample_format = some r ∧
      (r.handled = false ↔
        (sample_window_journal.fast_read_pixel_count > 50 ∨
          ¬ (sample_format = CoglPixelFormat.COGL_PIXEL_FORMAT_RGBA_8888_PRE ∨
            sample_format = CoglPixelFormat.COGL_PIXEL_FORMAT_RGBA_8888) ∨
          chain_has [sample_clip_window] CoglClipStackType.COGL_CLIP_STACK_PATH ∨
          (chain_has [sample_clip_window] CoglClipStackType.COGL_CLIP_STACK_RECT ∧
            sample_collaborators.rect_can_be_scissor_of_entry
              (log_quad_entry sample_collaborators
                { sample_draw_state with clip_stack := [sample_clip_window] }
                { f0 := 0, f1 := 0, f2 := 10, f3 := 10 } sample_flat_red 0 []) = false) ∨
          sample_collaborators._cogl_pipeline_equal sample_collaborators.opaque_color_pipeline
            sample_flat_red = false ∨
          (log_quad_entry sample_collaborators
            { sample_draw_state with clip_stack := [sample_clip_window] }
            { f0 := 0, f1 := 0, f2 := 10, f3 := 10 } sample_flat_red 0 []).color.a ≠ 0xff)) ∧
      (r.handled = true → r.found_intersection = some true ∧
        r.pixel = some (log_quad_entry sample_collaborators
          { sample_draw_state with clip_stack := [sample_clip_window] }
          { f0 := 0, f1 := 0, f2 := 10, f3 := 10 } sample_flat_red 0 []).color) :=
  window_clip_aborts_only_with_unresolved_clip sample_collaborators sample_draw_state
    sample_window_journal 5 5 sample_format [] [] sample_flat_red
    (log_quad_entry sample_collaborators
      { sample_draw_state with clip_stack := [sample_clip_window] }
      { f0 := 0, f1 := 0, f2 := 10, f3 := 10 } sample_flat_red 0 [])
    sample_window_journal_wf (by decide!) (by decide!) (by intro pe hpe; simp at hpe)
    (by decide!) (by decide!)

theorem iteration_order_witness :
    iter_walk sample_journal sample_journal.journal_len
        (_cogl_journal_iterator_init sample_journal) = some (all_iters sample_journal) ∧
    iter_walk_back sample_journal sample_journal.journal_len
        (_cogl_journal_iterator_init_reverse sample_journal) =
      some (all_iters sample_journal).reverse ∧
    (all_iters sample_journal).map (iter_entry sample_journal) =
      (all_entries sample_journal).map some ∧
    (all_iters sample_journal).Nodup ∧
    (∀ it ∈ all_iters sample_journal, ∃ (b k : ℕ)
        (batch : CoglJournalBatch SamplePipeline (List CoglLooseRegionRectangle)),
      sample_journal.batches.get? b = some batch ∧ k < batch.entries.length ∧
      it = { entry := some k, batch_num := (b : ℤ) }) :=
  iteration_order sample_journal sample_journal_wf (by decide!)

theorem sample_textured_journal_wf : journal_wf sample_textured_journal := by
  unfold sample_textured_journal
  exact log_calls_wf sample_collaborators _ _cogl_journal_new journal_new_wf

/-- The witness of C12: for the quad `[2,3,12,13]` with one layer (0,0)-(1,1)
under the identity transform, the upload returns and the four vertices read back
from the buffer (stride 8: three position words, the colour, two texture words,
two words of padding) are the corners (2,3), (2,13), (12,13), (12,3), each in
red, with the texture corners (0,0), (0,1), (1,1), (1,0). -/
theorem upload_expands_quads_witness :
    (∃ journal' size stores,
      upload_vertices sample_context sample_draw_state sample_textured_journal =
        some (journal', size, stores) ∧
      ∀ pre entry post, all_entries sample_textured_journal = pre ++ entry :: post →
        ∀ v, v < 4 →
          (∀ r, r < entry_stride sample_draw_state entry →
            vbo_read stores (upload_words sample_draw_state pre +
                entry_stride sample_draw_state entry * v + r) =
              (expanded_vertex sample_draw_state entry v)[r]?) ∧
          (sample_draw_state.disable_software_transform = false →
            entry_in_sync sample_collaborators entry →
            expanded_position sample_draw_state entry v =
              [VboWord.float ((sample_collaborators.cogl_matrix_transform_points
                  entry.model_view (quad_corners entry.position)).vertex v).x,
                VboWord.float ((sample_collaborators.cogl_matrix_transform_points
                  entry.model_view (quad_corners entry.position)).vertex v).y,
                VboWord.float ((sample_collaborators.cogl_matrix_transform_points
                  entry.model_view (quad_corners entry.position)).vertex v).z]) ∧
          (sample_draw_state.disable_software_transform = true →
            expanded_position sample_draw_state entry v =
              [VboWord.float ((quad_corners entry.position).vertex v).x,
                VboWord.float ((quad_corners entry.position).vertex v).y])) ∧
    (upload_vertices sample_context sample_draw_state sample_textured_journal).map
        (fun up => (List.range 32).map (vbo_read up.2.2)) =
      some [some (VboWord.float 2), some (VboWord.float 3), some (VboWord.float 0),
        some (VboWord.color sample_red), some (VboWord.float 0), some (VboWord.float 0),
        none, none,
        some (VboWord.float 2), some (VboWord.float 13), some (VboWord.float 0),
        some (VboWord.color sample_red), some (VboWord.float 0), some (VboWord.float 1),
        none, none,
        some (VboWord.float 12), some (VboWord.float 13), some (VboWord.float 0),
        some (VboWord.color sample_red), some (VboWord.float 1), some (VboWord.float 1),
        none, none,
        some (VboWord.float 12), some (VboWord.float 3), some (VboWord.float 0),
        some (VboWord.color sample_red), some (VboWord.float 1), some (VboWord.float 0),
        none, none] :=
  ⟨upload_expands_quads sample_collaborators sample_context sample_draw_state
    sample_textured_journal sample_textured_journal_wf (by decide!), by decide!⟩

theorem software_clip_elimination_witness :
    (software_clip_entry sample_collaborators sample_draw_state
        (call_entry sample_collaborators (sample_A 0))
        { x_1 := 20, y_1 := 20, x_2 := 30, y_2 := 30 }).clip_stack = [] ∧
      ∀ v, v < 4 → ∀ r, r < (POS_STRIDE sample_draw_state).toNat →
        vbo_read (upload_entry sample_draw_state 0
            (software_clip_entry sample_collaborators sample_draw_state
              (call_entry sample_collaborators (sample_A 0))
              { x_1 := 20, y_1 := 20, x_2 := 30, y_2 := 30 }))
          (0 + entry_stride sample_draw_state
            (software_clip_entry sample_collaborators sample_draw_state
              (call_entry sample_collaborators (sample_A 0))
              { x_1 := 20, y_1 := 20, x_2 := 30, y_2 := 30 }) * v + r) =
            some (VboWord.float 0) :=
  software_clip_elimination sample_collaborators sample_draw_state
    (call_entry sample_collaborators (sample_A 0))
    { x_1 := 20, y_1 := 20, x_2 := 30, y_2 := 30 } 0 (by decide!) (by decide!)
    (Or.inl (by decide!))

theorem sample_clipped_journal_wf : journal_wf sample_clipped_journal := by
  unfold sample_clipped_journal
  exact log_calls_wf sample_collaborators _ _cogl_journal_new journal_new_wf

/-- The witness of C16: in the sample journal with the clipped run A, B and the
unclipped C, the run of A and B is clippable, and the pass rewrites A to
`[2,2,8,8]` and B to `[5,5,8,8]`, clears their clip stacks and leaves C as it
was. -/
theorem software_clip_all_or_nothing_witness :
    (∃ journal', maybe_software_clip_entries sample_collaborators sample_draw_state
        sample_clipped_journal { entry := some 0, batch_num := 0 }
        ([{ entry := some 0, batch_num := 0 },
          { entry := some 1, batch_num := 0 }] : List CoglJournalIter).length = some journal' ∧
      same_frame sample_clipped_journal journal' ∧
      (run_clippable sample_collaborators sample_clipped_journal
          [{ entry := some 0, batch_num := 0 }, { entry := some 1, batch_num := 0 }]
          [sample_clip_rect] →
        (∀ it ∈ ([{ entry := some 0, batch_num := 0 },
            { entry := some 1, batch_num := 0 }] : List CoglJournalIter),
          ∃ e bounds, iter_entry sample_clipped_journal it = some e ∧
            entry_clip_bounds sample_collaborators sample_clipped_journal
              [sample_clip_rect] it = some bounds ∧
            iter_entry journal' it =
              some (software_clip_entry sample_collaborators sample_draw_state e bounds) ∧
            (software_clip_entry sample_collaborators sample_draw_state e bounds).clip_stack
              = []) ∧
        (∀ it, it ∉ ([{ entry := some 0, batch_num := 0 },
            { entry := some 1, batch_num := 0 }] : List CoglJournalIter) →
          iter_entry journal' it = iter_entry sample_clipped_journal it)) ∧
      (¬ run_clippable sample_collaborators sample_clipped_journal
          [{ entry := some 0, batch_num := 0 }, { entry := some 1, batch_num := 0 }]
          [sample_clip_rect] → journal' = sample_clipped_journal)) ∧
    run_clippable sample_collaborators sample_clipped_journal
      [{ entry := some 0, batch_num := 0 }, { entry := some 1, batch_num := 0 }]
      [sample_clip_rect] ∧
    (maybe_software_clip_entries sample_collaborators sample_draw_state
        sample_clipped_journal { entry := some 0, batch_num := 0 } 2).map
      (fun journal' => (all_entries journal').map (fun e => (e.position, e.clip_stack))) =
      some [({ f0 := 2, f1 := 2, f2 := 8, f3 := 8 }, []),
        ({ f0 := 5, f1 := 5, f2 := 8, f3 := 8 }, []),
        ({ f0 := 20, f1 := 20, f2 := 30, f3 := 30 }, [])] :=
  ⟨software_clip_all_or_nothing sample_collaborators sample_draw_state sample_clipped_journal
    [] [{ entry := some 0, batch_num := 0 }, { entry := some 1, batch_num := 0 }]
    [{ entry := some 0, batch_num := 1 }] { entry := some 0, batch_num := 0 }
    (log_quad_entry sample_collaborators sample_clipped_state
      { f0 := 0, f1 := 0, f2 := 10, f3 := 10 } sample_flat_red 0 [])
    sample_clipped_journal_wf.1 (by decide!) rfl (by decide!), by decide!, by decide!⟩

theorem flush_of_empty_journal_is_noop_witness :
    _cogl_journal_flush sample_collaborators sample_context sample_draw_state
      (_cogl_journal_new : CoglJournal SamplePipeline (List CoglLooseRegionRectangle)) =
      some (_cogl_journal_new, []) :=
  flush_of_empty_journal_is_noop sample_collaborators sample_context sample_draw_state
    _cogl_journal_new rfl

/-- C19, counterexample: after a discard of the sample journal, a read in a
format that is not one of the two supported ones returns not-handled, with no
value stored through `found_intersection`. -/
theorem read_after_discard_not_handled :
    (_cogl_journal_try_read_pixel sample_collaborators sample_draw_state
        (_cogl_journal_discard sample_journal) 7 7
        (CoglPixelFormat.COGL_PIXEL_FORMAT_OTHER 0)).map
      (fun r => (r.handled, r.found_intersection)) = some (false, none) := by
  decide!

theorem flush_and_discard_drain_witness :
    (∃ journal' calls, _cogl_journal_flush sample_collaborators sample_context
        sample_draw_state sample_journal = some (journal', calls) ∧ drained journal') ∧
    (∀ other : CoglJournal SamplePipeline (List CoglLooseRegionRectangle),
      drained (_cogl_journal_discard other) ∧
      (_cogl_journal_discard other).vbo_pool = other.vbo_pool ∧
      (_cogl_journal_discard other).next_vbo_in_pool = other.next_vbo_in_pool) ∧
    (∀ (after : CoglJournal SamplePipeline (List CoglLooseRegionRectangle)), drained after →
      (∀ (ds' : DrawState) (x y : ℤ) (format : CoglPixelFormat), format_supported format →
        ∃ r, _cogl_journal_try_read_pixel sample_collaborators ds' after x y format = some r ∧
          r.handled = true ∧ r.found_intersection = some false ∧ r.pixel = none) ∧
      (∀ (ctx' : CoglContext) (ds' : DrawState),
        _cogl_journal_flush sample_collaborators ctx' ds' after = some (after, []))) :=
  flush_and_discard_drain sample_collaborators sample_context sample_draw_state sample_journal
    sample_journal_wf (by decide!) (by decide!)

/-- C12, counterexample: the quad C with stored corners (20,20)-(30,30) and the
identity as transform snapshot, logged under the clip `[2,2]-[8,8]`: the flush
uploads the position (0,0,0) for each of its four vertices, not the corners. -/
theorem eliminated_entry_uploads_zeros :
    (all_entries sample_eliminated_journal).map (fun e => (e.position, e.model_view)) =
      [({ f0 := 20, f1 := 20, f2 := 30, f3 := 30 }, sample_identity)] ∧
    (_cogl_journal_flush sample_collaborators sample_context sample_draw_state
        sample_eliminated_journal).map (fun r => r.2.filterMap (fun call =>
          (upload_of call).map (fun stores =>
            [0, 1, 2, 8, 9, 10, 16, 17, 18, 24, 25, 26].map (vbo_read stores)))) =
      some [List.replicate 12 (some (VboWord.float 0))] := by
  decide!

theorem sample_layers_journal_wf : journal_wf sample_layers_journal := by
  constructor
  · decide!
  · decide!

/-- C21 on the sample journal with the layer counts 0, 1 and 3: the first two
entries make up a stride run, and the second has the stride of the first
(8 words); layer counts 1 and 3 have different strides. -/
theorem stride_compatibility_is_stride_equality_witness :
    (∃ e es, iter_entry sample_layers_journal { entry := some 1, batch_num := 0 } = some e ∧
      iter_entry sample_layers_journal { entry := some 0, batch_num := 0 } = some es ∧
      entry_stride sample_draw_state e = entry_stride sample_draw_state es) ∧
    ¬ ((1 : ℤ) = 3 ∨ ((1 : ℤ) ≤ MIN_LAYER_PADING ∧ (3 : ℤ) ≤ MIN_LAYER_PADING)) ∧
    GET_JOURNAL_VB_STRIDE_FOR_N_LAYERS sample_draw_state 1 ≠
      GET_JOURNAL_VB_STRIDE_FOR_N_LAYERS sample_draw_state 3 :=
  ⟨(stride_compatibility_is_stride_equality sample_draw_state sample_layers_journal).2.2.2.2
      [{ entry := some 0, batch_num := 0 }, { entry := some 1, batch_num := 0 }]
      (by decide!) { entry := some 0, batch_num := 0 } rfl
      { entry := some 1, batch_num := 0 } (by decide),
    by decide,
    fun h => absurd
      (((stride_compatibility_is_stride_equality sample_draw_state
        sample_layers_journal).1 1 3).2 h) (by decide)⟩

/-- C24 on the scaling by 2 in x and 3 in y followed by the translation by
(5, 7): the translation (5, 7) is recovered. -/
theorem translation_recovery_witness :
    calculate_translation { sample_identity with xx := 2, yy := 3 }
        (matrix_multiply { sample_identity with xx := 2, yy := 3 } (translation_matrix 5 7)) =
      some (5, 7) ∧
    ∀ (b : CoglMatrix) (t : ℚ × ℚ),
      calculate_translation { sample_identity with xx := 2, yy := 3 } b = some t →
        same_first_three_columns { sample_identity with xx := 2, yy := 3 } b :=
  translation_recovery { sample_identity with xx := 2, yy := 3 } 5 7 (by decide!) (by decide!)

/-- C25 on the textured quad `[2,3,12,13]` with the texture coordinates
(0,0)-(1,1), clipped to the bound `[2,8] x [2,8]`: the quad becomes `[2,3,8,8]`
and the texture coordinates (0,0)-(3/5,1/2). -/
theorem software_clip_rewrites_to_intersection_witness :
    (spans_intersection (call_entry sample_collaborators sample_textured_call).position
        (software_clip_entry sample_collaborators sample_draw_state
          (call_entry sample_collaborators sample_textured_call)
          { x_1 := 2, y_1 := 2, x_2 := 8, y_2 := 8 }).position
        { x_1 := 2, y_1 := 2, x_2 := 8, y_2 := 8 } ∧
      same_orientation (call_entry sample_collaborators sample_textured_call).position
        (software_clip_entry sample_collaborators sample_draw_state
          (call_entry sample_collaborators sample_textured_call)
          { x_1 := 2, y_1 := 2, x_2 := 8, y_2 := 8 }).position ∧
      (software_clip_entry sample_collaborators sample_draw_state
          (call_entry sample_collaborators sample_textured_call)
          { x_1 := 2, y_1 := 2, x_2 := 8, y_2 := 8 }).tex_coords.length =
        (call_entry sample_collaborators sample_textured_call).tex_coords.length ∧
      (∀ i, i < (call_entry sample_collaborators sample_textured_call).n_layers.toNat →
        layer_interpolated (call_entry sample_collaborators sample_textured_call)
          (software_clip_entry sample_collaborators sample_draw_state
            (call_entry sample_collaborators sample_textured_call)
            { x_1 := 2, y_1 := 2, x_2 := 8, y_2 := 8 }) i) ∧
      software_clip_entry sample_collaborators sample_draw_state
          (software_clip_entry sample_collaborators sample_draw_state
            (call_entry sample_collaborators sample_textured_call)
            { x_1 := 2, y_1 := 2, x_2 := 8, y_2 := 8 })
          { x_1 := 2, y_1 := 2, x_2 := 8, y_2 := 8 } =
        software_clip_entry sample_collaborators sample_draw_state
          (call_entry sample_collaborators sample_textured_call)
          { x_1 := 2, y_1 := 2, x_2 := 8, y_2 := 8 }) ∧
    ((software_clip_entry sample_collaborators sample_draw_state
          (call_entry sample_collaborators sample_textured_call)
          { x_1 := 2, y_1 := 2, x_2 := 8, y_2 := 8 }).position,
      (software_clip_entry sample_collaborators sample_draw_state
          (call_entry sample_collaborators sample_textured_call)
          { x_1 := 2, y_1 := 2, x_2 := 8, y_2 := 8 }).tex_coords) =
      ({ f0 := 2, f1 := 3, f2 := 8, f3 := 8 }, [0, 0, 3 / 5, 1 / 2]) :=
  ⟨software_clip_rewrites_to_intersection sample_collaborators sample_draw_state
      (call_entry sample_collaborators sample_textured_call)
      { x_1 := 2, y_1 := 2, x_2 := 8, y_2 := 8 } (by decide!) (by decide!) (by decide!),
    by decide!⟩

/-- C29 on the sample journal (A, B, C, none clipped): a read at (7, 7), which
hits B, is handled and leaves the journal with the counter at 1; a read at
(25, 25), which hits the non-flat C, is not handled and leaves the journal as it
was. -/
theorem try_read_pixel_read_only_witness :
    (∃ r, _cogl_journal_try_read_pixel sample_collaborators sample_draw_state sample_journal
        7 7 sample_format = some r ∧
      r.journal = { sample_journal with
        fast_read_pixel_count := sample_journal.fast_read_pixel_count +
          (if r.handled = true then 1 else 0) }) ∧
    (_cogl_journal_try_read_pixel sample_collaborators sample_draw_state sample_journal
        7 7 sample_format).map (fun r => (r.handled, r.journal)) =
      some (true, { sample_journal with fast_read_pixel_count := 1 }) ∧
    (_cogl_journal_try_read_pixel sample_collaborators sample_draw_state sample_journal
        25 25 sample_format).map (fun r => (r.handled, r.journal)) =
      some (false, sample_journal) :=
  ⟨try_read_pixel_read_only sample_collaborators sample_draw_state sample_journal 7 7
      sample_format sample_journal_wf (by decide!),
    by decide!, by decide!⟩

/-- C23 on the sample journal with the layer counts 0, 1 and 3, whose
`needed_vbo_len` is 104 words. -/
theorem upload_stays_inside_buffer_witness :
    sample_layers_journal.needed_vbo_len = 104 ∧
    (∃ journal' n_bytes stores,
      upload_vertices sample_context sample_draw_state sample_layers_journal =
        some (journal', n_bytes, stores) ∧
      sample_layers_journal.needed_vbo_len * 4 ≤ n_bytes ∧
      upload_vertices_vout sample_draw_state journal' journal'.journal_len
        (_cogl_journal_iterator_init journal') 0 = some sample_layers_journal.needed_vbo_len ∧
      ∀ p ∈ stores, p.1 < sample_layers_journal.needed_vbo_len) ∧
    (∃ journal1,
      batch_and_call_data (fun j => j) compare_entry_clip_stacks
        (_cogl_journal_maybe_software_clip_entries sample_collaborators sample_draw_state)
        (_cogl_journal_iterator_init sample_layers_journal)
        sample_layers_journal.journal_len sample_layers_journal = some journal1 ∧
      (∀ batch ∈ journal1.batches, batch.entries ≠ []) ∧
      counters_invariant sample_draw_state journal1 ∧ journal1.journal_len ≠ 0 ∧
      journal1.needed_vbo_len = sample_layers_journal.needed_vbo_len ∧
      (all_entries journal1).map (fun e => e.n_layers) =
        (all_entries sample_layers_journal).map (fun e => e.n_layers)) :=
  ⟨by decide!,
    upload_stays_inside_buffer sample_collaborators sample_context sample_draw_state
      sample_layers_journal sample_layers_journal_wf.1 (by decide!) (by decide!)⟩

/-- C22 on the sample sequence of operations: the journal it ends with holds
two entries (three layers and none) and needs 40 + 32 words. -/
theorem counters_invariant_maintained_witness :
    ((∃ journal, run_ops sample_collaborators
        (_cogl_journal_new : CoglJournal SamplePipeline (List CoglLooseRegionRectangle))
        sample_ops = some journal ∧
      counters_invariant sample_draw_state journal) ∧
    (∀ entry : CoglJournalEntry, entry_stride sample_draw_state entry =
      (POS_STRIDE sample_draw_state).toNat + 1 + 2 * max entry.n_layers.toNat 2) ∧
    (∀ (journal : CoglJournal SamplePipeline (List CoglLooseRegionRectangle))
        (call : LogCall SamplePipeline),
      (log_call sample_collaborators journal call).journal_len = journal.journal_len + 1 ∧
      (log_call sample_collaborators journal call).needed_vbo_len = journal.needed_vbo_len +
        (GET_JOURNAL_VB_STRIDE_FOR_N_LAYERS call.ds call.n_layers).toNat * 4)) ∧
    (run_ops sample_collaborators
        (_cogl_journal_new : CoglJournal SamplePipeline (List CoglLooseRegionRectangle))
        sample_ops).map (fun journal => (journal.journal_len, journal.needed_vbo_len)) =
      some (2, 72) :=
  ⟨counters_invariant_maintained sample_collaborators sample_draw_state sample_ops
      (by decide),
    by decide!⟩

/-- C28 on the sample sequence of operations. -/
theorem no_empty_batch_witness :
    (∃ journal, run_ops sample_collaborators
        (_cogl_journal_new : CoglJournal SamplePipeline (List CoglLooseRegionRectangle))
        sample_ops = some journal ∧
      (∀ batch ∈ journal.batches, batch.entries ≠ []) ∧
      (∀ iter entry, iter_entry journal iter = some entry →
        iter ≠ _cogl_journal_iterator_init_reverse journal →
        ∃ next_iter next_entry, _cogl_journal_iterator_next journal iter = some next_iter ∧
          iter_entry journal next_iter = some next_entry ∧
          0 ≤ next_iter.batch_num ∧ next_iter.batch_num < journal.batches.length) ∧
      (journal.journal_len ≠ 0 →
        ∃ entry,
          iter_entry journal (_cogl_journal_iterator_init_reverse journal) = some entry)) ∧
    (run_ops sample_collaborators
        (_cogl_journal_new : CoglJournal SamplePipeline (List CoglLooseRegionRectangle))
        sample_ops).map (fun journal => journal.batches.map (fun b => b.entries.length)) =
      some [2] :=
  ⟨no_empty_batch sample_collaborators sample_ops, by decide!⟩

theorem log_calls_journal_len (c : Collaborators P R) :
    ∀ (calls : List (LogCall P)) (journal : CoglJournal P R),
      (log_calls c journal calls).journal_len = journal.journal_len + calls.length
  | [], journal => rfl
  | call :: calls, journal => by
    have h := log_calls_journal_len c calls (log_call c journal call)
    rw [log_call_journal_len] at h
    rw [List.length_cons]
    exact h.trans (by omega)

/-- The journal of `n` textured quads followed by two quads with two layers has
`n + 2` entries. -/
theorem sample_long_journal_len (n : ℕ) : (sample_long_journal n).journal_len = n + 2 := by
  unfold sample_long_journal
  rw [log_calls_journal_len]
  simp [sample_long_calls, _cogl_journal_new]

/-- The draw calls of the flush of the journal of `n + 1` textured quads (one
layer) followed by two quads with two layers, with software clipping disabled:
one call for the quads of one layer, and one for the two quads of two layers,
made with the vertex cursor at `4 * (n + 1)` modulo 2^32. -/
theorem long_journal_draw_calls (n : ℕ) :
    ∃ journal' calls,
      _cogl_journal_flush sample_collaborators sample_unclipping_context sample_draw_state
        (sample_long_journal (n + 1)) = some (journal', calls) ∧
      draw_calls calls =
        [run_call sample_unclipping_context (journal_attributes sample_draw_state 32 0 1)
            (some ((n + 1 + 2 : ℕ) : ℤ)) 0 ((n + 1 : ℕ) : ℤ),
          run_call sample_unclipping_context (journal_attributes sample_draw_state 32 0 2)
            (some ((n + 1 + 2 : ℕ) : ℤ)) (4 * (n + 1) % 2 ^ 32) ((2 : ℕ) : ℤ)] := by
  have hcalls : sample_long_calls (n + 1) = sample_textured_call ::
      (List.replicate n sample_textured_call ++
        [sample_two_layer_call, sample_two_layer_call]) := by
    simp [sample_long_calls, List.replicate_succ]
  obtain ⟨b, hb, hbe⟩ := log_calls_new_one_batch sample_collaborators sample_textured_call
    (List.replicate n sample_textured_call ++ [sample_two_layer_call, sample_two_layer_call])
    (by
      intro call hcall
      rcases List.mem_append.1 hcall with h | h
      · rw [List.eq_of_mem_replicate h]
        decide!
      · simp only [List.mem_cons, List.mem_singleton, List.not_mem_nil, or_false, or_self] at h
        rw [h]
        decide!)
  rw [← hcalls] at hb hbe
  have hJ : (sample_long_journal (n + 1)).batches = [b] := hb
  have hwf : journal_wf (sample_long_journal (n + 1)) :=
    log_calls_wf sample_collaborators _ _cogl_journal_new journal_new_wf
  have hentries : b.entries =
      (call_entry sample_collaborators sample_textured_call ::
        List.replicate n (call_entry sample_collaborators sample_textured_call)) ++
      (call_entry sample_collaborators sample_two_layer_call ::
        [call_entry sample_collaborators sample_two_layer_call]) := by
    rw [hbe, hcalls]
    simp [List.map_replicate]
  have hlen : (sample_long_journal (n + 1)).journal_len ≠ 0 := by
    rw [hwf.2, all_entries, hJ]
    simp [hentries]
  have hvbo : 0 < (sample_long_journal (n + 1)).needed_vbo_len :=
    log_calls_needed_vbo_len_pos sample_collaborators _ _ (Or.inr (by rw [hcalls]; simp))
  obtain ⟨journal1, journal2, n_bytes, data', _, _, _, h4, h5, _, _, _, _, _, hb2, hsame⟩ :=
    flush_draws sample_collaborators sample_unclipping_context sample_draw_state
      (sample_long_journal (n + 1)) hwf hlen hvbo
  have hj1 : journal1 = sample_long_journal (n + 1) := hsame rfl
  rw [hj1, hJ] at hb2
  have hcount := two_layer_counts_calls sample_unclipping_context sample_draw_state journal2 b
    (call_entry sample_collaborators sample_textured_call)
    (call_entry sample_collaborators sample_two_layer_call)
    (List.replicate n (call_entry sample_collaborators sample_textured_call))
    [call_entry sample_collaborators sample_two_layer_call] rfl hb2 hentries
    (by
      intro e he
      have : e = call_entry sample_collaborators sample_textured_call := by
        rcases List.mem_cons.1 he with h | h
        · exact h
        · exact List.eq_of_mem_replicate h
      rw [this]
      exact ⟨rfl, rfl⟩)
    (by
      intro e he
      have : e = call_entry sample_collaborators sample_two_layer_call := by
        simpa using he
      rw [this]
      exact ⟨rfl, rfl⟩)
  refine ⟨_, _, h4, ?_⟩
  rw [h5, hcount]
  have hs : entry_stride sample_draw_state
      (call_entry sample_collaborators sample_textured_call) * 4 = 32 := by decide
  rw [hs]
  simp only [List.length_replicate, List.length_cons, List.length_nil]

/-- C26, counterexample.  With a driver that is not GL, the flush of the sample
journal (A and B in one batch, C in another) draws the run A, B of two entries
as indexed triangles with first index 0 and 12 indices, not 4 * 2 vertices,
through the rectangle indices got for the three entries of the stride run, and
the run C as a triangle fan with first vertex 8 and 4 vertices.  And the flush
of the journal of 178956971 textured quads followed by two quads with two layers
draws the last two, which follow 178956971 entries of their stride run, from
index 2, not 1073741826: `current_vertex * 6` is 4294967304 and wraps to 8 in the
32 bits of a `GLuint`.  That journal has 178956973 entries. -/
theorem indexed_draw_counts_six_per_entry :
    sample_context.driver_gl = false ∧
    (draw_runs sample_draw_state sample_journal).map
        (fun r => (r.between.length, r.run.length)) = [(0, 2), (2, 1)] ∧
    (_cogl_journal_flush sample_collaborators sample_context sample_draw_state
        sample_journal).map (fun r => draw_calls r.2) =
      some [FlushCall._cogl_draw_indexed_attributes
          CoglVerticesMode.COGL_VERTICES_MODE_TRIANGLES 0 12 (some 3)
          (journal_attributes sample_draw_state 32 0 0),
        FlushCall._cogl_draw_attributes CoglVerticesMode.COGL_VERTICES_MODE_TRIANGLE_FAN 8 4
          (journal_attributes sample_draw_state 32 0 0)] ∧
    sample_unclipping_context.driver_gl = false ∧
    (sample_long_journal 178956971).journal_len = 178956973 ∧
    (_cogl_journal_flush sample_collaborators sample_unclipping_context sample_draw_state
        (sample_long_journal 178956971)).map (fun r => draw_calls r.2) =
      some [FlushCall._cogl_draw_indexed_attributes
          CoglVerticesMode.COGL_VERTICES_MODE_TRIANGLES 0 1073741826 (some 178956973)
          (journal_attributes sample_draw_state 32 0 1),
        FlushCall._cogl_draw_indexed_attributes
          CoglVerticesMode.COGL_VERTICES_MODE_TRIANGLES 2 12 (some 178956973)
          (journal_attributes sample_draw_state 32 0 2)] := by
  refine ⟨by decide!, by decide!, by decide!, by decide!,
    sample_long_journal_len 178956971, ?_⟩
  obtain ⟨journal', calls, hf, hd⟩ := long_journal_draw_calls 178956970
  have hn : sample_long_journal (178956970 + 1) = sample_long_journal 178956971 := rfl
  rw [hn] at hf
  rw [hf, Option.map_some', hd]
  decide!

theorem sample_mixed_journal_wf : journal_wf sample_mixed_journal := by
  unfold sample_mixed_journal
  exact log_calls_wf sample_collaborators _ _cogl_journal_new journal_new_wf

/-- C26 on the journal of A, B (no layer), the textured quad (one layer) and the
quad with three layers, with a driver that is not GL: A and B are drawn as
indexed triangles, 12 indices from index 0, through the rectangle indices got
for the three entries of their stride run, and fetch the vertices 0 to 7; the
textured quad is drawn as a fan from vertex 8; the quad with three layers starts
a stride run at byte 384, after the 3 * 32 words of the entries before it, and
is drawn as a fan from vertex 0 with the stride 40 and three pairs of texture
coordinates. -/
theorem draw_ranges_match_upload_witness :
    (∃ (journal1 journal2 : CoglJournal SamplePipeline (List CoglLooseRegionRectangle)) (n_bytes : ℕ) (data' : FlushData SamplePipeline),
      (if sample_context.disable_software_clip then some sample_mixed_journal
       else batch_and_call_data (fun j => j) compare_entry_clip_stacks
         (_cogl_journal_maybe_software_clip_entries sample_collaborators sample_draw_state) (_cogl_journal_iterator_init sample_mixed_journal)
         sample_mixed_journal.journal_len sample_mixed_journal) = some journal1 ∧
      upload_vertices sample_context sample_draw_state journal1 =
        some (journal2, n_bytes, upload_entries sample_draw_state 0 (all_entries journal2)) ∧
      batch_and_call_data (fun _ => journal2) compare_entry_clip_stacks
        (_cogl_journal_flush_clip_stacks_and_entries sample_context sample_draw_state journal2)
        (_cogl_journal_iterator_init journal2) journal2.journal_len
        { state :=
            { attribute_buffer := n_bytes
              attributes := []
              stride := 0
              array_offset := 0
              current_vertex := 0
              indices := none
              source := none }
          calls :=
            [FlushCall._cogl_framebuffer_flush_dependency_journals,
              FlushCall.cogl_push_framebuffer,
              FlushCall._cogl_framebuffer_flush_state,
              FlushCall.buffer_upload n_bytes (upload_entries sample_draw_state 0 (all_entries journal2))] } =
        some data' ∧
      _cogl_journal_flush sample_collaborators sample_context sample_draw_state sample_mixed_journal =
        some (_cogl_journal_discard journal2, data'.calls ++ [FlushCall.cogl_pop_framebuffer]) ∧
      draw_calls (data'.calls ++ [FlushCall.cogl_pop_framebuffer]) =
        (draw_runs sample_draw_state journal2).map (drawn_call sample_context sample_draw_state journal2) ∧
      (∀ r ∈ draw_runs sample_draw_state journal2, r.stride_run ∈ stride_runs journal2 ∧
        ∃ after rest, r.stride_run = r.between ++ r.run ++ after ∧
          all_iters journal2 = r.done ++ r.stride_run ++ rest) ∧
      ((draw_runs sample_draw_state journal2).map (fun r => r.run)).flatten = all_iters journal2 ∧
      data'.state.array_offset = sample_mixed_journal.needed_vbo_len * 4 ∧
      (∀ r ∈ draw_runs sample_draw_state journal2,
        fetched_vertices (drawn_call sample_context sample_draw_state journal2 r : FlushCall SamplePipeline) =
          some ((List.range r.run.length).flatMap (fun j =>
            (quad_vertices sample_context r.run.length).map
              (fun k => 4 * (r.between.length + j) + k))) ∧
        ∀ j it, r.run.get? j = some it →
          ∃ e post, iter_entry journal2 it = some e ∧
            all_entries journal2 =
              entries_of journal2 (r.done ++ r.between ++ r.run.take j) ++ e :: post ∧
            (call_attributes (drawn_call sample_context sample_draw_state journal2 r : FlushCall SamplePipeline)).map
                (fun a => a.name) =
              [CoglAttributeName.cogl_position_in, CoglAttributeName.cogl_color_in] ++
                (List.range e.n_layers.toNat).map CoglAttributeName.cogl_tex_coord_in ∧
            ∀ k, k < 4 →
              (∀ a ∈ call_attributes (drawn_call sample_context sample_draw_state journal2 r : FlushCall SamplePipeline),
                a.stride = 4 * entry_stride sample_draw_state e ∧
                attribute_address a (4 * (r.between.length + j) + k) =
                  4 * (upload_words sample_draw_state
                      (entries_of journal2 (r.done ++ r.between ++ r.run.take j)) +
                    entry_stride sample_draw_state e * k + attribute_word sample_draw_state a.name)) ∧
              (∀ w, w < entry_stride sample_draw_state e →
                vbo_read (upload_entries sample_draw_state 0 (all_entries journal2))
                    (upload_words sample_draw_state
                        (entries_of journal2 (r.done ++ r.between ++ r.run.take j)) +
                      entry_stride sample_draw_state e * k + w) =
                  (expanded_vertex sample_draw_state e k)[w]?))) ∧
    (_cogl_journal_flush sample_collaborators sample_context sample_draw_state
        sample_mixed_journal).map (fun r => draw_calls r.2) =
      some [FlushCall._cogl_draw_indexed_attributes
          CoglVerticesMode.COGL_VERTICES_MODE_TRIANGLES 0 12 (some 3)
          (journal_attributes sample_draw_state 32 0 0),
        FlushCall._cogl_draw_attributes CoglVerticesMode.COGL_VERTICES_MODE_TRIANGLE_FAN 8 4
          (journal_attributes sample_draw_state 32 0 1),
        FlushCall._cogl_draw_attributes CoglVerticesMode.COGL_VERTICES_MODE_TRIANGLE_FAN 0 4
          (journal_attributes sample_draw_state 40 384 3)] ∧
    (draw_runs sample_draw_state sample_mixed_journal).map
        (fun r => (r.done.length, r.stride_run.length, r.between.length, r.run.length)) =
      [(0, 3, 0, 2), (0, 3, 2, 1), (3, 1, 0, 1)] ∧
    (draw_runs sample_draw_state sample_mixed_journal).map
        (fun r => fetched_vertices (drawn_call sample_context sample_draw_state
          sample_mixed_journal r : FlushCall SamplePipeline)) =
      [some [0, 1, 2, 0, 2, 3, 4, 5, 6, 4, 6, 7], some [8, 9, 10, 11], some [0, 1, 2, 3]] :=
  ⟨draw_ranges_match_upload sample_collaborators sample_context sample_draw_state
      sample_mixed_journal sample_mixed_journal_wf.1 (by decide!) (by decide!) (by decide!),
    by decide!, by decide!, by decide!⟩

theorem sample_reclipped_journal_wf : journal_wf sample_reclipped_journal := by
  unfold sample_reclipped_journal
  exact log_calls_wf sample_collaborators _ _cogl_journal_new journal_new_wf

/-- C27 on two clipped journals, flushed with software clipping disabled.  In
the first, A is logged under the rectangle clip of the sample scene, B under a
second push of an equal rectangle (another clip-stack object), and C without a
clip: three runs reach the draw callback, A, B and C, each after a flush of its
own clip stack.  In the second, A and B are logged under the same clip-stack
object: two runs reach the draw callback, A with B, and C. -/
theorem innermost_runs_homogeneous_witness :
    (∃ (journal1 journal2 : CoglJournal SamplePipeline (List CoglLooseRegionRectangle)) (n_bytes : ℕ) (calls : List (FlushCall SamplePipeline)),
      (if sample_unclipping_context.disable_software_clip then some sample_reclipped_journal
       else batch_and_call_data (fun j => j) compare_entry_clip_stacks
         (_cogl_journal_maybe_software_clip_entries sample_collaborators sample_draw_state) (_cogl_journal_iterator_init sample_reclipped_journal)
         sample_reclipped_journal.journal_len sample_reclipped_journal) = some journal1 ∧
      upload_vertices sample_unclipping_context sample_draw_state journal1 =
        some (journal2, n_bytes, upload_entries sample_draw_state 0 (all_entries journal2)) ∧
      _cogl_journal_flush sample_collaborators sample_unclipping_context sample_draw_state sample_reclipped_journal = some (_cogl_journal_discard journal2, calls) ∧
      (pushed_sources calls).map some =
        (draw_runs sample_draw_state journal2).map (fun r => source_of journal2 r.run) ∧
      (draw_calls calls).length = (draw_runs sample_draw_state journal2).length ∧
      (∀ r ∈ draw_runs sample_draw_state journal2, ∀ x ∈ r.run, ∀ y ∈ r.run,
        ∃ ex ey, iter_entry journal2 x = some ex ∧ iter_entry journal2 y = some ey ∧
          clip_stack_pointer ex.clip_stack = clip_stack_pointer ey.clip_stack ∧
          ex.n_layers = ey.n_layers ∧ x.batch_num = y.batch_num)) ∧
    (_cogl_journal_flush sample_collaborators sample_unclipping_context sample_draw_state
        sample_reclipped_journal).map
        (fun r => ((pushed_sources r.2).map (fun p => p.state), (draw_calls r.2).length)) =
      some ([0, 0, 1], 3) ∧
    (draw_runs sample_draw_state sample_reclipped_journal).map (fun r => r.run.length) =
      [1, 1, 1] ∧
    (all_entries sample_reclipped_journal).map (fun e => clip_stack_pointer e.clip_stack) =
      [some 1, some 3, none] ∧
    (_cogl_journal_flush sample_collaborators sample_unclipping_context sample_draw_state
        sample_clipped_journal).map
        (fun r => ((pushed_sources r.2).map (fun p => p.state), (draw_calls r.2).length)) =
      some ([0, 1], 2) ∧
    (draw_runs sample_draw_state sample_clipped_journal).map (fun r => r.run.length) =
      [2, 1] ∧
    (all_entries sample_clipped_journal).map (fun e => clip_stack_pointer e.clip_stack) =
      [some 1, some 1, none] :=
  ⟨innermost_runs_homogeneous sample_collaborators sample_unclipping_context sample_draw_state
      sample_reclipped_journal sample_reclipped_journal_wf (by decide!) (by decide!),
    by decide!, by decide!, by decide!, by decide!, by decide!, by decide!⟩

end Cogl
